import Mathlib

/-!
# Poseidon: the asynchronous work-dispatch daemons

A shallow embedding of the database query daemon (`singletons/mysql_daemon.cpp`),
the timer scheduler (`singletons/timer_daemon.cpp`) and the arithmetic helpers
(`checked_arithmetic.hpp`), followed by theorems about them.

Conventions of the embedding:

* machine integers are `Nat`, reduced modulo `2 ^ 64` where the C++ operation can wrap;
* a `shared_ptr` / `weak_ptr` target is named by a `Nat` identity, and the objects
  they point to live in an explicit store (`World`, `Timer_world`);
* the clock (`get_fast_mono_clock`), the configuration (`Main_config::get`) and the
  behaviour of the database server are inputs of the functions that consult them;
* every observable action (a statement sent to the server, a row handed to an object,
  a line written to the dump file) is appended to a trace.
-/

namespace Poseidon

/-! ## checked_arithmetic.hpp -/

/-- The function `saturated_add<T>` for an unsigned type `T` of `w` bits:
`ret = lhs + rhs` wraps modulo `2 ^ w`, and `ret < lhs` detects the wrap. -/
def saturated_add (w lhs rhs : Nat) : Nat :=
  let ret := (lhs + rhs) % 2 ^ w
  if ret < lhs then 2 ^ w - 1 else ret

/-- The function `saturated_sub<T>` for an unsigned type `T` of `w` bits:
`ret = lhs - rhs` wraps modulo `2 ^ w`, and `ret > lhs` detects the wrap. -/
def saturated_sub (w lhs rhs : Nat) : Nat :=
  let ret := (lhs + 2 ^ w - rhs % 2 ^ w) % 2 ^ w
  if ret > lhs then 0 else ret

/-! ## Exceptions, promises, connections -/

/-- What a `catch` clause of `pump_one_operation` can receive: a `Mysql::Exception`
(with its code), another `std::exception`, or anything else. -/
inductive Thrown where
  | mysql_exception (code : Nat) (what : String)
  | std_exception (what : String)
  | unknown
  deriving DecidableEq, Repr

/-- The constant `ER_UNKNOWN_ERROR` of `mysqld_error.h`. -/
def ER_UNKNOWN_ERROR : Nat := 1105

/-- The constant `ER_SP_FETCH_NO_DATA` of `mysqld_error.h`. -/
def ER_SP_FETCH_NO_DATA : Nat := 1329

/-- Modelled from the spec: the promise primitive (`promise.hpp` is not among the
sources). A single-shot cell with lifecycle Pending, then Fulfilled or Failed; the
failed state carries the transported error. -/
inductive Promise where
  | pending
  | success
  | failed (e : Thrown)
  deriving DecidableEq, Repr

/-- Modelled from the spec: `is_satisfied()` of the promise primitive, true in a
terminal state. -/
def Promise.is_satisfied : Promise → Bool
  | .pending => false
  | _ => true

/-- Modelled from the spec: `set_success(throw_if_already_set)` of the promise primitive.
It moves Pending to Fulfilled; on a terminal promise it fails with `AlreadySet` when the
flag is on and otherwise leaves the promise as it is. -/
def Promise.set_success (p : Promise) (throw_if_already_set : Bool) : Except Thrown Promise :=
  match p with
  | .pending => .ok .success
  | q => if throw_if_already_set then .error (.std_exception "Promise has already been set") else .ok q

/-- Modelled from the spec: `set_exception(err, throw_if_already_set)` of the promise
primitive. It moves Pending to Failed; on a terminal promise it fails with `AlreadySet`
when the flag is on and otherwise leaves the promise as it is. -/
def Promise.set_exception (p : Promise) (e : Thrown) (throw_if_already_set : Bool) :
    Except Thrown Promise :=
  match p with
  | .pending => .ok (.failed e)
  | q => if throw_if_already_set then .error (.std_exception "Promise has already been set") else .ok q

/-- A row of a result set, as the driver hands it over. -/
abbrev Row := String

/-- Modelled from the spec: the driver connection `Mysql::Connection`
(`mysql/connection.hpp` is not among the sources). `answer` is what the server does
with a statement sent over this connection: it fails, or it yields a result set.
`rows` are the rows of the last result set that have not been fetched yet and
`current` is the row made current by the last `fetch_row`. -/
structure Connection where
  answer : String → Except Thrown (List Row)
  rows : List Row
  current : Option Row

/-- Modelled from the spec: `Connection::execute_sql(query)` sends the statement; a
driver error is thrown, otherwise the result set replaces the previous one. -/
def Connection.execute_sql (conn : Connection) (query : String) : Except Thrown Connection :=
  match conn.answer query with
  | .error e => .error e
  | .ok rs => .ok { conn with rows := rs, current := none }

/-- Modelled from the spec: `Connection::fetch_row()` makes the next row of the result
set current and tells whether there was one. -/
def Connection.fetch_row (conn : Connection) : Bool × Connection :=
  match conn.rows with
  | [] => (false, { conn with current := none })
  | r :: rs => (true, { conn with rows := rs, current := some r })

/-- Modelled from the spec: `Connection::discard_result()` drops residual result state. -/
def Connection.discard_result (conn : Connection) : Connection :=
  { conn with rows := [], current := none }

/-! ## The store shared by the daemon threads -/

/-- The state of a persistable object (`Mysql::Object_base`): the table it names, the
column assignments its `generate_sql` writes at present, and the combined-write stamp,
which is null or the address of a queue element. -/
structure Object_base where
  table : String
  columns : String
  m_combined_write_stamp : Option Nat
  deriving DecidableEq, Repr

/-- Observable actions, in the order in which they happen. -/
inductive Event where
  | executing_sql (elem : Nat) (operation : Nat) (query : String)
  | execute_sql (query : String)
  | fetch (object : Nat) (row : Row)
  | callback (id : Nat) (row : Option Row)
  | discard_result
  | going_to_retry (elem : Nat) (retry_count : Nat)
  | dump_sql (elem : Nat) (text : String) (err_code : Nat) (err_msg : String)
  deriving DecidableEq, Repr

/-- Everything the worker threads share with the rest of the process: the persistable
objects, the promises that are still alive (`none` is what `weak_ptr::lock` gives once
the promise is gone), the user callbacks (`some e` when the callback throws `e` on that
row), the virtual method `fetch` of the objects, which is code of the user as well
(`fetches obj row` is `some e` when `fetch` of the object `obj` throws `e` on that row),
the next address the queue allocator hands out, and the trace. -/
structure World where
  objects : Nat → Object_base
  promises : Nat → Option Promise
  callbacks : Nat → Option Row → Option Thrown
  fetches : Nat → Row → Option Thrown
  next_addr : Nat
  trace : List Event

/-- Appends an event to the trace. -/
def World.emit (w : World) (e : Event) : World :=
  { w with trace := w.trace ++ [e] }

/-- The accessor `Object_base::get_combined_write_stamp`. -/
def World.get_combined_write_stamp (w : World) (obj : Nat) : Option Nat :=
  (w.objects obj).m_combined_write_stamp

/-- The mutator `Object_base::set_combined_write_stamp`. -/
def World.set_combined_write_stamp (w : World) (obj : Nat) (stamp : Option Nat) : World :=
  { w with objects := fun o =>
      if o = obj then { w.objects o with m_combined_write_stamp := stamp } else w.objects o }

/-- Stores a new state for a promise that is alive. -/
def World.set_promise (w : World) (id : Nat) (p : Promise) : World :=
  { w with promises := fun i => if i = id then some p else w.promises i }

/-! ## Operations -/

/-- The six classes derived from `Operation_base`, with their data members. A callback
member is `none` for an empty `boost::function` and otherwise names the callback. -/
inductive Operation_variant where
  | Save_operation (m_object : Nat) (m_to_replace : Bool)
  | Load_operation (m_object : Nat) (m_query : String)
  | Delete_operation (m_table_hint : String) (m_query : String)
  | Batch_load_operation (m_callback : Option Nat) (m_table_hint : String) (m_query : String)
  | Low_level_access_operation (m_callback : Option Nat) (m_table_hint : String) (m_from_slave : Bool)
  | Wait_operation
  deriving DecidableEq, Repr

/-- The class `Operation_base`: `id` is the identity of the heap object that the
`shared_ptr`s of the queues point to, `m_weak_promise` names the promise, and `m_probe`
is the route probe attached by `set_probe`, named by the table key of its route. -/
structure Operation_base where
  id : Nat
  m_weak_promise : Nat
  m_probe : Option String
  variant : Operation_variant
  deriving DecidableEq, Repr

/-- The method `Operation_base::set_probe`. -/
def Operation_base.set_probe (op : Operation_base) (probe : String) : Operation_base :=
  { op with m_probe := some probe }

/-- The virtual method `get_promise`: the weak promise upgraded, except for
`Wait_operation`, whose override returns null. -/
def Operation_base.get_promise (op : Operation_base) (w : World) : Option Promise :=
  match op.variant with
  | .Wait_operation => none
  | _ => w.promises op.m_weak_promise

/-- The virtual method `should_use_slave`. -/
def Operation_base.should_use_slave (op : Operation_base) : Bool :=
  match op.variant with
  | .Save_operation _ _ => false
  | .Load_operation _ _ => true
  | .Delete_operation _ _ => false
  | .Batch_load_operation _ _ _ => true
  | .Low_level_access_operation _ _ from_slave => from_slave
  | .Wait_operation => false

/-- The virtual method `get_combinable_object`: only a save has one. -/
def Operation_base.get_combinable_object (op : Operation_base) : Option Nat :=
  match op.variant with
  | .Save_operation obj _ => some obj
  | _ => none

/-- The virtual method `get_table`. -/
def Operation_base.get_table (op : Operation_base) (w : World) : String :=
  match op.variant with
  | .Save_operation obj _ => (w.objects obj).table
  | .Load_operation obj _ => (w.objects obj).table
  | .Delete_operation hint _ => hint
  | .Batch_load_operation _ hint _ => hint
  | .Low_level_access_operation _ hint _ => hint
  | .Wait_operation => ""

/-- The effect of `query.erase(query.find_last_not_of(" ,") + 1)`: every trailing space
and comma is removed. -/
def erase_trailing_separators (query : String) : String :=
  String.mk (query.data.reverse.dropWhile (fun c => c = ' ' || c = ',')).reverse

/-- The virtual method `generate_sql`. A low level access leaves the query as it was
passed in, which is the empty string in `pump_one_operation`. -/
def Operation_base.generate_sql (op : Operation_base) (w : World) : String :=
  match op.variant with
  | .Save_operation obj to_replace =>
    erase_trailing_separators
      ((if to_replace then "REPLACE" else "INSERT") ++ " INTO `" ++ (w.objects obj).table
        ++ "` SET " ++ (w.objects obj).columns)
  | .Load_operation _ q => q
  | .Delete_operation _ q => q
  | .Batch_load_operation _ _ q => q
  | .Low_level_access_operation _ _ _ => ""
  | .Wait_operation => "DO 0"

/-- What a call of `execute` leaves behind: the exception that escaped, if any, the
connection and the store. -/
structure Executed where
  except : Option Thrown
  conn : Connection
  world : World

/-- The loop `while(conn->fetch_row()) m_callback(conn);` of `Batch_load_operation`,
by recursion on the rows that are left. -/
def batch_load_loop (cb : Nat) (conn : Connection) (w : World) : List Row → Executed
  | [] => ⟨none, (conn.fetch_row).2, w⟩
  | r :: rs =>
    let conn1 := { conn with rows := rs, current := some r }
    let w1 := w.emit (.callback cb (some r))
    match w.callbacks cb (some r) with
    | some e => ⟨some e, conn1, w1⟩
    | none => batch_load_loop cb conn1 w1 rs

/-- The virtual method `execute` of the six operation classes. -/
def Operation_base.execute (op : Operation_base) (conn : Connection) (query : String)
    (w : World) : Executed :=
  match op.variant with
  | .Save_operation _ _ =>
    match conn.execute_sql query with
    | .error e => ⟨some e, conn, w.emit (.execute_sql query)⟩
    | .ok conn1 => ⟨none, conn1, w.emit (.execute_sql query)⟩
  | .Load_operation obj _ =>
    match op.get_promise w with
    | none => ⟨none, conn, w⟩
    | some _ =>
      match conn.execute_sql query with
      | .error e => ⟨some e, conn, w.emit (.execute_sql query)⟩
      | .ok conn1 =>
        let w1 := w.emit (.execute_sql query)
        match conn1.fetch_row with
        | (false, conn2) =>
          ⟨some (.mysql_exception ER_SP_FETCH_NO_DATA "No rows returned"), conn2, w1⟩
        | (true, conn2) =>
          ⟨w1.fetches obj (conn2.current.getD ""), conn2,
            w1.emit (.fetch obj (conn2.current.getD ""))⟩
  | .Delete_operation _ _ =>
    match conn.execute_sql query with
    | .error e => ⟨some e, conn, w.emit (.execute_sql query)⟩
    | .ok conn1 => ⟨none, conn1, w.emit (.execute_sql query)⟩
  | .Batch_load_operation cb _ _ =>
    match op.get_promise w with
    | none => ⟨none, conn, w⟩
    | some _ =>
      match conn.execute_sql query with
      | .error e => ⟨some e, conn, w.emit (.execute_sql query)⟩
      | .ok conn1 =>
        let w1 := w.emit (.execute_sql query)
        match cb with
        | some c => batch_load_loop c conn1 w1 conn1.rows
        | none => ⟨none, conn1, w1⟩
  | .Low_level_access_operation cb _ _ =>
    match cb with
    | none => ⟨some (.std_exception "call to empty boost::function"), conn, w⟩
    | some c => ⟨w.callbacks c none, conn, w.emit (.callback c none)⟩
  | .Wait_operation =>
    match conn.execute_sql query with
    | .error e => ⟨some e, conn, w.emit (.execute_sql query)⟩
    | .ok conn1 => ⟨none, conn1, w.emit (.execute_sql query)⟩

/-! ## Mysql_thread -/

/-- The configuration values that `Main_config::get` supplies to the worker, and one
input that is no configuration value: `shift_beyond_width x count` stands for whatever
the machine makes of `x << count` on 64 bits when `count` is 64 or more. The language
defines no result for such a shift, so the model takes the result as an input and no
theorem may rely on its value. -/
structure Main_config where
  mysql_save_delay : Nat
  mysql_max_retry_count : Nat
  mysql_retry_init_delay : Nat
  mysql_dump_dir : String
  shift_beyond_width : Nat → Nat → Nat

/-- The struct `Operation_queue_element`; `addr` is the address of the element inside
the deque, which stays the same for as long as the element is queued. -/
structure Operation_queue_element where
  addr : Nat
  operation : Operation_base
  due_time : Nat
  retry_count : Nat
  deriving DecidableEq, Repr

/-- The data members of `Mysql_thread` that the queue logic uses. -/
structure Mysql_thread where
  m_running : Bool
  m_urgent : Bool
  m_queue : List Operation_queue_element
  deriving DecidableEq, Repr

/-- The constructor `Mysql_thread()`. -/
def Mysql_thread.new : Mysql_thread :=
  { m_running := false, m_urgent := false, m_queue := [] }

/-- The method `Mysql_thread::start`. -/
def Mysql_thread.start (t : Mysql_thread) : Mysql_thread :=
  { t with m_running := true }

/-- The method `Mysql_thread::stop`. -/
def Mysql_thread.stop (t : Mysql_thread) : Mysql_thread :=
  { t with m_running := false }

/-- The method `Mysql_thread::get_queue_size`. -/
def Mysql_thread.get_queue_size (t : Mysql_thread) : Nat :=
  t.m_queue.length

/-- What a call of `add_operation` leaves behind: the exception that escaped, if any,
the thread and the store. -/
structure Added where
  except : Option Thrown
  thread : Mysql_thread
  world : World

/-- The method `Mysql_thread::add_operation`. It throws when the thread is no longer
running; otherwise the element is pushed to the back, at a fresh address, and the
stamp of its combinable object is set to that address if the stamp was null. -/
def Mysql_thread.add_operation (cfg : Main_config) (now : Nat) (operation : Operation_base)
    (urgent : Bool) (t : Mysql_thread) (w : World) : Added :=
  let combinable_object := operation.get_combinable_object
  let due_time := saturated_add 64 now cfg.mysql_save_delay
  if !t.m_running then
    ⟨some (.std_exception "MySQL thread is being shut down"), t, w⟩
  else
    let elem : Operation_queue_element :=
      { addr := w.next_addr, operation := operation, due_time := due_time, retry_count := 0 }
    let w1 := { w with next_addr := w.next_addr + 1 }
    let w2 :=
      match combinable_object with
      | none => w1
      | some obj =>
        match w1.get_combined_write_stamp obj with
        | none => w1.set_combined_write_stamp obj (some elem.addr)
        | some _ => w1
    ⟨none, { t with m_queue := t.m_queue ++ [elem], m_urgent := if urgent then true else t.m_urgent }, w2⟩

/-- The error code that the `catch` clauses of `pump_one_operation` record. -/
def Thrown.err_code : Thrown → Nat
  | .mysql_exception code _ => code
  | .std_exception _ => ER_UNKNOWN_ERROR
  | .unknown => ER_UNKNOWN_ERROR

/-- The error message that the `catch` clauses of `pump_one_operation` record in a
buffer of 4096 bytes. -/
def Thrown.err_msg : Thrown → String
  | .mysql_exception _ what => String.mk (("Mysql::Exception: " ++ what).data.take 4095)
  | .std_exception what => String.mk (("std::exception: " ++ what).data.take 4095)
  | .unknown => "Unknown exception"

/-- The function `dump_sql_to_file`, without the time stamp of the comment line: nothing
is written when no dump directory is configured, otherwise the statement followed by
`;`, or the low level access marker when there is no statement. -/
def dump_sql_to_file (cfg : Main_config) (elem : Nat) (query : String) (err_code : Nat)
    (err_msg : String) (w : World) : World :=
  if cfg.mysql_dump_dir = "" then w
  else w.emit (.dump_sql elem (if query = "" then "-- <low level access>" else query ++ ";")
    err_code err_msg)

/-- What a call of `pump_one_operation` leaves behind: the value returned, the thread,
the store, the two connections (`none` after `conn.reset()`), and the queue element
removed by `pop_front`, if one was removed. -/
structure Pumped where
  result : Bool
  thread : Mysql_thread
  world : World
  master_conn : Option Connection
  slave_conn : Option Connection
  popped : Option Operation_queue_element

/-- The decision `execute_it` of `pump_one_operation` together with the stamp update:
an operation without combinable object is executed; a write is executed when the stamp
of its object is null, or when it is the address of this element, in which case the
stamp is cleared; otherwise the write is skipped. -/
def decide_execute_it (elem : Operation_queue_element) (w : World) : Bool × World :=
  match elem.operation.get_combinable_object with
  | none => (true, w)
  | some obj =>
    match w.get_combined_write_stamp obj with
    | none => (true, w)
    | some old_write_stamp =>
      if old_write_stamp = elem.addr then (true, w.set_combined_write_stamp obj none)
      else (false, w)

/-- The part of `pump_one_operation` that sets the promise of the element. -/
def settle_promise (operation : Operation_base) (except : Option Thrown) (w : World) : World :=
  match operation.get_promise w with
  | none => w
  | some promise =>
    match except with
    | some e =>
      match promise.set_exception e false with
      | .ok p => w.set_promise operation.m_weak_promise p
      | .error _ => w
    | none =>
      match promise.set_success false with
      | .ok p => w.set_promise operation.m_weak_promise p
      | .error _ => w

/-- The first locked region of `pump_one_operation`: it tells whether the front element
is to be processed now. An empty queue clears the urgent flag; a front element that is
not due is left alone unless the urgent flag is set. -/
def Mysql_thread.pump_pick (now : Nat) (t : Mysql_thread) : Bool × Mysql_thread :=
  match t.m_queue with
  | [] => (false, { t with m_urgent := false })
  | elem :: _ => if !t.m_urgent && decide (now < elem.due_time) then (false, t) else (true, t)

/-- The `if(execute_it)` block of `pump_one_operation`: the statement is generated,
announced and executed on the connection, an exception is caught, and the residual
result is discarded. The value is the statement (empty when nothing was generated)
and what the execution left behind. -/
def execute_element (elem : Operation_queue_element) (execute_it : Bool) (conn : Connection)
    (w1 : World) : String × Executed :=
  if execute_it then
    let query := elem.operation.generate_sql w1
    let r := elem.operation.execute conn query
      (w1.emit (.executing_sql elem.addr elem.operation.id query))
    (query, ⟨r.except, r.conn.discard_result, r.world.emit .discard_result⟩)
  else ("", ⟨none, conn, w1⟩)

/-- The expression `retry_init_delay << retry_count` on `std::uint64_t`. For a count
below 64 the bits that leave the 64 are lost. For a count of 64 or more the language
defines no result: the value is then the input `shift_beyond_width` of the model,
brought into the 64 bits. -/
def retry_shift (cfg : Main_config) (retry_count : Nat) : Nat :=
  if retry_count < 64 then cfg.mysql_retry_init_delay * 2 ^ retry_count % 2 ^ 64
  else cfg.shift_beyond_width cfg.mysql_retry_init_delay retry_count % 2 ^ 64

/-- The due time `now + (retry_init_delay << retry_count)` of a retry: the built-in
addition on `std::uint64_t`, which wraps. -/
def retry_due_time (cfg : Main_config) (now retry_count : Nat) : Nat :=
  (now + retry_shift cfg retry_count) % 2 ^ 64

/-- The rest of `pump_one_operation`, which works on `elem = &m_queue.front()`: the
decision whether to execute, the execution, then either the retry, which rewrites the
front element in place and resets the connection that was used, or the dump after the
last failure, the promise and `pop_front`. -/
def Mysql_thread.pump_front (cfg : Main_config) (now : Nat) (t : Mysql_thread)
    (w : World) (master_conn slave_conn : Connection) : Pumped :=
  match t.m_queue with
  | [] => ⟨false, t, w, some master_conn, some slave_conn, none⟩
  | elem :: rest =>
    let use_slave := elem.operation.should_use_slave
    let conn := if use_slave then slave_conn else master_conn
    let d := decide_execute_it elem w
    let qe := execute_element elem d.1 conn d.2
    let master1 := if use_slave then master_conn else qe.2.conn
    let slave1 := if use_slave then qe.2.conn else slave_conn
    match qe.2.except with
    | some e =>
      let retry_count := (elem.retry_count + 1) % 2 ^ 64
      if retry_count < cfg.mysql_max_retry_count then
        ⟨true, { t with m_queue :=
            { elem with retry_count := retry_count,
                        due_time := retry_due_time cfg now retry_count } :: rest },
          qe.2.world.emit (.going_to_retry elem.addr retry_count),
          if use_slave then some master1 else none, if use_slave then none else some slave1, none⟩
      else
        ⟨true, { t with m_queue := rest },
          settle_promise elem.operation (some e)
            (dump_sql_to_file cfg elem.addr qe.1 e.err_code e.err_msg qe.2.world),
          some master1, some slave1, some { elem with retry_count := retry_count }⟩
    | none =>
      ⟨true, { t with m_queue := rest }, settle_promise elem.operation none qe.2.world,
        some master1, some slave1, some elem⟩

/-- The method `Mysql_thread::pump_one_operation`, called with both connections
established, as `thread_proc` does. -/
def Mysql_thread.pump_one_operation (cfg : Main_config) (now : Nat) (t : Mysql_thread)
    (w : World) (master_conn slave_conn : Connection) : Pumped :=
  match t.pump_pick now with
  | (false, t1) => ⟨false, t1, w, some master_conn, some slave_conn, none⟩
  | (true, t1) => t1.pump_front cfg now w master_conn slave_conn

/-! ## Runs of one worker -/

/-- One thing that can happen to a worker: a producer calls `add_operation`, the worker
thread calls `pump_one_operation` (with the connections `thread_proc` has established by
then), or the daemon calls `stop`. -/
inductive Thread_step where
  | add_operation (now : Nat) (operation : Operation_base) (urgent : Bool)
  | pump_one_operation (now : Nat) (master_conn slave_conn : Connection)
  | stop

/-- A worker together with the store, and a record of the addresses of the elements
pushed by `add_operation` and of the elements removed by `pop_front`, both in the order
in which that happened. -/
structure Thread_run where
  thread : Mysql_thread
  world : World
  added : List Nat
  removed : List Nat

/-- The effect of one step on a worker. -/
def Thread_run.step (cfg : Main_config) (s : Thread_run) : Thread_step → Thread_run
  | .add_operation now operation urgent =>
    let r := s.thread.add_operation cfg now operation urgent s.world
    { thread := r.thread, world := r.world,
      added := s.added ++ (r.thread.m_queue.drop s.thread.m_queue.length).map (fun e => e.addr),
      removed := s.removed }
  | .pump_one_operation now master_conn slave_conn =>
    let r := s.thread.pump_one_operation cfg now s.world master_conn slave_conn
    { thread := r.thread, world := r.world, added := s.added,
      removed := s.removed ++ (r.popped.map (fun e => e.addr)).toList }
  | .stop => { s with thread := s.thread.stop }

/-- The effect of a sequence of steps on a worker. -/
def Thread_run.steps (cfg : Main_config) (s : Thread_run) (l : List Thread_step) : Thread_run :=
  l.foldl (Thread_run.step cfg) s

/-- A call of `add_operation`, as a producer makes it. -/
structure Enqueue_request where
  now : Nat
  operation : Operation_base
  urgent : Bool

/-- A call of `pump_one_operation`, as the worker thread makes it. -/
structure Pump_request where
  now : Nat
  master_conn : Connection
  slave_conn : Connection

/-- The step of an enqueue request. -/
def Enqueue_request.step (r : Enqueue_request) : Thread_step :=
  .add_operation r.now r.operation r.urgent

/-- The step of a pump request. -/
def Pump_request.step (p : Pump_request) : Thread_step :=
  .pump_one_operation p.now p.master_conn p.slave_conn

/-- The events of executing, one after the other, the operations of the requests, the
first of which sits in the queue element at address `addr` and the following ones at the
following addresses: each statement is announced, sent and its result discarded. -/
def executed_in_turn (w : World) : Nat → List Enqueue_request → List Event
  | _, [] => []
  | addr, r :: rs =>
    [.executing_sql addr r.operation.id (r.operation.generate_sql w),
      .execute_sql (r.operation.generate_sql w), .discard_result]
      ++ executed_in_turn w (addr + 1) rs

/-- The element address an event is about, for the events that pump_one_operation emits
about the element it is processing. -/
def Event.elem? : Event → Option Nat
  | .executing_sql elem _ _ => some elem
  | .going_to_retry elem _ => some elem
  | .dump_sql elem _ _ _ => some elem
  | _ => none

/-- The events of executing, one after the other, the operations of the queue elements:
each statement is announced, sent and its result discarded. -/
def executed_elems (w : World) : List Operation_queue_element → List Event
  | [] => []
  | e :: es =>
    [.executing_sql e.addr e.operation.id (e.operation.generate_sql w),
      .execute_sql (e.operation.generate_sql w), .discard_result] ++ executed_elems w es

/-- The state a promise is in after a lax `set_success`. -/
def Promise.fulfilled : Promise → Promise
  | .pending => .success
  | p => p

/-- The queue elements that `add_operation` builds for the requests, the first at
address `addr` and the following ones at the following addresses. -/
def queued_elements (cfg : Main_config) : Nat → List Enqueue_request → List Operation_queue_element
  | _, [] => []
  | addr, r :: rs =>
    ⟨addr, r.operation, saturated_add 64 r.now cfg.mysql_save_delay, 0⟩
      :: queued_elements cfg (addr + 1) rs


/-- A store that differs from another one only by events appended to the trace, none of
which is about a queue element other than `a`, and by nothing else than objects'
stamps and promises. -/
def Trace_extends (a : Option Nat) (w w1 : World) : Prop :=
  w1.next_addr = w.next_addr
    ∧ ∃ evs, w1.trace = w.trace ++ evs ∧ ∀ ev ∈ evs, ∀ b, ev.elem? = some b → a = some b

/-- The record of a run agrees with its queue: the elements pushed are, in order, the
elements removed followed by the elements still queued, and the addresses handed out
are the consecutive addresses from `a0` on. -/
def Fifo_record (a0 : Nat) (s : Thread_run) : Prop :=
  s.added = s.removed ++ s.thread.m_queue.map (fun e => e.addr)
    ∧ s.added = List.range' a0 s.added.length
    ∧ s.world.next_addr = a0 + s.added.length

/-! ## The router and the pool of workers -/

/-- The struct `Route`: `probe` tells whether `route.probe` holds a probe (a route that
`operator[]` has just created holds none), and `thread` is the slot of `g_threads`
whose worker `route.thread` points to. -/
structure Route where
  probe : Bool
  thread : Option Nat
  deriving DecidableEq, Repr

/-- The globals of the daemon between `start()` and the end of `stop()`: the router
(`g_router`, read with `operator[]`, which default-constructs a missing route), the
worker slots (`g_threads`), the store, and the identities that the next operation and
the next promise created by `make_shared` get. The scratch map `g_routing_map` is
cleared before each use and therefore not part of the state. -/
structure Mysql_daemon where
  g_router : String → Route
  g_threads : List (Option Mysql_thread)
  world : World
  next_operation : Nat
  next_promise : Nat

/-- The globals after `Mysql_daemon::start()` with `mysql_max_thread_count = n`:
`g_threads.resize(n)` leaves `n` empty slots, and no route exists. -/
def Mysql_daemon.start (n : Nat) (w : World) : Mysql_daemon :=
  { g_router := fun _ => ⟨false, none⟩, g_threads := List.replicate n none,
    world := { w with promises := fun _ => none }, next_operation := 0, next_promise := 0 }

/-- The number of queue elements of a worker slot whose operation holds the probe of the
route of `table`. -/
def slot_probe_count (table : String) : Option Mysql_thread → Nat
  | none => 0
  | some t => t.m_queue.countP (fun e => decide (e.operation.m_probe = some table))

/-- The value of `route.probe.use_count()` for the route of `table`: one reference held by
the route itself once the probe exists, and one held by every queued operation the
probe was attached to. -/
def Mysql_daemon.probe_use_count (d : Mysql_daemon) (table : String) : Nat :=
  (if (d.g_router table).probe then 1 else 0) + (d.g_threads.map (slot_probe_count table)).sum

/-- The member `flat_multimap::emplace` on `g_routing_map`: the pair is inserted behind
the pairs whose key is not greater. -/
def routing_map_emplace : List (Nat × Nat) → Nat → Nat → List (Nat × Nat)
  | [], k, v => [(k, v)]
  | (k1, v1) :: rest, k, v =>
    if k < k1 then (k, v) :: (k1, v1) :: rest else (k1, v1) :: routing_map_emplace rest k v

/-- The `for` loop of `add_operation_by_table` from slot `i` on: it stops at the first
empty slot (left), or it ends with the map from queue sizes to slots (right). -/
def scan_threads : List (Option Mysql_thread) → Nat → List (Nat × Nat) → Nat ⊕ List (Nat × Nat)
  | [], _, m => .inr m
  | none :: _, i, _ => .inl i
  | some t :: rest, i, m => scan_threads rest (i + 1) (routing_map_emplace m t.get_queue_size i)

/-- What a call of an entry point of the daemon leaves behind: the exception that
escaped, if any, and the globals. -/
structure Routed where
  except : Option Thrown
  daemon : Mysql_daemon

/-- The part of `add_operation_by_table` behind the label `_use_thread`: the probe is
attached to the operation, which is handed to the chosen worker. -/
def Mysql_daemon.use_thread (cfg : Main_config) (now : Nat) (table : String)
    (operation : Operation_base) (urgent : Bool) (thread : Option Nat) (d : Mysql_daemon) :
    Routed :=
  match thread with
  | none => ⟨some .unknown, d⟩
  | some i =>
    match d.g_threads[i]? with
    | some (some t) =>
      let r := t.add_operation cfg now (operation.set_probe table) urgent d.world
      ⟨r.except, { d with g_threads := d.g_threads.set i (some r.thread), world := r.world }⟩
    | _ => ⟨some .unknown, d⟩

/-- The function `add_operation_by_table`. A route whose probe is referenced by a queued
operation keeps its worker. Otherwise the route gets a probe if it has none, and a
worker is chosen anew: a new worker in the first empty slot, or else the worker that
`g_routing_map.begin()` names, one with the shortest queue. -/
def Mysql_daemon.add_operation_by_table (cfg : Main_config) (now : Nat) (table : String)
    (operation : Operation_base) (urgent : Bool) (d : Mysql_daemon) : Routed :=
  if d.g_threads.isEmpty then
    ⟨some (.std_exception "MySQL support is not enabled"), d⟩
  else if d.probe_use_count table > 1 then
    d.use_thread cfg now table operation urgent (d.g_router table).thread
  else
    match scan_threads d.g_threads 0 [] with
    | .inl i =>
      Mysql_daemon.use_thread cfg now table operation urgent (some i)
        { d with g_threads := d.g_threads.set i (some Mysql_thread.new.start),
                 g_router := fun k => if k = table then ⟨true, some i⟩ else d.g_router k }
    | .inr [] =>
      ⟨some .unknown,
        { d with g_router := fun k =>
            if k = table then ⟨true, (d.g_router table).thread⟩ else d.g_router k }⟩
    | .inr ((_, index) :: _) =>
      Mysql_daemon.use_thread cfg now table operation urgent (some index)
        { d with g_router := fun k => if k = table then ⟨true, some index⟩ else d.g_router k }

/-- Whether some queue element of some worker points to the operation `id`. -/
def Mysql_daemon.holds (d : Mysql_daemon) (id : Nat) : Bool :=
  d.g_threads.any (fun s =>
    match s with
    | none => false
    | some t => t.m_queue.any (fun e => decide (e.operation.id = id)))

/-- What happens when a `shared_ptr` to an operation goes away: if no queue element
points to the operation any more, the operation is destroyed, and the destructor of
`Wait_operation` sets the promise, if it is still alive, to success. -/
def Mysql_daemon.release (d : Mysql_daemon) (operation : Operation_base) : Mysql_daemon :=
  if d.holds operation.id then d
  else
    match operation.variant with
    | .Wait_operation =>
      match d.world.promises operation.m_weak_promise with
      | none => d
      | some promise =>
        match promise.set_success false with
        | .ok p => { d with world := d.world.set_promise operation.m_weak_promise p }
        | .error _ => d
    | _ => d

/-- The loop of `add_operation_all` over the worker slots: empty slots are skipped, and
an exception of `add_operation` ends the loop. -/
def add_operation_all_loop (cfg : Main_config) (now : Nat) (operation : Operation_base)
    (urgent : Bool) : List (Option Mysql_thread) → World →
      Option Thrown × List (Option Mysql_thread) × World
  | [], w => (none, [], w)
  | none :: rest, w =>
    let r := add_operation_all_loop cfg now operation urgent rest w
    (r.1, none :: r.2.1, r.2.2)
  | some t :: rest, w =>
    let a := t.add_operation cfg now operation urgent w
    match a.except with
    | some e => (some e, some a.thread :: rest, a.world)
    | none =>
      let r := add_operation_all_loop cfg now operation urgent rest a.world
      (r.1, some a.thread :: r.2.1, r.2.2)

/-- The function `add_operation_all`; when it is left, its argument `operation` goes out
of scope. -/
def Mysql_daemon.add_operation_all (cfg : Main_config) (now : Nat) (operation : Operation_base)
    (urgent : Bool) (d : Mysql_daemon) : Routed :=
  if d.g_threads.isEmpty then
    ⟨some (.std_exception "MySQL support is not enabled"), d.release operation⟩
  else
    let r := add_operation_all_loop cfg now operation urgent d.g_threads d.world
    ⟨r.1, Mysql_daemon.release { d with g_threads := r.2.1, world := r.2.2 } operation⟩

/-- The effect of `make_shared<Promise>()`: a new promise, pending, under the next
identity. -/
def Mysql_daemon.make_promise (d : Mysql_daemon) : Mysql_daemon :=
  { d with world := d.world.set_promise d.next_promise .pending,
           next_promise := d.next_promise + 1 }

/-- The end of an entry point that returns the promise it created: when an exception
escapes, the promise, which only the entry point holds, is destroyed. -/
def Routed.return_promise (r : Routed) (promise : Nat) : Routed :=
  match r.except with
  | none => r
  | some e =>
    ⟨some e, { r.daemon with world :=
      { r.daemon.world with promises := fun i =>
          if i = promise then none else r.daemon.world.promises i } }⟩

/-- The entry point `Mysql_daemon::enqueue_for_saving`. -/
def Mysql_daemon.enqueue_for_saving (cfg : Main_config) (now : Nat) (object : Nat)
    (to_replace urgent : Bool) (d : Mysql_daemon) : Routed :=
  let d1 := d.make_promise
  let operation : Operation_base :=
    ⟨d.next_operation, d.next_promise, none, .Save_operation object to_replace⟩
  (Mysql_daemon.add_operation_by_table cfg now (d.world.objects object).table operation urgent
    { d1 with next_operation := d.next_operation + 1 }).return_promise d.next_promise

/-- The entry point `Mysql_daemon::enqueue_for_loading`. -/
def Mysql_daemon.enqueue_for_loading (cfg : Main_config) (now : Nat) (object : Nat)
    (query : String) (d : Mysql_daemon) : Routed :=
  if query = "" then ⟨some (.std_exception "assertion failure: !query.empty()"), d⟩
  else
    let d1 := d.make_promise
    let operation : Operation_base :=
      ⟨d.next_operation, d.next_promise, none, .Load_operation object query⟩
    (Mysql_daemon.add_operation_by_table cfg now (d.world.objects object).table operation true
      { d1 with next_operation := d.next_operation + 1 }).return_promise d.next_promise

/-- The entry point `Mysql_daemon::enqueue_for_deleting`. -/
def Mysql_daemon.enqueue_for_deleting (cfg : Main_config) (now : Nat) (table_hint : String)
    (query : String) (d : Mysql_daemon) : Routed :=
  if query = "" then ⟨some (.std_exception "assertion failure: !query.empty()"), d⟩
  else
    let d1 := d.make_promise
    let operation : Operation_base :=
      ⟨d.next_operation, d.next_promise, none, .Delete_operation table_hint query⟩
    (Mysql_daemon.add_operation_by_table cfg now table_hint operation true
      { d1 with next_operation := d.next_operation + 1 }).return_promise d.next_promise

/-- The entry point `Mysql_daemon::enqueue_for_batch_loading`. -/
def Mysql_daemon.enqueue_for_batch_loading (cfg : Main_config) (now : Nat)
    (callback : Option Nat) (table_hint : String) (query : String) (d : Mysql_daemon) : Routed :=
  if query = "" then ⟨some (.std_exception "assertion failure: !query.empty()"), d⟩
  else
    let d1 := d.make_promise
    let operation : Operation_base :=
      ⟨d.next_operation, d.next_promise, none, .Batch_load_operation callback table_hint query⟩
    (Mysql_daemon.add_operation_by_table cfg now table_hint operation true
      { d1 with next_operation := d.next_operation + 1 }).return_promise d.next_promise

/-- The entry point `Mysql_daemon::enqueue_for_low_level_access`, called with a promise
that the caller has just created and keeps. -/
def Mysql_daemon.enqueue_for_low_level_access (cfg : Main_config) (now : Nat)
    (callback : Option Nat) (table_hint : String) (from_slave : Bool) (d : Mysql_daemon) :
    Routed :=
  let d1 := d.make_promise
  let operation : Operation_base :=
    ⟨d.next_operation, d.next_promise, none,
      .Low_level_access_operation callback table_hint from_slave⟩
  Mysql_daemon.add_operation_by_table cfg now table_hint operation true
    { d1 with next_operation := d.next_operation + 1 }

/-- The entry point `Mysql_daemon::enqueue_for_waiting_for_all_async_operations`; the
promise it returns has the identity `d.next_promise`, and the operation it shares
among the workers has the identity `d.next_operation`. -/
def Mysql_daemon.enqueue_for_waiting_for_all_async_operations (cfg : Main_config) (now : Nat)
    (d : Mysql_daemon) : Routed :=
  let d1 := d.make_promise
  let operation : Operation_base := ⟨d.next_operation, d.next_promise, none, .Wait_operation⟩
  (Mysql_daemon.add_operation_all cfg now operation true
    { d1 with next_operation := d.next_operation + 1 }).return_promise d.next_promise

/-- One call of `pump_one_operation` by the thread of the worker in slot `i`; the
`shared_ptr` of a removed element goes away with the element. -/
def Mysql_daemon.pump (cfg : Main_config) (i now : Nat) (master_conn slave_conn : Connection)
    (d : Mysql_daemon) : Mysql_daemon :=
  match d.g_threads[i]? with
  | some (some t) =>
    let r := t.pump_one_operation cfg now d.world master_conn slave_conn
    let d1 := { d with g_threads := d.g_threads.set i (some r.thread), world := r.world }
    match r.popped with
    | none => d1
    | some e => d1.release e.operation
  | _ => d

/-- The call `thread->stop()` on the worker in slot `i`, as in the first loop of
`Mysql_daemon::stop`. -/
def Mysql_daemon.stop_thread (i : Nat) (d : Mysql_daemon) : Mysql_daemon :=
  match d.g_threads[i]? with
  | some (some t) => { d with g_threads := d.g_threads.set i (some t.stop) }
  | _ => d

/-- One thing that can happen to the daemon: a call of an entry point, a pump by the
thread of a worker, the stop of a worker, or a consumer letting go of a promise. -/
inductive Daemon_step where
  | enqueue_for_saving (now : Nat) (object : Nat) (to_replace urgent : Bool)
  | enqueue_for_loading (now : Nat) (object : Nat) (query : String)
  | enqueue_for_deleting (now : Nat) (table_hint : String) (query : String)
  | enqueue_for_batch_loading (now : Nat) (callback : Option Nat) (table_hint : String)
      (query : String)
  | enqueue_for_low_level_access (now : Nat) (callback : Option Nat) (table_hint : String)
      (from_slave : Bool)
  | enqueue_for_waiting_for_all_async_operations (now : Nat)
  | pump (i : Nat) (now : Nat) (master_conn slave_conn : Connection)
  | stop_thread (i : Nat)
  | drop_promise (promise : Nat)

/-- The effect of one step on the daemon. -/
def Mysql_daemon.step (cfg : Main_config) (d : Mysql_daemon) : Daemon_step → Mysql_daemon
  | .enqueue_for_saving now object to_replace urgent =>
    (d.enqueue_for_saving cfg now object to_replace urgent).daemon
  | .enqueue_for_loading now object query => (d.enqueue_for_loading cfg now object query).daemon
  | .enqueue_for_deleting now table_hint query =>
    (d.enqueue_for_deleting cfg now table_hint query).daemon
  | .enqueue_for_batch_loading now callback table_hint query =>
    (d.enqueue_for_batch_loading cfg now callback table_hint query).daemon
  | .enqueue_for_low_level_access now callback table_hint from_slave =>
    (d.enqueue_for_low_level_access cfg now callback table_hint from_slave).daemon
  | .enqueue_for_waiting_for_all_async_operations now =>
    (d.enqueue_for_waiting_for_all_async_operations cfg now).daemon
  | .pump i now master_conn slave_conn => d.pump cfg i now master_conn slave_conn
  | .stop_thread i => d.stop_thread i
  | .drop_promise promise =>
    { d with world := { d.world with promises := fun i =>
        if i = promise then none else d.world.promises i } }

/-- The effect of a sequence of steps on the daemon. -/
def Mysql_daemon.steps (cfg : Main_config) (d : Mysql_daemon) (l : List Daemon_step) :
    Mysql_daemon :=
  l.foldl (Mysql_daemon.step cfg) d


/-- The operations in the queue of a worker slot. -/
def slot_operations : Option Mysql_thread → List Operation_base
  | none => []
  | some t => t.m_queue.map (fun e => e.operation)

/-- Every queued operation that holds the probe of a table sits in the worker that the
route of the table names. -/
def Routes_hold (d : Mysql_daemon) : Prop :=
  ∀ table i s op, d.g_threads[i]? = some s → op ∈ slot_operations s →
    op.m_probe = some table → d.g_router table = ⟨true, some i⟩

/-- Some queue element of some worker slot points to the operation `k`. -/
def Slots_hold (threads : List (Option Mysql_thread)) (k : Nat) : Prop :=
  ∃ (j : Nat) (s : Option Mysql_thread), threads[j]? = some s ∧ ∃ op ∈ slot_operations s, op.id = k

/-- The identities of the queued operations and of their promises were handed out
before: they lie below the next identities. -/
def Ids_fresh (d : Mysql_daemon) : Prop :=
  ∀ (j : Nat) s op, d.g_threads[j]? = some s → op ∈ slot_operations s →
    op.id < d.next_operation ∧ op.m_weak_promise < d.next_promise

/-- The state of the promise `p` of the broadcast wait operation `k`: no other operation
has the identity `k` or names the promise `p`, and the promise is pending while a queue
element points to the operation and fulfilled once none does. -/
def Wait_pending (p k : Nat) (d : Mysql_daemon) : Prop :=
  p < d.next_promise ∧ k < d.next_operation
    ∧ (∀ (j : Nat) s op, d.g_threads[j]? = some s → op ∈ slot_operations s →
        (op.id = k → op = ⟨k, p, none, .Wait_operation⟩) ∧ (op.m_weak_promise = p → op.id = k))
    ∧ d.world.promises p = some (if d.holds k then .pending else .success)

/-- A worker slot after an enqueue: it holds its old operations and at most the
operation `op` in addition. -/
def Slot_grows (op : Operation_base) (s s1 : Option Mysql_thread) : Prop :=
  (∀ x ∈ slot_operations s1, x ∈ slot_operations s ∨ x = op)
    ∧ (∀ x ∈ slot_operations s, x ∈ slot_operations s1)

/-- The worker slots after an enqueue: slot by slot, the old operations and at most the
operation `op` in addition. -/
def Slots_grow (op : Operation_base) (l l1 : List (Option Mysql_thread)) : Prop :=
  l1.length = l.length
    ∧ ∀ (j : Nat) s s1, l[j]? = some s → l1[j]? = some s1 → Slot_grows op s s1

/-- The part of the invariant that does not mention the state of the promise. -/
def Wait_named (p k : Nat) (d : Mysql_daemon) : Prop :=
  Ids_fresh d ∧ p < d.next_promise ∧ k < d.next_operation
    ∧ (∀ (j : Nat) s op, d.g_threads[j]? = some s → op ∈ slot_operations s →
        (op.id = k → op = ⟨k, p, none, .Wait_operation⟩) ∧ (op.m_weak_promise = p → op.id = k))

/-! ## A worker seen from the thread that waits for it -/

/-- A worker together with the position of its thread: `executing` is `some now` while
the thread is inside the call of `pump_one_operation` that read the clock value `now`,
past the first locked region, where it has taken `elem = &m_queue.front()`, and before
the retry or the final `pop_front`. -/
structure Worker where
  thread : Mysql_thread
  world : World
  executing : Option Nat

/-- One thing that can happen to a worker while another thread waits for it: a producer
calls `add_operation`, the thread of the worker passes the first locked region of
`pump_one_operation`, it completes the call, or the daemon calls `stop`. -/
inductive Worker_step where
  | add_operation (now : Nat) (operation : Operation_base) (urgent : Bool)
  | pump_begin (now : Nat)
  | pump_end (master_conn slave_conn : Connection)
  | stop

/-- The effect of one step on a worker. -/
def Worker.step (cfg : Main_config) (s : Worker) : Worker_step → Worker
  | .add_operation now operation urgent =>
    let r := s.thread.add_operation cfg now operation urgent s.world
    { s with thread := r.thread, world := r.world }
  | .pump_begin now =>
    match s.executing with
    | some _ => s
    | none =>
      let r := s.thread.pump_pick now
      { s with thread := r.2, executing := if r.1 then some now else none }
  | .pump_end master_conn slave_conn =>
    match s.executing with
    | none => s
    | some now =>
      let r := s.thread.pump_front cfg now s.world master_conn slave_conn
      { thread := r.thread, world := r.world, executing := none }
  | .stop => { s with thread := s.thread.stop }

/-- The effect of a sequence of steps on a worker. -/
def Worker.steps (cfg : Main_config) (s : Worker) (l : List Worker_step) : Worker :=
  l.foldl (Worker.step cfg) s

/-- One round of the loop of `Mysql_thread::wait_till_idle`, inside its locked region:
with an empty queue the loop is left (true); otherwise the urgent flag is set and the
worker is notified (the statement of the front element is generated for the log only). -/
def Mysql_thread.wait_till_idle_round (t : Mysql_thread) : Bool × Mysql_thread :=
  if t.m_queue.length = 0 then (true, t) else (false, { t with m_urgent := true })

/-- The method `Mysql_thread::wait_till_idle`, for at most `fuel` rounds: `env n` is what
the other threads do to the worker during the sleep of half a second that follows a
round, `n` rounds before the fuel ends. The value is the state in which the call
returns, if it returns within the fuel. -/
def Worker.wait_till_idle (cfg : Main_config) (env : Nat → List Worker_step) :
    Nat → Worker → Option Worker
  | 0, _ => none
  | fuel + 1, s =>
    match s.thread.wait_till_idle_round with
    | (true, _) => some s
    | (false, t) =>
      Worker.wait_till_idle cfg env fuel (Worker.steps cfg { s with thread := t } (env fuel))

/-- An operation is in the middle of being executed only while it is queued. -/
def Executing_queued (s : Worker) : Prop :=
  s.executing ≠ none → s.thread.m_queue ≠ []

/-! ## The heap functions of the standard library

`pump_one_element`, the register functions and `set_absolute_time` call `std::push_heap`
and `std::pop_heap`. They are embedded here as the GNU library implements them
(`bits/stl_heap.h`), on a list with indices, with `lt` for the comparison `operator<`. -/

/-- The loop of `std::__push_heap(first, holeIndex, topIndex, value)`: while the hole is
below the top and its parent is less than the value, the parent moves into the hole;
then the value is stored in the hole. The hole rises at least one position per round, so
`fuel` rounds suffice when `fuel` is not below the hole index. -/
def push_heap_loop {α : Type} (lt : α → α → Bool) (top_index : Nat) (value : α) :
    Nat → List α → Nat → List α
  | 0, v, hole_index => v.set hole_index value
  | fuel + 1, v, hole_index =>
    match v[(hole_index - 1) / 2]? with
    | some parent =>
      if decide (hole_index > top_index) && lt parent value then
        push_heap_loop lt top_index value fuel (v.set hole_index parent) ((hole_index - 1) / 2)
      else v.set hole_index value
    | none => v.set hole_index value

/-- The function `std::push_heap(first, last)`: the last element is the value, the hole
starts at its position, the top is the first position. -/
def push_heap {α : Type} (lt : α → α → Bool) (v : List α) : List α :=
  match v.getLast? with
  | none => v
  | some value => push_heap_loop lt 0 value (v.length - 1) v (v.length - 1)

/-- The first loop of `std::__adjust_heap(first, holeIndex, len, value)`: while the hole
has two children, the child that is not less than the other moves into the hole (the
right one when neither is less). The value is the vector and the final hole. -/
def adjust_heap_loop {α : Type} (lt : α → α → Bool) (len : Nat) :
    Nat → List α → Nat → List α × Nat
  | 0, v, second_child => (v, second_child)
  | fuel + 1, v, second_child =>
    if second_child < (len - 1) / 2 then
      match v[2 * (second_child + 1)]?, v[2 * (second_child + 1) - 1]? with
      | some right, some left =>
        if lt right left then
          adjust_heap_loop lt len fuel (v.set second_child left) (2 * (second_child + 1) - 1)
        else
          adjust_heap_loop lt len fuel (v.set second_child right) (2 * (second_child + 1))
      | _, _ => (v, second_child)
    else (v, second_child)

/-- The function `std::__adjust_heap(first, holeIndex, len, value)`: the hole sinks to
the bottom along the children that are not less, a single left child at the end moves
up too, and then the value rises from the hole as in `std::__push_heap`. The library
computes `(len - 2) / 2` with a signed `len`, so that the test for the single left child
fails for `len = 0`; hence `2 ≤ len` here. -/
def adjust_heap {α : Type} (lt : α → α → Bool) (v : List α) (hole_index len : Nat)
    (value : α) : List α :=
  let r := adjust_heap_loop lt len len v hole_index
  let r1 : List α × Nat :=
    if len % 2 = 0 ∧ 2 ≤ len ∧ r.2 = (len - 2) / 2 then
      match r.1[2 * (r.2 + 1) - 1]? with
      | some left => (r.1.set r.2 left, 2 * (r.2 + 1) - 1)
      | none => r
    else r
  push_heap_loop lt hole_index value r1.2 r1.1 r1.2

/-- The function `std::pop_heap(first, last)`: with more than one element, the last
element is the value, the first element takes its place, and the heap of the elements
before it is adjusted from the top. -/
def pop_heap {α : Type} (lt : α → α → Bool) (v : List α) : List α :=
  if v.length > 1 then
    match v[0]?, v[v.length - 1]? with
    | some first, some value =>
      adjust_heap lt (v.set (v.length - 1) first) 0 (v.length - 1) value
    | _, _ => v
  else v


/-! ## timer_daemon.cpp -/

/-- The class `Timer`; `m_callback` names the callback. The stamp is an `unsigned long`,
which has 64 bits on the platforms of the daemon. -/
structure Timer where
  m_period : Nat
  m_stamp : Nat
  m_callback : Nat
  m_low_level : Bool
  deriving DecidableEq, Repr

/-- The constructor of `Timer`. -/
def Timer.new (period : Nat) (callback : Nat) (low_level : Bool) : Timer :=
  { m_period := period, m_stamp := 0, m_callback := callback, m_low_level := low_level }

/-- The method `Timer::set_period`; `period_intact` is the constant
`Timer_daemon::period_intact` of `timer_daemon.hpp`, which is not among the sources.
The value is the new stamp and the timer. -/
def Timer.set_period (period_intact : Nat) (t : Timer) (period : Nat) : Nat × Timer :=
  let t1 := if period ≠ period_intact then { t with m_period := period } else t
  ((t1.m_stamp + 1) % 2 ^ 64, { t1 with m_stamp := (t1.m_stamp + 1) % 2 ^ 64 })

/-- The struct `Timer_queue_element`; `timer` names the timer that the weak pointer
points to. -/
structure Timer_queue_element where
  timer : Nat
  next : Nat
  stamp : Nat
  deriving DecidableEq, Repr

/-- The comparison `operator<` of `Timer_queue_element`, inverted so that the heap
functions keep the element with the smallest `next` on top. -/
def Timer_queue_element.lt (lhs rhs : Timer_queue_element) : Bool :=
  decide (lhs.next > rhs.next)

/-- What the daemon hands over when it dispatches a timer: the callback of a low level
timer is invoked at once with the timer, `now` and the period of the timer; for another
timer a `Timer_job` with the timer, `now` and the period is enqueued. -/
inductive Dispatch where
  | low_level (timer : Nat) (callback : Nat) (now : Nat) (period : Nat)
  | timer_job (timer : Nat) (now : Nat) (period : Nat)
  deriving DecidableEq, Repr

/-- The globals of the timer daemon and the timers: `timers` holds the timers that are
alive (`none` is what `weak_ptr::lock` gives for a timer that is gone), `next_timer` is
the identity of the next timer that `make_shared` creates, `g_timers` is the vector that
the heap functions keep as a heap, and `dispatched` records the dispatches in order. -/
structure Timer_daemon where
  timers : Nat → Option Timer
  next_timer : Nat
  g_timers : List Timer_queue_element
  dispatched : List Dispatch

/-- The timer daemon after `start()`: no timer, an empty vector. -/
def Timer_daemon.start : Timer_daemon :=
  { timers := fun _ => none, next_timer := 0, g_timers := [], dispatched := [] }

/-- The test of `pump_one_element` on a popped element: its weak pointer upgrades and its
stamp is the stamp of the timer. -/
def Timer_daemon.valid (d : Timer_daemon) (e : Timer_queue_element) : Bool :=
  match d.timers e.timer with
  | none => false
  | some timer => decide (timer.m_stamp = e.stamp)

/-- The timer that a dispatch is for. -/
def Dispatch.timer : Dispatch → Nat
  | .low_level timer _ _ _ => timer
  | .timer_job timer _ _ => timer

/-- The value of `now` that a dispatch passes on. -/
def Dispatch.now : Dispatch → Nat
  | .low_level _ _ now _ => now
  | .timer_job _ now _ => now

/-- What the end of `pump_one_element` hands over for the timer `id`: a call of the
callback when the timer is low level, a `Timer_job` otherwise. -/
def Dispatch.make (id : Nat) (timer : Timer) (now period : Nat) : Dispatch :=
  if timer.m_low_level then .low_level id timer.m_callback now timer.m_period
  else .timer_job id now period

/-- The dispatch at the end of `pump_one_element`. An exception thrown while dispatching
is caught and logged. -/
def Timer_daemon.dispatch (d : Timer_daemon) (id : Nat) (timer : Timer) (now period : Nat) :
    Timer_daemon :=
  { d with dispatched := d.dispatched ++ [Dispatch.make id timer now period] }

/-- The body of `pump_one_element` from the label `_pick_next` on, with `now` read
before. Every round that jumps back to the label has removed one element, so `fuel`
rounds suffice when `fuel` exceeds the number of elements. -/
def Timer_daemon.pick_next (now : Nat) : Nat → Timer_daemon → Bool × Timer_daemon
  | 0, d => (false, d)
  | fuel + 1, d =>
    match d.g_timers with
    | [] => (false, d)
    | front :: _ =>
      if now < front.next then (false, d)
      else
        let v := pop_heap Timer_queue_element.lt d.g_timers
        match v.getLast? with
        | none => (false, d)
        | some back =>
          match d.timers back.timer with
          | none => Timer_daemon.pick_next now fuel { d with g_timers := v.dropLast }
          | some timer =>
            if timer.m_stamp ≠ back.stamp then
              Timer_daemon.pick_next now fuel { d with g_timers := v.dropLast }
            else
              let period := timer.m_period
              let d1 : Timer_daemon :=
                if period = 0 then { d with g_timers := v.dropLast }
                else
                  { d with g_timers := (push_heap Timer_queue_element.lt
                      (v.dropLast ++ [{ back with next := saturated_add 64 back.next period }])) }
              (true, d1.dispatch back.timer timer now period)

/-- The function `pump_one_element`, with `now` the value of the clock it reads. -/
def Timer_daemon.pump_one_element (now : Nat) (d : Timer_daemon) : Bool × Timer_daemon :=
  Timer_daemon.pick_next now (d.g_timers.length + 1) d

/-- The function `Timer_daemon::register_absolute_timer` (low level or not): a new timer
is created and an element for it is pushed on the heap. The caller holds the timer,
whose identity is `d.next_timer`. -/
def Timer_daemon.register_absolute_timer (first period : Nat) (callback : Nat)
    (low_level : Bool) (d : Timer_daemon) : Timer_daemon :=
  let timer := Timer.new period callback low_level
  { d with
    timers := fun i => if i = d.next_timer then some timer else d.timers i
    next_timer := d.next_timer + 1
    g_timers := (push_heap Timer_queue_element.lt
      (d.g_timers ++ [{ timer := d.next_timer, next := first, stamp := timer.m_stamp }])) }

/-- The function `Timer_daemon::register_timer` (low level or not), with `now` the value
of the clock it reads. -/
def Timer_daemon.register_timer (now delta_first period : Nat) (callback : Nat)
    (low_level : Bool) (d : Timer_daemon) : Timer_daemon :=
  d.register_absolute_timer (saturated_add 64 now delta_first) period callback low_level

/-- The function `Timer_daemon::set_absolute_time`, called with a timer that the caller
holds: the period is set, the stamp is bumped, and an element with the new stamp is
pushed on the heap. The caller passes a `shared_ptr`, so the timer is alive; a call that
names a timer that is not alive stands for no call. -/
def Timer_daemon.set_absolute_time (period_intact : Nat) (id : Nat) (first period : Nat)
    (d : Timer_daemon) : Timer_daemon :=
  match d.timers id with
  | none => d
  | some timer =>
    let r := timer.set_period period_intact period
    { d with
      timers := fun i => if i = id then some r.2 else d.timers i
      g_timers := (push_heap Timer_queue_element.lt
        (d.g_timers ++ [{ timer := id, next := first, stamp := r.1 }])) }

/-- The function `Timer_daemon::set_time`, with `now` the value of the clock it reads. -/
def Timer_daemon.set_time (period_intact : Nat) (now : Nat) (id : Nat)
    (delta_first period : Nat) (d : Timer_daemon) : Timer_daemon :=
  d.set_absolute_time period_intact id (saturated_add 64 now delta_first) period

/-- The last owner of a timer lets go of it. -/
def Timer_daemon.drop_timer (id : Nat) (d : Timer_daemon) : Timer_daemon :=
  { d with timers := fun i => if i = id then none else d.timers i }


/-- A call that reaches the timer daemon from outside, or one round of its thread. -/
inductive Timer_call where
  | register_absolute_timer (first period callback : Nat) (low_level : Bool)
  | register_timer (now delta_first period callback : Nat) (low_level : Bool)
  | set_absolute_time (id first period : Nat)
  | set_time (now id delta_first period : Nat)
  | drop_timer (id : Nat)
  | pump_one_element (now : Nat)
  deriving DecidableEq, Repr

/-- The daemon after one call. -/
def Timer_daemon.step (period_intact : Nat) (d : Timer_daemon) : Timer_call → Timer_daemon
  | .register_absolute_timer first period callback low_level =>
    d.register_absolute_timer first period callback low_level
  | .register_timer now delta_first period callback low_level =>
    d.register_timer now delta_first period callback low_level
  | .set_absolute_time id first period => d.set_absolute_time period_intact id first period
  | .set_time now id delta_first period => d.set_time period_intact now id delta_first period
  | .drop_timer id => d.drop_timer id
  | .pump_one_element now => (d.pump_one_element now).2

/-- The daemon after a sequence of calls since `start()`. -/
def Timer_daemon.steps (period_intact : Nat) (calls : List Timer_call) : Timer_daemon :=
  calls.foldl (Timer_daemon.step period_intact) Timer_daemon.start

/-- The timer that a call re-arms, if it is a call of `set_absolute_time` or `set_time`. -/
def Timer_call.rearmed : Timer_call → Option Nat
  | .set_absolute_time id _ _ => some id
  | .set_time _ id _ _ => some id
  | _ => none

/-- The number of calls in the sequence that re-arm the timer `id`. -/
def rearm_count (id : Nat) (calls : List Timer_call) : Nat :=
  (calls.filter (fun c => decide (c.rearmed = some id))).length

/-! ### Invariants of the heap and of the timer daemon -/

/-- The first `len` positions of the vector form a heap for the key: no element has a
key below the key of its parent. -/
def Heap_upto {α : Type} (key : α → Nat) (len : Nat) (v : List α) : Prop :=
  ∀ i p c, 0 < i → i < len → v[(i - 1) / 2]? = some p → v[i]? = some c → key p ≤ key c

/-- The first `len` positions form a heap except at the position `h`, whose element may
have a key below the key of its parent; the children of `h` have keys that are not below
the key of the parent of `h`. -/
def Heap_rising {α : Type} (key : α → Nat) (len : Nat) (a : List α) (h : Nat) : Prop :=
  (∀ i p c, 0 < i → i < len → i ≠ h → a[(i - 1) / 2]? = some p → a[i]? = some c →
      key p ≤ key c)
    ∧ (∀ i g c, 0 < i → i < len → (i - 1) / 2 = h → 0 < h → a[(h - 1) / 2]? = some g →
      a[i]? = some c → key g ≤ key c)

/-- The whole vector is a heap for the key. -/
def Is_heap {α : Type} (key : α → Nat) (v : List α) : Prop :=
  Heap_upto key v.length v

/-- The first `len` positions form a heap apart from the hole `h`, whose content is not
looked at; the children of the hole have keys that are not below the key of its parent. -/
def Heap_sinking {α : Type} (key : α → Nat) (len : Nat) (v : List α) (h : Nat) : Prop :=
  (∀ i p c, 0 < i → i < len → i ≠ h → (i - 1) / 2 ≠ h → v[(i - 1) / 2]? = some p →
      v[i]? = some c → key p ≤ key c)
    ∧ (∀ i g c, 0 < i → i < len → (i - 1) / 2 = h → 0 < h → v[(h - 1) / 2]? = some g →
      v[i]? = some c → key g ≤ key c)

/-- What one call of `pump_one_element` at `now` does to the daemon `d`, with `r` the
value and the daemon afterwards: it removes due elements that fail the test, and then
either finds nothing due, or dispatches a due element that passes the test and whose
`next` is the least among the elements that stay. -/
def Pump_outcome (now : Nat) (d : Timer_daemon) (r : Bool × Timer_daemon) : Prop :=
  ∃ dropped : List Timer_queue_element,
    (∀ x ∈ dropped, d.valid x = false ∧ x.next ≤ now) ∧
    ((r.1 = false ∧ r.2.dispatched = d.dispatched ∧ d.g_timers.Perm (dropped ++ r.2.g_timers)
        ∧ ∀ x ∈ r.2.g_timers, now < x.next)
      ∨ (r.1 = true ∧ ∃ (e : Timer_queue_element) (timer : Timer) (rest : List Timer_queue_element),
          d.g_timers.Perm (dropped ++ e :: rest) ∧ d.timers e.timer = some timer
          ∧ timer.m_stamp = e.stamp ∧ e.next ≤ now
          ∧ (∀ x ∈ dropped, x.next ≤ e.next) ∧ (∀ x ∈ rest, e.next ≤ x.next)
          ∧ r.2.dispatched = d.dispatched ++ [Dispatch.make e.timer timer now timer.m_period]
          ∧ r.2.g_timers.Perm (if timer.m_period = 0 then rest
              else { e with next := saturated_add 64 e.next timer.m_period } :: rest)))

/-- The stamps are in step with the numbers of re-arming calls `count`: as long as a timer
has been re-armed fewer than `2 ^ 64` times, its stamp is at most that number, and no
element of the vector for it carries a greater stamp than the timer. -/
def Stamps_bounded (count : Nat → Nat) (d : Timer_daemon) : Prop :=
  ∀ id, count id < 2 ^ 64 → ∀ t, d.timers id = some t →
    t.m_stamp ≤ count id ∧ ∀ e ∈ d.g_timers, e.timer = id → e.stamp ≤ t.m_stamp

/-- What holds of the daemon after every sequence of calls: the vector is a heap, its
elements are for timers that have been created, a timer that has not been created is not
alive, and the stamps are in step with the numbers of re-arming calls. -/
def Timer_inv (count : Nat → Nat) (d : Timer_daemon) : Prop :=
  Is_heap Timer_queue_element.next d.g_timers
    ∧ (∀ e ∈ d.g_timers, e.timer < d.next_timer)
    ∧ (∀ i, d.next_timer ≤ i → d.timers i = none)
    ∧ Stamps_bounded count d

/-- The daemon after calls of `pump_one_element` at the times `nows`, in order. -/
def Timer_daemon.pumps (nows : List Nat) (d : Timer_daemon) : Timer_daemon :=
  nows.foldl (fun s now => (s.pump_one_element now).2) d

/-! ### The element that a pump fires, and further invariants -/

/-- The numbers that a call passes are values of 64 bits. -/
def Timer_call.in_range : Timer_call → Bool
  | .register_absolute_timer first period _ _ => decide (first < 2 ^ 64 ∧ period < 2 ^ 64)
  | .register_timer now delta_first period _ _ =>
    decide (now < 2 ^ 64 ∧ delta_first < 2 ^ 64 ∧ period < 2 ^ 64)
  | .set_absolute_time _ first period => decide (first < 2 ^ 64 ∧ period < 2 ^ 64)
  | .set_time now _ delta_first period =>
    decide (now < 2 ^ 64 ∧ delta_first < 2 ^ 64 ∧ period < 2 ^ 64)
  | .drop_timer _ => true
  | .pump_one_element now => decide (now < 2 ^ 64)

/-- The element at the back of the vector that `pump_one_element` dispatches, that is,
the element that has passed the test after `std::pop_heap`; `none` when the call returns
false. The rounds are those of `Timer_daemon.pick_next`. -/
def Timer_daemon.popped (now : Nat) : Nat → Timer_daemon → Option Timer_queue_element
  | 0, _ => none
  | fuel + 1, d =>
    match d.g_timers with
    | [] => none
    | front :: _ =>
      if now < front.next then none
      else
        let v := pop_heap Timer_queue_element.lt d.g_timers
        match v.getLast? with
        | none => none
        | some back =>
          match d.timers back.timer with
          | none => Timer_daemon.popped now fuel { d with g_timers := v.dropLast }
          | some timer =>
            if timer.m_stamp ≠ back.stamp then
              Timer_daemon.popped now fuel { d with g_timers := v.dropLast }
            else some back

/-- The element that the call of `pump_one_element` at `now` fires, if it fires one. -/
def Timer_daemon.fired (now : Nat) (d : Timer_daemon) : Option Timer_queue_element :=
  Timer_daemon.popped now (d.g_timers.length + 1) d

/-- The values of `next` of the elements that the calls of `pump_one_element` at the
times `nows` fire, in order. -/
def Timer_daemon.fired_nexts : List Nat → Timer_daemon → List Nat
  | [], _ => []
  | now :: nows, d =>
    (match d.fired now with
      | some e => [e.next]
      | none => []) ++ Timer_daemon.fired_nexts nows (d.pump_one_element now).2

/-- The values in the daemon are values of 64 bits: the `next` of every element and the
period of every timer. -/
def In_range (d : Timer_daemon) : Prop :=
  (∀ e ∈ d.g_timers, e.next < 2 ^ 64) ∧ (∀ id t, d.timers id = some t → t.m_period < 2 ^ 64)

/-- As long as a timer has been re-armed fewer than `2 ^ 64` times, at most one element
of the vector is for it and carries its stamp. -/
def Valid_unique (count : Nat → Nat) (d : Timer_daemon) : Prop :=
  ∀ id, count id < 2 ^ 64 → ∀ t, d.timers id = some t →
    d.g_timers.countP (fun e => decide (e.timer = id ∧ e.stamp = t.m_stamp)) ≤ 1

/-! ### The hourly, daily and weekly registrations -/

/-- The function `checked_sub<T>` for an unsigned type `T` of `w` bits: `ret = lhs - rhs`
wraps modulo `2 ^ w`, and `ret > lhs` detects the wrap, on which an `Exception` is
thrown. -/
def checked_sub (w lhs rhs : Nat) : Except Thrown Nat :=
  let ret := (lhs + 2 ^ w - rhs % 2 ^ w) % 2 ^ w
  if ret > lhs then .error (.std_exception "Integral subtraction overflow") else .ok ret

/-- The constant `ms_per_hour`. -/
def ms_per_hour : Nat := 1000 * 3600

/-- The constant `ms_per_day`. -/
def ms_per_day : Nat := ms_per_hour * 24

/-- The constant `ms_per_week`. -/
def ms_per_week : Nat := ms_per_day * 7

/-- The offset `(minute * 60ull + second) * 1000ull` that `register_hourly_timer`
subtracts from the wall clock, in 64-bit arithmetic. -/
def hourly_offset (minute second : Nat) : Nat :=
  (minute * 60 + second) * 1000 % 2 ^ 64

/-- The offset `(hour * 3600ull + minute * 60ull + second) * 1000ull` of
`register_daily_timer`. -/
def daily_offset (hour minute second : Nat) : Nat :=
  (hour * 3600 + minute * 60 + second) * 1000 % 2 ^ 64

/-- The offset `((day_of_week + 3ull) * 86400ull + hour * 3600ull + minute * 60ull +
second) * 1000ull` of `register_weekly_timer`; 1970-01-01 is a Thursday. -/
def weekly_offset (day_of_week hour minute second : Nat) : Nat :=
  ((day_of_week + 3) * 86400 + hour * 3600 + minute * 60 + second) * 1000 % 2 ^ 64

/-- The first argument `period - delta % period` that the hourly, daily and weekly
registrations hand to `register_timer`, with `delta = checked_sub(virt_now, offset)`. -/
def aligned_delay (period virt_now offset : Nat) : Except Thrown Nat :=
  match checked_sub 64 virt_now offset with
  | .error e => .error e
  | .ok delta => .ok (period - delta % period)

/-- The function `Timer_daemon::register_hourly_timer`; `virt_now` is the value of
`get_utc_time()` or of `get_local_time()`, as `utc` chooses, and `now` is the value of the
monotonic clock that `register_timer` reads. -/
def Timer_daemon.register_hourly_timer (virt_now now minute second callback : Nat)
    (d : Timer_daemon) : Except Thrown Timer_daemon :=
  match aligned_delay ms_per_hour virt_now (hourly_offset minute second) with
  | .error e => .error e
  | .ok delay => .ok (d.register_timer now delay ms_per_hour callback false)

/-- The function `Timer_daemon::register_daily_timer`. -/
def Timer_daemon.register_daily_timer (virt_now now hour minute second callback : Nat)
    (d : Timer_daemon) : Except Thrown Timer_daemon :=
  match aligned_delay ms_per_day virt_now (daily_offset hour minute second) with
  | .error e => .error e
  | .ok delay => .ok (d.register_timer now delay ms_per_day callback false)

/-- The function `Timer_daemon::register_weekly_timer`. -/
def Timer_daemon.register_weekly_timer (virt_now now day_of_week hour minute second
    callback : Nat) (d : Timer_daemon) : Except Thrown Timer_daemon :=
  match aligned_delay ms_per_week virt_now (weekly_offset day_of_week hour minute second) with
  | .error e => .error e
  | .ok delay => .ok (d.register_timer now delay ms_per_week callback false)

/-- The day of the week of a time in milliseconds since 1970-01-01 00:00:00, a Thursday,
counted from 0 for Sunday. -/
def weekday_of (t : Nat) : Nat := (t / ms_per_day + 4) % 7

/-- The time of day of a time in milliseconds since 1970-01-01 00:00:00, in
milliseconds. -/
def time_of_day (t : Nat) : Nat := t % ms_per_day

/-! ## dns_daemon.cpp -/

/-- The constant `AF_INET` of `<sys/socket.h>`. -/
def AF_INET : Nat := 2

/-- The constant `AF_INET6` of `<sys/socket.h>`. -/
def AF_INET6 : Nat := 10

/-- A node of the list that `getaddrinfo` returns: the family and the address
(`ai_addr` with `ai_addrlen`), which is what a `Sock_addr` is made of. -/
structure Addrinfo where
  ai_family : Nat
  ai_addr : String
  deriving DecidableEq, Repr

/-- The resolver of the operating system: `getaddrinfo(host, port, NULL, &res)` gives a
code and a list of nodes, `gai_strerror` the text for a code. -/
structure Resolver where
  getaddrinfo : String → String → Nat × List Addrinfo
  gai_strerror : Nat → String

/-- The exception of `POSEIDON_THROW_ASSERT`; the macro is not among the sources, and
only that an exception is thrown matters here. -/
def throw_assert_failure : Thrown := .unknown

/-- The host that `real_dns_look_up` hands to `getaddrinfo`: the brackets of a host in
brackets are stripped. -/
def dns_host (host_raw : String) : String :=
  if host_raw ≠ "" ∧ host_raw.front = '[' ∧ host_raw.back = ']' then
    (host_raw.drop 1).dropRight 1
  else host_raw

/-- The loop of `real_dns_look_up` over the nodes: `res_ptr_ipv4` and `res_ptr_ipv6` are
overwritten by every node of their family. The value is the two pointers after the
loop. -/
def scan_addrinfo : List Addrinfo → Option Addrinfo × Option Addrinfo →
    Option Addrinfo × Option Addrinfo
  | [], acc => acc
  | node :: rest, acc =>
    scan_addrinfo rest
      (if node.ai_family = AF_INET then (some node, acc.2)
       else if node.ai_family = AF_INET6 then (acc.1, some node)
       else acc)

/-- The function `real_dns_look_up`. `Unique_handle::reset` tells whether the handle is
not null, so that an empty list fails the assertion. -/
def real_dns_look_up (r : Resolver) (host_raw : String) (port_raw : Nat) (prefer_ipv4 : Bool) :
    Except Thrown Addrinfo :=
  let host := dns_host host_raw
  let port := toString port_raw
  let gai := r.getaddrinfo host port
  if gai.1 ≠ 0 then .error (.std_exception (r.gai_strerror gai.1))
  else
    match gai.2 with
    | [] => .error throw_assert_failure
    | first :: rest =>
      let found := scan_addrinfo (first :: rest) (none, none)
      let res_ptr := if prefer_ipv4 then found.1 else found.2
      match res_ptr with
      | some node => .ok node
      | none => .ok first

/-! ## module_depository.cpp

The maps of the depository are `boost::multi_index` containers (`multi_index_map.hpp`).
An ordered index is embedded here as the list of the elements in the order of the index:
an insertion into an `ordered_non_unique` index puts the element after the elements
whose key is not greater, and `lower_bound` and `upper_bound` are positions in the
list. -/

/-- The constant `LONG_MIN` for a `long` of 64 bits. -/
def LONG_MIN : Int := -(2 ^ 63)

/-- The constant `LONG_MAX` for a `long` of 64 bits. -/
def LONG_MAX : Int := 2 ^ 63 - 1

/-- The comparison `operator<` of `std::pair<void *, long>`. -/
def pair_lt (a b : Nat × Int) : Bool :=
  decide (a.1 < b.1) || (!decide (b.1 < a.1) && decide (a.2 < b.2))

/-- The insertion into an `ordered_non_unique` index with the key `key` and the
comparison `lt`: the element goes to the upper bound of its key. -/
def ordered_insert {α κ : Type} (key : α → κ) (lt : κ → κ → Bool) (l : List α) (val : α) :
    List α :=
  l.takeWhile (fun x => !lt (key val) (key x)) ++ val :: l.dropWhile (fun x => !lt (key val) (key x))

/-- The position `lower_bound(k)` in an ordered index: that of the first element whose
key is not less than `k`. -/
def ordered_lower_bound {α κ : Type} (key : α → κ) (lt : κ → κ → Bool) (l : List α) (k : κ) :
    Nat :=
  (l.takeWhile (fun x => lt (key x) k)).length

/-- The position `upper_bound(k)` in an ordered index: that of the first element whose
key is greater than `k`. -/
def ordered_upper_bound {α κ : Type} (key : α → κ) (lt : κ → κ → Bool) (l : List α) (k : κ) :
    Nat :=
  (l.takeWhile (fun x => !lt k (key x))).length

/-- The struct `Module_raii_map_element`; `raii` is the address of the `Module_raii_base`
object. -/
structure Module_raii_map_element where
  raii : Nat
  base_address_priority : Nat × Int
  deriving DecidableEq, Repr

/-- The container `Module_raii_map`, as the list of its elements in the order of the
index 1 (`base_address_priority`, not unique); the index 0 (`raii`) is unique. -/
abbrev Module_raii_map : Type := List Module_raii_map_element

/-- The member `insert` of `Module_raii_map`: nothing is inserted when the unique index
holds the key `raii` already. The value is the map and whether the element went in. -/
def Module_raii_map.insert (m : Module_raii_map) (val : Module_raii_map_element) :
    Module_raii_map × Bool :=
  if m.any (fun x => decide (x.raii = val.raii)) then (m, false)
  else (ordered_insert Module_raii_map_element.base_address_priority pair_lt m val, true)

/-- The call `erase<0>(find<0>(raii))` on `Module_raii_map`: the element with the key
`raii`, of which the unique index holds at most one, is removed. -/
def Module_raii_map.erase (m : Module_raii_map) (raii : Nat) : Module_raii_map :=
  m.filter (fun x => !decide (x.raii = raii))

/-- The elements that the loop of `Module_depository::load` visits: those from
`lower_bound<1>((base, LONG_MIN))` up to `upper_bound<1>((base, LONG_MAX))`. -/
def Module_raii_map.range (m : Module_raii_map) (base_address : Nat) :
    List Module_raii_map_element :=
  (m.take (ordered_upper_bound Module_raii_map_element.base_address_priority pair_lt m
      (base_address, LONG_MAX))).drop
    (ordered_lower_bound Module_raii_map_element.base_address_priority pair_lt m
      (base_address, LONG_MIN))

/-- What the depository does to the outside: it invokes an initializer, it releases the
token of an initializer, it closes a library. -/
inductive Module_event where
  | init (raii : Nat)
  | release (token : Nat)
  | dlclose (handle : Nat)
  deriving DecidableEq, Repr

/-- Modelled from the spec: the stack of RAII tokens (`Handle_stack` of `raii.hpp`, which
is not among the sources), with the top first; its destruction unwinds the stack, that
is, it releases the tokens in the reverse of the order in which they were pushed. -/
structure Handle_stack where
  tokens : List Nat
  deriving DecidableEq, Repr

/-- Modelled from the spec: a token is pushed on the stack. -/
def Handle_stack.push (handles : Handle_stack) (token : Nat) : Handle_stack :=
  ⟨token :: handles.tokens⟩

/-- Modelled from the spec: the destructor of the stack releases the tokens from the top
down. -/
def Handle_stack.destroy (handles : Handle_stack) : List Module_event :=
  handles.tokens.map Module_event.release

/-- Modelled from the spec: `Module_raii_base::init(handles)` of `module_raii.hpp`, which
is not among the sources, invokes the initializer and pushes the token that it returns on
the stack. The token is named after the initializer, and an initializer does not
throw. -/
def Module_raii_base.init (raii : Nat) (acc : Handle_stack × List Module_event) :
    Handle_stack × List Module_event :=
  (acc.1.push raii, acc.2 ++ [Module_event.init raii])

/-- The dynamic loader: `dlopen(path, RTLD_NOW | RTLD_NODELETE)` gives a handle or null,
`dlsym(handle, "_init")` an address or null, `dladdr(address)` fails or gives the base
address `dli_fbase` and the name `dli_fname` of the library that holds the address, and
`dlerror()` a text. -/
structure Dl where
  dlopen : String → Option Nat
  dlsym_init : Nat → Option Nat
  dladdr : Nat → Option (Nat × String)
  dlerror : String

/-- The class `Module`, with its members in the order of their declaration. -/
structure Module where
  m_dl_handle : Nat
  m_base_address : Nat
  m_real_path : String
  m_handles : Handle_stack
  deriving DecidableEq, Repr

/-- The destructor of `Module`: its body only logs; then the members are destroyed in the
reverse of the order of their declaration, `m_handles` first and `m_dl_handle` last,
whose `Dynamic_library_closer` calls `dlclose`. -/
def Module.destroy (module : Module) : List Module_event :=
  module.m_handles.destroy ++ [Module_event.dlclose module.m_dl_handle]

/-- The globals of the depository: `g_module_raii_map`, `g_module_map` (as the list of
its modules; the keys `dl_handle` and `base_address` of an element are those of its
module, and both indices are unique), and the record of what it does to the outside. -/
structure Module_depository where
  g_module_raii_map : Module_raii_map
  g_module_map : List Module
  trace : List Module_event

/-- The depository after `start()`. -/
def Module_depository.start : Module_depository :=
  { g_module_raii_map := [], g_module_map := [], trace := [] }

/-- The function `Module_depository::register_module_raii`. -/
def Module_depository.register_module_raii (dl : Dl) (raii : Nat) (priority : Int)
    (s : Module_depository) : Option Thrown × Module_depository :=
  match dl.dladdr raii with
  | none => (some (.std_exception "Error getting base address"), s)
  | some info =>
    let result := Module_raii_map.insert s.g_module_raii_map ⟨raii, (info.1, priority)⟩
    if result.2 then (none, { s with g_module_raii_map := result.1 })
    else (some (.std_exception "Duplicate Module_raii"), s)

/-- The function `Module_depository::unregister_module_raii`. -/
def Module_depository.unregister_module_raii (raii : Nat) (s : Module_depository) :
    Module_depository :=
  { s with g_module_raii_map := Module_raii_map.erase s.g_module_raii_map raii }

/-- The function `Module_depository::load`; the value is the base address. The local
`dl_handle` closes the library again on every path on which it is not moved into the
module; a module that cannot be inserted is destroyed. -/
def Module_depository.load (dl : Dl) (path : String) (s : Module_depository) :
    Except Thrown Nat × Module_depository :=
  match dl.dlopen path with
  | none => (.error (.std_exception dl.dlerror), s)
  | some dl_handle =>
    match s.g_module_map.find? (fun module => decide (module.m_dl_handle = dl_handle)) with
    | some module =>
      (.ok module.m_base_address, { s with trace := s.trace ++ [Module_event.dlclose dl_handle] })
    | none =>
      match dl.dlsym_init dl_handle with
      | none =>
        (.error (.std_exception dl.dlerror),
          { s with trace := s.trace ++ [Module_event.dlclose dl_handle] })
      | some init_sym =>
        match dl.dladdr init_sym with
        | none =>
          (.error (.std_exception dl.dlerror),
            { s with trace := s.trace ++ [Module_event.dlclose dl_handle] })
        | some info =>
          let done := (Module_raii_map.range s.g_module_raii_map info.1).foldl
            (fun acc raii_it => Module_raii_base.init raii_it.raii acc) (⟨[]⟩, s.trace)
          let module : Module := ⟨dl_handle, info.1, info.2, done.1⟩
          if s.g_module_map.any (fun other => decide (other.m_base_address = info.1)) then
            (.error throw_assert_failure, { s with trace := done.2 ++ module.destroy })
          else
            (.ok info.1, { s with g_module_map := s.g_module_map ++ [module], trace := done.2 })

/-- The function `Module_depository::unload`: the element is erased, and with it the last
reference to the module goes, so that the module is destroyed. -/
def Module_depository.unload (base_address : Nat) (s : Module_depository) :
    Bool × Module_depository :=
  match s.g_module_map.find? (fun module => decide (module.m_base_address = base_address)) with
  | none => (false, s)
  | some module =>
    (true, { s with
      g_module_map := s.g_module_map.filter
        (fun other => !decide (other.m_base_address = base_address))
      trace := s.trace ++ module.destroy })

/-! ### The older depository (`src/singletons/module_depository.cpp`) -/

/-- The struct `ModuleRaiiMapElement` of the older depository. -/
structure ModuleRaiiMapElement where
  base_addr : Nat
  raii : Nat
  priority : Int
  deriving DecidableEq, Repr

/-- The container `ModuleRaiiMap` of the older depository, as the list of its elements in
the order of the index 1 (`priority`, not unique); the index 0 (`raii`) is unique. -/
abbrev ModuleRaiiMap : Type := List ModuleRaiiMapElement

/-- The member `insert` of `ModuleRaiiMap`. -/
def ModuleRaiiMap.insert (m : ModuleRaiiMap) (val : ModuleRaiiMapElement) :
    ModuleRaiiMap × Bool :=
  if m.any (fun x => decide (x.raii = val.raii)) then (m, false)
  else (ordered_insert ModuleRaiiMapElement.priority (fun a b => decide (a < b)) m val, true)

/-- The function `ModuleDepository::register_module_raii` of the older depository, on its
map `g_module_raii_map`. -/
def ModuleDepository.register_module_raii (dl : Dl) (raii : Nat) (priority : Int)
    (m : ModuleRaiiMap) : Option Thrown × ModuleRaiiMap :=
  match dl.dladdr raii with
  | none => (some (.std_exception dl.dlerror), m)
  | some info =>
    let result := ModuleRaiiMap.insert m ⟨info.1, raii, priority⟩
    if result.2 then (none, result.1) else (some (.std_exception "Duplicate ModuleRaii"), m)

/-- The function `ModuleDepository::unregister_module_raii` of the older depository:
`erase<0>(raii)`. -/
def ModuleDepository.unregister_module_raii (raii : Nat) (m : ModuleRaiiMap) : ModuleRaiiMap :=
  m.filter (fun x => !decide (x.raii = raii))

/-- The loop of the older `ModuleDepository::load` over the index 1 of
`g_module_raii_map`: an element with another base address is skipped, the others are
initialized. -/
def ModuleDepository.init_loop (m : ModuleRaiiMap) (base_addr : Nat)
    (acc : Handle_stack × List Module_event) : Handle_stack × List Module_event :=
  m.foldl (fun acc it => if it.base_addr ≠ base_addr then acc
    else Module_raii_base.init it.raii acc) acc

/-- A call of a library that registers or unregisters an initializer. -/
inductive Raii_call where
  | register_module_raii (raii : Nat) (priority : Int)
  | unregister_module_raii (raii : Nat)
  deriving DecidableEq, Repr

/-- The priority that a call passes is a value of a `long`. -/
def Raii_call.in_range : Raii_call → Bool
  | .register_module_raii _ priority => decide (LONG_MIN ≤ priority ∧ priority ≤ LONG_MAX)
  | .unregister_module_raii _ => true

/-- The depository after a call that registers or unregisters an initializer; an
exception of the call is dropped. -/
def Module_depository.raii_step (dl : Dl) (s : Module_depository) : Raii_call → Module_depository
  | .register_module_raii raii priority => (s.register_module_raii dl raii priority).2
  | .unregister_module_raii raii => s.unregister_module_raii raii

/-- The map of the older depository after a call that registers or unregisters an
initializer. -/
def ModuleDepository.raii_step (dl : Dl) (m : ModuleRaiiMap) : Raii_call → ModuleRaiiMap
  | .register_module_raii raii priority =>
    (ModuleDepository.register_module_raii dl raii priority m).2
  | .unregister_module_raii raii => ModuleDepository.unregister_module_raii raii m

/-- The comparison is that of a strict weak order: it is asymmetric, and "not less" is
transitive. -/
def Strict_weak {κ : Type} (lt : κ → κ → Bool) : Prop :=
  (∀ a b, lt a b = true → lt b a = false)
    ∧ (∀ a b c, lt a b = false → lt b c = false → lt a c = false)

/-- The list is in the order of an index with the key `key` and the comparison `lt`: no
element has a key less than that of an element before it. -/
def Ordered_by {α κ : Type} (key : α → κ) (lt : κ → κ → Bool) (l : List α) : Prop :=
  l.Pairwise (fun a b => lt (key b) (key a) = false)

/-- The element of the older map that stands for an element of the map. -/
def Module_raii_map_element.to_older (x : Module_raii_map_element) : ModuleRaiiMapElement :=
  ⟨x.base_address_priority.1, x.raii, x.base_address_priority.2⟩

/-- The map of the depository and the map of the older depository hold the same
initializers: both are in the order of their index, no initializer is held twice, the
priorities are values of a `long`, and for every base address the elements of that base
address come in the same order in both. -/
def Raii_maps_agree (m : Module_raii_map) (mo : ModuleRaiiMap) : Prop :=
  Ordered_by Module_raii_map_element.base_address_priority pair_lt m
    ∧ Ordered_by ModuleRaiiMapElement.priority (fun a b => decide (a < b)) mo
    ∧ (m.map Module_raii_map_element.raii).Nodup
    ∧ (∀ x ∈ m, LONG_MIN ≤ x.base_address_priority.2 ∧ x.base_address_priority.2 ≤ LONG_MAX)
    ∧ ∀ base : Nat,
        (m.filter (fun x => decide (x.base_address_priority.1 = base))).map
            Module_raii_map_element.to_older
          = mo.filter (fun y => decide (y.base_addr = base))

/-! ## Further notions for the worker and the router -/

/-- The stamp of every object is null or the address of a queued element that is a
write for that object. -/
def Stamps_queued (s : Thread_run) : Prop :=
  ∀ obj a, s.world.get_combined_write_stamp obj = some a →
    ∃ e ∈ s.thread.m_queue, e.addr = a ∧ e.operation.get_combinable_object = some obj

/-- The number of times the queue element at the address `addr` was executed according
to a trace: the number of statements announced for it. -/
def executions (addr : Nat) (trace : List Event) : Nat :=
  trace.countP (fun ev =>
    match ev with
    | .executing_sql a _ _ => decide (a = addr)
    | _ => false)

/-- Whether the pump `p` in the state `s` is a failing attempt: the gate lets the front
element through and its execution ends with an exception. -/
def attempt_fails (s : Thread_run) (p : Pump_request) : Bool :=
  match s.thread.m_queue with
  | [] => false
  | elem :: _ =>
    (s.thread.m_urgent || decide (elem.due_time ≤ p.now))
      && (execute_element elem (decide_execute_it elem s.world).1
          (if elem.operation.should_use_slave then p.slave_conn else p.master_conn)
          (decide_execute_it elem s.world).2).2.except.isSome

/-- The run of a worker, with nothing recorded yet, through the first `i` of the
pumps. -/
def pumped (cfg : Main_config) (t : Mysql_thread) (w : World) (pumps : List Pump_request)
    (i : Nat) : Thread_run :=
  Thread_run.steps cfg ⟨t, w, [], []⟩ ((pumps.take i).map Pump_request.step)

/-- A worker slot holds a worker whose urgent flag is set and whose queue holds the
operation. -/
def Urgent_holds (d : Mysql_daemon) (op : Operation_base) : Prop :=
  ∃ (i : Nat) (t : Mysql_thread), d.g_threads[i]? = some (some t) ∧ t.m_urgent = true
    ∧ ∃ e ∈ t.m_queue, e.operation = op

/-- The value that arithmetic on `int` gives for the exact result `x`: `x` itself inside
the range of 32 bits, and the value that wrapping gives outside it. -/
def wrap_int (x : Int) : Int := (x + 2 ^ 31) % 2 ^ 32 - 2 ^ 31

/-- The statement `timeout = std::min(timeout * 2 + 1, (1 - busy) * 128)` of the three
functions `thread_proc`; `busy` is promoted to the `int` 1 or 0. -/
def next_timeout (timeout : Int) (busy : Bool) : Int :=
  min (wrap_int (wrap_int (timeout * 2) + 1))
    (wrap_int (wrap_int (1 - (if busy then 1 else 0)) * 128))

/-- The local variable `timeout` of a thread function, the arguments of its calls of
`wait_for` so far, in milliseconds, and whether it has left its loop. -/
structure Thread_proc where
  timeout : Int
  waits : List Int
  left : Bool
  deriving DecidableEq, Repr

/-- One pump of the loop `for(;;){ do { busy = pump(); timeout = ...; } while(busy); ... }`
of `thread_proc` in timer_daemon.cpp, of `thread_proc` in dns_daemon.cpp and of
`Mysql_thread::thread_proc`. The three loops differ in the pump they call and in the test
before `break`, which are inputs here: `pump.1` is the value of `busy` that the pump
returns, and `pump.2` is the value of the test before `break`, which is made after an idle
pump. After a busy pump the inner loop goes on; after an idle pump the loop is left, or
the condition variable is waited for, for `timeout` milliseconds. -/
def Thread_proc.step (s : Thread_proc) (pump : Bool × Bool) : Thread_proc :=
  if s.left then s
  else
    let timeout := next_timeout s.timeout pump.1
    if pump.1 then { s with timeout := timeout }
    else if pump.2 then { s with timeout := timeout, left := true }
    else { s with timeout := timeout, waits := s.waits ++ [timeout] }

/-- The thread function from its start, where `int timeout = 0`, through the pumps
given. -/
def thread_proc (pumps : List (Bool × Bool)) : Thread_proc :=
  pumps.foldl Thread_proc.step ⟨0, [], false⟩

/-- The timeout is within its bounds, and so was every argument of `wait_for`. -/
def Timeout_bounded (s : Thread_proc) : Prop :=
  0 ≤ s.timeout ∧ s.timeout ≤ 128 ∧ ∀ x ∈ s.waits, 1 ≤ x ∧ x ≤ 128

/-! ## Scenarios -/

/-- The configuration of the scenarios: statements are deferred by 5000 ticks, at most
two attempts, an initial retry delay of 10 ticks, and a dump directory. -/
def scenario_config : Main_config :=
  { mysql_save_delay := 5000, mysql_max_retry_count := 2, mysql_retry_init_delay := 10,
    mysql_dump_dir := "/var/dump", shift_beyond_width := fun _ _ => 0 }

/-- The store of the scenarios: every object belongs to table t1 and has no write queued,
every promise is alive and pending, and no callback and no `fetch` throws. -/
def scenario_world : World :=
  { objects := fun _ => ⟨"t1", "`id`=1, `v`='C', ", none⟩,
    promises := fun _ => some .pending,
    callbacks := fun _ _ => none,
    fetches := fun _ _ => none,
    next_addr := 100,
    trace := [] }

/-- A connection whose server accepts every statement and returns no row. -/
def accepting_conn : Connection := ⟨fun _ => .ok [], [], none⟩

/-- A connection whose server rejects every statement. -/
def failing_conn : Connection :=
  ⟨fun _ => .error (.mysql_exception 2006 "MySQL server has gone away"), [], none⟩

/-- A connection whose server answers every statement with two rows. -/
def two_row_conn : Connection := ⟨fun _ => .ok ["r1", "r2"], [], none⟩

/-- The save of object 7 with REPLACE, as operation `i` with promise `i`. -/
def scenario_save (i : Nat) : Operation_base := ⟨i, i, some "t1", .Save_operation 7 true⟩

/-- Three saves of object 7, enqueued at ticks 0, 1 and 2. -/
def scenario_requests : List Enqueue_request :=
  [⟨0, scenario_save 1, false⟩, ⟨1, scenario_save 2, false⟩, ⟨2, scenario_save 3, false⟩]

/-- Three pumps at tick 6000, when all three saves are due, on accepting connections. -/
def scenario_pumps : List Pump_request :=
  [⟨6000, accepting_conn, accepting_conn⟩, ⟨6000, accepting_conn, accepting_conn⟩,
    ⟨6000, accepting_conn, accepting_conn⟩]

/-- The worker after the three saves were enqueued and the queue was pumped empty. -/
def scenario_coalescing : Thread_run :=
  Thread_run.steps scenario_config
    (Thread_run.steps scenario_config ⟨Mysql_thread.new.start, scenario_world, [], []⟩
      (scenario_requests.map Enqueue_request.step))
    (scenario_pumps.map Pump_request.step)

/-- A load of object 7, as operation 1 with promise 1. -/
def scenario_load : Operation_base := ⟨1, 1, none, .Load_operation 7 "SELECT 1"⟩

/-- A worker whose queue holds one save of object 7, due at tick 5000. -/
def scenario_thread : Mysql_thread :=
  { m_running := true, m_urgent := false, m_queue := [⟨100, scenario_save 1, 5000, 0⟩] }

/-- The first attempt of the queued save, at tick 5000, on a failing connection. -/
def scenario_first_failure : Pumped :=
  scenario_thread.pump_one_operation scenario_config 5000 scenario_world failing_conn failing_conn

/-- The second attempt of the queued save, at tick 5020, on a failing connection. -/
def scenario_second_failure : Pumped :=
  scenario_first_failure.thread.pump_one_operation scenario_config 5020
    scenario_first_failure.world failing_conn failing_conn

/-- The daemon with two worker slots after a save of object 7 (table t1) and a delete on
table t2: each table got a worker of its own. -/
def scenario_daemon : Mysql_daemon :=
  (Mysql_daemon.start 2 scenario_world).steps scenario_config
    [.enqueue_for_saving 0 7 true true, .enqueue_for_deleting 0 "t2" "DELETE FROM `t2`"]

/-- The pumps that empty the queue of the worker in slot 0 after a broadcast. -/
def scenario_pumps_first : List Daemon_step :=
  [.pump 0 1 accepting_conn accepting_conn, .pump 0 1 accepting_conn accepting_conn]

/-- The pumps that empty the queues of both workers after a broadcast. -/
def scenario_pumps_both : List Daemon_step :=
  scenario_pumps_first
    ++ [.pump 1 1 accepting_conn accepting_conn, .pump 1 1 accepting_conn accepting_conn]

/-- The queue element of the save of object 7 in the scenario of the daemon. -/
def scenario_element_t1 : Operation_queue_element :=
  ⟨100, ⟨0, 0, some "t1", .Save_operation 7 true⟩, 5000, 0⟩

/-- The worker of table t1 in the scenario of the daemon. -/
def scenario_worker_t1 : Mysql_thread :=
  { m_running := true, m_urgent := true, m_queue := [scenario_element_t1] }

/-- The daemon of the scenario after a broadcast of a wait operation at tick 1. -/
def scenario_broadcast : Routed :=
  scenario_daemon.enqueue_for_waiting_for_all_async_operations scenario_config 1

/-- The worker of the scenario with the three saves queued, none of them due. -/
def scenario_worker : Worker :=
  Worker.steps scenario_config ⟨Mysql_thread.new.start, scenario_world, none⟩
    (scenario_requests.map (fun r => .add_operation r.now r.operation r.urgent))

/-- While the other thread sleeps, the thread of the worker completes one pump at tick 1
on accepting connections. -/
def scenario_env : Nat → List Worker_step :=
  fun _ => [.pump_begin 1, .pump_end accepting_conn accepting_conn]

/-- The call of wait_till_idle on the worker of the scenario, for at most five rounds. -/
def scenario_waited : Option Worker :=
  scenario_worker.wait_till_idle scenario_config scenario_env 5

/-! ### Scenarios of the timer daemon -/

/-- Two one-shot low level timers are registered, the first for the time 5 and the second
for the time 7. -/
def scenario_two_timers : List Timer_call :=
  [.register_absolute_timer 5 0 1 true, .register_absolute_timer 7 0 2 true]

/-- One periodic timer is registered for the time 5, with the period 3. -/
def scenario_one_timer : List Timer_call :=
  [.register_absolute_timer 5 3 7 true]

/-- The value that the scenarios take for the constant `Timer_daemon::period_intact`. -/
def scenario_period_intact : Nat := 2 ^ 64 - 1

/-- The timer of the scenario with one timer is re-armed once, for the time 100 and with
the period 9. -/
def scenario_rearmed : List Timer_call :=
  scenario_one_timer ++ [.set_absolute_time 0 100 9]

/-- The timer of the scenario is registered for the time 1 with the period 3 and re-armed
for the time 2: the vector holds the element of the registration, whose stamp is no
longer the stamp of the timer, and the element of the re-arming. -/
def scenario_stale : List Timer_call :=
  [.register_absolute_timer 1 3 7 true, .set_absolute_time 0 2 3]

/-- A resolver that answers every query with two IPv4 nodes and one IPv6 node between
them. -/
def scenario_resolver : Resolver :=
  { getaddrinfo := fun _ _ =>
      (0, [⟨AF_INET, "10.0.0.1"⟩, ⟨AF_INET6, "::1"⟩, ⟨AF_INET, "10.0.0.2"⟩])
    gai_strerror := fun _ => "Name or service not known" }

/-- The loader of the scenario: the library `libfoo.so` is opened with the handle 7, its
`_init` is at the address 4097, and the addresses from 4096 to 8191 belong to it, with
the base address 4096. -/
def scenario_dl : Dl :=
  { dlopen := fun path => if path = "libfoo.so" then some 7 else none
    dlsym_init := fun handle => if handle = 7 then some 4097 else none
    dladdr := fun a => if 4096 ≤ a ∧ a < 8192 then some (4096, "/usr/lib/libfoo.so") else none
    dlerror := "cannot open shared object file" }

/-- The library of the scenario registers the initializer at 4100 with the priority 10
and then the initializer at 4200 with the priority 5. -/
def scenario_raii_calls : List Raii_call :=
  [.register_module_raii 4100 10, .register_module_raii 4200 5]

/-- The depository of the scenario after the registrations and the loading of the
library. -/
def scenario_loaded : Module_depository :=
  ((scenario_raii_calls.foldl (Module_depository.raii_step scenario_dl)
    Module_depository.start).load scenario_dl "libfoo.so").2

/-- A configuration whose initial retry delay is 2 ^ 63 ticks, with at most three
attempts. -/
def scenario_long_delay : Main_config :=
  { mysql_save_delay := 5000, mysql_max_retry_count := 3, mysql_retry_init_delay := 2 ^ 63,
    mysql_dump_dir := "/var/dump", shift_beyond_width := fun _ _ => 0 }

/-- The three saves of object 7 are enqueued, the first of them is pumped on a failing
connection, which leaves it queued for a retry, and a fourth save of object 7 is
enqueued. -/
def scenario_stamps : List Thread_step :=
  scenario_requests.map Enqueue_request.step
    ++ [.pump_one_operation 6000 failing_conn failing_conn,
        .add_operation 6001 (scenario_save 4) false]

/-- The delete on table t2 of the scenarios, before a probe is attached to it. -/
def scenario_delete : Operation_base := ⟨2, 2, none, .Delete_operation "t2" "DELETE FROM `t2`"⟩

/-- A daemon whose two slots hold workers, the first with two queued saves and the second
with one queued delete, and no route for table t3. -/
def scenario_full : Mysql_daemon :=
  { g_router := fun _ => ⟨false, none⟩
    g_threads := [some ⟨true, false, [⟨100, scenario_save 1, 5000, 0⟩, ⟨101, scenario_save 3, 5000, 0⟩]⟩,
      some ⟨true, false, [⟨102, scenario_delete.set_probe "t2", 5000, 0⟩]⟩]
    world := scenario_world
    next_operation := 4
    next_promise := 4 }

/-- Two pumps of the queued save of the scenario on failing connections, the first when
the save is due and the second when its retry is due. -/
def scenario_failing_pumps : List Pump_request :=
  [⟨5000, failing_conn, failing_conn⟩, ⟨5020, failing_conn, failing_conn⟩]

/-- C6. Calling add_operation on a worker after stop() raises the shutting-down
exception and leaves the worker (its queue and its urgent flag) and the store (every
combined-write stamp included) exactly as they were. -/
theorem add_operation_after_stop (cfg : Main_config) (now : Nat) (operation : Operation_base)
    (urgent : Bool) (t : Mysql_thread) (w : World) :
    (t.stop.add_operation cfg now operation urgent w).except
        = some (.std_exception "MySQL thread is being shut down")
      ∧ (t.stop.add_operation cfg now operation urgent w).thread.m_queue = t.m_queue
      ∧ (t.stop.add_operation cfg now operation urgent w).thread.m_urgent = t.m_urgent
      ∧ (∀ obj, (t.stop.add_operation cfg now operation urgent w).world.get_combined_write_stamp obj
          = w.get_combined_write_stamp obj)
      ∧ (t.stop.add_operation cfg now operation urgent w).world.trace = w.trace := by
  simp [Mysql_thread.add_operation, Mysql_thread.stop]

/-! ### Auxiliary facts -/

/-- The shift of the retry delay by a count below 64. -/
theorem retry_shift_of_lt (cfg : Main_config) (retry_count : Nat) (h : retry_count < 64) :
    retry_shift cfg retry_count = cfg.mysql_retry_init_delay * 2 ^ retry_count % 2 ^ 64 := by
  unfold retry_shift
  rw [if_pos h]

theorem dropWhile_ne_nil_of_mem {α : Type} (p : α → Bool) (l : List α) (x : α) (hx : x ∈ l)
    (hp : p x = false) : l.dropWhile p ≠ [] := by
  induction l with
  | nil => cases hx
  | cons a l ih =>
    rw [List.dropWhile_cons]
    split
    · rename_i ha
      rcases List.mem_cons.1 hx with h | h
      · subst h; rw [hp] at ha; cases ha
      · exact ih h
    · simp

theorem erase_trailing_separators_ne_empty (s : String) (c : Char) (hc : c ∈ s.data)
    (h1 : c ≠ ' ') (h2 : c ≠ ',') : erase_trailing_separators s ≠ "" := by
  unfold erase_trailing_separators
  intro h
  have h3 : (List.dropWhile (fun c => c = ' ' || c = ',') s.data.reverse).reverse = [] := by
    have := congrArg String.data h
    simpa using this
  have h4 := dropWhile_ne_nil_of_mem (fun c => decide (c = ' ') || decide (c = ',')) s.data.reverse c
    (by simpa using hc) (by simp [h1, h2])
  exact h4 (by simpa using h3)

theorem save_generate_sql_ne_empty (op : Operation_base) (obj : Nat) (rep : Bool) (w : World)
    (hv : op.variant = .Save_operation obj rep) : op.generate_sql w ≠ "" := by
  unfold Operation_base.generate_sql
  rw [hv]
  cases rep
  · exact erase_trailing_separators_ne_empty _ 'I' (by simp [String.data_append]) (by decide) (by decide)
  · exact erase_trailing_separators_ne_empty _ 'R' (by simp [String.data_append]) (by decide) (by decide)

/-- The statement of an operation depends on the store only through the table and the
columns of the objects. -/
theorem generate_sql_congr (op : Operation_base) (w w1 : World)
    (h : ∀ o, (w1.objects o).table = (w.objects o).table
      ∧ (w1.objects o).columns = (w.objects o).columns) :
    op.generate_sql w1 = op.generate_sql w := by
  unfold Operation_base.generate_sql
  cases op.variant <;> simp [h]

/-! ### The cases of pump_one_operation -/

theorem pump_one_operation_empty (cfg : Main_config) (now : Nat) (t : Mysql_thread) (w : World)
    (m s : Connection) (hq : t.m_queue = []) :
    t.pump_one_operation cfg now w m s
      = ⟨false, { t with m_urgent := false }, w, some m, some s, none⟩ := by
  simp [Mysql_thread.pump_one_operation, Mysql_thread.pump_pick, hq]

theorem pump_one_operation_not_due (cfg : Main_config) (now : Nat) (t : Mysql_thread) (w : World)
    (m s : Connection) (elem : Operation_queue_element) (rest : List Operation_queue_element)
    (hq : t.m_queue = elem :: rest) (hu : t.m_urgent = false) (hd : now < elem.due_time) :
    t.pump_one_operation cfg now w m s = ⟨false, t, w, some m, some s, none⟩ := by
  simp [Mysql_thread.pump_one_operation, Mysql_thread.pump_pick, hq, hu, hd]

theorem pump_one_operation_due (cfg : Main_config) (now : Nat) (t : Mysql_thread) (w : World)
    (m s : Connection) (elem : Operation_queue_element) (rest : List Operation_queue_element)
    (hq : t.m_queue = elem :: rest) (hd : t.m_urgent = true ∨ elem.due_time ≤ now) :
    t.pump_one_operation cfg now w m s = t.pump_front cfg now w m s := by
  rcases hd with hd | hd
  · simp [Mysql_thread.pump_one_operation, Mysql_thread.pump_pick, hq, hd]
  · simp [Mysql_thread.pump_one_operation, Mysql_thread.pump_pick, hq, not_lt.mpr hd]

/-! ### The cases of pump_front -/

theorem pump_front_retry (cfg : Main_config) (now : Nat) (t : Mysql_thread) (w : World)
    (m s : Connection) (elem : Operation_queue_element) (rest : List Operation_queue_element)
    (e : Thrown) (hq : t.m_queue = elem :: rest)
    (he : (execute_element elem (decide_execute_it elem w).1
        (if elem.operation.should_use_slave then s else m) (decide_execute_it elem w).2).2.except
        = some e)
    (hr : (elem.retry_count + 1) % 2 ^ 64 < cfg.mysql_max_retry_count) :
    t.pump_front cfg now w m s
      = ⟨true,
          { t with m_queue :=
            { elem with retry_count := (elem.retry_count + 1) % 2 ^ 64,
                        due_time := retry_due_time cfg now ((elem.retry_count + 1) % 2 ^ 64) }
              :: rest },
          (execute_element elem (decide_execute_it elem w).1
            (if elem.operation.should_use_slave then s else m)
            (decide_execute_it elem w).2).2.world.emit
              (.going_to_retry elem.addr ((elem.retry_count + 1) % 2 ^ 64)),
          if elem.operation.should_use_slave then some m else none,
          if elem.operation.should_use_slave then none else some s, none⟩ := by
  simp only [Mysql_thread.pump_front, hq, he, hr, if_true]
  cases elem.operation.should_use_slave <;> simp

theorem pump_front_dump (cfg : Main_config) (now : Nat) (t : Mysql_thread) (w : World)
    (m s : Connection) (elem : Operation_queue_element) (rest : List Operation_queue_element)
    (e : Thrown) (hq : t.m_queue = elem :: rest)
    (he : (execute_element elem (decide_execute_it elem w).1
        (if elem.operation.should_use_slave then s else m) (decide_execute_it elem w).2).2.except
        = some e)
    (hr : ¬ (elem.retry_count + 1) % 2 ^ 64 < cfg.mysql_max_retry_count) :
    t.pump_front cfg now w m s
      = ⟨true, { t with m_queue := rest },
          settle_promise elem.operation (some e)
            (dump_sql_to_file cfg elem.addr
              (execute_element elem (decide_execute_it elem w).1
                (if elem.operation.should_use_slave then s else m)
                (decide_execute_it elem w).2).1 e.err_code e.err_msg
              (execute_element elem (decide_execute_it elem w).1
                (if elem.operation.should_use_slave then s else m)
                (decide_execute_it elem w).2).2.world),
          some (if elem.operation.should_use_slave then m else
            (execute_element elem (decide_execute_it elem w).1
              (if elem.operation.should_use_slave then s else m)
              (decide_execute_it elem w).2).2.conn),
          some (if elem.operation.should_use_slave then
            (execute_element elem (decide_execute_it elem w).1
              (if elem.operation.should_use_slave then s else m)
              (decide_execute_it elem w).2).2.conn else s),
          some { elem with retry_count := (elem.retry_count + 1) % 2 ^ 64 }⟩ := by
  simp only [Mysql_thread.pump_front, hq, he, hr, if_false]

theorem pump_front_done (cfg : Main_config) (now : Nat) (t : Mysql_thread) (w : World)
    (m s : Connection) (elem : Operation_queue_element) (rest : List Operation_queue_element)
    (hq : t.m_queue = elem :: rest)
    (he : (execute_element elem (decide_execute_it elem w).1
        (if elem.operation.should_use_slave then s else m) (decide_execute_it elem w).2).2.except
        = none) :
    t.pump_front cfg now w m s
      = ⟨true, { t with m_queue := rest },
          settle_promise elem.operation none
            (execute_element elem (decide_execute_it elem w).1
              (if elem.operation.should_use_slave then s else m)
              (decide_execute_it elem w).2).2.world,
          some (if elem.operation.should_use_slave then m else
            (execute_element elem (decide_execute_it elem w).1
              (if elem.operation.should_use_slave then s else m)
              (decide_execute_it elem w).2).2.conn),
          some (if elem.operation.should_use_slave then
            (execute_element elem (decide_execute_it elem w).1
              (if elem.operation.should_use_slave then s else m)
              (decide_execute_it elem w).2).2.conn else s),
          some elem⟩ := by
  simp only [Mysql_thread.pump_front, hq, he]

/-! ### Saves -/

theorem save_should_use_slave (op : Operation_base) (obj : Nat) (rep : Bool)
    (hv : op.variant = .Save_operation obj rep) : op.should_use_slave = false := by
  simp [Operation_base.should_use_slave, hv]

theorem save_get_combinable_object (op : Operation_base) (obj : Nat) (rep : Bool)
    (hv : op.variant = .Save_operation obj rep) : op.get_combinable_object = some obj := by
  simp [Operation_base.get_combinable_object, hv]

theorem save_get_promise (op : Operation_base) (obj : Nat) (rep : Bool) (w : World)
    (hv : op.variant = .Save_operation obj rep) :
    op.get_promise w = w.promises op.m_weak_promise := by
  simp [Operation_base.get_promise, hv]

theorem decide_execute_it_save_null (elem : Operation_queue_element) (obj : Nat) (rep : Bool)
    (w : World) (hv : elem.operation.variant = .Save_operation obj rep)
    (hs : w.get_combined_write_stamp obj = none) : decide_execute_it elem w = (true, w) := by
  simp [decide_execute_it, save_get_combinable_object _ _ _ hv, hs]

theorem decide_execute_it_save_own (elem : Operation_queue_element) (obj : Nat) (rep : Bool)
    (w : World) (hv : elem.operation.variant = .Save_operation obj rep)
    (hs : w.get_combined_write_stamp obj = some elem.addr) :
    decide_execute_it elem w = (true, w.set_combined_write_stamp obj none) := by
  simp [decide_execute_it, save_get_combinable_object _ _ _ hv, hs]

theorem execute_element_save_error (elem : Operation_queue_element) (obj : Nat) (rep : Bool)
    (conn : Connection) (w : World) (e : Thrown)
    (hv : elem.operation.variant = .Save_operation obj rep)
    (ha : conn.answer (elem.operation.generate_sql w) = .error e) :
    execute_element elem true conn w
      = (elem.operation.generate_sql w,
          ⟨some e, conn.discard_result,
            { w with trace := w.trace ++
              [.executing_sql elem.addr elem.operation.id (elem.operation.generate_sql w),
                .execute_sql (elem.operation.generate_sql w), .discard_result] }⟩) := by
  simp [execute_element, Operation_base.execute, hv, Connection.execute_sql, ha, World.emit]

theorem execute_element_save_ok (elem : Operation_queue_element) (obj : Nat) (rep : Bool)
    (conn : Connection) (w : World) (rs : List Row)
    (hv : elem.operation.variant = .Save_operation obj rep)
    (ha : conn.answer (elem.operation.generate_sql w) = .ok rs) :
    execute_element elem true conn w
      = (elem.operation.generate_sql w,
          ⟨none, { conn with rows := [], current := none },
            { w with trace := w.trace ++
              [.executing_sql elem.addr elem.operation.id (elem.operation.generate_sql w),
                .execute_sql (elem.operation.generate_sql w), .discard_result] }⟩) := by
  simp [execute_element, Operation_base.execute, hv, Connection.execute_sql, ha, World.emit,
    Connection.discard_result]


theorem world_set_stamp_get (w : World) (obj : Nat) (st : Option Nat) :
    (w.set_combined_write_stamp obj st).get_combined_write_stamp obj = st := by
  simp [World.set_combined_write_stamp, World.get_combined_write_stamp]

theorem generate_sql_set_stamp (op : Operation_base) (w : World) (obj : Nat) (st : Option Nat) :
    op.generate_sql (w.set_combined_write_stamp obj st) = op.generate_sql w := by
  apply generate_sql_congr
  intro o
  simp only [World.set_combined_write_stamp]
  split <;> simp

theorem generate_sql_trace (op : Operation_base) (w : World) (tr : List Event) :
    op.generate_sql { w with trace := tr } = op.generate_sql w :=
  generate_sql_congr op w _ (fun _ => ⟨rfl, rfl⟩)


theorem settle_promise_trace (op : Operation_base) (ex : Option Thrown) (w : World) :
    (settle_promise op ex w).trace = w.trace := by
  unfold settle_promise
  cases op.get_promise w with
  | none => rfl
  | some p =>
    cases ex <;> cases p <;> simp [Promise.set_success, Promise.set_exception, World.set_promise]

theorem settle_promise_objects (op : Operation_base) (ex : Option Thrown) (w : World) :
    (settle_promise op ex w).objects = w.objects := by
  unfold settle_promise
  cases op.get_promise w with
  | none => rfl
  | some p =>
    cases ex <;> cases p <;> simp [Promise.set_success, Promise.set_exception, World.set_promise]

theorem settle_promise_next_addr (op : Operation_base) (ex : Option Thrown) (w : World) :
    (settle_promise op ex w).next_addr = w.next_addr := by
  unfold settle_promise
  cases op.get_promise w with
  | none => rfl
  | some p =>
    cases ex <;> cases p <;> simp [Promise.set_success, Promise.set_exception, World.set_promise]

/-- The state in which the lax setters leave a promise: a pending promise takes the
outcome, a terminal one stays as it is. -/
theorem settle_promise_promises (op : Operation_base) (ex : Option Thrown) (w : World) (i : Nat) :
    (settle_promise op ex w).promises i
      = if i = op.m_weak_promise ∧ op.get_promise w = some .pending then
          some (match ex with | some e => .failed e | none => .success)
        else w.promises i := by
  unfold settle_promise
  cases hp : op.get_promise w with
  | none => simp
  | some p =>
    have hw : op.get_promise w = w.promises op.m_weak_promise ∨ op.get_promise w = none := by
      unfold Operation_base.get_promise
      cases op.variant <;> simp
    rw [hp] at hw
    rcases hw with hw | hw
    · cases ex <;> cases p <;>
        simp [Promise.set_success, Promise.set_exception, World.set_promise] <;>
        intro h <;> rw [h, ← hw]
    · cases hw

theorem dump_sql_to_file_promises (cfg : Main_config) (a : Nat) (q : String) (c : Nat)
    (msg : String) (w : World) : (dump_sql_to_file cfg a q c msg w).promises = w.promises := by
  unfold dump_sql_to_file
  split <;> rfl


theorem add_operation_save (cfg : Main_config) (now : Nat) (op : Operation_base) (urgent : Bool)
    (t : Mysql_thread) (w : World) (obj : Nat) (rep : Bool) (hrun : t.m_running = true)
    (hv : op.variant = .Save_operation obj rep) :
    (t.add_operation cfg now op urgent w).except = none
      ∧ (t.add_operation cfg now op urgent w).thread
          = { t with
              m_urgent := if urgent then true else t.m_urgent
              m_queue := t.m_queue ++
                [⟨w.next_addr, op, saturated_add 64 now cfg.mysql_save_delay, 0⟩] }
      ∧ (t.add_operation cfg now op urgent w).world.next_addr = w.next_addr + 1
      ∧ (t.add_operation cfg now op urgent w).world.trace = w.trace
      ∧ (t.add_operation cfg now op urgent w).world.promises = w.promises
      ∧ (t.add_operation cfg now op urgent w).world.get_combined_write_stamp obj
          = (match w.get_combined_write_stamp obj with
              | none => some w.next_addr
              | some a => some a)
      ∧ (∀ o, ((t.add_operation cfg now op urgent w).world.objects o).table = (w.objects o).table
          ∧ ((t.add_operation cfg now op urgent w).world.objects o).columns
              = (w.objects o).columns) := by
  simp only [Mysql_thread.add_operation, hrun, save_get_combinable_object _ _ _ hv]
  cases hs : w.get_combined_write_stamp obj with
  | none =>
    have : World.get_combined_write_stamp ({ w with next_addr := w.next_addr + 1 } : World) obj = none := hs
    simp only [this]
    simp [World.set_combined_write_stamp, World.get_combined_write_stamp]
    intro o
    split <;> simp
  | some a =>
    have : World.get_combined_write_stamp ({ w with next_addr := w.next_addr + 1 } : World) obj = some a := hs
    simp only [this]
    simp [World.get_combined_write_stamp] at hs ⊢
    exact hs

theorem executed_elems_congr (w w1 : World) (es : List Operation_queue_element)
    (h : ∀ o, (w1.objects o).table = (w.objects o).table
      ∧ (w1.objects o).columns = (w.objects o).columns) :
    executed_elems w1 es = executed_elems w es := by
  induction es with
  | nil => rfl
  | cons e es ih => simp only [executed_elems, ih, generate_sql_congr _ w w1 h]

theorem executed_elems_queued (cfg : Main_config) (w : World) (a : Nat) (reqs : List Enqueue_request) :
    executed_elems w (queued_elements cfg a reqs) = executed_in_turn w a reqs := by
  induction reqs generalizing a with
  | nil => rfl
  | cons r rs ih => simp only [queued_elements, executed_elems, executed_in_turn, ih]

theorem steps_cons (cfg : Main_config) (s : Thread_run) (x : Thread_step) (xs : List Thread_step) :
    Thread_run.steps cfg s (x :: xs) = Thread_run.steps cfg (Thread_run.step cfg s x) xs := rfl

theorem steps_nil (cfg : Main_config) (s : Thread_run) : Thread_run.steps cfg s [] = s := rfl

/-- Enqueueing saves of one object on a running worker appends one element per request,
at consecutive fresh addresses, and sets the stamp only if it was null. -/
theorem steps_add_saves (cfg : Main_config) (obj : Nat) (reqs : List Enqueue_request)
    (s : Thread_run) (hrun : s.thread.m_running = true)
    (hsave : ∀ r ∈ reqs, ∃ rep, r.operation.variant = .Save_operation obj rep) :
    (Thread_run.steps cfg s (reqs.map Enqueue_request.step)).thread.m_queue
        = s.thread.m_queue ++ queued_elements cfg s.world.next_addr reqs
      ∧ (Thread_run.steps cfg s (reqs.map Enqueue_request.step)).world.trace = s.world.trace
      ∧ (Thread_run.steps cfg s (reqs.map Enqueue_request.step)).world.promises = s.world.promises
      ∧ ((Thread_run.steps cfg s (reqs.map Enqueue_request.step)).world.get_combined_write_stamp obj
          = match s.world.get_combined_write_stamp obj with
            | some a => some a
            | none => reqs.head?.map (fun _ => s.world.next_addr))
      ∧ (∀ o, ((Thread_run.steps cfg s (reqs.map Enqueue_request.step)).world.objects o).table
            = (s.world.objects o).table
          ∧ ((Thread_run.steps cfg s (reqs.map Enqueue_request.step)).world.objects o).columns
            = (s.world.objects o).columns)
      ∧ (Thread_run.steps cfg s (reqs.map Enqueue_request.step)).added
          = s.added ++ (queued_elements cfg s.world.next_addr reqs).map (fun e => e.addr)
      ∧ (Thread_run.steps cfg s (reqs.map Enqueue_request.step)).removed = s.removed := by
  induction reqs generalizing s with
  | nil =>
    refine ⟨by simp [steps_nil, queued_elements], rfl, rfl, ?_, fun o => ⟨rfl, rfl⟩,
      by simp [steps_nil, queued_elements], rfl⟩
    simp only [List.map_nil, steps_nil]
    cases s.world.get_combined_write_stamp obj <;> rfl
  | cons r rs ih =>
    obtain ⟨rep, hv⟩ := hsave r (List.mem_cons_self _ _)
    obtain ⟨h1, h2, h3, h4, h5, h6, h7⟩ :=
      add_operation_save cfg r.now r.operation r.urgent s.thread s.world obj rep hrun hv
    have hstep : Thread_run.step cfg s r.step
        = ⟨(s.thread.add_operation cfg r.now r.operation r.urgent s.world).thread,
            (s.thread.add_operation cfg r.now r.operation r.urgent s.world).world,
            s.added ++ [s.world.next_addr], s.removed⟩ := by
      simp only [Thread_run.step, Enqueue_request.step, h2]
      simp
    have hrun1 : (Thread_run.step cfg s r.step).thread.m_running = true := by
      rw [hstep]; simp only []; rw [h2]; exact hrun
    obtain ⟨i1, i2, i3, i4, i5, i6, i7⟩ := ih (Thread_run.step cfg s r.step) hrun1
      (fun x hx => hsave x (List.mem_cons_of_mem _ hx))
    simp only [List.map_cons, steps_cons]
    rw [hstep] at i1 i2 i3 i4 i5 i6 i7 ⊢
    simp only [] at i1 i2 i3 i4 i5 i6 i7
    refine ⟨?_, ?_, ?_, ?_, ?_, ?_, ?_⟩
    · rw [i1, h2, h3]; simp [queued_elements]
    · rw [i2, h4]
    · rw [i3, h5]
    · rw [i4, h6]
      cases s.world.get_combined_write_stamp obj <;> rfl
    · intro o
      rw [(i5 o).1, (i5 o).2]
      exact h7 o
    · rw [i6, h3]; simp [queued_elements]
    · rw [i7]

/-- One pump of a worker whose front element is a save that is executed (the stamp of its
object is null or its own address) on a connection that accepts the statement. -/
theorem pump_save_ok (cfg : Main_config) (obj : Nat) (t : Mysql_thread) (w : World)
    (e : Operation_queue_element) (rest : List Operation_queue_element) (p : Pump_request)
    (rep : Bool) (hq : t.m_queue = e :: rest)
    (hv : e.operation.variant = .Save_operation obj rep)
    (hs : w.get_combined_write_stamp obj = none ∨ w.get_combined_write_stamp obj = some e.addr)
    (hd : t.m_urgent = true ∨ e.due_time ≤ p.now)
    (ha : ∀ q, ∃ rs, p.master_conn.answer q = .ok rs) :
    (t.pump_one_operation cfg p.now w p.master_conn p.slave_conn).result = true
      ∧ (t.pump_one_operation cfg p.now w p.master_conn p.slave_conn).thread
          = { t with m_queue := rest }
      ∧ (t.pump_one_operation cfg p.now w p.master_conn p.slave_conn).popped = some e
      ∧ (t.pump_one_operation cfg p.now w p.master_conn p.slave_conn).world.trace
          = w.trace ++ [.executing_sql e.addr e.operation.id (e.operation.generate_sql w),
              .execute_sql (e.operation.generate_sql w), .discard_result]
      ∧ (t.pump_one_operation cfg p.now w p.master_conn p.slave_conn).world.get_combined_write_stamp
          obj = none
      ∧ (∀ o, ((t.pump_one_operation cfg p.now w p.master_conn p.slave_conn).world.objects o).table
            = (w.objects o).table
          ∧ ((t.pump_one_operation cfg p.now w p.master_conn p.slave_conn).world.objects o).columns
            = (w.objects o).columns)
      ∧ (∀ i, (t.pump_one_operation cfg p.now w p.master_conn p.slave_conn).world.promises i
          = if i = e.operation.m_weak_promise then (w.promises i).map Promise.fulfilled
            else w.promises i) := by
  have hslave := save_should_use_slave _ _ _ hv
  obtain ⟨w1, hw1, hw1s, hw1p, hw1t, hw1g, hw1o⟩ : ∃ w1, decide_execute_it e w = (true, w1)
      ∧ w1.get_combined_write_stamp obj = none ∧ w1.promises = w.promises
      ∧ w1.trace = w.trace ∧ e.operation.generate_sql w1 = e.operation.generate_sql w
      ∧ (∀ o, (w1.objects o).table = (w.objects o).table
          ∧ (w1.objects o).columns = (w.objects o).columns) := by
    rcases hs with hs | hs
    · exact ⟨w, decide_execute_it_save_null _ _ _ _ hv hs, hs, rfl, rfl, rfl, fun _ => ⟨rfl, rfl⟩⟩
    · refine ⟨_, decide_execute_it_save_own _ _ _ _ hv hs, world_set_stamp_get _ _ _, rfl, rfl,
        generate_sql_set_stamp _ _ _ _, ?_⟩
      intro o
      simp only [World.set_combined_write_stamp]
      split <;> simp
  obtain ⟨rs, hrs⟩ := ha (e.operation.generate_sql w1)
  have hex := execute_element_save_ok e obj rep p.master_conn w1 rs hv hrs
  have hp : t.pump_one_operation cfg p.now w p.master_conn p.slave_conn = _ :=
    pump_one_operation_due cfg p.now t w p.master_conn p.slave_conn e rest hq hd
  rw [pump_front_done cfg p.now t w p.master_conn p.slave_conn e rest hq
    (by rw [hw1]; simp only []; rw [hslave]; simp [hex])] at hp
  rw [hw1] at hp
  simp only [] at hp
  rw [hslave] at hp
  simp only [hex, Bool.false_eq_true, if_false, hw1g] at hp
  rw [hp]
  refine ⟨rfl, rfl, rfl, ?_, ?_, ?_, ?_⟩
  · simp only [settle_promise_trace, hw1t]
  · simp only [World.get_combined_write_stamp, settle_promise_objects]
    exact hw1s
  · intro o
    simp only [settle_promise_objects]
    exact hw1o o
  · intro i
    rw [settle_promise_promises, save_get_promise _ _ _ _ hv]
    simp only [hw1p]
    by_cases hi : i = e.operation.m_weak_promise
    · subst hi
      cases hpi : w.promises e.operation.m_weak_promise with
      | none => simp
      | some pr => cases pr <;> simp [Promise.fulfilled]
    · simp [hi]

/-- C4 (amended). With max_retry_count = 2 and retry_init_delay = 10, a Save whose
execution fails every time is retried once: the first failure leaves it at the head of
the queue with retry count 1 and due time now + 20, the promise untouched and nothing
dumped; a worker that is not urgent does not touch it before that due time; and the
second failure dumps the statement, fails the promise and removes the entry. -/
theorem retry_scenario (cfg : Main_config) (t : Mysql_thread) (w : World)
    (elem : Operation_queue_element) (rest : List Operation_queue_element) (obj : Nat)
    (rep : Bool) (now1 now2 : Nat) (m1 s1 m2 s2 : Connection) (e1 e2 : Thrown)
    (hmax : cfg.mysql_max_retry_count = 2) (hdelay : cfg.mysql_retry_init_delay = 10)
    (hdir : cfg.mysql_dump_dir ≠ "")
    (hq : t.m_queue = elem :: rest) (hv : elem.operation.variant = .Save_operation obj rep)
    (hr : elem.retry_count = 0)
    (hs : w.get_combined_write_stamp obj = none ∨ w.get_combined_write_stamp obj = some elem.addr)
    (hu : t.m_urgent = false) (hdue : elem.due_time ≤ now1) (hnow : now1 + 20 < 2 ^ 64)
    (h1 : ∀ q, m1.answer q = .error e1) (h2 : ∀ q, m2.answer q = .error e2)
    (hlate : now1 + 20 ≤ now2) :
    let p1 := t.pump_one_operation cfg now1 w m1 s1
    let p2 := p1.thread.pump_one_operation cfg now2 p1.world m2 s2
    let sql := elem.operation.generate_sql w
    (p1.result = true
      ∧ p1.thread = { t with m_queue := { elem with retry_count := 1, due_time := now1 + 20 } :: rest }
      ∧ p1.popped = none
      ∧ p1.world.promises = w.promises
      ∧ p1.world.trace = w.trace ++ [.executing_sql elem.addr elem.operation.id sql,
          .execute_sql sql, .discard_result, .going_to_retry elem.addr 1])
    ∧ (∀ now m s, now < now1 + 20 →
        (p1.thread.pump_one_operation cfg now p1.world m s).result = false
          ∧ (p1.thread.pump_one_operation cfg now p1.world m s).thread = p1.thread
          ∧ (p1.thread.pump_one_operation cfg now p1.world m s).world.trace = p1.world.trace)
    ∧ (p2.result = true
      ∧ p2.thread = { t with m_queue := rest }
      ∧ p2.popped = some { elem with retry_count := 2, due_time := now1 + 20 }
      ∧ p2.world.trace = p1.world.trace ++ [.executing_sql elem.addr elem.operation.id sql,
          .execute_sql sql, .discard_result,
          .dump_sql elem.addr (sql ++ ";") e2.err_code e2.err_msg]
      ∧ (w.promises elem.operation.m_weak_promise = some .pending →
          p2.world.promises elem.operation.m_weak_promise = some (.failed e2))) := by
  intro p1 p2 sql
  have hne := save_generate_sql_ne_empty elem.operation obj rep w hv
  have hslave := save_should_use_slave _ _ _ hv
  -- the world in which the statement is executed
  obtain ⟨w1, hw1, hw1s, hw1p, hw1t, hw1g⟩ : ∃ w1, decide_execute_it elem w = (true, w1)
      ∧ w1.get_combined_write_stamp obj = none ∧ w1.promises = w.promises
      ∧ w1.trace = w.trace ∧ elem.operation.generate_sql w1 = sql := by
    rcases hs with hs | hs
    · exact ⟨w, decide_execute_it_save_null _ _ _ _ hv hs, hs, rfl, rfl, rfl⟩
    · exact ⟨_, decide_execute_it_save_own _ _ _ _ hv hs, world_set_stamp_get _ _ _, rfl, rfl,
        generate_sql_set_stamp _ _ _ _⟩
  have hrc : (elem.retry_count + 1) % 2 ^ 64 = 1 := by rw [hr]; norm_num
  have hdt : retry_due_time cfg now1 1 = now1 + 20 := by
    unfold retry_due_time
    rw [retry_shift_of_lt cfg 1 (by decide), hdelay]
    norm_num
    simpa using hnow
  have hp1 : p1 = ⟨true,
      { t with m_queue := { elem with retry_count := 1, due_time := now1 + 20 } :: rest },
      { w1 with trace := w1.trace ++ [.executing_sql elem.addr elem.operation.id sql,
          .execute_sql sql, .discard_result, .going_to_retry elem.addr 1] },
      none, some s1, none⟩ := by
    show t.pump_one_operation cfg now1 w m1 s1 = _
    rw [pump_one_operation_due cfg now1 t w m1 s1 elem rest hq (Or.inr hdue)]
    have hex := execute_element_save_error elem obj rep m1 w1 e1 hv (h1 _)
    rw [pump_front_retry cfg now1 t w m1 s1 elem rest e1 hq
      (by rw [hw1, hslave]; simp [hex]) (by rw [hrc, hmax]; norm_num)]
    rw [hw1, hslave, hrc, hdt]
    simp [hex, World.emit, hw1g]
  have hth : p1.thread
      = { t with m_queue := { elem with retry_count := 1, due_time := now1 + 20 } :: rest } := by
    rw [hp1]
  have hq2 : p1.thread.m_queue
      = { elem with retry_count := 1, due_time := now1 + 20 } :: rest := by rw [hp1]
  have hu2 : p1.thread.m_urgent = false := by rw [hp1]; exact hu
  have hs2 : p1.world.get_combined_write_stamp obj = none := by rw [hp1]; exact hw1s
  have hg2 : elem.operation.generate_sql p1.world = sql := by
    rw [hp1]; simp only []; rw [generate_sql_trace]; exact hw1g
  have hpr2 : p1.world.promises = w.promises := by rw [hp1]; exact hw1p
  have htr2 : p1.world.trace = w.trace ++ [.executing_sql elem.addr elem.operation.id sql,
          .execute_sql sql, .discard_result, .going_to_retry elem.addr 1] := by
    rw [hp1]; simp only []; rw [hw1t]
  refine ⟨⟨by rw [hp1], hth, by rw [hp1], hpr2, htr2⟩, ?_, ?_⟩
  · intro now m s hnow2
    rw [pump_one_operation_not_due cfg now p1.thread p1.world m s _ rest hq2 hu2
      (by simpa using hnow2)]
    exact ⟨rfl, rfl, rfl⟩
  · -- the second attempt
    have hd2 := decide_execute_it_save_null
      { elem with retry_count := 1, due_time := now1 + 20 } obj rep p1.world hv hs2
    have hex := execute_element_save_error { elem with retry_count := 1, due_time := now1 + 20 }
      obj rep m2 p1.world e2 hv (h2 _)
    have hp2 : p2 = _ := pump_one_operation_due cfg now2 p1.thread p1.world m2 s2 _ rest hq2
      (Or.inr hlate)
    rw [pump_front_dump cfg now2 _ _ m2 s2 _ rest e2 hq2
      (by rw [hd2]; simp only []; rw [hslave]; simp [hex])
      (by simp [hmax])] at hp2
    rw [hd2] at hp2
    simp only [] at hp2
    rw [hslave] at hp2
    simp only [hex, Bool.false_eq_true, if_false, hg2] at hp2
    have hsqlne : sql ≠ "" := hne
    refine ⟨by rw [hp2], ?_, by rw [hp2]; norm_num, ?_, ?_⟩
    · rw [hp2, hth]
    · rw [hp2]
      simp only [settle_promise_trace]
      simp [dump_sql_to_file, hdir, hsqlne, World.emit]
    · intro hpend
      rw [hp2]
      simp only [settle_promise_promises]
      rw [if_pos]
      refine ⟨trivial, ?_⟩
      rw [save_get_promise _ _ _ _ hv, dump_sql_to_file_promises]
      simp only []
      rw [hpr2, hpend]

/-- C8 (amended). A Load operation with a live promise whose statement the server answers
with a result set calls object.fetch exactly when the result set has at least one row,
once and with the first row, however many rows follow; the outcome of the operation is
then the outcome of fetch, so the operation succeeds exactly when there is a row and
fetch does not throw. With no row it fails with the no-data error and does not call
fetch. -/
theorem load_operation_row_count (op : Operation_base) (obj : Nat) (q : String) (w : World)
    (conn : Connection) (query : String) (rows : List Row) (pr : Promise)
    (hv : op.variant = .Load_operation obj q)
    (hp : w.promises op.m_weak_promise = some pr)
    (ha : conn.answer query = .ok rows) :
    ((op.execute conn query w).except = none
        ↔ ∃ row rest, rows = row :: rest ∧ w.fetches obj row = none)
      ∧ (∀ row rest, rows = row :: rest →
          (op.execute conn query w).except = w.fetches obj row
            ∧ (op.execute conn query w).world.trace
                = w.trace ++ [.execute_sql query, .fetch obj row])
      ∧ (rows = [] →
          (op.execute conn query w).except
              = some (.mysql_exception ER_SP_FETCH_NO_DATA "No rows returned")
            ∧ (op.execute conn query w).world.trace = w.trace ++ [.execute_sql query]) := by
  cases rows with
  | nil =>
    simp [Operation_base.execute, Operation_base.get_promise, hv, hp, ha,
      Connection.execute_sql, Connection.fetch_row, World.emit]
  | cons r rs =>
    simp [Operation_base.execute, Operation_base.get_promise, hv, hp, ha,
      Connection.execute_sql, Connection.fetch_row, World.emit]


/-- Pumping a queue of saves of one object, none of them stale, each on a connection that
accepts its statement and not before it is due: every one of them is executed, in
queue order, and removed. -/
theorem steps_pump_saves (cfg : Main_config) (obj : Nat) (es : List Operation_queue_element)
    (pumps : List Pump_request) (s : Thread_run)
    (hq : s.thread.m_queue = es)
    (hsave : ∀ e ∈ es, ∃ rep, e.operation.variant = .Save_operation obj rep)
    (hs : s.world.get_combined_write_stamp obj = none
      ∨ s.world.get_combined_write_stamp obj = es.head?.map (fun e => e.addr))
    (hp : List.Forall₂ (fun e p => e.due_time ≤ p.now
      ∧ ∀ q, ∃ rs, p.master_conn.answer q = .ok rs) es pumps) :
    (Thread_run.steps cfg s (pumps.map Pump_request.step)).thread
        = { s.thread with m_queue := [] }
      ∧ (Thread_run.steps cfg s (pumps.map Pump_request.step)).world.trace
          = s.world.trace ++ executed_elems s.world es
      ∧ (Thread_run.steps cfg s (pumps.map Pump_request.step)).removed
          = s.removed ++ es.map (fun e => e.addr)
      ∧ (Thread_run.steps cfg s (pumps.map Pump_request.step)).added = s.added
      ∧ (∀ i, (Thread_run.steps cfg s (pumps.map Pump_request.step)).world.promises i
          = if i ∈ es.map (fun e => e.operation.m_weak_promise) then
              (s.world.promises i).map Promise.fulfilled
            else s.world.promises i) := by
  induction hp generalizing s with
  | nil =>
    simp only [List.map_nil, steps_nil, executed_elems, List.append_nil, List.not_mem_nil,
      if_false, implies_true, and_true]
    rw [← hq]
  | @cons e p es ps hep _ ih =>
    obtain ⟨rep, hv⟩ := hsave e (List.mem_cons_self _ _)
    have hs1 : s.world.get_combined_write_stamp obj = none
        ∨ s.world.get_combined_write_stamp obj = some e.addr := by
      simpa using hs
    obtain ⟨_, h2, h3, h4, h5, h6, h7⟩ := pump_save_ok cfg obj s.thread s.world e es p rep hq hv hs1
      (Or.inr hep.1) hep.2
    have hstep : Thread_run.step cfg s p.step
        = ⟨(s.thread.pump_one_operation cfg p.now s.world p.master_conn p.slave_conn).thread,
            (s.thread.pump_one_operation cfg p.now s.world p.master_conn p.slave_conn).world,
            s.added, s.removed ++ [e.addr]⟩ := by
      simp only [Thread_run.step, Pump_request.step, h3]
      simp
    obtain ⟨i1, i2, i3, i4, i5⟩ := ih (Thread_run.step cfg s p.step)
      (by rw [hstep]; simp only []; rw [h2])
      (fun x hx => hsave x (List.mem_cons_of_mem _ hx))
      (by rw [hstep]; simp only []; exact Or.inl h5)
    simp only [List.map_cons, steps_cons]
    rw [hstep] at i1 i2 i3 i4 i5 ⊢
    simp only [] at i1 i2 i3 i4 i5
    refine ⟨?_, ?_, ?_, ?_, ?_⟩
    · rw [i1, h2]
    · rw [i2, h4, executed_elems_congr _ _ _ h6]
      simp [executed_elems]
    · rw [i3]; simp
    · rw [i4]
    · intro i
      rw [i5 i, h7 i]
      by_cases hi : i = e.operation.m_weak_promise
      · subst hi
        simp only [List.mem_cons, true_or, if_true]
        have hidem : ∀ x : Option Promise,
            Option.map Promise.fulfilled (Option.map Promise.fulfilled x)
              = Option.map Promise.fulfilled x := by
          intro x
          cases x with
          | none => rfl
          | some pr => cases pr <;> rfl
        split
        · exact hidem _
        · rfl
      · simp [hi]

theorem forall₂_queued_elements (cfg : Main_config) (R : Enqueue_request → Pump_request → Prop)
    (Q : Nat → Pump_request → Prop)
    (hRQ : ∀ r p, R r p → Q (saturated_add 64 r.now cfg.mysql_save_delay) p)
    (reqs : List Enqueue_request) (pumps : List Pump_request) (a : Nat)
    (h : List.Forall₂ R reqs pumps) :
    List.Forall₂ (fun e p => Q e.due_time p) (queued_elements cfg a reqs) pumps := by
  induction h generalizing a with
  | nil => exact List.Forall₂.nil
  | cons hrp _ ih => exact List.Forall₂.cons (hRQ _ _ hrp) (ih (a + 1))

theorem queued_elements_operation (cfg : Main_config) (a : Nat) (reqs : List Enqueue_request) :
    (queued_elements cfg a reqs).map (fun e => e.operation) = reqs.map (fun r => r.operation) := by
  induction reqs generalizing a with
  | nil => rfl
  | cons r rs ih => simp [queued_elements, ih]

/-- The simplest case in full. When Saves of one object are enqueued on a running worker
with an empty queue and no stamp for the object, the stamp of the object holds the
address of the first of them; pumping the queue until it is empty, with each statement
accepted by the server, then executes the SQL of every one of them, in enqueue order,
removes them in that order, and sets every promise that was pending to success. -/
theorem saves_on_empty_queue (cfg : Main_config) (obj : Nat) (t : Mysql_thread)
    (w : World) (reqs : List Enqueue_request) (pumps : List Pump_request)
    (hrun : t.m_running = true) (hq : t.m_queue = [])
    (hs : w.get_combined_write_stamp obj = none) (hne : reqs ≠ [])
    (hsave : ∀ r ∈ reqs, ∃ rep, r.operation.variant = .Save_operation obj rep)
    (hp : List.Forall₂ (fun r p => saturated_add 64 r.now cfg.mysql_save_delay ≤ p.now
      ∧ ∀ q, ∃ rs, p.master_conn.answer q = .ok rs) reqs pumps) :
    let s1 := Thread_run.steps cfg ⟨t, w, [], []⟩ (reqs.map Enqueue_request.step)
    let s2 := Thread_run.steps cfg s1 (pumps.map Pump_request.step)
    s1.thread.m_queue.map (fun e => e.operation) = reqs.map (fun r => r.operation)
      ∧ s1.world.get_combined_write_stamp obj = some w.next_addr
      ∧ s1.thread.m_queue.head?.map (fun e => e.addr) = some w.next_addr
      ∧ s2.thread.m_queue = []
      ∧ s2.world.trace = w.trace ++ executed_in_turn w w.next_addr reqs
      ∧ s2.removed = s2.added
      ∧ (∀ r ∈ reqs, w.promises r.operation.m_weak_promise = some .pending →
          s2.world.promises r.operation.m_weak_promise = some .success) := by
  intro s1 s2
  obtain ⟨a1, a2, a3, a4, a5, a6, a7⟩ := steps_add_saves cfg obj reqs ⟨t, w, [], []⟩ hrun hsave
  simp only [hq, List.nil_append, hs] at a1 a2 a3 a4 a5 a6 a7
  have hsave2 : ∀ e ∈ queued_elements cfg w.next_addr reqs,
      ∃ rep, e.operation.variant = .Save_operation obj rep := by
    intro e he
    have : e.operation ∈ (queued_elements cfg w.next_addr reqs).map (fun e => e.operation) :=
      List.mem_map_of_mem _ he
    rw [queued_elements_operation] at this
    obtain ⟨r, hr, hre⟩ := List.mem_map.1 this
    rw [← hre]
    exact hsave r hr
  have hstamp : s1.world.get_combined_write_stamp obj = some w.next_addr := by
    show (Thread_run.steps cfg ⟨t, w, [], []⟩ (reqs.map Enqueue_request.step)).world.get_combined_write_stamp obj = _
    rw [a4]
    cases reqs with
    | nil => exact absurd rfl hne
    | cons r rs => rfl
  have hhead : (queued_elements cfg w.next_addr reqs).head?.map (fun e => e.addr)
      = some w.next_addr := by
    cases reqs with
    | nil => exact absurd rfl hne
    | cons r rs => rfl
  obtain ⟨b1, b2, b3, b4, b5⟩ := steps_pump_saves cfg obj (queued_elements cfg w.next_addr reqs)
    pumps s1 a1 hsave2 (Or.inr (by rw [hstamp, hhead]))
    (forall₂_queued_elements cfg _ (fun d p => d ≤ p.now
      ∧ ∀ q, ∃ rs, p.master_conn.answer q = .ok rs) (fun _ _ h => h) reqs pumps w.next_addr hp)
  refine ⟨?_, hstamp, ?_, ?_, ?_, ?_, ?_⟩
  · show (Thread_run.steps cfg ⟨t, w, [], []⟩ (reqs.map Enqueue_request.step)).thread.m_queue.map _ = _
    rw [a1, queued_elements_operation]
  · show (Thread_run.steps cfg ⟨t, w, [], []⟩ (reqs.map Enqueue_request.step)).thread.m_queue.head?.map _ = _
    rw [a1, hhead]
  · show (Thread_run.steps cfg s1 (pumps.map Pump_request.step)).thread.m_queue = []
    rw [b1]
  · show (Thread_run.steps cfg s1 (pumps.map Pump_request.step)).world.trace = _
    rw [b2]
    show (Thread_run.steps cfg ⟨t, w, [], []⟩ (reqs.map Enqueue_request.step)).world.trace
      ++ executed_elems (Thread_run.steps cfg ⟨t, w, [], []⟩ (reqs.map Enqueue_request.step)).world _ = _
    rw [a2, executed_elems_congr _ _ _ a5, executed_elems_queued]
  · show (Thread_run.steps cfg s1 (pumps.map Pump_request.step)).removed
      = (Thread_run.steps cfg s1 (pumps.map Pump_request.step)).added
    rw [b3, b4]
    show (Thread_run.steps cfg ⟨t, w, [], []⟩ (reqs.map Enqueue_request.step)).removed ++ _
      = (Thread_run.steps cfg ⟨t, w, [], []⟩ (reqs.map Enqueue_request.step)).added
    rw [a6, a7]
    rfl
  · intro r hr hpend
    show (Thread_run.steps cfg s1 (pumps.map Pump_request.step)).world.promises _ = _
    rw [b5]
    have hmem : r.operation.m_weak_promise
        ∈ (queued_elements cfg w.next_addr reqs).map (fun e => e.operation.m_weak_promise) := by
      have : (queued_elements cfg w.next_addr reqs).map (fun e => e.operation.m_weak_promise)
          = ((queued_elements cfg w.next_addr reqs).map (fun e => e.operation)).map
              (fun o => o.m_weak_promise) := by simp
      rw [this, queued_elements_operation]
      simp only [List.map_map]
      exact List.mem_map_of_mem (fun r => r.operation.m_weak_promise) hr
    rw [if_pos hmem]
    show Option.map Promise.fulfilled
      ((Thread_run.steps cfg ⟨t, w, [], []⟩ (reqs.map Enqueue_request.step)).world.promises _) = _
    rw [a3, hpend]
    rfl

/-- C4 (counterexample). With max_retry_count = 2 and retry_init_delay = 10 a failing
Save is retried once, due 20 ticks after the first attempt, and its second failure
already dumps the statement and fails the promise. -/
theorem second_failure_dumps :
    scenario_config.mysql_max_retry_count = 2 ∧ scenario_config.mysql_retry_init_delay = 10
      ∧ scenario_first_failure.thread.m_queue = [⟨100, scenario_save 1, 5020, 1⟩]
      ∧ scenario_second_failure.thread.m_queue = []
      ∧ scenario_second_failure.world.trace
        = [.executing_sql 100 1 "REPLACE INTO `t1` SET `id`=1, `v`='C'",
            .execute_sql "REPLACE INTO `t1` SET `id`=1, `v`='C'", .discard_result,
            .going_to_retry 100 1,
            .executing_sql 100 1 "REPLACE INTO `t1` SET `id`=1, `v`='C'",
            .execute_sql "REPLACE INTO `t1` SET `id`=1, `v`='C'", .discard_result,
            .dump_sql 100 "REPLACE INTO `t1` SET `id`=1, `v`='C';" 2006
              "Mysql::Exception: MySQL server has gone away"]
      ∧ scenario_second_failure.world.promises 1
        = some (.failed (.mysql_exception 2006 "MySQL server has gone away")) := by
  decide

/-- C8 (counterexample). A Load whose statement returns two rows succeeds and hands the
first row to object.fetch. -/
theorem load_two_rows_succeeds :
    two_row_conn.answer "SELECT 1" = .ok ["r1", "r2"]
      ∧ (scenario_load.execute two_row_conn "SELECT 1" scenario_world).except = none
      ∧ (scenario_load.execute two_row_conn "SELECT 1" scenario_world).world.trace
          = [.execute_sql "SELECT 1", .fetch 7 "r1"] :=
  ⟨rfl, by decide, by decide⟩

/-- The simplest case at the scenario of three saves. -/
theorem saves_on_empty_queue_scenario :
    Mysql_thread.new.start.m_running = true
      ∧ scenario_world.get_combined_write_stamp 7 = none
      ∧ scenario_coalescing.world.trace
          = scenario_world.trace ++ executed_in_turn scenario_world 100 scenario_requests
      ∧ scenario_coalescing.removed = scenario_coalescing.added
      ∧ (∀ r ∈ scenario_requests,
          scenario_world.promises r.operation.m_weak_promise = some .pending →
            scenario_coalescing.world.promises r.operation.m_weak_promise = some .success) :=
  have h := saves_on_empty_queue scenario_config 7 Mysql_thread.new.start
    scenario_world scenario_requests scenario_pumps rfl rfl rfl (List.cons_ne_nil _ _)
    (by
      intro r hr
      simp only [scenario_requests, List.mem_cons, List.mem_singleton, List.not_mem_nil,
        or_false] at hr
      rcases hr with h | h | h <;> subst h <;> exact ⟨true, rfl⟩)
    (List.Forall₂.cons ⟨by decide, fun _ => ⟨[], rfl⟩⟩
      (List.Forall₂.cons ⟨by decide, fun _ => ⟨[], rfl⟩⟩
        (List.Forall₂.cons ⟨by decide, fun _ => ⟨[], rfl⟩⟩ List.Forall₂.nil)))
  ⟨rfl, rfl, h.2.2.2.2.1, h.2.2.2.2.2.1, h.2.2.2.2.2.2⟩

/-- C4 (witness). The amended statement at the scenario of one failing save. -/
theorem retry_scenario_witness :
    scenario_config.mysql_max_retry_count = 2 ∧ scenario_config.mysql_retry_init_delay = 10
      ∧ scenario_first_failure.thread.m_queue = [⟨100, scenario_save 1, 5020, 1⟩]
      ∧ scenario_first_failure.popped = none
      ∧ scenario_second_failure.thread.m_queue = []
      ∧ scenario_second_failure.world.promises 1
          = some (.failed (.mysql_exception 2006 "MySQL server has gone away")) :=
  have h := retry_scenario scenario_config scenario_thread scenario_world
    ⟨100, scenario_save 1, 5000, 0⟩ [] 7 true 5000 5020 failing_conn failing_conn failing_conn
    failing_conn (.mysql_exception 2006 "MySQL server has gone away")
    (.mysql_exception 2006 "MySQL server has gone away") rfl rfl (by decide) rfl rfl rfl
    (Or.inl rfl) rfl (by decide) (by decide) (fun _ => rfl) (fun _ => rfl) (by decide)
  ⟨rfl, rfl, congrArg Mysql_thread.m_queue h.1.2.1, h.1.2.2.1,
    congrArg Mysql_thread.m_queue h.2.2.2.1, h.2.2.2.2.2.2 rfl⟩

/-- C8 (witness). The amended statement at a load that returns two rows. -/
theorem load_operation_row_count_witness :
    scenario_load.variant = .Load_operation 7 "SELECT 1"
      ∧ scenario_world.promises scenario_load.m_weak_promise = some .pending
      ∧ two_row_conn.answer "SELECT 1" = .ok ["r1", "r2"]
      ∧ ((scenario_load.execute two_row_conn "SELECT 1" scenario_world).except = none
          ↔ ∃ row rest, ["r1", "r2"] = row :: rest ∧ scenario_world.fetches 7 row = none) :=
  ⟨rfl, rfl, rfl, (load_operation_row_count scenario_load 7 "SELECT 1" scenario_world two_row_conn
    "SELECT 1" ["r1", "r2"] .pending rfl rfl rfl).1⟩

/-! ### What a pump appends to the trace -/

theorem trace_extends_refl (a : Option Nat) (w : World) : Trace_extends a w w :=
  ⟨rfl, [], by simp, by simp⟩

theorem trace_extends_trans {a : Option Nat} {w w1 w2 : World} (h1 : Trace_extends a w w1)
    (h2 : Trace_extends a w1 w2) : Trace_extends a w w2 := by
  obtain ⟨n1, e1, t1, p1⟩ := h1
  obtain ⟨n2, e2, t2, p2⟩ := h2
  refine ⟨n2.trans n1, e1 ++ e2, by rw [t2, t1, List.append_assoc], ?_⟩
  intro ev hev
  rcases List.mem_append.1 hev with h | h
  · exact p1 ev h
  · exact p2 ev h

theorem trace_extends_emit (a : Option Nat) (w : World) (ev : Event)
    (h : ∀ b, ev.elem? = some b → a = some b) : Trace_extends a w (w.emit ev) :=
  ⟨rfl, [ev], rfl, by simpa using h⟩

theorem trace_extends_of_eq (a : Option Nat) (w w1 : World) (h1 : w1.next_addr = w.next_addr)
    (h2 : w1.trace = w.trace) : Trace_extends a w w1 :=
  ⟨h1, [], by simpa using h2, by simp⟩

theorem batch_load_loop_extends (a : Option Nat) (cb : Nat) (rows : List Row) (conn : Connection)
    (w : World) : Trace_extends a w (batch_load_loop cb conn w rows).world := by
  induction rows generalizing conn w with
  | nil => exact trace_extends_refl a w
  | cons r rs ih =>
    unfold batch_load_loop
    have h1 : Trace_extends a w (w.emit (.callback cb (some r))) :=
      trace_extends_emit a w _ (by simp [Event.elem?])
    simp only []
    split
    · exact h1
    · exact trace_extends_trans h1 (ih _ _)

theorem execute_extends (a : Option Nat) (op : Operation_base) (conn : Connection) (q : String)
    (w : World) : Trace_extends a w (op.execute conn q w).world := by
  have hq : Trace_extends a w (w.emit (.execute_sql q)) :=
    trace_extends_emit a w _ (by simp [Event.elem?])
  unfold Operation_base.execute
  split
  · split <;> exact hq
  · split
    · exact trace_extends_refl a w
    · split
      · exact hq
      · split
        · exact hq
        · exact trace_extends_trans hq (trace_extends_emit a _ _ (by simp [Event.elem?]))
  · split <;> exact hq
  · split
    · exact trace_extends_refl a w
    · split
      · exact hq
      · split
        · exact trace_extends_trans hq (batch_load_loop_extends a _ _ _ _)
        · exact hq
  · split
    · exact trace_extends_refl a w
    · exact trace_extends_emit a w _ (by simp [Event.elem?])
  · split <;> exact hq

theorem decide_execute_it_extends (a : Option Nat) (elem : Operation_queue_element) (w : World) :
    Trace_extends a w (decide_execute_it elem w).2 := by
  unfold decide_execute_it
  split
  · exact trace_extends_refl a w
  · split
    · exact trace_extends_refl a w
    · split
      · exact trace_extends_of_eq a _ _ rfl rfl
      · exact trace_extends_refl a w

theorem execute_element_extends (elem : Operation_queue_element) (b : Bool) (conn : Connection)
    (w : World) : Trace_extends (some elem.addr) w (execute_element elem b conn w).2.world := by
  unfold execute_element
  split
  · exact trace_extends_trans (trace_extends_trans (trace_extends_emit _ w _ (by simp [Event.elem?]))
      (execute_extends _ _ _ _ _)) (trace_extends_emit _ _ _ (by simp [Event.elem?]))
  · exact trace_extends_refl _ w

theorem settle_promise_extends (a : Option Nat) (op : Operation_base) (ex : Option Thrown)
    (w : World) : Trace_extends a w (settle_promise op ex w) :=
  trace_extends_of_eq a _ _ (settle_promise_next_addr op ex w) (settle_promise_trace op ex w)

theorem dump_sql_to_file_extends (cfg : Main_config) (a : Nat) (q : String) (c : Nat)
    (msg : String) (w : World) : Trace_extends (some a) w (dump_sql_to_file cfg a q c msg w) := by
  unfold dump_sql_to_file
  split
  · exact trace_extends_refl _ w
  · exact trace_extends_emit _ w _ (by simp [Event.elem?])

/-- What pump_one_operation does to the queue and to the trace: nothing is removed and
the queue keeps its elements in place (only the retry count and the due time of the
front element may change), or the front element is removed; and every event about a
queue element is about the front element. -/
theorem pump_one_operation_front (cfg : Main_config) (now : Nat) (t : Mysql_thread) (w : World)
    (m s : Connection) :
    ((t.pump_one_operation cfg now w m s).popped = none
        ∧ (t.pump_one_operation cfg now w m s).thread.m_queue.map (fun e => e.addr)
            = t.m_queue.map (fun e => e.addr)
        ∧ (t.pump_one_operation cfg now w m s).thread.m_queue.map (fun e => e.operation)
            = t.m_queue.map (fun e => e.operation)
      ∨ ∃ e rest, t.m_queue = e :: rest
          ∧ (t.pump_one_operation cfg now w m s).thread.m_queue = rest
          ∧ (t.pump_one_operation cfg now w m s).result = true
          ∧ ∃ e1, (t.pump_one_operation cfg now w m s).popped = some e1 ∧ e1.addr = e.addr
              ∧ e1.operation = e.operation)
      ∧ (t.pump_one_operation cfg now w m s).thread.m_running = t.m_running
      ∧ Trace_extends (t.m_queue.head?.map (fun e => e.addr)) w
          (t.pump_one_operation cfg now w m s).world := by
  cases hq : t.m_queue with
  | nil =>
    rw [pump_one_operation_empty cfg now t w m s hq]
    exact ⟨Or.inl ⟨rfl, by simp [hq], by simp [hq]⟩, rfl, trace_extends_refl _ w⟩
  | cons e rest =>
    by_cases hd : t.m_urgent = true ∨ e.due_time ≤ now
    · rw [pump_one_operation_due cfg now t w m s e rest hq hd]
      have hx : Trace_extends (some e.addr) w
          (execute_element e (decide_execute_it e w).1
            (if e.operation.should_use_slave then s else m) (decide_execute_it e w).2).2.world :=
        trace_extends_trans (decide_execute_it_extends _ e w) (execute_element_extends e _ _ _)
      cases he : (execute_element e (decide_execute_it e w).1
          (if e.operation.should_use_slave then s else m) (decide_execute_it e w).2).2.except with
      | none =>
        rw [pump_front_done cfg now t w m s e rest hq he]
        exact ⟨Or.inr ⟨e, rest, rfl, rfl, rfl, e, rfl, rfl, rfl⟩, rfl,
          trace_extends_trans hx (settle_promise_extends _ _ _ _)⟩
      | some ex =>
        by_cases hr : (e.retry_count + 1) % 2 ^ 64 < cfg.mysql_max_retry_count
        · rw [pump_front_retry cfg now t w m s e rest ex hq he hr]
          exact ⟨Or.inl ⟨rfl, rfl, rfl⟩, rfl,
            trace_extends_trans hx (trace_extends_emit _ _ _ (by simp [Event.elem?]))⟩
        · rw [pump_front_dump cfg now t w m s e rest ex hq he hr]
          exact ⟨Or.inr ⟨e, rest, rfl, rfl, rfl, _, rfl, rfl, rfl⟩, rfl,
            trace_extends_trans (trace_extends_trans hx (dump_sql_to_file_extends _ _ _ _ _ _))
              (settle_promise_extends _ _ _ _)⟩
    · have hu : t.m_urgent = false := by
        cases h : t.m_urgent
        · rfl
        · exact absurd (Or.inl h) hd
      have hlt : now < e.due_time := by
        by_contra h
        exact hd (Or.inr (not_lt.1 h))
      rw [pump_one_operation_not_due cfg now t w m s e rest hq hu hlt]
      exact ⟨Or.inl ⟨rfl, by simp [hq], by simp [hq]⟩, rfl, trace_extends_refl _ w⟩

/-- What add_operation does to the queue: it throws and changes nothing, or it pushes one
element to the back, at the next free address. -/
theorem add_operation_back (cfg : Main_config) (now : Nat) (op : Operation_base) (urgent : Bool)
    (t : Mysql_thread) (w : World) :
    ((t.add_operation cfg now op urgent w).except.isSome = true
        ∧ (t.add_operation cfg now op urgent w).thread = t
        ∧ (t.add_operation cfg now op urgent w).world = w)
      ∨ ((t.add_operation cfg now op urgent w).except = none
        ∧ t.m_running = true
        ∧ (t.add_operation cfg now op urgent w).thread.m_queue
            = t.m_queue ++ [⟨w.next_addr, op, saturated_add 64 now cfg.mysql_save_delay, 0⟩]
        ∧ (t.add_operation cfg now op urgent w).thread.m_running = t.m_running
        ∧ (t.add_operation cfg now op urgent w).world.next_addr = w.next_addr + 1
        ∧ (t.add_operation cfg now op urgent w).world.trace = w.trace) := by
  unfold Mysql_thread.add_operation
  cases hr : t.m_running
  · left; simp
  · right
    simp only [Bool.not_true, Bool.false_eq_true, if_false, true_and]
    refine ⟨?_, ?_⟩
    · split
      · rfl
      · split <;> rfl
    · split
      · rfl
      · split <;> rfl

theorem fifo_record_step (cfg : Main_config) (a0 : Nat) (s : Thread_run) (x : Thread_step)
    (h : Fifo_record a0 s) : Fifo_record a0 (Thread_run.step cfg s x) := by
  obtain ⟨h1, h2, h3⟩ := h
  cases x with
  | add_operation now op urgent =>
    rcases add_operation_back cfg now op urgent s.thread s.world with ⟨_, ht, hw⟩ | ⟨_, _, hq, _, hn, _⟩
    · have hst : Thread_run.step cfg s (.add_operation now op urgent) = s := by
        simp only [Thread_run.step, ht, hw, List.drop_length, List.map_nil, List.append_nil]
      rw [hst]
      exact ⟨h1, h2, h3⟩
    · have hst : Thread_run.step cfg s (.add_operation now op urgent)
          = ⟨(s.thread.add_operation cfg now op urgent s.world).thread,
              (s.thread.add_operation cfg now op urgent s.world).world,
              s.added ++ [s.world.next_addr], s.removed⟩ := by
        simp only [Thread_run.step, hq, List.drop_left, List.map_cons, List.map_nil]
      rw [hst]
      refine ⟨?_, ?_, ?_⟩
      · show s.added ++ [s.world.next_addr] = s.removed ++ List.map (fun e => e.addr)
          (s.thread.add_operation cfg now op urgent s.world).thread.m_queue
        rw [hq, h1]
        simp
      · show s.added ++ [s.world.next_addr]
          = List.range' a0 (s.added ++ [s.world.next_addr]).length
        rw [List.length_append, List.length_singleton, List.range'_concat, ← h2, h3]
        simp
      · show (s.thread.add_operation cfg now op urgent s.world).world.next_addr
          = a0 + (s.added ++ [s.world.next_addr]).length
        rw [hn, h3, List.length_append, List.length_singleton, Nat.add_assoc]
  | pump_one_operation now m sl =>
    obtain ⟨hc, _, hn, _⟩ := pump_one_operation_front cfg now s.thread s.world m sl
    rcases hc with ⟨hp, ha, _⟩ | ⟨e, rest, hq, hq1, _, e1, hp, he1, _⟩
    · have hst : Thread_run.step cfg s (.pump_one_operation now m sl)
          = ⟨(s.thread.pump_one_operation cfg now s.world m sl).thread,
              (s.thread.pump_one_operation cfg now s.world m sl).world, s.added, s.removed⟩ := by
        simp only [Thread_run.step, hp, Option.map_none', Option.toList_none, List.append_nil]
      rw [hst]
      exact ⟨by show s.added = s.removed ++ _; rw [ha]; exact h1, h2,
        by show _ = a0 + s.added.length; rw [hn, h3]⟩
    · have hst : Thread_run.step cfg s (.pump_one_operation now m sl)
          = ⟨(s.thread.pump_one_operation cfg now s.world m sl).thread,
              (s.thread.pump_one_operation cfg now s.world m sl).world, s.added,
              s.removed ++ [e.addr]⟩ := by
        simp only [Thread_run.step, hp, Option.map_some', Option.toList_some, he1]
      rw [hst]
      refine ⟨?_, h2, by show _ = a0 + s.added.length; rw [hn, h3]⟩
      show s.added = (s.removed ++ [e.addr]) ++ List.map (fun e => e.addr)
        (s.thread.pump_one_operation cfg now s.world m sl).thread.m_queue
      rw [hq1, h1, hq]
      simp
  | stop => exact ⟨h1, h2, h3⟩

theorem fifo_record_steps (cfg : Main_config) (a0 : Nat) (l : List Thread_step) (s : Thread_run)
    (h : Fifo_record a0 s) : Fifo_record a0 (Thread_run.steps cfg s l) := by
  induction l generalizing s with
  | nil => exact h
  | cons x xs ih => exact ih _ (fifo_record_step cfg a0 s x h)

/-- C3. FIFO execution within one worker. In every state a worker reaches from its start,
the elements pushed by add_operation are, in order and without repetition, the elements
already removed followed by the elements still queued; add_operation only appends at the
back; pump_one_operation removes nothing or exactly the front element, leaves the other
elements in place (a retried element keeps the front position), and every statement it
announces, every retry and every dump is about the front element, that is, about the
oldest element that has not been removed yet. -/
theorem fifo_execution (cfg : Main_config) (w0 : World) (l : List Thread_step) :
    let s := Thread_run.steps cfg ⟨Mysql_thread.new.start, w0, [], []⟩ l
    s.added = s.removed ++ s.thread.m_queue.map (fun e => e.addr)
      ∧ s.added.Nodup
      ∧ (∀ now op urgent,
          (s.thread.add_operation cfg now op urgent s.world).thread.m_queue = s.thread.m_queue
            ∨ ∃ e, (s.thread.add_operation cfg now op urgent s.world).thread.m_queue
                = s.thread.m_queue ++ [e] ∧ e.operation = op ∧ e.addr ∉ s.added)
      ∧ (∀ now m sl,
          ((s.thread.pump_one_operation cfg now s.world m sl).popped = none
              ∧ (s.thread.pump_one_operation cfg now s.world m sl).thread.m_queue.map
                  (fun e => e.addr) = s.thread.m_queue.map (fun e => e.addr)
            ∨ ∃ e rest, s.thread.m_queue = e :: rest
                ∧ (s.thread.pump_one_operation cfg now s.world m sl).thread.m_queue = rest
                ∧ (s.thread.pump_one_operation cfg now s.world m sl).popped.map (fun e => e.addr)
                    = some e.addr)
          ∧ ∃ evs, (s.thread.pump_one_operation cfg now s.world m sl).world.trace
              = s.world.trace ++ evs
            ∧ ∀ ev ∈ evs, ∀ a, ev.elem? = some a → ∃ later, s.added = s.removed ++ a :: later) := by
  intro s
  have hinv : Fifo_record w0.next_addr s :=
    fifo_record_steps cfg w0.next_addr l _ ⟨rfl, rfl, rfl⟩
  obtain ⟨h1, h2, h3⟩ := hinv
  refine ⟨h1, ?_, ?_, ?_⟩
  · rw [h2]; exact List.nodup_range' _ _
  · intro now op urgent
    rcases add_operation_back cfg now op urgent s.thread s.world with ⟨_, ht, _⟩ | ⟨_, _, hq, _, _, _⟩
    · left; rw [ht]
    · right
      refine ⟨_, hq, rfl, ?_⟩
      rw [h2, h3]
      simp [List.mem_range']
  · intro now m sl
    obtain ⟨hc, _, _, evs, ht, hev⟩ := pump_one_operation_front cfg now s.thread s.world m sl
    refine ⟨?_, evs, ht, ?_⟩
    · rcases hc with ⟨hp, ha, _⟩ | ⟨e, rest, hq, hq1, _, e1, hp, he1, _⟩
      · exact Or.inl ⟨hp, ha⟩
      · exact Or.inr ⟨e, rest, hq, hq1, by rw [hp, Option.map_some', he1]⟩
    · intro ev hmem a ha
      have := hev ev hmem a ha
      cases hq : s.thread.m_queue with
      | nil => rw [hq] at this; cases this
      | cons e rest =>
        rw [hq] at this
        simp only [List.head?_cons, Option.map_some', Option.some.injEq] at this
        exact ⟨rest.map (fun e => e.addr), by rw [h1, hq, ← this]; rfl⟩


/-! ## Theorems about the router -/

theorem le_sum_map_of_getElem? {α : Type} (f : α → Nat) (l : List α) (i : Nat) (x : α)
    (h : l[i]? = some x) : f x ≤ (l.map f).sum := by
  induction l generalizing i with
  | nil => simp at h
  | cons a l ih =>
    cases i with
    | zero =>
      simp only [List.getElem?_cons_zero, Option.some.injEq] at h
      subst h
      simp
    | succ i =>
      simp only [List.getElem?_cons_succ] at h
      have := ih i h
      simp only [List.map_cons, List.sum_cons]
      omega

theorem slot_probe_count_pos (table : String) (s : Option Mysql_thread) (op : Operation_base)
    (hop : op ∈ slot_operations s) (hp : op.m_probe = some table) :
    0 < slot_probe_count table s := by
  cases s with
  | none => simp [slot_operations] at hop
  | some t =>
    simp only [slot_operations, List.mem_map] at hop
    obtain ⟨e, he, heq⟩ := hop
    simp only [slot_probe_count]
    apply List.countP_pos_iff.2
    exact ⟨e, he, by simp [heq, hp]⟩

/-- A probe that a queued operation holds is shared: its use count exceeds one. -/
theorem probe_use_count_of_queued (d : Mysql_daemon) (h : Routes_hold d) (table : String)
    (i : Nat) (s : Option Mysql_thread) (op : Operation_base) (hs : d.g_threads[i]? = some s)
    (hop : op ∈ slot_operations s) (hp : op.m_probe = some table) :
    d.probe_use_count table > 1 := by
  have h1 := h table i s op hs hop hp
  have h2 := le_sum_map_of_getElem? (slot_probe_count table) d.g_threads i s hs
  have h3 := slot_probe_count_pos table s op hop hp
  simp only [Mysql_daemon.probe_use_count, h1, if_true]
  omega

theorem slot_operations_add (cfg : Main_config) (now : Nat) (op : Operation_base) (urgent : Bool)
    (t : Mysql_thread) (w : World) (x : Operation_base)
    (hx : x ∈ slot_operations (some (t.add_operation cfg now op urgent w).thread)) :
    x ∈ slot_operations (some t) ∨ x = op := by
  rcases add_operation_back cfg now op urgent t w with ⟨_, ht, _⟩ | ⟨_, _, hq, _, _, _⟩
  · rw [ht] at hx; exact Or.inl hx
  · simp only [slot_operations, hq, List.map_append, List.map_cons, List.map_nil,
      List.mem_append, List.mem_singleton] at hx ⊢
    exact hx

theorem slot_operations_pump (cfg : Main_config) (now : Nat) (t : Mysql_thread) (w : World)
    (m s : Connection) (x : Operation_base)
    (hx : x ∈ slot_operations (some (t.pump_one_operation cfg now w m s).thread)) :
    x ∈ slot_operations (some t) := by
  obtain ⟨hc, _, _⟩ := pump_one_operation_front cfg now t w m s
  rcases hc with ⟨_, _, ho⟩ | ⟨e, rest, hq, hq1, _⟩
  · simp only [slot_operations] at hx ⊢
    rw [ho] at hx
    exact hx
  · simp only [slot_operations, hq1, hq, List.map_cons, List.mem_cons] at hx ⊢
    exact Or.inr hx

/-- Replacing the worker of slot `i` by one whose operations are old ones or operations
that hold no probe, or the probe of a table routed to `i`, keeps the routes. -/
theorem routes_hold_set (d : Mysql_daemon) (h : Routes_hold d) (i : Nat) (t : Mysql_thread)
    (s0 : Option Mysql_thread) (w : World) (hs0 : d.g_threads[i]? = some s0)
    (hops : ∀ x ∈ slot_operations (some t), x ∈ slot_operations s0
      ∨ ∀ table, x.m_probe = some table → d.g_router table = ⟨true, some i⟩) :
    Routes_hold { d with g_threads := d.g_threads.set i (some t), world := w } := by
  intro table j s op hs hop hp
  simp only [] at hs
  by_cases hij : i = j
  · subst hij
    have hlt : i < d.g_threads.length := by
      rcases List.getElem?_eq_some.1 hs0 with ⟨hlt, _⟩
      exact hlt
    rw [List.getElem?_set_self hlt] at hs
    simp only [Option.some.injEq] at hs
    subst hs
    rcases hops op hop with h1 | h1
    · exact h table i s0 op hs0 h1 hp
    · exact h1 table hp
  · rw [List.getElem?_set_ne hij] at hs
    exact h table j s op hs hop hp

theorem routes_hold_use_thread (cfg : Main_config) (now : Nat) (table : String)
    (op : Operation_base) (urgent : Bool) (i : Nat) (d : Mysql_daemon) (h : Routes_hold d)
    (hr : d.g_router table = ⟨true, some i⟩) :
    Routes_hold (d.use_thread cfg now table op urgent (some i)).daemon := by
  unfold Mysql_daemon.use_thread
  simp only []
  cases hs : d.g_threads[i]? with
  | none => exact h
  | some s =>
    cases s with
    | none => exact h
    | some t =>
      simp only []
      apply routes_hold_set d h i _ (some t) _ hs
      intro x hx
      rcases slot_operations_add cfg now _ urgent t d.world x hx with h1 | h1
      · exact Or.inl h1
      · right
        intro tb htb
        rw [h1] at htb
        simp only [Operation_base.set_probe, Option.some.injEq] at htb
        rw [← htb]
        exact hr

/-- When the probe of a table is not shared, binding its route to another worker keeps
the routes, whatever happens to the slot that gets a new worker. -/
theorem routes_hold_rebind (d : Mysql_daemon) (h : Routes_hold d) (table : String)
    (hc : ¬ d.probe_use_count table > 1) (r : Route) (threads : List (Option Mysql_thread))
    (hth : ∀ (j : Nat) s, threads[j]? = some s → s = some Mysql_thread.new.start ∨ d.g_threads[j]? = some s) :
    Routes_hold { d with g_threads := threads,
                         g_router := fun k => if k = table then r else d.g_router k } := by
  intro tb j s op hs hop hp
  simp only [] at hs ⊢
  rcases hth j s hs with h1 | h1
  · subst h1
    simp [slot_operations, Mysql_thread.new, Mysql_thread.start] at hop
  · by_cases htb : tb = table
    · subst htb
      exact absurd (probe_use_count_of_queued d h tb j s op h1 hop hp) hc
    · rw [if_neg htb]
      exact h tb j s op h1 hop hp

theorem getElem?_set_cases {α : Type} (l : List α) (i j : Nat) (a s : α)
    (h : (l.set i a)[j]? = some s) : s = a ∨ l[j]? = some s := by
  by_cases hij : i = j
  · subst hij
    rw [List.getElem?_set_self'] at h
    cases hl : l[i]? with
    | none => rw [hl] at h; cases h
    | some x =>
      rw [hl] at h
      exact Or.inl (Option.some.inj h).symm
  · rw [List.getElem?_set_ne hij] at h
    exact Or.inr h

theorem routes_hold_add_operation_by_table (cfg : Main_config) (now : Nat) (table : String)
    (op : Operation_base) (urgent : Bool) (d : Mysql_daemon) (h : Routes_hold d) :
    Routes_hold (d.add_operation_by_table cfg now table op urgent).daemon := by
  unfold Mysql_daemon.add_operation_by_table
  split
  · exact h
  · split
    · rename_i hc
      cases hr : (d.g_router table).thread with
      | none => simpa [Mysql_daemon.use_thread] using h
      | some i =>
        by_cases hp : (d.g_router table).probe = true
        · exact routes_hold_use_thread cfg now table op urgent i d h
            (by cases hrt : d.g_router table; simp_all)
        · -- a route without probe is referenced by no queued operation
          have hno : ∀ (j : Nat) s x, d.g_threads[j]? = some s → x ∈ slot_operations s →
              x.m_probe ≠ some table := by
            intro j s x hs hx hxp
            have := h table j s x hs hx hxp
            rw [this] at hp
            exact hp rfl
          unfold Mysql_daemon.use_thread
          simp only []
          cases hs : d.g_threads[i]? with
          | none => exact h
          | some s =>
            cases s with
            | none => exact h
            | some t =>
              simp only []
              -- this case cannot arise: the use count exceeds one only through queued operations
              exfalso
              have hz : (d.g_threads.map (slot_probe_count table)).sum = 0 := by
                apply List.sum_eq_zero
                intro x hx
                obtain ⟨s, hs1, hs2⟩ := List.mem_map.1 hx
                obtain ⟨j, hj⟩ := List.getElem?_of_mem hs1
                rw [← hs2]
                cases s with
                | none => rfl
                | some t1 =>
                  simp only [slot_probe_count, List.countP_eq_zero]
                  intro e he
                  have := hno j (some t1) e.operation hj
                    (by simp only [slot_operations]; exact List.mem_map_of_mem _ he)
                  simpa using this
              simp only [Mysql_daemon.probe_use_count, hz] at hc
              split at hc <;> omega
    · rename_i hc
      split
      · rename_i i _
        apply routes_hold_use_thread
        · exact routes_hold_rebind d h table hc ⟨true, some i⟩ _
            (fun j s hs => getElem?_set_cases _ _ _ _ _ hs)
        · simp
      · exact routes_hold_rebind d h table hc _ _ (fun j s hs => Or.inr hs)
      · rename_i index _ _
        apply routes_hold_use_thread
        · exact routes_hold_rebind d h table hc ⟨true, some index⟩ _ (fun j s hs => Or.inr hs)
        · simp

theorem routes_hold_congr (d d1 : Mysql_daemon) (h : Routes_hold d)
    (h1 : d1.g_threads = d.g_threads) (h2 : d1.g_router = d.g_router) : Routes_hold d1 := by
  intro table i s op hs hop hp
  rw [h1] at hs
  rw [h2]
  exact h table i s op hs hop hp

theorem release_g_threads (d : Mysql_daemon) (op : Operation_base) :
    (d.release op).g_threads = d.g_threads := by
  unfold Mysql_daemon.release
  split
  · rfl
  · split
    · split
      · rfl
      · split <;> rfl
    · rfl

theorem release_g_router (d : Mysql_daemon) (op : Operation_base) :
    (d.release op).g_router = d.g_router := by
  unfold Mysql_daemon.release
  split
  · rfl
  · split
    · split
      · rfl
      · split <;> rfl
    · rfl

theorem return_promise_g_threads (r : Routed) (p : Nat) :
    (r.return_promise p).daemon.g_threads = r.daemon.g_threads := by
  unfold Routed.return_promise
  split <;> rfl

theorem return_promise_g_router (r : Routed) (p : Nat) :
    (r.return_promise p).daemon.g_router = r.daemon.g_router := by
  unfold Routed.return_promise
  split <;> rfl

/-- The slots after the loop of add_operation_all: every slot holds its old operations
and at most the broadcast operation in addition. -/
theorem add_operation_all_loop_slots (cfg : Main_config) (now : Nat) (op : Operation_base)
    (urgent : Bool) (threads : List (Option Mysql_thread)) (w : World) (j : Nat)
    (s1 : Option Mysql_thread)
    (h : (add_operation_all_loop cfg now op urgent threads w).2.1[j]? = some s1) :
    ∃ s, threads[j]? = some s ∧ ∀ x ∈ slot_operations s1, x ∈ slot_operations s ∨ x = op := by
  induction threads generalizing w j with
  | nil => simp [add_operation_all_loop] at h
  | cons a rest ih =>
    cases a with
    | none =>
      simp only [add_operation_all_loop] at h
      cases j with
      | zero =>
        simp only [List.getElem?_cons_zero, Option.some.injEq] at h
        subst h
        exact ⟨none, by simp, fun x hx => Or.inl hx⟩
      | succ j =>
        simp only [List.getElem?_cons_succ] at h ⊢
        exact ih w j h
    | some t =>
      simp only [add_operation_all_loop] at h
      cases hex : (t.add_operation cfg now op urgent w).except with
      | some e =>
        rw [hex] at h
        simp only [] at h
        cases j with
        | zero =>
          simp only [List.getElem?_cons_zero, Option.some.injEq] at h
          subst h
          exact ⟨some t, by simp, fun x hx => slot_operations_add cfg now op urgent t w x hx⟩
        | succ j =>
          simp only [List.getElem?_cons_succ] at h ⊢
          exact ⟨s1, h, fun x hx => Or.inl hx⟩
      | none =>
        rw [hex] at h
        simp only [] at h
        cases j with
        | zero =>
          simp only [List.getElem?_cons_zero, Option.some.injEq] at h
          subst h
          exact ⟨some t, by simp, fun x hx => slot_operations_add cfg now op urgent t w x hx⟩
        | succ j =>
          simp only [List.getElem?_cons_succ] at h ⊢
          exact ih _ j h

theorem routes_hold_step (cfg : Main_config) (d : Mysql_daemon) (x : Daemon_step)
    (h : Routes_hold d) : Routes_hold (d.step cfg x) := by
  have hmk : ∀ d0 : Mysql_daemon, Routes_hold d0 →
      Routes_hold { d0.make_promise with next_operation := d0.next_operation + 1 } :=
    fun d0 h0 => routes_hold_congr d0 _ h0 rfl rfl
  have hret : ∀ (r : Routed) (p : Nat), Routes_hold r.daemon →
      Routes_hold (r.return_promise p).daemon :=
    fun r p h0 => routes_hold_congr r.daemon _ h0 (return_promise_g_threads r p)
      (return_promise_g_router r p)
  cases x with
  | enqueue_for_saving now object to_replace urgent =>
    exact hret _ _ (routes_hold_add_operation_by_table _ _ _ _ _ _ (hmk d h))
  | enqueue_for_loading now object query =>
    simp only [Mysql_daemon.step, Mysql_daemon.enqueue_for_loading]
    split
    · exact h
    · exact hret _ _ (routes_hold_add_operation_by_table _ _ _ _ _ _ (hmk d h))
  | enqueue_for_deleting now table_hint query =>
    simp only [Mysql_daemon.step, Mysql_daemon.enqueue_for_deleting]
    split
    · exact h
    · exact hret _ _ (routes_hold_add_operation_by_table _ _ _ _ _ _ (hmk d h))
  | enqueue_for_batch_loading now callback table_hint query =>
    simp only [Mysql_daemon.step, Mysql_daemon.enqueue_for_batch_loading]
    split
    · exact h
    · exact hret _ _ (routes_hold_add_operation_by_table _ _ _ _ _ _ (hmk d h))
  | enqueue_for_low_level_access now callback table_hint from_slave =>
    exact routes_hold_add_operation_by_table _ _ _ _ _ _ (hmk d h)
  | enqueue_for_waiting_for_all_async_operations now =>
    simp only [Mysql_daemon.step, Mysql_daemon.enqueue_for_waiting_for_all_async_operations]
    apply hret
    unfold Mysql_daemon.add_operation_all
    split
    · exact routes_hold_congr _ _ (hmk d h) (release_g_threads _ _) (release_g_router _ _)
    · refine routes_hold_congr _ _ ?_ (release_g_threads _ _) (release_g_router _ _)
      intro table j s1 op hs hop hp
      obtain ⟨s, hs0, hops⟩ := add_operation_all_loop_slots cfg now _ true _ _ j s1 hs
      rcases hops op hop with h1 | h1
      · exact h table j s op hs0 h1 hp
      · rw [h1] at hp
        cases hp
  | pump i now m sl =>
    simp only [Mysql_daemon.step, Mysql_daemon.pump]
    cases hs : d.g_threads[i]? with
    | none => exact h
    | some s =>
      cases s with
      | none => exact h
      | some t =>
        simp only []
        have h1 : Routes_hold { d with
            g_threads := d.g_threads.set i (some (t.pump_one_operation cfg now d.world m sl).thread),
            world := (t.pump_one_operation cfg now d.world m sl).world } :=
          routes_hold_set d h i _ (some t) _ hs
            (fun x hx => Or.inl (slot_operations_pump cfg now t d.world m sl x hx))
        split
        · exact h1
        · exact routes_hold_congr _ _ h1 (release_g_threads _ _) (release_g_router _ _)
  | stop_thread i =>
    simp only [Mysql_daemon.step, Mysql_daemon.stop_thread]
    cases hs : d.g_threads[i]? with
    | none => exact h
    | some s =>
      cases s with
      | none => exact h
      | some t =>
        simp only []
        exact routes_hold_set d h i t.stop (some t) d.world hs (fun x hx => Or.inl hx)
  | drop_promise p => exact routes_hold_congr d _ h rfl rfl

theorem routes_hold_steps (cfg : Main_config) (l : List Daemon_step) (d : Mysql_daemon)
    (h : Routes_hold d) : Routes_hold (d.steps cfg l) := by
  induction l generalizing d with
  | nil => exact h
  | cons x xs ih => exact ih _ (routes_hold_step cfg d x h)

theorem routes_hold_start (n : Nat) (w : World) : Routes_hold (Mysql_daemon.start n w) := by
  intro table i s op hs hop hp
  simp only [Mysql_daemon.start] at hs
  rw [List.getElem?_replicate] at hs
  split at hs
  · simp only [Option.some.injEq] at hs
    subst hs
    simp [slot_operations] at hop
  · cases hs

/-- C2. Sticky routing. In every state the daemon reaches after start(), all queued
operations that were routed for one table sit in the queue of a single worker; and as
long as one of them is queued, the probe of the route is shared (use count above one)
and add_operation_by_table hands every further operation for that table, with the
probe attached, to that same worker and leaves every other worker as it is. -/
theorem sticky_routing (cfg : Main_config) (n : Nat) (w0 : World) (l : List Daemon_step) :
    let d := (Mysql_daemon.start n w0).steps cfg l
    (∀ table (i j : Nat) ti tj ei ej,
        d.g_threads[i]? = some (some ti) → d.g_threads[j]? = some (some tj) →
        ei ∈ ti.m_queue → ej ∈ tj.m_queue →
        ei.operation.m_probe = some table → ej.operation.m_probe = some table → i = j)
      ∧ (∀ table (i : Nat) ti ei,
          d.g_threads[i]? = some (some ti) → ei ∈ ti.m_queue →
          ei.operation.m_probe = some table →
          d.probe_use_count table > 1
            ∧ ∀ now op urgent,
                (d.add_operation_by_table cfg now table op urgent).daemon.g_threads
                  = d.g_threads.set i
                      (some (ti.add_operation cfg now (op.set_probe table) urgent d.world).thread)
                ∧ (d.add_operation_by_table cfg now table op urgent).except
                  = (ti.add_operation cfg now (op.set_probe table) urgent d.world).except) := by
  intro d
  have h : Routes_hold d := routes_hold_steps cfg l _ (routes_hold_start n w0)
  refine ⟨?_, ?_⟩
  · intro table i j ti tj ei ej hi hj hei hej hpi hpj
    have h1 := h table i (some ti) ei.operation hi
      (by simp only [slot_operations]; exact List.mem_map_of_mem _ hei) hpi
    have h2 := h table j (some tj) ej.operation hj
      (by simp only [slot_operations]; exact List.mem_map_of_mem _ hej) hpj
    rw [h1] at h2
    simpa using h2
  · intro table i ti ei hi hei hpi
    have hop : ei.operation ∈ slot_operations (some ti) := by
      simp only [slot_operations]; exact List.mem_map_of_mem _ hei
    have hr := h table i (some ti) ei.operation hi hop hpi
    have hc := probe_use_count_of_queued d h table i (some ti) ei.operation hi hop hpi
    refine ⟨hc, ?_⟩
    intro now op urgent
    have hne : d.g_threads.isEmpty = false := by
      cases hg : d.g_threads with
      | nil => rw [hg] at hi; simp at hi
      | cons a b => rfl
    simp only [Mysql_daemon.add_operation_by_table, hne, hc, if_true, Bool.false_eq_true,
      if_false, hr, Mysql_daemon.use_thread, hi]
    trivial

/-! ## Theorems about the broadcast of a wait operation -/

theorem holds_iff (d : Mysql_daemon) (k : Nat) : d.holds k = true ↔ Slots_hold d.g_threads k := by
  unfold Mysql_daemon.holds Slots_hold
  rw [List.any_eq_true]
  constructor
  · rintro ⟨s, hs, h⟩
    obtain ⟨j, hj⟩ := List.getElem?_of_mem hs
    refine ⟨j, s, hj, ?_⟩
    cases s with
    | none => simp at h
    | some t =>
      simp only [List.any_eq_true, decide_eq_true_eq] at h
      obtain ⟨e, he, hek⟩ := h
      exact ⟨e.operation, by simp only [slot_operations]; exact List.mem_map_of_mem _ he, hek⟩
  · rintro ⟨j, s, hj, op, hop, hk⟩
    refine ⟨s, List.getElem?_mem hj, ?_⟩
    cases s with
    | none => simp [slot_operations] at hop
    | some t =>
      simp only [slot_operations, List.mem_map] at hop
      obtain ⟨e, he, heq⟩ := hop
      simp only [List.any_eq_true, decide_eq_true_eq]
      exact ⟨e, he, by rw [heq]; exact hk⟩

/-! ### Promises are only touched through settle_promise -/

theorem batch_load_loop_promises (cb : Nat) (rows : List Row) (conn : Connection) (w : World) :
    (batch_load_loop cb conn w rows).world.promises = w.promises := by
  induction rows generalizing conn w with
  | nil => rfl
  | cons r rs ih =>
    unfold batch_load_loop
    simp only []
    split
    · rfl
    · rw [ih]; rfl

theorem execute_promises (op : Operation_base) (conn : Connection) (q : String) (w : World) :
    (op.execute conn q w).world.promises = w.promises := by
  unfold Operation_base.execute
  split
  · split <;> rfl
  · split
    · rfl
    · split
      · rfl
      · split <;> rfl
  · split <;> rfl
  · split
    · rfl
    · split
      · rfl
      · split
        · rw [batch_load_loop_promises]; rfl
        · rfl
  · split <;> rfl
  · split <;> rfl

theorem decide_execute_it_promises (elem : Operation_queue_element) (w : World) :
    (decide_execute_it elem w).2.promises = w.promises := by
  unfold decide_execute_it
  split
  · rfl
  · split
    · rfl
    · split <;> rfl

theorem execute_element_promises (elem : Operation_queue_element) (b : Bool) (conn : Connection)
    (w : World) : (execute_element elem b conn w).2.world.promises = w.promises := by
  unfold execute_element
  split
  · simp only [World.emit, execute_promises]
  · rfl

/-- A pump changes at most the promise of the front element, and only if the front
element is no wait operation. -/
theorem pump_one_operation_promises (cfg : Main_config) (now : Nat) (t : Mysql_thread) (w : World)
    (m s : Connection) (i : Nat) :
    (t.pump_one_operation cfg now w m s).world.promises i = w.promises i
      ∨ ∃ e rest, t.m_queue = e :: rest ∧ e.operation.m_weak_promise = i
          ∧ e.operation.variant ≠ .Wait_operation := by
  cases hq : t.m_queue with
  | nil =>
    rw [pump_one_operation_empty cfg now t w m s hq]
    exact Or.inl rfl
  | cons e rest =>
    have hsettle : ∀ (ex : Option Thrown) (w1 : World), w1.promises = w.promises →
        (settle_promise e.operation ex w1).promises i = w.promises i
          ∨ ∃ e1 rest1, e :: rest = e1 :: rest1 ∧ e1.operation.m_weak_promise = i
              ∧ e1.operation.variant ≠ .Wait_operation := by
      intro ex w1 hw1
      rw [settle_promise_promises]
      split
      · rename_i hc
        right
        refine ⟨e, rest, rfl, hc.1.symm, ?_⟩
        intro hv
        have := hc.2
        simp [Operation_base.get_promise, hv] at this
      · left; rw [hw1]
    have hx : (execute_element e (decide_execute_it e w).1
        (if e.operation.should_use_slave then s else m) (decide_execute_it e w).2).2.world.promises
        = w.promises := by
      rw [execute_element_promises, decide_execute_it_promises]
    by_cases hd : t.m_urgent = true ∨ e.due_time ≤ now
    · rw [pump_one_operation_due cfg now t w m s e rest hq hd]
      cases he : (execute_element e (decide_execute_it e w).1
          (if e.operation.should_use_slave then s else m) (decide_execute_it e w).2).2.except with
      | none =>
        rw [pump_front_done cfg now t w m s e rest hq he]
        exact hsettle _ _ hx
      | some ex =>
        by_cases hr : (e.retry_count + 1) % 2 ^ 64 < cfg.mysql_max_retry_count
        · rw [pump_front_retry cfg now t w m s e rest ex hq he hr]
          left
          simp only [World.emit, hx]
        · rw [pump_front_dump cfg now t w m s e rest ex hq he hr]
          exact hsettle _ _ (by rw [dump_sql_to_file_promises, hx])
    · have hu : t.m_urgent = false := by
        cases h : t.m_urgent
        · rfl
        · exact absurd (Or.inl h) hd
      have hlt : now < e.due_time := by
        by_contra h
        exact hd (Or.inr (not_lt.1 h))
      rw [pump_one_operation_not_due cfg now t w m s e rest hq hu hlt]
      exact Or.inl rfl

theorem add_operation_promises (cfg : Main_config) (now : Nat) (op : Operation_base)
    (urgent : Bool) (t : Mysql_thread) (w : World) :
    (t.add_operation cfg now op urgent w).world.promises = w.promises := by
  unfold Mysql_thread.add_operation
  cases hr : t.m_running
  · rfl
  · simp only [Bool.not_true, Bool.false_eq_true, if_false]
    split
    · rfl
    · split <;> rfl


/-! ### What the entry points do to the worker slots -/

theorem slot_grows_refl (op : Operation_base) (s : Option Mysql_thread) : Slot_grows op s s :=
  ⟨fun _ hx => Or.inl hx, fun _ hx => hx⟩

theorem slots_grow_refl (op : Operation_base) (l : List (Option Mysql_thread)) :
    Slots_grow op l l := by
  refine ⟨rfl, ?_⟩
  intro j s s1 h h1
  rw [h] at h1
  cases h1
  exact slot_grows_refl op s

theorem slots_grow_set (op : Operation_base) (l : List (Option Mysql_thread)) (i : Nat)
    (a : Option Mysql_thread) (h : ∀ s, l[i]? = some s → Slot_grows op s a) :
    Slots_grow op l (l.set i a) := by
  refine ⟨List.length_set _ _ _, ?_⟩
  intro j s s1 hs hs1
  by_cases hij : i = j
  · subst hij
    rw [List.getElem?_set_self', hs] at hs1
    cases hs1
    exact h s hs
  · rw [List.getElem?_set_ne hij, hs] at hs1
    cases hs1
    exact slot_grows_refl op s

theorem slots_grow_trans (op : Operation_base) (l l1 l2 : List (Option Mysql_thread))
    (h1 : Slots_grow op l l1) (h2 : Slots_grow op l1 l2) : Slots_grow op l l2 := by
  refine ⟨h2.1.trans h1.1, ?_⟩
  intro j s s2 hs hs2
  have hj : j < l1.length := by
    rw [h1.1]
    exact (List.getElem?_eq_some.1 hs).1
  obtain ⟨s1, hs1⟩ : ∃ s1, l1[j]? = some s1 := ⟨l1[j], List.getElem?_eq_getElem hj⟩
  obtain ⟨a1, a2⟩ := h1.2 j s s1 hs hs1
  obtain ⟨b1, b2⟩ := h2.2 j s1 s2 hs1 hs2
  refine ⟨?_, fun x hx => b2 x (a2 x hx)⟩
  intro x hx
  rcases b1 x hx with h | h
  · exact a1 x h
  · exact Or.inr h

theorem slot_grows_add (cfg : Main_config) (now : Nat) (op : Operation_base) (urgent : Bool)
    (t : Mysql_thread) (w : World) :
    Slot_grows op (some t) (some (t.add_operation cfg now op urgent w).thread) := by
  refine ⟨fun x hx => slot_operations_add cfg now op urgent t w x hx, ?_⟩
  intro x hx
  rcases add_operation_back cfg now op urgent t w with ⟨_, ht, _⟩ | ⟨_, _, hq, _, _, _⟩
  · rw [ht]; exact hx
  · simp only [slot_operations, hq, List.map_append, List.mem_append] at hx ⊢
    exact Or.inl hx

theorem scan_threads_inl (l : List (Option Mysql_thread)) (i0 : Nat) (m : List (Nat × Nat))
    (i : Nat) (h : scan_threads l i0 m = .inl i) : ∃ j, i = i0 + j ∧ l[j]? = some none := by
  induction l generalizing i0 m with
  | nil => simp [scan_threads] at h
  | cons a rest ih =>
    cases a with
    | none =>
      simp only [scan_threads, Sum.inl.injEq] at h
      exact ⟨0, by omega, by simp⟩
    | some t =>
      simp only [scan_threads] at h
      obtain ⟨j, hj, hl⟩ := ih _ _ h
      exact ⟨j + 1, by omega, by simpa using hl⟩

theorem use_thread_effect (cfg : Main_config) (now : Nat) (table : String) (op : Operation_base)
    (urgent : Bool) (thread : Option Nat) (d : Mysql_daemon) :
    Slots_grow (op.set_probe table) d.g_threads
        (d.use_thread cfg now table op urgent thread).daemon.g_threads
      ∧ (d.use_thread cfg now table op urgent thread).daemon.world.promises = d.world.promises
      ∧ (d.use_thread cfg now table op urgent thread).daemon.next_operation = d.next_operation
      ∧ (d.use_thread cfg now table op urgent thread).daemon.next_promise = d.next_promise := by
  unfold Mysql_daemon.use_thread
  cases thread with
  | none => exact ⟨slots_grow_refl _ _, rfl, rfl, rfl⟩
  | some i =>
    simp only []
    cases hs : d.g_threads[i]? with
    | none => exact ⟨slots_grow_refl _ _, rfl, rfl, rfl⟩
    | some s =>
      cases s with
      | none => exact ⟨slots_grow_refl _ _, rfl, rfl, rfl⟩
      | some t =>
        refine ⟨?_, add_operation_promises _ _ _ _ _ _, rfl, rfl⟩
        apply slots_grow_set
        intro s0 hs0
        rw [hs] at hs0
        cases hs0
        exact slot_grows_add cfg now _ urgent t d.world

theorem add_operation_by_table_effect (cfg : Main_config) (now : Nat) (table : String)
    (op : Operation_base) (urgent : Bool) (d : Mysql_daemon) :
    Slots_grow (op.set_probe table) d.g_threads
        (d.add_operation_by_table cfg now table op urgent).daemon.g_threads
      ∧ (d.add_operation_by_table cfg now table op urgent).daemon.world.promises
          = d.world.promises
      ∧ (d.add_operation_by_table cfg now table op urgent).daemon.next_operation
          = d.next_operation
      ∧ (d.add_operation_by_table cfg now table op urgent).daemon.next_promise
          = d.next_promise := by
  unfold Mysql_daemon.add_operation_by_table
  split
  · exact ⟨slots_grow_refl _ _, rfl, rfl, rfl⟩
  · split
    · exact use_thread_effect cfg now table op urgent _ d
    · split
      · rename_i i hsc
        obtain ⟨j, hj, hl⟩ := scan_threads_inl _ _ _ _ hsc
        have hij : i = j := by omega
        subst hij
        obtain ⟨u1, u2, u3, u4⟩ := use_thread_effect cfg now table op urgent (some i)
          { d with g_threads := d.g_threads.set i (some Mysql_thread.new.start),
                   g_router := fun k => if k = table then ⟨true, some i⟩ else d.g_router k }
        refine ⟨?_, u2, u3, u4⟩
        refine slots_grow_trans _ _ _ _ ?_ u1
        apply slots_grow_set
        intro s0 hs0
        rw [hl] at hs0
        cases hs0
        exact ⟨fun x hx => Or.inl (by simp [slot_operations, Mysql_thread.new, Mysql_thread.start] at hx),
          fun x hx => by simp [slot_operations] at hx⟩
      · exact ⟨slots_grow_refl _ _, rfl, rfl, rfl⟩
      · rename_i index _ _
        exact use_thread_effect cfg now table op urgent (some index)
          { d with g_router := fun k => if k = table then ⟨true, some index⟩ else d.g_router k }

theorem add_operation_all_loop_effect (cfg : Main_config) (now : Nat) (op : Operation_base)
    (urgent : Bool) (threads : List (Option Mysql_thread)) (w : World) :
    Slots_grow op threads (add_operation_all_loop cfg now op urgent threads w).2.1
      ∧ (add_operation_all_loop cfg now op urgent threads w).2.2.promises = w.promises := by
  induction threads generalizing w with
  | nil => exact ⟨slots_grow_refl _ _, rfl⟩
  | cons a rest ih =>
    have hcons : ∀ (s s1 : Option Mysql_thread) (l l1 : List (Option Mysql_thread)),
        Slot_grows op s s1 → Slots_grow op l l1 → Slots_grow op (s :: l) (s1 :: l1) := by
      intro s s1 l l1 h1 h2
      refine ⟨by simp [h2.1], ?_⟩
      intro j x x1 hx hx1
      cases j with
      | zero =>
        simp only [List.getElem?_cons_zero, Option.some.injEq] at hx hx1
        subst hx hx1
        exact h1
      | succ j =>
        simp only [List.getElem?_cons_succ] at hx hx1
        exact h2.2 j x x1 hx hx1
    cases a with
    | none =>
      simp only [add_operation_all_loop]
      exact ⟨hcons _ _ _ _ (slot_grows_refl _ _) (ih w).1, (ih w).2⟩
    | some t =>
      simp only [add_operation_all_loop]
      cases hex : (t.add_operation cfg now op urgent w).except with
      | some e =>
        simp only []
        exact ⟨hcons _ _ _ _ (slot_grows_add cfg now op urgent t w) (slots_grow_refl _ _),
          add_operation_promises _ _ _ _ _ _⟩
      | none =>
        simp only []
        exact ⟨hcons _ _ _ _ (slot_grows_add cfg now op urgent t w) (ih _).1,
          by rw [(ih _).2, add_operation_promises]⟩

/-! ### The promise of a broadcast wait operation -/

theorem slots_grow_get (op : Operation_base) (l l1 : List (Option Mysql_thread))
    (h : Slots_grow op l l1) (j : Nat) (s1 : Option Mysql_thread) (h1 : l1[j]? = some s1) :
    ∃ s, l[j]? = some s ∧ Slot_grows op s s1 := by
  have hj : j < l.length := by
    rw [← h.1]
    exact (List.getElem?_eq_some.1 h1).1
  exact ⟨l[j], List.getElem?_eq_getElem hj, h.2 j _ _ (List.getElem?_eq_getElem hj) h1⟩

theorem slots_grow_get_old (op : Operation_base) (l l1 : List (Option Mysql_thread))
    (h : Slots_grow op l l1) (j : Nat) (s : Option Mysql_thread) (h0 : l[j]? = some s) :
    ∃ s1, l1[j]? = some s1 ∧ Slot_grows op s s1 := by
  have hj : j < l1.length := by
    rw [h.1]
    exact (List.getElem?_eq_some.1 h0).1
  exact ⟨l1[j], List.getElem?_eq_getElem hj, h.2 j _ _ h0 (List.getElem?_eq_getElem hj)⟩

theorem slots_hold_grow (op : Operation_base) (l l1 : List (Option Mysql_thread)) (k : Nat)
    (h : Slots_grow op l l1) (hk : op.id ≠ k) : Slots_hold l1 k ↔ Slots_hold l k := by
  constructor
  · rintro ⟨j, s1, hs1, x, hx, hxk⟩
    obtain ⟨s, hs, hg⟩ := slots_grow_get op l l1 h j s1 hs1
    rcases hg.1 x hx with h1 | h1
    · exact ⟨j, s, hs, x, h1, hxk⟩
    · rw [h1] at hxk; exact absurd hxk hk
  · rintro ⟨j, s, hs, x, hx, hxk⟩
    obtain ⟨s1, hs1, hg⟩ := slots_grow_get_old op l l1 h j s hs
    exact ⟨j, s1, hs1, x, hg.2 x hx, hxk⟩

theorem holds_congr (d d1 : Mysql_daemon) (k : Nat)
    (h : Slots_hold d1.g_threads k ↔ Slots_hold d.g_threads k) : d1.holds k = d.holds k := by
  rw [Bool.eq_iff_iff, holds_iff, holds_iff]
  exact h

/-- An enqueue of a new operation, under a new identity and with a new promise, does not
disturb the promise of the wait operation. -/
theorem wait_pending_grow (p k : Nat) (d d1 : Mysql_daemon) (op : Operation_base)
    (h : Ids_fresh d ∧ Wait_pending p k d)
    (hg : Slots_grow op d.g_threads d1.g_threads)
    (hid : d.next_operation ≤ op.id ∧ op.id < d1.next_operation)
    (hpr : d.next_promise ≤ op.m_weak_promise ∧ op.m_weak_promise < d1.next_promise)
    (hp : d1.world.promises p = d.world.promises p) :
    Ids_fresh d1 ∧ Wait_pending p k d1 := by
  obtain ⟨hf, hp1, hk1, ha, hc⟩ := h
  have hopk : op.id ≠ k := by omega
  have hopp : op.m_weak_promise ≠ p := by omega
  refine ⟨?_, by omega, by omega, ?_, ?_⟩
  · intro j s1 x hs1 hx
    obtain ⟨s, hs, hgs⟩ := slots_grow_get op _ _ hg j s1 hs1
    rcases hgs.1 x hx with h1 | h1
    · have := hf j s x hs h1
      omega
    · subst h1
      omega
  · intro j s1 x hs1 hx
    obtain ⟨s, hs, hgs⟩ := slots_grow_get op _ _ hg j s1 hs1
    rcases hgs.1 x hx with h1 | h1
    · exact ha j s x hs h1
    · subst h1
      exact ⟨fun h => absurd h hopk, fun h => absurd h hopp⟩
  · rw [hp, hc, holds_congr d d1 k (slots_hold_grow op _ _ k hg hopk)]

theorem release_effect (d : Mysql_daemon) (op : Operation_base) :
    (d.release op).g_threads = d.g_threads
      ∧ (d.release op).next_operation = d.next_operation
      ∧ (d.release op).next_promise = d.next_promise
      ∧ ∀ i, i ≠ op.m_weak_promise → (d.release op).world.promises i = d.world.promises i := by
  unfold Mysql_daemon.release
  split
  · exact ⟨rfl, rfl, rfl, fun _ _ => rfl⟩
  · split
    · split
      · exact ⟨rfl, rfl, rfl, fun _ _ => rfl⟩
      · split
        · refine ⟨rfl, rfl, rfl, ?_⟩
          intro i hi
          simp [World.set_promise, hi]
        · exact ⟨rfl, rfl, rfl, fun _ _ => rfl⟩
    · exact ⟨rfl, rfl, rfl, fun _ _ => rfl⟩

theorem return_promise_effect (r : Routed) (q : Nat) :
    (r.return_promise q).daemon.g_threads = r.daemon.g_threads
      ∧ (r.return_promise q).daemon.next_operation = r.daemon.next_operation
      ∧ (r.return_promise q).daemon.next_promise = r.daemon.next_promise
      ∧ (∀ i, i ≠ q → (r.return_promise q).daemon.world.promises i = r.daemon.world.promises i)
      ∧ (r.except = none → r.return_promise q = r) := by
  unfold Routed.return_promise
  split
  · exact ⟨rfl, rfl, rfl, fun _ _ => rfl, fun _ => rfl⟩
  · rename_i e he
    refine ⟨rfl, rfl, rfl, ?_, fun h => by rw [h] at he; cases he⟩
    intro i hi
    simp [hi]

/-- The entry points that route one new operation by its table keep the promise of the
wait operation as it is. -/
theorem wait_pending_by_table (cfg : Main_config) (now : Nat) (p k : Nat) (d : Mysql_daemon)
    (table : String) (variant : Operation_variant) (urgent : Bool)
    (h : Ids_fresh d ∧ Wait_pending p k d) :
    (Ids_fresh (Mysql_daemon.add_operation_by_table cfg now table
        ⟨d.next_operation, d.next_promise, none, variant⟩ urgent
        { d.make_promise with next_operation := d.next_operation + 1 }).daemon
      ∧ Wait_pending p k (Mysql_daemon.add_operation_by_table cfg now table
        ⟨d.next_operation, d.next_promise, none, variant⟩ urgent
        { d.make_promise with next_operation := d.next_operation + 1 }).daemon)
    ∧ (Ids_fresh ((Mysql_daemon.add_operation_by_table cfg now table
        ⟨d.next_operation, d.next_promise, none, variant⟩ urgent
        { d.make_promise with next_operation := d.next_operation + 1 }).return_promise
          d.next_promise).daemon
      ∧ Wait_pending p k ((Mysql_daemon.add_operation_by_table cfg now table
        ⟨d.next_operation, d.next_promise, none, variant⟩ urgent
        { d.make_promise with next_operation := d.next_operation + 1 }).return_promise
          d.next_promise).daemon) := by
  obtain ⟨e1, e2, e3, e4⟩ := add_operation_by_table_effect cfg now table
    ⟨d.next_operation, d.next_promise, none, variant⟩ urgent
    { d.make_promise with next_operation := d.next_operation + 1 }
  obtain ⟨r1, r2, r3, r4, _⟩ := return_promise_effect (Mysql_daemon.add_operation_by_table cfg now
    table ⟨d.next_operation, d.next_promise, none, variant⟩ urgent
    { d.make_promise with next_operation := d.next_operation + 1 }) d.next_promise
  have hpp : p ≠ d.next_promise := by
    have := h.2.1
    omega
  have hmk : (Mysql_daemon.add_operation_by_table cfg now table
      ⟨d.next_operation, d.next_promise, none, variant⟩ urgent
      { d.make_promise with next_operation := d.next_operation + 1 }).daemon.world.promises p
      = d.world.promises p := by
    rw [e2]
    simp [Mysql_daemon.make_promise, World.set_promise, hpp]
  constructor
  · apply wait_pending_grow p k d _ _ h e1
    · rw [e3]; simp [Operation_base.set_probe]
    · rw [e4]; simp [Operation_base.set_probe, Mysql_daemon.make_promise]
    · exact hmk
  · apply wait_pending_grow p k d _ _ h (by rw [r1]; exact e1)
    · rw [r2, e3]; simp [Operation_base.set_probe]
    · rw [r3, e4]; simp [Operation_base.set_probe, Mysql_daemon.make_promise]
    · rw [r4 p hpp]; exact hmk

theorem holds_of_threads_eq (d d1 : Mysql_daemon) (k : Nat) (h : d1.g_threads = d.g_threads) :
    d1.holds k = d.holds k := by
  unfold Mysql_daemon.holds
  rw [h]

/-- The destructor of a wait operation whose promise is pending: the promise stays pending
while a queue element points to the operation, and is fulfilled otherwise. -/
theorem release_wait_promise (d : Mysql_daemon) (k p : Nat)
    (hp : d.world.promises p = some .pending) :
    (d.release ⟨k, p, none, .Wait_operation⟩).world.promises p
      = some (if (d.release ⟨k, p, none, .Wait_operation⟩).holds k then .pending else .success) := by
  rw [holds_of_threads_eq d _ k (release_g_threads d _)]
  unfold Mysql_daemon.release
  cases hh : d.holds k
  · simp [hp, Promise.set_success, World.set_promise]
  · simp [hp]

/-- The state right after add_operation_all for a new wait operation: the loop has pushed
the operation to the running workers, and the argument has gone out of scope. -/
theorem add_operation_all_effect (cfg : Main_config) (now : Nat) (d : Mysql_daemon) :
    Slots_grow ⟨d.next_operation, d.next_promise, none, .Wait_operation⟩ d.g_threads
        (Mysql_daemon.add_operation_all cfg now
          ⟨d.next_operation, d.next_promise, none, .Wait_operation⟩ true
          { d.make_promise with next_operation := d.next_operation + 1 }).daemon.g_threads
      ∧ (Mysql_daemon.add_operation_all cfg now
          ⟨d.next_operation, d.next_promise, none, .Wait_operation⟩ true
          { d.make_promise with next_operation := d.next_operation + 1 }).daemon.next_operation
          = d.next_operation + 1
      ∧ (Mysql_daemon.add_operation_all cfg now
          ⟨d.next_operation, d.next_promise, none, .Wait_operation⟩ true
          { d.make_promise with next_operation := d.next_operation + 1 }).daemon.next_promise
          = d.next_promise + 1
      ∧ (∀ i, i ≠ d.next_promise →
          (Mysql_daemon.add_operation_all cfg now
            ⟨d.next_operation, d.next_promise, none, .Wait_operation⟩ true
            { d.make_promise with next_operation := d.next_operation + 1 }).daemon.world.promises i
            = d.world.promises i)
      ∧ (Mysql_daemon.add_operation_all cfg now
          ⟨d.next_operation, d.next_promise, none, .Wait_operation⟩ true
          { d.make_promise with next_operation := d.next_operation + 1 }).daemon.world.promises
            d.next_promise
          = some (if (Mysql_daemon.add_operation_all cfg now
              ⟨d.next_operation, d.next_promise, none, .Wait_operation⟩ true
              { d.make_promise with next_operation := d.next_operation + 1 }).daemon.holds
                d.next_operation then .pending else .success) := by
  unfold Mysql_daemon.add_operation_all
  split
  · refine ⟨?_, ?_, ?_, ?_, ?_⟩
    · rw [(release_effect _ _).1]; exact slots_grow_refl _ _
    · rw [(release_effect _ _).2.1]
    · rw [(release_effect _ _).2.2.1]; rfl
    · intro i hi
      rw [(release_effect _ _).2.2.2 i hi]
      simp [Mysql_daemon.make_promise, World.set_promise, hi]
    · apply release_wait_promise
      simp [Mysql_daemon.make_promise, World.set_promise]
  · obtain ⟨l1, l2⟩ := add_operation_all_loop_effect cfg now
      ⟨d.next_operation, d.next_promise, none, .Wait_operation⟩ true d.g_threads
      (d.world.set_promise d.next_promise .pending)
    refine ⟨?_, ?_, ?_, ?_, ?_⟩
    · rw [(release_effect _ _).1]; exact l1
    · rw [(release_effect _ _).2.1]
    · rw [(release_effect _ _).2.2.1]; rfl
    · intro i hi
      rw [(release_effect _ _).2.2.2 i hi]
      simp only [Mysql_daemon.make_promise]
      rw [l2]
      simp [World.set_promise, hi]
    · apply release_wait_promise
      simp only [Mysql_daemon.make_promise]
      rw [l2]
      simp [World.set_promise]

/-- The state right after a broadcast by the entry point. -/
theorem wait_broadcast_effect (cfg : Main_config) (now : Nat) (d : Mysql_daemon) :
    Slots_grow ⟨d.next_operation, d.next_promise, none, .Wait_operation⟩ d.g_threads
        (d.enqueue_for_waiting_for_all_async_operations cfg now).daemon.g_threads
      ∧ (d.enqueue_for_waiting_for_all_async_operations cfg now).daemon.next_operation
          = d.next_operation + 1
      ∧ (d.enqueue_for_waiting_for_all_async_operations cfg now).daemon.next_promise
          = d.next_promise + 1
      ∧ (∀ i, i ≠ d.next_promise →
          (d.enqueue_for_waiting_for_all_async_operations cfg now).daemon.world.promises i
            = d.world.promises i)
      ∧ ((d.enqueue_for_waiting_for_all_async_operations cfg now).except = none →
          (d.enqueue_for_waiting_for_all_async_operations cfg now).daemon.world.promises
              d.next_promise
            = some (if (d.enqueue_for_waiting_for_all_async_operations cfg now).daemon.holds
                d.next_operation then .pending else .success)) := by
  obtain ⟨b1, b2, b3, b4, b5⟩ := add_operation_all_effect cfg now d
  obtain ⟨r1, r2, r3, r4, r5⟩ := return_promise_effect (Mysql_daemon.add_operation_all cfg now
    ⟨d.next_operation, d.next_promise, none, .Wait_operation⟩ true
    { d.make_promise with next_operation := d.next_operation + 1 }) d.next_promise
  unfold Mysql_daemon.enqueue_for_waiting_for_all_async_operations
  simp only []
  refine ⟨by rw [r1]; exact b1, by rw [r2, b2], by rw [r3, b3], ?_, ?_⟩
  · intro i hi
    rw [r4 i hi, b4 i hi]
  · intro hex
    have hrr : (Mysql_daemon.add_operation_all cfg now
        ⟨d.next_operation, d.next_promise, none, .Wait_operation⟩ true
        { d.make_promise with next_operation := d.next_operation + 1 }).except = none := by
      unfold Routed.return_promise at hex
      split at hex
      · assumption
      · cases hex
    rw [r5 hrr]
    exact b5

theorem wait_named_of_sub (p k : Nat) (d d1 : Mysql_daemon) (h : Wait_named p k d)
    (hsub : ∀ (j : Nat) s1 x, d1.g_threads[j]? = some s1 → x ∈ slot_operations s1 →
      ∃ (j0 : Nat) (s : Option Mysql_thread), d.g_threads[j0]? = some s ∧ x ∈ slot_operations s)
    (hn1 : d1.next_operation = d.next_operation) (hn2 : d1.next_promise = d.next_promise) :
    Wait_named p k d1 := by
  obtain ⟨hf, hp1, hk1, ha⟩ := h
  refine ⟨?_, by omega, by omega, ?_⟩
  · intro j s1 x hs1 hx
    obtain ⟨j0, s, hs, hxs⟩ := hsub j s1 x hs1 hx
    have := hf j0 s x hs hxs
    omega
  · intro j s1 x hs1 hx
    obtain ⟨j0, s, hs, hxs⟩ := hsub j s1 x hs1 hx
    exact ha j0 s x hs hxs

theorem wait_pending_split (p k : Nat) (d : Mysql_daemon) :
    (Ids_fresh d ∧ Wait_pending p k d)
      ↔ (Wait_named p k d
          ∧ d.world.promises p = some (if d.holds k then .pending else .success)) := by
  unfold Wait_pending Wait_named
  tauto

theorem slot_operations_stop (t : Mysql_thread) :
    slot_operations (some t.stop) = slot_operations (some t) := rfl

theorem wait_pending_stop_thread (p k : Nat) (i : Nat) (d : Mysql_daemon)
    (h : Ids_fresh d ∧ Wait_pending p k d) :
    Ids_fresh (d.stop_thread i) ∧ Wait_pending p k (d.stop_thread i) := by
  unfold Mysql_daemon.stop_thread
  cases hs : d.g_threads[i]? with
  | none => exact h
  | some s =>
    cases s with
    | none => exact h
    | some t =>
      simp only []
      have hg : Slots_grow ⟨k, p, none, .Wait_operation⟩ d.g_threads
          (d.g_threads.set i (some t.stop)) := by
        apply slots_grow_set
        intro s0 hs0
        rw [hs] at hs0
        cases hs0
        exact ⟨fun x hx => Or.inl hx, fun x hx => hx⟩
      rw [wait_pending_split] at h ⊢
      refine ⟨wait_named_of_sub p k d _ h.1 ?_ rfl rfl, ?_⟩
      · intro j s1 x hs1 hx
        obtain ⟨s, hs0, hgs⟩ := slots_grow_get _ _ _ hg j s1 hs1
        by_cases hij : i = j
        · subst hij
          rw [hs] at hs0
          cases hs0
          rw [List.getElem?_set_self' , hs] at hs1
          cases hs1
          exact ⟨i, some t, hs, hx⟩
        · rw [List.getElem?_set_ne hij] at hs1
          exact ⟨j, s1, hs1, hx⟩
      · have hh : Mysql_daemon.holds { d with g_threads := d.g_threads.set i (some t.stop) } k
            = d.holds k := by
          apply holds_congr
          constructor
          · rintro ⟨j, s1, hs1, x, hx, hxk⟩
            by_cases hij : i = j
            · subst hij
              rw [List.getElem?_set_self', hs] at hs1
              cases hs1
              exact ⟨i, some t, hs, x, hx, hxk⟩
            · rw [List.getElem?_set_ne hij] at hs1
              exact ⟨j, s1, hs1, x, hx, hxk⟩
          · rintro ⟨j, s0, hs0, x, hx, hxk⟩
            by_cases hij : i = j
            · subst hij
              rw [hs] at hs0
              cases hs0
              exact ⟨i, some t.stop, by rw [List.getElem?_set_self', hs]; rfl, x, hx, hxk⟩
            · exact ⟨j, s0, by rw [List.getElem?_set_ne hij]; exact hs0, x, hx, hxk⟩
        rw [hh]
        exact h.2

theorem slots_hold_set (l : List (Option Mysql_thread)) (i : Nat) (s0 a : Option Mysql_thread)
    (k : Nat) (h0 : l[i]? = some s0) :
    Slots_hold (l.set i a) k
      ↔ (∃ x ∈ slot_operations a, x.id = k)
        ∨ ∃ (j : Nat) (s : Option Mysql_thread), j ≠ i ∧ l[j]? = some s
            ∧ ∃ x ∈ slot_operations s, x.id = k := by
  constructor
  · rintro ⟨j, s1, hs1, x, hx, hxk⟩
    by_cases hij : i = j
    · subst hij
      rw [List.getElem?_set_self', h0] at hs1
      cases hs1
      exact Or.inl ⟨x, hx, hxk⟩
    · rw [List.getElem?_set_ne hij] at hs1
      exact Or.inr ⟨j, s1, fun h => hij h.symm, hs1, x, hx, hxk⟩
  · rintro (⟨x, hx, hxk⟩ | ⟨j, s, hji, hs, x, hx, hxk⟩)
    · exact ⟨i, a, by rw [List.getElem?_set_self', h0]; rfl, x, hx, hxk⟩
    · exact ⟨j, s, by rw [List.getElem?_set_ne (fun h => hji h.symm)]; exact hs, x, hx, hxk⟩

theorem slots_hold_split (l : List (Option Mysql_thread)) (i : Nat) (s0 : Option Mysql_thread)
    (k : Nat) (h0 : l[i]? = some s0) :
    Slots_hold l k
      ↔ (∃ x ∈ slot_operations s0, x.id = k)
        ∨ ∃ (j : Nat) (s : Option Mysql_thread), j ≠ i ∧ l[j]? = some s
            ∧ ∃ x ∈ slot_operations s, x.id = k := by
  constructor
  · rintro ⟨j, s1, hs1, x, hx, hxk⟩
    by_cases hij : j = i
    · subst hij
      rw [h0] at hs1
      cases hs1
      exact Or.inl ⟨x, hx, hxk⟩
    · exact Or.inr ⟨j, s1, hij, hs1, x, hx, hxk⟩
  · rintro (⟨x, hx, hxk⟩ | ⟨j, s, _, hs, x, hx, hxk⟩)
    · exact ⟨i, s0, h0, x, hx, hxk⟩
    · exact ⟨j, s, hs, x, hx, hxk⟩

/-- A pump by the worker of a slot keeps the invariant of the wait operation: the promise
is fulfilled exactly when the last queue element that points to the operation goes. -/
theorem wait_pending_pump (cfg : Main_config) (p k : Nat) (i now : Nat) (m sl : Connection)
    (d : Mysql_daemon) (h : Ids_fresh d ∧ Wait_pending p k d) :
    Ids_fresh (d.pump cfg i now m sl) ∧ Wait_pending p k (d.pump cfg i now m sl) := by
  unfold Mysql_daemon.pump
  cases hs : d.g_threads[i]? with
  | none => exact h
  | some s =>
    cases s with
    | none => exact h
    | some t =>
      simp only []
      rw [wait_pending_split] at h
      obtain ⟨hn, hpr⟩ := h
      have hsubset : ∀ x ∈ slot_operations
          (some (t.pump_one_operation cfg now d.world m sl).thread), x ∈ slot_operations (some t) :=
        fun x hx => slot_operations_pump cfg now t d.world m sl x hx
      -- the structure is kept whatever the pump did
      have hnamed : ∀ w1 : World, Wait_named p k { d with
          g_threads := d.g_threads.set i (some (t.pump_one_operation cfg now d.world m sl).thread),
          world := w1 } := by
        intro w1
        refine wait_named_of_sub p k d _ hn ?_ rfl rfl
        intro j s1 x hs1 hx
        by_cases hij : i = j
        · subst hij
          rw [List.getElem?_set_self', hs] at hs1
          cases hs1
          exact ⟨i, some t, hs, hsubset x hx⟩
        · rw [List.getElem?_set_ne hij] at hs1
          exact ⟨j, s1, hs1, hx⟩
      -- the pump itself leaves the promise of the wait operation alone
      have hprom : (t.pump_one_operation cfg now d.world m sl).world.promises p
          = d.world.promises p := by
        rcases pump_one_operation_promises cfg now t d.world m sl p with h1 | ⟨e, rest, hq, hep, hev⟩
        · exact h1
        · exfalso
          have hmem : e.operation ∈ slot_operations (some t) := by
            simp only [slot_operations, hq, List.map_cons, List.mem_cons, true_or]
          have h2 := hn.2.2.2 i (some t) e.operation hs hmem
          have h3 := h2.1 (h2.2 hep)
          rw [h3] at hev
          exact hev rfl
      obtain ⟨hc, _, _⟩ := pump_one_operation_front cfg now t d.world m sl
      rcases hc with ⟨hpop, _, hops⟩ | ⟨e, rest, hq, hq1, _, e1, hpop, _, he1⟩
      · -- nothing was removed
        rw [hpop]
        simp only []
        rw [wait_pending_split]
        refine ⟨hnamed _, ?_⟩
        have hh : Mysql_daemon.holds { d with
            g_threads := d.g_threads.set i (some (t.pump_one_operation cfg now d.world m sl).thread),
            world := (t.pump_one_operation cfg now d.world m sl).world } k = d.holds k := by
          apply holds_congr
          rw [slots_hold_set _ i (some t) _ k hs, slots_hold_split _ i (some t) k hs]
          simp only [slot_operations, hops]
        rw [hh]
        simp only []
        rw [hprom]
        exact hpr
      · -- the front element was removed
        rw [hpop]
        simp only []
        rw [he1]
        rw [wait_pending_split]
        have hrel := release_effect { d with
            g_threads := d.g_threads.set i (some (t.pump_one_operation cfg now d.world m sl).thread),
            world := (t.pump_one_operation cfg now d.world m sl).world } e.operation
        refine ⟨wait_named_of_sub p k _ _ (hnamed _) ?_ hrel.2.1 hrel.2.2.1, ?_⟩
        · intro j s1 x hs1 hx
          rw [hrel.1] at hs1
          exact ⟨j, s1, hs1, hx⟩
        · have hmem : e.operation ∈ slot_operations (some t) := by
            simp only [slot_operations, hq, List.map_cons, List.mem_cons, true_or]
          have h2 := hn.2.2.2 i (some t) e.operation hs hmem
          by_cases hek : e.operation.id = k
          · -- the wait operation itself
            have heq := h2.1 hek
            have hheld : d.holds k = true := by
              rw [holds_iff]
              exact ⟨i, some t, hs, e.operation, hmem, hek⟩
            rw [hheld] at hpr
            rw [heq]
            apply release_wait_promise
            simp only []
            rw [hprom]
            exact hpr
          · have hep : p ≠ e.operation.m_weak_promise := fun h => hek (h2.2 h.symm)
            rw [hrel.2.2.2 p hep]
            have hh : (Mysql_daemon.release { d with
                g_threads := d.g_threads.set i
                  (some (t.pump_one_operation cfg now d.world m sl).thread),
                world := (t.pump_one_operation cfg now d.world m sl).world } e.operation).holds k
                = d.holds k := by
              rw [holds_of_threads_eq _ _ k hrel.1]
              apply holds_congr
              rw [slots_hold_set _ i (some t) _ k hs, slots_hold_split _ i (some t) k hs]
              simp only [slot_operations, hq1, hq, List.map_cons, List.mem_cons]
              constructor
              · rintro (⟨x, hx, hxk⟩ | h)
                · exact Or.inl ⟨x, Or.inr hx, hxk⟩
                · exact Or.inr h
              · rintro (⟨x, hx | hx, hxk⟩ | h)
                · rw [hx] at hxk; exact absurd hxk hek
                · exact Or.inl ⟨x, hx, hxk⟩
                · exact Or.inr h
            rw [hh]
            simp only []
            rw [hprom]
            exact hpr

theorem ids_fresh_grow (d d1 : Mysql_daemon) (op : Operation_base) (h : Ids_fresh d)
    (hg : Slots_grow op d.g_threads d1.g_threads)
    (hid : op.id < d1.next_operation) (hpr : op.m_weak_promise < d1.next_promise)
    (hn1 : d.next_operation ≤ d1.next_operation) (hn2 : d.next_promise ≤ d1.next_promise) :
    Ids_fresh d1 := by
  intro j s1 x hs1 hx
  obtain ⟨s, hs, hgs⟩ := slots_grow_get op _ _ hg j s1 hs1
  rcases hgs.1 x hx with h1 | h1
  · have := h j s x hs h1
    omega
  · subst h1
    omega

theorem ids_fresh_by_table (cfg : Main_config) (now : Nat) (d : Mysql_daemon)
    (table : String) (variant : Operation_variant) (urgent : Bool) (h : Ids_fresh d) :
    Ids_fresh (Mysql_daemon.add_operation_by_table cfg now table
        ⟨d.next_operation, d.next_promise, none, variant⟩ urgent
        { d.make_promise with next_operation := d.next_operation + 1 }).daemon
    ∧ Ids_fresh ((Mysql_daemon.add_operation_by_table cfg now table
        ⟨d.next_operation, d.next_promise, none, variant⟩ urgent
        { d.make_promise with next_operation := d.next_operation + 1 }).return_promise
          d.next_promise).daemon := by
  obtain ⟨e1, e2, e3, e4⟩ := add_operation_by_table_effect cfg now table
    ⟨d.next_operation, d.next_promise, none, variant⟩ urgent
    { d.make_promise with next_operation := d.next_operation + 1 }
  obtain ⟨r1, r2, r3, r4, _⟩ := return_promise_effect (Mysql_daemon.add_operation_by_table cfg now
    table ⟨d.next_operation, d.next_promise, none, variant⟩ urgent
    { d.make_promise with next_operation := d.next_operation + 1 }) d.next_promise
  constructor
  · apply ids_fresh_grow d _ _ h e1
    · rw [e3]; simp [Operation_base.set_probe]
    · rw [e4]; simp [Operation_base.set_probe, Mysql_daemon.make_promise]
    · rw [e3]; simp
    · rw [e4]; simp [Mysql_daemon.make_promise]
  · apply ids_fresh_grow d _ _ h (by rw [r1]; exact e1)
    · rw [r2, e3]; simp [Operation_base.set_probe]
    · rw [r3, e4]; simp [Operation_base.set_probe, Mysql_daemon.make_promise]
    · rw [r2, e3]; simp
    · rw [r3, e4]; simp [Mysql_daemon.make_promise]

theorem ids_fresh_step (cfg : Main_config) (d : Mysql_daemon) (x : Daemon_step)
    (h : Ids_fresh d) : Ids_fresh (d.step cfg x) := by
  cases x with
  | enqueue_for_saving now object to_replace urgent =>
    exact (ids_fresh_by_table cfg now d _ _ _ h).2
  | enqueue_for_loading now object query =>
    simp only [Mysql_daemon.step, Mysql_daemon.enqueue_for_loading]
    split
    · exact h
    · exact (ids_fresh_by_table cfg now d _ _ _ h).2
  | enqueue_for_deleting now table_hint query =>
    simp only [Mysql_daemon.step, Mysql_daemon.enqueue_for_deleting]
    split
    · exact h
    · exact (ids_fresh_by_table cfg now d _ _ _ h).2
  | enqueue_for_batch_loading now callback table_hint query =>
    simp only [Mysql_daemon.step, Mysql_daemon.enqueue_for_batch_loading]
    split
    · exact h
    · exact (ids_fresh_by_table cfg now d _ _ _ h).2
  | enqueue_for_low_level_access now callback table_hint from_slave =>
    exact (ids_fresh_by_table cfg now d _ _ _ h).1
  | enqueue_for_waiting_for_all_async_operations now =>
    obtain ⟨b1, b2, b3, _, _⟩ := wait_broadcast_effect cfg now d
    show Ids_fresh (d.enqueue_for_waiting_for_all_async_operations cfg now).daemon
    exact ids_fresh_grow d _ _ h b1 (by rw [b2]; simp) (by rw [b3]; simp) (by rw [b2]; simp)
      (by rw [b3]; simp)
  | pump i now m sl =>
    simp only [Mysql_daemon.step, Mysql_daemon.pump]
    cases hs : d.g_threads[i]? with
    | none => exact h
    | some s =>
      cases s with
      | none => exact h
      | some t =>
        simp only []
        have h1 : Ids_fresh { d with
            g_threads := d.g_threads.set i (some (t.pump_one_operation cfg now d.world m sl).thread),
            world := (t.pump_one_operation cfg now d.world m sl).world } := by
          intro j s1 x hs1 hx
          simp only [] at hs1
          by_cases hij : i = j
          · subst hij
            rw [List.getElem?_set_self', hs] at hs1
            cases hs1
            exact h i (some t) x hs (slot_operations_pump cfg now t d.world m sl x hx)
          · rw [List.getElem?_set_ne hij] at hs1
            exact h j s1 x hs1 hx
        split
        · exact h1
        · rename_i e _
          have hrel := release_effect { d with
            g_threads := d.g_threads.set i (some (t.pump_one_operation cfg now d.world m sl).thread),
            world := (t.pump_one_operation cfg now d.world m sl).world } e.operation
          intro j s1 x hs1 hx
          rw [hrel.1] at hs1
          rw [hrel.2.1, hrel.2.2.1]
          exact h1 j s1 x hs1 hx
  | stop_thread i =>
    simp only [Mysql_daemon.step, Mysql_daemon.stop_thread]
    cases hs : d.g_threads[i]? with
    | none => exact h
    | some s =>
      cases s with
      | none => exact h
      | some t =>
        simp only []
        intro j s1 x hs1 hx
        simp only [] at hs1
        by_cases hij : i = j
        · subst hij
          rw [List.getElem?_set_self', hs] at hs1
          cases hs1
          exact h i (some t) x hs hx
        · rw [List.getElem?_set_ne hij] at hs1
          exact h j s1 x hs1 hx
  | drop_promise q => exact h

theorem ids_fresh_steps (cfg : Main_config) (l : List Daemon_step) (d : Mysql_daemon)
    (h : Ids_fresh d) : Ids_fresh (d.steps cfg l) := by
  induction l generalizing d with
  | nil => exact h
  | cons x xs ih => exact ih _ (ids_fresh_step cfg d x h)

theorem ids_fresh_start (n : Nat) (w : World) : Ids_fresh (Mysql_daemon.start n w) := by
  intro j s op hs hop
  simp only [Mysql_daemon.start] at hs
  rw [List.getElem?_replicate] at hs
  split at hs
  · simp only [Option.some.injEq] at hs
    subst hs
    simp [slot_operations] at hop
  · cases hs

theorem wait_pending_step (cfg : Main_config) (p k : Nat) (d : Mysql_daemon) (x : Daemon_step)
    (h : Ids_fresh d ∧ Wait_pending p k d) (hx : ∀ q, x = .drop_promise q → q ≠ p) :
    Ids_fresh (d.step cfg x) ∧ Wait_pending p k (d.step cfg x) := by
  cases x with
  | enqueue_for_saving now object to_replace urgent =>
    exact (wait_pending_by_table cfg now p k d _ _ _ h).2
  | enqueue_for_loading now object query =>
    simp only [Mysql_daemon.step, Mysql_daemon.enqueue_for_loading]
    split
    · exact h
    · exact (wait_pending_by_table cfg now p k d _ _ _ h).2
  | enqueue_for_deleting now table_hint query =>
    simp only [Mysql_daemon.step, Mysql_daemon.enqueue_for_deleting]
    split
    · exact h
    · exact (wait_pending_by_table cfg now p k d _ _ _ h).2
  | enqueue_for_batch_loading now callback table_hint query =>
    simp only [Mysql_daemon.step, Mysql_daemon.enqueue_for_batch_loading]
    split
    · exact h
    · exact (wait_pending_by_table cfg now p k d _ _ _ h).2
  | enqueue_for_low_level_access now callback table_hint from_slave =>
    exact (wait_pending_by_table cfg now p k d _ _ _ h).1
  | enqueue_for_waiting_for_all_async_operations now =>
    obtain ⟨b1, b2, b3, b4, _⟩ := wait_broadcast_effect cfg now d
    have hpp : p ≠ d.next_promise := by
      have := h.2.1
      omega
    show Ids_fresh (d.enqueue_for_waiting_for_all_async_operations cfg now).daemon
      ∧ Wait_pending p k (d.enqueue_for_waiting_for_all_async_operations cfg now).daemon
    exact wait_pending_grow p k d _ _ h b1 (by rw [b2]; simp) (by rw [b3]; simp) (b4 p hpp)
  | pump i now m sl => exact wait_pending_pump cfg p k i now m sl d h
  | stop_thread i => exact wait_pending_stop_thread p k i d h
  | drop_promise q =>
    have hq := hx q rfl
    obtain ⟨hf, h1, h2, h3, h4⟩ := h
    refine ⟨hf, h1, h2, h3, ?_⟩
    simp only [Mysql_daemon.step]
    rw [if_neg (fun h => hq h.symm)]
    exact h4

/-- C5. The promise that enqueue_for_waiting_for_all_async_operations returns is pending
as long as a queue element of any worker points to the shared Wait operation, and it is
set to success once none does, that is, when the last of the worker queues that received
the operation has removed it, and not before. -/
theorem aggregate_wait_promise (cfg : Main_config) (n : Nat) (w0 : World)
    (l0 l : List Daemon_step) (now : Nat) :
    let d0 := (Mysql_daemon.start n w0).steps cfg l0
    let r := d0.enqueue_for_waiting_for_all_async_operations cfg now
    let d := r.daemon.steps cfg l
    r.except = none → (∀ x ∈ l, x ≠ .drop_promise d0.next_promise) →
      d.world.promises d0.next_promise
        = some (if d.holds d0.next_operation then .pending else .success) := by
  intro d0 r d hex hl
  have hf0 : Ids_fresh d0 := ids_fresh_steps cfg l0 _ (ids_fresh_start n w0)
  obtain ⟨b1, b2, b3, b4, b5⟩ := wait_broadcast_effect cfg now d0
  have hinit : Ids_fresh r.daemon ∧ Wait_pending d0.next_promise d0.next_operation r.daemon := by
    refine ⟨ids_fresh_step cfg d0 (.enqueue_for_waiting_for_all_async_operations now) hf0,
      ?_, ?_, ?_, b5 hex⟩
    · show d0.next_promise < (d0.enqueue_for_waiting_for_all_async_operations cfg now).daemon.next_promise
      rw [b3]; simp
    · show d0.next_operation
        < (d0.enqueue_for_waiting_for_all_async_operations cfg now).daemon.next_operation
      rw [b2]; simp
    · intro j s1 x hs1 hx
      obtain ⟨s, hs, hgs⟩ := slots_grow_get _ _ _ b1 j s1 hs1
      rcases hgs.1 x hx with h1 | h1
      · have := hf0 j s x hs h1
        exact ⟨fun h => by omega, fun h => by omega⟩
      · subst h1
        exact ⟨fun _ => rfl, fun _ => rfl⟩
  have hall : ∀ (l : List Daemon_step) (d1 : Mysql_daemon),
      (∀ x ∈ l, x ≠ .drop_promise d0.next_promise) →
      (Ids_fresh d1 ∧ Wait_pending d0.next_promise d0.next_operation d1) →
      (Ids_fresh (d1.steps cfg l)
        ∧ Wait_pending d0.next_promise d0.next_operation (d1.steps cfg l)) := by
    intro l
    induction l with
    | nil => intro d1 _ h; exact h
    | cons x xs ih =>
      intro d1 hxs h
      apply ih
      · exact fun y hy => hxs y (List.mem_cons_of_mem _ hy)
      · apply wait_pending_step cfg _ _ d1 x h
        intro q hq hqp
        exact hxs x (List.mem_cons_self _ _) (by rw [hq, hqp])
  exact (hall l r.daemon hl hinit).2.2.2.2



/-- C2 (witness). In the scenario the save of table t1 is queued in slot 0, so the probe of
t1 is shared and a further operation for t1 goes to slot 0. -/
theorem sticky_routing_witness :
    scenario_daemon.g_threads[0]? = some (some scenario_worker_t1)
      ∧ scenario_daemon.probe_use_count "t1" > 1
      ∧ (scenario_daemon.add_operation_by_table scenario_config 5 "t1" (scenario_save 9)
          false).daemon.g_threads
        = scenario_daemon.g_threads.set 0
            (some (scenario_worker_t1.add_operation scenario_config 5
              ((scenario_save 9).set_probe "t1") false scenario_daemon.world).thread) :=
  have h := (sticky_routing scenario_config 2 scenario_world
    [.enqueue_for_saving 0 7 true true, .enqueue_for_deleting 0 "t2" "DELETE FROM `t2`"]).2
    "t1" 0 scenario_worker_t1 scenario_element_t1 (by decide) (by decide) (by decide)
  ⟨by decide, h.1, (h.2 5 (scenario_save 9) false).1⟩

/-- C5 (witness). In the scenario both workers receive the wait operation; after the
first worker has removed it the promise is still pending, and after the second worker
has removed it too the promise is set to success. -/
theorem aggregate_wait_promise_witness :
    scenario_broadcast.except = none
      ∧ (scenario_broadcast.daemon.steps scenario_config scenario_pumps_first).holds 2 = true
      ∧ (scenario_broadcast.daemon.steps scenario_config scenario_pumps_first).world.promises 2
          = some .pending
      ∧ (scenario_broadcast.daemon.steps scenario_config scenario_pumps_both).holds 2 = false
      ∧ (scenario_broadcast.daemon.steps scenario_config scenario_pumps_both).world.promises 2
          = some .success :=
  have h1 := aggregate_wait_promise scenario_config 2 scenario_world
    [.enqueue_for_saving 0 7 true true, .enqueue_for_deleting 0 "t2" "DELETE FROM `t2`"]
    scenario_pumps_first 1 (by decide)
    (by
      intro x hx
      simp only [scenario_pumps_first, List.mem_cons, List.mem_singleton, List.not_mem_nil,
        or_false] at hx
      rcases hx with h | h <;> subst h <;> exact Daemon_step.noConfusion)
  have h2 := aggregate_wait_promise scenario_config 2 scenario_world
    [.enqueue_for_saving 0 7 true true, .enqueue_for_deleting 0 "t2" "DELETE FROM `t2`"]
    scenario_pumps_both 1 (by decide)
    (by
      intro x hx
      simp only [scenario_pumps_both, scenario_pumps_first, List.cons_append, List.nil_append,
        List.mem_cons, List.mem_singleton, List.not_mem_nil, or_false] at hx
      rcases hx with h | h | h | h <;> subst h <;> exact Daemon_step.noConfusion)
  ⟨by decide, by decide, h1.trans (by decide), by decide, h2.trans (by decide)⟩

/-! ## Theorems about wait_till_idle -/

theorem executing_queued_step (cfg : Main_config) (s : Worker) (x : Worker_step)
    (h : Executing_queued s) : Executing_queued (s.step cfg x) := by
  cases x with
  | add_operation now op urgent =>
    intro he
    have hq := h he
    rcases add_operation_back cfg now op urgent s.thread s.world with ⟨_, ht, _⟩ | ⟨_, _, hq1, _⟩
    · simp only [Worker.step, ht]; exact hq
    · simp only [Worker.step, hq1]; simp
  | pump_begin now =>
    simp only [Worker.step]
    cases hex : s.executing with
    | some n => simp only []; exact h
    | none =>
      simp only []
      intro he
      cases hq : s.thread.m_queue with
      | nil => simp [Mysql_thread.pump_pick, hq] at he
      | cons e rest =>
        simp only [Mysql_thread.pump_pick, hq]
        split <;> simp [hq]
  | pump_end m sl =>
    simp only [Worker.step]
    cases hex : s.executing with
    | some n => intro he; exact absurd rfl he
    | none => simp only []; exact h
  | stop => exact h

theorem executing_queued_steps (cfg : Main_config) (l : List Worker_step) (s : Worker)
    (h : Executing_queued s) : Executing_queued (s.steps cfg l) := by
  induction l generalizing s with
  | nil => exact h
  | cons x xs ih => exact ih _ (executing_queued_step cfg s x h)

theorem wait_till_idle_returns (cfg : Main_config) (env : Nat → List Worker_step) (fuel : Nat)
    (s s1 : Worker) (h : Executing_queued s) (hr : s.wait_till_idle cfg env fuel = some s1) :
    s1.thread.m_queue = [] ∧ s1.executing = none := by
  induction fuel generalizing s with
  | zero => simp [Worker.wait_till_idle] at hr
  | succ fuel ih =>
    simp only [Worker.wait_till_idle, Mysql_thread.wait_till_idle_round] at hr
    by_cases hlen : s.thread.m_queue.length = 0
    · simp only [hlen, if_true, Option.some.injEq] at hr
      subst hr
      have hq : s.thread.m_queue = [] := List.length_eq_zero.1 hlen
      refine ⟨hq, ?_⟩
      by_contra hne
      exact h hne hq
    · simp only [hlen, if_false] at hr
      apply ih _ _ hr
      apply executing_queued_steps
      intro _ hq
      simp only [] at hq
      exact hlen (by simp [hq])

/-- C7. wait_till_idle returns only in a state in which the queue of the worker is empty,
and since pump_one_operation removes an element only after its execution has finished,
in that state the thread of the worker is not in the middle of executing an operation. -/
theorem wait_till_idle_idle (cfg : Main_config) (w0 : World) (l : List Worker_step)
    (env : Nat → List Worker_step) (fuel : Nat) (s1 : Worker)
    (hr : (Worker.steps cfg ⟨Mysql_thread.new.start, w0, none⟩ l).wait_till_idle cfg env fuel
      = some s1) :
    s1.thread.m_queue = [] ∧ s1.executing = none :=
  wait_till_idle_returns cfg env fuel _ s1
    (executing_queued_steps cfg l _ (fun he => absurd rfl he)) hr

/-- C7 (witness). In the scenario wait_till_idle returns in its fourth round, after the
worker has pumped the three saves regardless of their due times. -/
theorem wait_till_idle_idle_witness :
    (scenario_waited.map (fun s => s.world.trace.length)) = some 9
      ∧ ∀ s1, (Worker.steps scenario_config ⟨Mysql_thread.new.start, scenario_world, none⟩
          (scenario_requests.map (fun r => .add_operation r.now r.operation r.urgent))).wait_till_idle
            scenario_config scenario_env 5 = some s1 →
          s1.thread.m_queue = [] ∧ s1.executing = none :=
  ⟨by decide, fun s1 h => wait_till_idle_idle _ _ _ _ _ s1 h⟩

/-! ## Theorems about the heap functions and the timer daemon -/

theorem get_set_hole {α : Type} (v : List α) (h j : Nat) (x : α) (hh : h < v.length) :
    (v.set h x)[j]? = if j = h then some x else v[j]? := by
  rw [List.getElem?_set]
  by_cases hj : h = j
  · subst hj; simp [hh]
  · have hj2 : ¬ j = h := fun e => hj e.symm
    rw [if_neg hj, if_neg hj2]

theorem perm_set_swap {α : Type} [DecidableEq α] (l : List α) (i j : Nat) (x y : α)
    (hi : l[i]? = some x) (hj : l[j]? = some y) (hij : i ≠ j) :
    ((l.set i y).set j x).Perm l := by
  obtain ⟨hil, hix⟩ := List.getElem?_eq_some.1 hi
  obtain ⟨hjl, hjy⟩ := List.getElem?_eq_some.1 hj
  rw [List.perm_iff_count]
  intro a
  have hjl2 : j < (l.set i y).length := by simpa using hjl
  rw [List.count_set _ _ _ _ hjl2, List.count_set _ _ _ _ hil]
  have h1 : (l.set i y)[j] = y := by
    rw [List.getElem_set_ne hij]; exact hjy
  rw [h1, hix]
  have c1 : (if (x == a) = true then 1 else 0) ≤ List.count a l := by
    have := List.count_pos_iff.2 (show x ∈ l from List.getElem?_mem hi)
    by_cases hxa : x = a
    · subst hxa; rw [if_pos (by simp)]; omega
    · rw [if_neg (by simpa using hxa)]; omega
  have c2 : (if (y == a) = true then 1 else 0) ≤ List.count a l := by
    have := List.count_pos_iff.2 (show y ∈ l from List.getElem?_mem hj)
    by_cases hya : y = a
    · subst hya; rw [if_pos (by simp)]; omega
    · rw [if_neg (by simpa using hya)]; omega
  omega

theorem heap_rising_done {α : Type} (key : α → Nat) (len : Nat) (value : α)
    (v : List α) (h : Nat) (hhv : h < v.length)
    (hinv : Heap_rising key len (v.set h value) h)
    (hstop : h = 0 ∨ ∀ p, v[(h - 1) / 2]? = some p → key p ≤ key value) :
    Heap_upto key len (v.set h value) := by
  intro i p c hi0 hil hp hc
  by_cases hih : i = h
  · subst hih
    rcases hstop with h0 | hstop
    · omega
    · rw [get_set_hole v i _ value hhv] at hp hc
      have hne : (i - 1) / 2 ≠ i := by omega
      rw [if_neg hne] at hp
      rw [if_pos rfl] at hc
      cases hc
      exact hstop p hp
  · exact hinv.1 i p c hi0 hil hih hp hc

theorem set_hole_keep {α : Type} (len : Nat) (value : α) (v : List α) (h : Nat)
    (hhv : h < v.length) (hh : h < len) (j : Nat) (hj : len ≤ j) :
    (v.set h value)[j]? = v[j]? := by
  rw [get_set_hole v h j value hhv, if_neg (by omega)]

/-- The loop of `std::__push_heap` from a hole below which the heap is in order: the
result is a heap, a permutation of the vector with the value in the hole, and it leaves
the positions from `len` on as they were. -/
theorem push_heap_loop_spec {α : Type} [DecidableEq α] (key : α → Nat) (lt : α → α → Bool)
    (hlt : ∀ a b, lt a b = decide (key b < key a)) (len : Nat) (value : α) (fuel : Nat)
    (v : List α) (h : Nat) (hf : h ≤ fuel) (hh : h < len) (hl : len ≤ v.length)
    (hinv : Heap_rising key len (v.set h value) h) :
    Heap_upto key len (push_heap_loop lt 0 value fuel v h)
      ∧ (push_heap_loop lt 0 value fuel v h).Perm (v.set h value)
      ∧ (∀ j, len ≤ j → (push_heap_loop lt 0 value fuel v h)[j]? = v[j]?) := by
  induction fuel generalizing v h with
  | zero =>
    have hhv : h < v.length := by omega
    have h0 : h = 0 := by omega
    simp only [push_heap_loop]
    exact ⟨heap_rising_done key len value v h hhv hinv (Or.inl h0), List.Perm.refl _,
      set_hole_keep len value v h hhv hh⟩
  | succ fuel ih =>
    have hhv : h < v.length := by omega
    have hdone := heap_rising_done key len value v h hhv hinv
    have hkeep := set_hole_keep len value v h hhv hh
    simp only [push_heap_loop]
    cases hp : v[(h - 1) / 2]? with
    | none =>
      simp only []
      have h0 : h = 0 := by
        by_contra hne
        have : (h - 1) / 2 < v.length := by omega
        rw [List.getElem?_eq_getElem this] at hp
        cases hp
      exact ⟨hdone (Or.inl h0), List.Perm.refl _, hkeep⟩
    | some pe =>
      simp only []
      by_cases hcond : (decide (h > 0) && lt pe value) = true
      · rw [if_pos hcond]
        simp only [Bool.and_eq_true, decide_eq_true_eq, hlt] at hcond
        obtain ⟨hpos, hkey⟩ := hcond
        have hph : (h - 1) / 2 < h := by omega
        have hpne : (h - 1) / 2 ≠ h := by omega
        have hlen1 : len ≤ (v.set h pe).length := by simpa using hl
        have hphv : (h - 1) / 2 < (v.set h pe).length := by simp; omega
        -- the vector after the round, with the value in the new hole
        have ga : ∀ j, (v.set h value)[j]? = if j = h then some value else v[j]? :=
          fun j => get_set_hole v h j value hhv
        have ga1 : ∀ j, ((v.set h pe).set ((h - 1) / 2) value)[j]?
            = if j = (h - 1) / 2 then some value else if j = h then some pe else v[j]? := by
          intro j
          rw [get_set_hole _ _ j value hphv, get_set_hole v h j pe hhv]
        have hinv1 : Heap_rising key len ((v.set h pe).set ((h - 1) / 2) value) ((h - 1) / 2) := by
          constructor
          · intro i x y hi0 hil hip hx hy
            rw [ga1] at hx hy
            by_cases hih : i = h
            · rw [hih, if_pos rfl] at hx
              rw [if_neg hip, if_pos hih] at hy
              cases hx; cases hy
              omega
            · rw [if_neg hip, if_neg hih] at hy
              have hya : (v.set h value)[i]? = some y := by rw [ga, if_neg hih]; exact hy
              by_cases hpp : (i - 1) / 2 = (h - 1) / 2
              · rw [if_pos hpp] at hx
                cases hx
                have hpa : (v.set h value)[(i - 1) / 2]? = some pe := by
                  rw [ga, hpp, if_neg hpne]; exact hp
                have := hinv.1 i pe y hi0 hil hih hpa hya
                omega
              · rw [if_neg hpp] at hx
                by_cases hpi : (i - 1) / 2 = h
                · rw [if_pos hpi] at hx
                  cases hx
                  have hga : (v.set h value)[(h - 1) / 2]? = some pe := by
                    rw [ga, if_neg hpne]; exact hp
                  exact hinv.2 i pe y hi0 hil hpi hpos hga hya
                · rw [if_neg hpi] at hx
                  have hpa : (v.set h value)[(i - 1) / 2]? = some x := by
                    rw [ga, if_neg hpi]; exact hx
                  exact hinv.1 i x y hi0 hil hih hpa hya
          · intro i g c hi0 hil hip hp0 hg hc
            rw [ga1] at hg hc
            have hgne1 : ((h - 1) / 2 - 1) / 2 ≠ (h - 1) / 2 := by omega
            have hgne2 : ((h - 1) / 2 - 1) / 2 ≠ h := by omega
            rw [if_neg hgne1, if_neg hgne2] at hg
            have hga : (v.set h value)[((h - 1) / 2 - 1) / 2]? = some g := by
              rw [ga, if_neg hgne2]; exact hg
            have hpa : (v.set h value)[(h - 1) / 2]? = some pe := by
              rw [ga, if_neg hpne]; exact hp
            have hgp : key g ≤ key pe :=
              hinv.1 ((h - 1) / 2) g pe hp0 (by omega) hpne hga hpa
            have hine : i ≠ (h - 1) / 2 := by omega
            by_cases hih : i = h
            · rw [if_neg hine, if_pos hih] at hc
              cases hc
              exact hgp
            · rw [if_neg hine, if_neg hih] at hc
              have hya : (v.set h value)[i]? = some c := by rw [ga, if_neg hih]; exact hc
              have hpa2 : (v.set h value)[(i - 1) / 2]? = some pe := by rw [hip]; exact hpa
              have := hinv.1 i pe c hi0 hil hih hpa2 hya
              omega
        obtain ⟨r1, r2, r3⟩ := ih (v.set h pe) ((h - 1) / 2) (by omega) (by omega) hlen1 hinv1
        refine ⟨r1, r2.trans ?_, ?_⟩
        · have hswap := perm_set_swap (v.set h value) h ((h - 1) / 2) value pe
            (by rw [ga, if_pos rfl]) (by rw [ga, if_neg hpne]; exact hp) (fun e => hpne e.symm)
          rw [List.set_set] at hswap
          exact hswap
        · intro j hj
          rw [r3 j hj, get_set_hole v h j pe hhv, if_neg (by omega)]
      · rw [if_neg hcond]
        refine ⟨hdone ?_, List.Perm.refl _, hkeep⟩
        by_cases hpos : h = 0
        · exact Or.inl hpos
        · right
          intro p hpp
          rw [hp] at hpp
          cases hpp
          simp only [Bool.and_eq_true, decide_eq_true_eq, hlt, not_and, not_lt] at hcond
          exact hcond (by omega)

theorem perm_set_move {α : Type} [DecidableEq α] (v : List α) (h c : Nat) (ch x : α)
    (hh : h < v.length) (hc : v[c]? = some ch) (hne : h ≠ c) :
    ((v.set h ch).set c x).Perm (v.set h x) := by
  have hcl := (List.getElem?_eq_some.1 hc).1
  have h1 : (v.set h x)[h]? = some x := by rw [get_set_hole v h h x hh, if_pos rfl]
  have h2 : (v.set h x)[c]? = some ch := by
    rw [get_set_hole v h c x hh, if_neg (fun e => hne e.symm)]; exact hc
  have := perm_set_swap (v.set h x) h c x ch h1 h2 hne
  rw [List.set_set] at this
  exact this

theorem heap_sinking_step {α : Type} (key : α → Nat) (len : Nat) (v : List α) (h c : Nat)
    (ch : α) (hh : h < v.length) (hc : v[c]? = some ch) (hcp : (c - 1) / 2 = h)
    (hc0 : 0 < c) (hcl : c < len)
    (hmin : ∀ i x, 0 < i → i < len → (i - 1) / 2 = h → v[i]? = some x → key ch ≤ key x)
    (hinv : Heap_sinking key len v h) :
    Heap_sinking key len (v.set h ch) c := by
  have hne : h ≠ c := by omega
  have g : ∀ j, (v.set h ch)[j]? = if j = h then some ch else v[j]? :=
    fun j => get_set_hole v h j ch hh
  constructor
  · intro i p y hi0 hil hic hpc hp hy
    rw [g] at hp hy
    by_cases hih : i = h
    · rw [if_pos hih] at hy
      cases hy
      have hph : (i - 1) / 2 ≠ h := by omega
      rw [if_neg hph] at hp
      rw [hih] at hp
      exact hinv.2 c p ch hc0 hcl hcp (by omega) hp hc
    · rw [if_neg hih] at hy
      by_cases hph : (i - 1) / 2 = h
      · rw [if_pos hph] at hp
        cases hp
        exact hmin i y hi0 hil hph hy
      · rw [if_neg hph] at hp
        exact hinv.1 i p y hi0 hil hih hph hp hy
  · intro i gp y hi0 hil hip _ hg hy
    rw [g] at hg hy
    rw [hcp, if_pos rfl] at hg
    cases hg
    have hih : i ≠ h := by omega
    rw [if_neg hih] at hy
    have hpne : (i - 1) / 2 ≠ h := by omega
    exact hinv.1 i ch y hi0 hil hih hpne (by rw [hip]; exact hc) hy

/-- The loop of `std::__adjust_heap`: the hole sinks along the children of least key to a
position without two children. -/
theorem adjust_heap_loop_spec {α : Type} [DecidableEq α] (key : α → Nat) (lt : α → α → Bool)
    (hlt : ∀ a b, lt a b = decide (key b < key a)) (len : Nat) (fuel : Nat)
    (v : List α) (h : Nat) (hf : len ≤ fuel + h) (hh : h < len) (hl : len ≤ v.length)
    (hinv : Heap_sinking key len v h) :
    Heap_sinking key len (adjust_heap_loop lt len fuel v h).1 (adjust_heap_loop lt len fuel v h).2
      ∧ (adjust_heap_loop lt len fuel v h).2 < len
      ∧ ¬ (adjust_heap_loop lt len fuel v h).2 < (len - 1) / 2
      ∧ (adjust_heap_loop lt len fuel v h).1.length = v.length
      ∧ (∀ x, ((adjust_heap_loop lt len fuel v h).1.set (adjust_heap_loop lt len fuel v h).2 x).Perm
          (v.set h x))
      ∧ (∀ j, len ≤ j → (adjust_heap_loop lt len fuel v h).1[j]? = v[j]?) := by
  induction fuel generalizing v h with
  | zero => omega
  | succ fuel ih =>
    simp only [adjust_heap_loop]
    by_cases hlo : h < (len - 1) / 2
    · rw [if_pos hlo]
      have hr : 2 * (h + 1) < v.length := by omega
      have hle : 2 * (h + 1) - 1 < v.length := by omega
      have hhv : h < v.length := by omega
      rw [List.getElem?_eq_getElem hr, List.getElem?_eq_getElem hle]
      simp only []
      have hrg : v[2 * (h + 1)]? = some v[2 * (h + 1)] := List.getElem?_eq_getElem hr
      have hlg : v[2 * (h + 1) - 1]? = some v[2 * (h + 1) - 1] := List.getElem?_eq_getElem hle
      have hkids : ∀ i, 0 < i → (i - 1) / 2 = h → i = 2 * (h + 1) ∨ i = 2 * (h + 1) - 1 := by
        intro i _ hi; omega
      by_cases hcmp : lt v[2 * (h + 1)] v[2 * (h + 1) - 1] = true
      · rw [if_pos hcmp]
        rw [hlt] at hcmp
        simp only [decide_eq_true_eq] at hcmp
        have hstep := heap_sinking_step key len v h (2 * (h + 1) - 1) v[2 * (h + 1) - 1] hhv hlg
          (by omega) (by omega) (by omega)
          (by
            intro i x hi0 _ hip hx
            rcases hkids i hi0 hip with e | e
            · rw [e, hrg] at hx; cases hx; omega
            · rw [e, hlg] at hx; cases hx; exact le_refl _)
          hinv
        obtain ⟨r1, r2, r3, r4, r5, r6⟩ := ih (v.set h v[2 * (h + 1) - 1]) (2 * (h + 1) - 1)
          (by omega) (by omega) (by simpa using hl) hstep
        refine ⟨r1, r2, r3, by simpa using r4, ?_, ?_⟩
        · intro x
          exact (r5 x).trans (perm_set_move v h _ _ x hhv hlg (by omega))
        · intro j hj
          rw [r6 j hj, get_set_hole v h j _ hhv, if_neg (by omega)]
      · rw [if_neg hcmp]
        rw [hlt] at hcmp
        simp only [decide_eq_true_eq, not_lt] at hcmp
        have hstep := heap_sinking_step key len v h (2 * (h + 1)) v[2 * (h + 1)] hhv hrg
          (by omega) (by omega) (by omega)
          (by
            intro i x hi0 _ hip hx
            rcases hkids i hi0 hip with e | e
            · rw [e, hrg] at hx; cases hx; exact le_refl _
            · rw [e, hlg] at hx; cases hx; omega)
          hinv
        obtain ⟨r1, r2, r3, r4, r5, r6⟩ := ih (v.set h v[2 * (h + 1)]) (2 * (h + 1))
          (by omega) (by omega) (by simpa using hl) hstep
        refine ⟨r1, r2, r3, by simpa using r4, ?_, ?_⟩
        · intro x
          exact (r5 x).trans (perm_set_move v h _ _ x hhv hrg (by omega))
        · intro j hj
          rw [r6 j hj, get_set_hole v h j _ hhv, if_neg (by omega)]
    · rw [if_neg hlo]
      exact ⟨hinv, hh, hlo, rfl, fun x => List.Perm.refl _, fun j _ => rfl⟩

/-- With `std::__adjust_heap` from the top, a vector whose first `len` positions are a
heap apart from the content of position 0 becomes a heap of the value and the other
elements on these positions. -/
theorem adjust_heap_spec {α : Type} [DecidableEq α] (key : α → Nat) (lt : α → α → Bool)
    (hlt : ∀ a b, lt a b = decide (key b < key a)) (len : Nat) (value : α)
    (v : List α) (hh : 0 < len) (hl : len ≤ v.length)
    (hinv : Heap_sinking key len v 0) :
    Heap_upto key len (adjust_heap lt v 0 len value)
      ∧ (adjust_heap lt v 0 len value).Perm (v.set 0 value)
      ∧ (∀ j, len ≤ j → (adjust_heap lt v 0 len value)[j]? = v[j]?) := by
  obtain ⟨r1, r2, r3, r4, r5, r6⟩ :=
    adjust_heap_loop_spec key lt hlt len len v 0 (by omega) hh hl hinv
  simp only [adjust_heap]
  generalize adjust_heap_loop lt len len v 0 = r at r1 r2 r3 r4 r5 r6
  obtain ⟨w, h⟩ := r
  simp only at r1 r2 r3 r4 r5 r6
  simp only []
  have hhw : h < w.length := by omega
  -- the hole after the last, lonely child has been moved up
  have key_fact : ∀ (w1 : List α) (h1 : Nat), h1 < len → w1.length = v.length →
      Heap_sinking key len w1 h1 → (∀ i, 0 < i → i < len → (i - 1) / 2 ≠ h1) →
      (∀ x, (w1.set h1 x).Perm (v.set 0 x)) → (∀ j, len ≤ j → w1[j]? = v[j]?) →
      Heap_upto key len (push_heap_loop lt 0 value h1 w1 h1)
        ∧ (push_heap_loop lt 0 value h1 w1 h1).Perm (v.set 0 value)
        ∧ (∀ j, len ≤ j → (push_heap_loop lt 0 value h1 w1 h1)[j]? = v[j]?) := by
    intro w1 h1 hh1 hlen1 hs hleaf hperm hkeep
    have hh1w : h1 < w1.length := by omega
    have hrise : Heap_rising key len (w1.set h1 value) h1 := by
      constructor
      · intro i p c hi0 hil hih hp hc
        have hpne := hleaf i hi0 hil
        rw [get_set_hole w1 h1 _ value hh1w] at hp hc
        rw [if_neg hpne] at hp
        rw [if_neg hih] at hc
        exact hs.1 i p c hi0 hil hih hpne hp hc
      · intro i g c hi0 hil hip
        exact absurd hip (hleaf i hi0 hil)
    obtain ⟨q1, q2, q3⟩ := push_heap_loop_spec key lt hlt len value h1 w1 h1 (le_refl _) hh1
      (by omega) hrise
    exact ⟨q1, q2.trans (hperm value), fun j hj => by rw [q3 j hj, hkeep j hj]⟩
  by_cases hlast : len % 2 = 0 ∧ 2 ≤ len ∧ h = (len - 2) / 2
  · rw [if_pos hlast]
    have hle : 2 * (h + 1) - 1 < w.length := by omega
    have hlg : w[2 * (h + 1) - 1]? = some w[2 * (h + 1) - 1] := List.getElem?_eq_getElem hle
    rw [hlg]
    simp only []
    have hstep := heap_sinking_step key len w h (2 * (h + 1) - 1) w[2 * (h + 1) - 1] hhw hlg
      (by omega) (by omega) (by omega)
      (by
        intro i x hi0 hil hip hx
        have e : i = 2 * (h + 1) - 1 := by omega
        rw [e, hlg] at hx; cases hx; exact le_refl _)
      r1
    apply key_fact _ _ (by omega) (by simpa using r4) hstep
    · intro i hi0 hil; omega
    · intro x
      exact (perm_set_move w h _ _ x hhw hlg (by omega)).trans (r5 x)
    · intro j hj
      rw [get_set_hole w h j _ hhw, if_neg (by omega), r6 j hj]
  · rw [if_neg hlast]
    apply key_fact _ _ r2 r4 r1 _ r5 r6
    intro i hi0 hil
    omega

theorem is_heap_push_heap {α : Type} [DecidableEq α] (key : α → Nat) (lt : α → α → Bool)
    (hlt : ∀ a b, lt a b = decide (key b < key a)) (v : List α) (x : α)
    (hv : Is_heap key v) :
    Is_heap key (push_heap lt (v ++ [x])) ∧ (push_heap lt (v ++ [x])).Perm (v ++ [x]) := by
  have hlen : (v ++ [x]).length = v.length + 1 := by simp
  have hset : (v ++ [x]).set v.length x = v ++ [x] := by
    apply List.ext_getElem?
    intro j
    rw [get_set_hole _ _ j x (by omega)]
    by_cases hj : j = v.length
    · rw [if_pos hj, hj]; simp
    · rw [if_neg hj]
  have hrise : Heap_rising key (v.length + 1) ((v ++ [x]).set v.length x) v.length := by
    rw [hset]
    constructor
    · intro i p c hi0 hil hih hp hc
      have hi : i < v.length := by omega
      rw [List.getElem?_append_left (by omega)] at hp
      rw [List.getElem?_append_left hi] at hc
      exact hv i p c hi0 hi hp hc
    · intro i g c hi0 hil hip
      omega
  obtain ⟨q1, q2, q3⟩ := push_heap_loop_spec key lt hlt (v.length + 1) x v.length (v ++ [x])
    v.length (le_refl _) (by omega) (by omega) hrise
  have hp : push_heap lt (v ++ [x]) = push_heap_loop lt 0 x v.length (v ++ [x]) v.length := by
    simp [push_heap]
  rw [hp]
  rw [hset] at q2
  refine ⟨?_, q2⟩
  unfold Is_heap
  rw [q2.length_eq, hlen]
  exact q1

theorem is_heap_pop_heap {α : Type} [DecidableEq α] (key : α → Nat) (lt : α → α → Bool)
    (hlt : ∀ a b, lt a b = decide (key b < key a)) (a : α) (rest : List α)
    (hv : Is_heap key (a :: rest)) :
    ∃ v1, pop_heap lt (a :: rest) = v1 ++ [a] ∧ Is_heap key v1 ∧ v1.Perm rest := by
  cases hrest : rest with
  | nil =>
    refine ⟨[], by simp [pop_heap], ?_, List.Perm.refl _⟩
    intro i p c hi0 hil
    simp at hil
  | cons b tl =>
    rw [← hrest]
    have hlen : (a :: rest).length = rest.length + 1 := by simp
    have hpos : 0 < rest.length := by rw [hrest]; simp
    have hlastlt : rest.length < (a :: rest).length := by omega
    have hlg : (a :: rest)[rest.length]? = some (a :: rest)[rest.length] :=
      List.getElem?_eq_getElem hlastlt
    have hp : pop_heap lt (a :: rest)
        = adjust_heap lt ((a :: rest).set rest.length a) 0 rest.length (a :: rest)[rest.length] := by
      simp only [pop_heap, hlen]
      rw [if_pos (by omega)]
      simp only [Nat.add_sub_cancel, hlg]
      simp
    have g : ∀ j, ((a :: rest).set rest.length a)[j]?
        = if j = rest.length then some a else (a :: rest)[j]? :=
      fun j => get_set_hole _ _ j a hlastlt
    have hsink : Heap_sinking key rest.length ((a :: rest).set rest.length a) 0 := by
      constructor
      · intro i p c hi0 hil hih hph hpx hc
        rw [g, if_neg (by omega)] at hpx hc
        exact hv i p c hi0 (by omega) hpx hc
      · intro i gp c _ _ _ h0
        omega
    obtain ⟨q1, q2, q3⟩ := adjust_heap_spec key lt hlt rest.length (a :: rest)[rest.length]
      ((a :: rest).set rest.length a) hpos (by simp) hsink
    rw [← hp] at q1 q2 q3
    have hperm : (pop_heap lt (a :: rest)).Perm (a :: rest) := by
      refine q2.trans ?_
      exact perm_set_swap (a :: rest) rest.length 0 _ a hlg (by simp) (by omega)
    have hl2 : (pop_heap lt (a :: rest)).length = rest.length + 1 := by
      rw [hperm.length_eq, hlen]
    have hlast : (pop_heap lt (a :: rest))[rest.length]? = some a := by
      rw [q3 rest.length (le_refl _), g, if_pos rfl]
    have hsplit : pop_heap lt (a :: rest) = (pop_heap lt (a :: rest)).dropLast ++ [a] := by
      apply List.ext_getElem?
      intro j
      by_cases hj : j < rest.length
      · rw [List.getElem?_append_left (by simp [hl2]; omega), List.getElem?_dropLast,
          if_pos (by rw [hl2]; omega)]
      · by_cases hj2 : j = rest.length
        · rw [hj2, hlast, List.getElem?_append_right (by simp [hl2])]
          simp [hl2]
        · rw [List.getElem?_eq_none (by omega), List.getElem?_eq_none (by simp [hl2]; omega)]
    refine ⟨(pop_heap lt (a :: rest)).dropLast, hsplit, ?_, ?_⟩
    · intro i p c hi0 hil hpx hc
      have hil2 : i < rest.length := by simpa [hl2] using hil
      rw [List.getElem?_dropLast, if_pos (by rw [hl2]; omega)] at hpx hc
      exact q1 i p c hi0 hil2 hpx hc
    · rw [hsplit] at hperm
      have := (List.perm_append_singleton a _).symm.trans hperm
      exact (List.perm_cons a).1 this

theorem is_heap_root_le {α : Type} (key : α → Nat) (v : List α) (a : α)
    (hv : Is_heap key v) (ha : v[0]? = some a) :
    ∀ x ∈ v, key a ≤ key x := by
  have hidx : ∀ (n i : Nat) (x : α), i ≤ n → v[i]? = some x → key a ≤ key x := by
    intro n
    induction n with
    | zero =>
      intro i x hi hx
      have : i = 0 := by omega
      rw [this, ha] at hx; cases hx; exact le_refl _
    | succ n ih =>
      intro i x hi hx
      by_cases h0 : i = 0
      · rw [h0, ha] at hx; cases hx; exact le_refl _
      · have hil := (List.getElem?_eq_some.1 hx).1
        have hpl : (i - 1) / 2 < v.length := by omega
        have hp := ih ((i - 1) / 2) _ (by omega) (List.getElem?_eq_getElem hpl)
        have := hv i _ x (by omega) hil (List.getElem?_eq_getElem hpl) hx
        omega
  intro x hx
  obtain ⟨i, hi⟩ := List.getElem?_of_mem hx
  exact hidx i i x (le_refl _) hi

theorem timer_lt_key (a b : Timer_queue_element) :
    Timer_queue_element.lt a b = decide (b.next < a.next) := rfl

theorem pick_next_spec (now : Nat) (fuel : Nat) (d : Timer_daemon)
    (hheap : Is_heap Timer_queue_element.next d.g_timers) (hfuel : d.g_timers.length < fuel) :
    (Timer_daemon.pick_next now fuel d).2.timers = d.timers
      ∧ (Timer_daemon.pick_next now fuel d).2.next_timer = d.next_timer
      ∧ Is_heap Timer_queue_element.next (Timer_daemon.pick_next now fuel d).2.g_timers
      ∧ Pump_outcome now d (Timer_daemon.pick_next now fuel d) := by
  induction fuel generalizing d with
  | zero => omega
  | succ fuel ih =>
    obtain ⟨timers, next_timer, g_timers, dispatched⟩ := d
    simp only at hheap hfuel
    cases g_timers with
    | nil =>
      simp only [Timer_daemon.pick_next]
      refine ⟨trivial, trivial, hheap, [], by simp, Or.inl ⟨rfl, rfl, by simp, by simp⟩⟩
    | cons front tl =>
      simp only [Timer_daemon.pick_next]
      have hmin := is_heap_root_le Timer_queue_element.next (front :: tl) front hheap (by simp)
      by_cases hdue : now < front.next
      · rw [if_pos hdue]
        refine ⟨rfl, rfl, hheap, [], by simp, Or.inl ⟨rfl, rfl, by simp, ?_⟩⟩
        intro x hx
        have := hmin x hx
        simp only at hx ⊢
        omega
      · rw [if_neg hdue]
        obtain ⟨v1, hpop, hv1, hperm⟩ :=
          is_heap_pop_heap Timer_queue_element.next Timer_queue_element.lt timer_lt_key front tl hheap
        rw [hpop]
        simp only [List.getLast?_concat, List.dropLast_concat]
        have hlen : v1.length < fuel := by
          have := hperm.length_eq
          simp only [List.length_cons] at hfuel
          omega
        have hrec := ih (⟨timers, next_timer, v1, dispatched⟩ : Timer_daemon) hv1 hlen
        -- the outcome when the popped element fails the test
        have hdiscard :
            Timer_daemon.valid (⟨timers, next_timer, front :: tl, dispatched⟩ : Timer_daemon) front = false →
            Pump_outcome now (⟨timers, next_timer, front :: tl, dispatched⟩ : Timer_daemon)
              (Timer_daemon.pick_next now fuel (⟨timers, next_timer, v1, dispatched⟩ : Timer_daemon)) := by
          intro hbad
          obtain ⟨dropped, hd, hcase⟩ := hrec.2.2.2
          refine ⟨front :: dropped, ?_, ?_⟩
          · intro x hx
            rcases List.mem_cons.1 hx with e | hx
            · rw [e]; exact ⟨hbad, by omega⟩
            · exact hd x hx
          · rcases hcase with ⟨h1, h2, h3, h4⟩ | ⟨h1, e, timer, rest, h2, h3, h4, h5, h6, h7, h8, h9⟩
            · refine Or.inl ⟨h1, h2, ?_, h4⟩
              exact (List.Perm.cons front (hperm.symm.trans h3))
            · refine Or.inr ⟨h1, e, timer, rest, ?_, h3, h4, h5, ?_, h7, h8, h9⟩
              · exact (List.Perm.cons front (hperm.symm.trans h2))
              · intro x hx
                rcases List.mem_cons.1 hx with e1 | hx
                · rw [e1]
                  apply hmin
                  apply List.mem_cons_of_mem
                  apply hperm.subset
                  apply h2.symm.subset
                  simp
                · exact h6 x hx
        cases htimer : timers front.timer with
        | none =>
          simp only []
          exact ⟨hrec.1, hrec.2.1, hrec.2.2.1,
            hdiscard (by simp [Timer_daemon.valid, htimer])⟩
        | some timer =>
          simp only []
          by_cases hstamp : timer.m_stamp ≠ front.stamp
          · rw [if_pos hstamp]
            exact ⟨hrec.1, hrec.2.1, hrec.2.2.1,
              hdiscard (by simp [Timer_daemon.valid, htimer, hstamp])⟩
          · rw [if_neg hstamp]
            simp only [ne_eq, not_not] at hstamp
            have hout : ∀ v2 : List Timer_queue_element,
                v2.Perm (if timer.m_period = 0 then tl
                  else { front with next := saturated_add 64 front.next timer.m_period } :: tl) →
                Pump_outcome now (⟨timers, next_timer, front :: tl, dispatched⟩ : Timer_daemon)
                  (true, Timer_daemon.dispatch (⟨timers, next_timer, v2, dispatched⟩ : Timer_daemon) front.timer timer now
                    timer.m_period) := by
              intro v2 hv2
              refine ⟨[], by simp, Or.inr ⟨rfl, front, timer, tl, by simp, htimer, hstamp,
                by omega, by simp, ?_, rfl, hv2⟩⟩
              intro x hx
              exact hmin x (List.mem_cons_of_mem _ hx)
            by_cases hper : timer.m_period = 0
            · rw [if_pos hper]
              refine ⟨rfl, rfl, hv1, hout v1 ?_⟩
              rw [if_pos hper]; exact hperm
            · rw [if_neg hper]
              obtain ⟨hp1, hp2⟩ := is_heap_push_heap Timer_queue_element.next
                Timer_queue_element.lt timer_lt_key v1
                { front with next := saturated_add 64 front.next timer.m_period } hv1
              refine ⟨rfl, rfl, hp1, hout _ ?_⟩
              rw [if_neg hper]
              refine hp2.trans ?_
              exact (List.perm_append_singleton _ _).trans (List.Perm.cons _ hperm)

theorem pump_one_element_spec (now : Nat) (d : Timer_daemon)
    (hheap : Is_heap Timer_queue_element.next d.g_timers) :
    (d.pump_one_element now).2.timers = d.timers
      ∧ (d.pump_one_element now).2.next_timer = d.next_timer
      ∧ Is_heap Timer_queue_element.next (d.pump_one_element now).2.g_timers
      ∧ Pump_outcome now d (d.pump_one_element now) :=
  pick_next_spec now (d.g_timers.length + 1) d hheap (by omega)

theorem is_heap_nil {α : Type} (key : α → Nat) : Is_heap key ([] : List α) := by
  intro i p c _ hil
  simp at hil

theorem register_absolute_timer_effect (first period callback : Nat) (low_level : Bool)
    (d : Timer_daemon) (hheap : Is_heap Timer_queue_element.next d.g_timers) :
    (d.register_absolute_timer first period callback low_level).timers
        = (fun i => if i = d.next_timer then some (Timer.new period callback low_level)
            else d.timers i)
      ∧ (d.register_absolute_timer first period callback low_level).next_timer
        = d.next_timer + 1
      ∧ (d.register_absolute_timer first period callback low_level).dispatched = d.dispatched
      ∧ Is_heap Timer_queue_element.next
          (d.register_absolute_timer first period callback low_level).g_timers
      ∧ (d.register_absolute_timer first period callback low_level).g_timers.Perm
          (d.g_timers ++ [⟨d.next_timer, first, 0⟩]) := by
  obtain ⟨h1, h2⟩ := is_heap_push_heap Timer_queue_element.next Timer_queue_element.lt
    timer_lt_key d.g_timers ⟨d.next_timer, first, 0⟩ hheap
  exact ⟨rfl, rfl, rfl, h1, h2⟩

theorem set_absolute_time_effect (period_intact id first period : Nat) (d : Timer_daemon)
    (t : Timer) (halive : d.timers id = some t)
    (hheap : Is_heap Timer_queue_element.next d.g_timers) :
    (d.set_absolute_time period_intact id first period).timers
        = (fun i => if i = id then some (t.set_period period_intact period).2 else d.timers i)
      ∧ (d.set_absolute_time period_intact id first period).next_timer = d.next_timer
      ∧ (d.set_absolute_time period_intact id first period).dispatched = d.dispatched
      ∧ Is_heap Timer_queue_element.next
          (d.set_absolute_time period_intact id first period).g_timers
      ∧ (d.set_absolute_time period_intact id first period).g_timers.Perm
          (d.g_timers ++ [⟨id, first, (t.set_period period_intact period).1⟩]) := by
  obtain ⟨h1, h2⟩ := is_heap_push_heap Timer_queue_element.next Timer_queue_element.lt
    timer_lt_key d.g_timers ⟨id, first, (t.set_period period_intact period).1⟩ hheap
  simp only [Timer_daemon.set_absolute_time, halive]
  exact ⟨trivial, trivial, trivial, h1, h2⟩

theorem set_absolute_time_dead (period_intact id first period : Nat) (d : Timer_daemon)
    (hdead : d.timers id = none) :
    d.set_absolute_time period_intact id first period = d := by
  simp only [Timer_daemon.set_absolute_time, hdead]

theorem set_period_stamp (period_intact period : Nat) (t : Timer) :
    (t.set_period period_intact period).1 = (t.m_stamp + 1) % 2 ^ 64
      ∧ (t.set_period period_intact period).2.m_stamp = (t.m_stamp + 1) % 2 ^ 64
      ∧ (t.set_period period_intact period).2.m_period
          = (if period = period_intact then t.m_period else period)
      ∧ (t.set_period period_intact period).2.m_callback = t.m_callback
      ∧ (t.set_period period_intact period).2.m_low_level = t.m_low_level := by
  by_cases h : period = period_intact
  · simp [Timer.set_period, h]
  · simp [Timer.set_period, h]

/-- Every element after a pump stems from an element before it, with the same timer and
the same stamp. -/
theorem pump_outcome_stems (now : Nat) (d : Timer_daemon) (r : Bool × Timer_daemon)
    (h : Pump_outcome now d r) :
    ∀ x ∈ r.2.g_timers, ∃ y ∈ d.g_timers, y.timer = x.timer ∧ y.stamp = x.stamp
      ∧ (x = y ∨ ∃ p, x.next = saturated_add 64 y.next p) := by
  obtain ⟨dropped, _, hcase⟩ := h
  intro x hx
  rcases hcase with ⟨_, _, h3, _⟩ | ⟨_, e, timer, rest, h2, _, _, _, _, _, _, h9⟩
  · exact ⟨x, h3.symm.subset (List.mem_append_right _ hx), rfl, rfl, Or.inl rfl⟩
  · have hx2 := h9.subset hx
    have hrest : ∀ y ∈ rest, y ∈ d.g_timers := fun y hy =>
      h2.symm.subset (List.mem_append_right _ (List.mem_cons_of_mem _ hy))
    have he : e ∈ d.g_timers := h2.symm.subset (List.mem_append_right _ (List.mem_cons_self _ _))
    by_cases hp : timer.m_period = 0
    · rw [if_pos hp] at hx2
      exact ⟨x, hrest x hx2, rfl, rfl, Or.inl rfl⟩
    · rw [if_neg hp] at hx2
      rcases List.mem_cons.1 hx2 with e1 | hx3
      · exact ⟨e, he, by rw [e1], by rw [e1], Or.inr ⟨timer.m_period, by rw [e1]⟩⟩
      · exact ⟨x, hrest x hx3, rfl, rfl, Or.inl rfl⟩

theorem timer_inv_start (count : Nat → Nat) : Timer_inv count Timer_daemon.start := by
  refine ⟨is_heap_nil _, ?_, ?_, ?_⟩
  · intro e he; simp [Timer_daemon.start] at he
  · intro i _; rfl
  · intro id _ t ht
    simp [Timer_daemon.start] at ht

theorem timer_inv_register (count : Nat → Nat) (first period callback : Nat)
    (low_level : Bool) (d : Timer_daemon) (h : Timer_inv count d) :
    Timer_inv count (d.register_absolute_timer first period callback low_level) := by
  obtain ⟨h1, h2, h3, h4⟩ := h
  obtain ⟨e1, e2, _, e4, e5⟩ := register_absolute_timer_effect first period callback low_level d h1
  have hmem : ∀ e ∈ (d.register_absolute_timer first period callback low_level).g_timers,
      e ∈ d.g_timers ∨ e = ⟨d.next_timer, first, 0⟩ := by
    intro e he
    have := e5.subset he
    simpa using this
  refine ⟨e4, ?_, ?_, ?_⟩
  · intro e he
    rw [e2]
    rcases hmem e he with hm | hm
    · have := h2 e hm; omega
    · rw [hm]; simp
  · intro i hi
    rw [e2] at hi
    rw [e1]
    simp only
    rw [if_neg (by omega)]
    exact h3 i (by omega)
  · intro id hc t ht
    rw [e1] at ht
    simp only at ht
    by_cases hid : id = d.next_timer
    · rw [if_pos hid] at ht
      cases ht
      refine ⟨Nat.zero_le _, ?_⟩
      intro e he het
      rcases hmem e he with hm | hm
      · have := h2 e hm; omega
      · rw [hm]; exact le_refl _
    · rw [if_neg hid] at ht
      refine ⟨(h4 id hc t ht).1, ?_⟩
      intro e he het
      rcases hmem e he with hm | hm
      · exact (h4 id hc t ht).2 e hm het
      · rw [hm] at het; exact absurd het.symm hid

theorem timer_inv_set_absolute_time (count : Nat → Nat) (period_intact id first period : Nat)
    (d : Timer_daemon) (h : Timer_inv count d) :
    Timer_inv (fun i => count i + (if i = id then 1 else 0))
      (d.set_absolute_time period_intact id first period) := by
  obtain ⟨h1, h2, h3, h4⟩ := h
  have hcount : ∀ i, count i ≤ count i + (if i = id then 1 else 0) := fun i => Nat.le_add_right _ _
  cases halive : d.timers id with
  | none =>
    rw [set_absolute_time_dead period_intact id first period d halive]
    refine ⟨h1, h2, h3, ?_⟩
    intro i hc t ht
    have hc2 : count i < 2 ^ 64 := lt_of_le_of_lt (hcount i) hc
    exact ⟨le_trans (h4 i hc2 t ht).1 (hcount i), (h4 i hc2 t ht).2⟩
  | some t0 =>
    obtain ⟨e1, e2, _, e4, e5⟩ := set_absolute_time_effect period_intact id first period d t0 halive h1
    obtain ⟨s1, s2, _⟩ := set_period_stamp period_intact period t0
    have hmem : ∀ e ∈ (d.set_absolute_time period_intact id first period).g_timers,
        e ∈ d.g_timers ∨ e = ⟨id, first, (t0.set_period period_intact period).1⟩ := by
      intro e he
      have := e5.subset he
      simpa using this
    have hidlt : id < d.next_timer := by
      by_contra hge
      rw [h3 id (by omega)] at halive
      cases halive
    refine ⟨e4, ?_, ?_, ?_⟩
    · intro e he
      rw [e2]
      rcases hmem e he with hm | hm
      · exact h2 e hm
      · rw [hm]; exact hidlt
    · intro i hi
      rw [e2] at hi
      rw [e1]
      simp only
      rw [if_neg (by omega)]
      exact h3 i hi
    · intro i hc t ht
      have hc2 : count i < 2 ^ 64 := lt_of_le_of_lt (hcount i) hc
      rw [e1] at ht
      simp only at ht hc ⊢
      by_cases hid : i = id
      · rw [if_pos hid] at ht hc ⊢
        cases ht
        have hold := h4 id (by rw [hid] at hc2; exact hc2) t0 halive
        rw [hid] at hc ⊢
        have hnowrap : (t0.m_stamp + 1) % 2 ^ 64 = t0.m_stamp + 1 :=
          Nat.mod_eq_of_lt (by omega)
        rw [s2, hnowrap]
        refine ⟨by omega, ?_⟩
        intro e he het
        rcases hmem e he with hm | hm
        · have := hold.2 e hm het; omega
        · rw [hm, s1, hnowrap]
      · rw [if_neg hid] at ht hc ⊢
        refine ⟨(h4 i hc t ht).1, ?_⟩
        intro e he het
        rcases hmem e he with hm | hm
        · exact (h4 i hc t ht).2 e hm het
        · rw [hm] at het; exact absurd het.symm hid

theorem timer_inv_drop_timer (count : Nat → Nat) (id : Nat) (d : Timer_daemon)
    (h : Timer_inv count d) : Timer_inv count (d.drop_timer id) := by
  obtain ⟨h1, h2, h3, h4⟩ := h
  refine ⟨h1, h2, ?_, ?_⟩
  · intro i hi
    show (if i = id then none else d.timers i) = none
    by_cases hid : i = id
    · rw [if_pos hid]
    · rw [if_neg hid]; exact h3 i hi
  · intro i hc t ht
    have ht2 : (if i = id then none else d.timers i) = some t := ht
    by_cases hid : i = id
    · rw [if_pos hid] at ht2; cases ht2
    · rw [if_neg hid] at ht2
      exact h4 i hc t ht2

theorem timer_inv_pump (count : Nat → Nat) (now : Nat) (d : Timer_daemon)
    (h : Timer_inv count d) : Timer_inv count (d.pump_one_element now).2 := by
  obtain ⟨h1, h2, h3, h4⟩ := h
  obtain ⟨p1, p2, p3, p4⟩ := pump_one_element_spec now d h1
  have hstem := pump_outcome_stems now d _ p4
  refine ⟨p3, ?_, ?_, ?_⟩
  · intro e he
    obtain ⟨y, hy, hyt, _⟩ := hstem e he
    rw [p2, ← hyt]
    exact h2 y hy
  · intro i hi
    rw [p2] at hi
    rw [p1]
    exact h3 i hi
  · intro i hc t ht
    rw [p1] at ht
    refine ⟨(h4 i hc t ht).1, ?_⟩
    intro e he het
    obtain ⟨y, hy, hyt, hys, _⟩ := hstem e he
    rw [← hys]
    exact (h4 i hc t ht).2 y hy (by rw [hyt]; exact het)

theorem timer_inv_congr (count count1 : Nat → Nat) (d : Timer_daemon)
    (hc : ∀ i, count1 i = count i) (h : Timer_inv count d) : Timer_inv count1 d := by
  have : count1 = count := funext hc
  rw [this]; exact h

theorem steps_append (period_intact : Nat) (calls : List Timer_call) (c : Timer_call) :
    Timer_daemon.steps period_intact (calls ++ [c])
      = (Timer_daemon.steps period_intact calls).step period_intact c := by
  simp [Timer_daemon.steps, List.foldl_append]

theorem rearm_count_append (id : Nat) (calls : List Timer_call) (c : Timer_call) :
    rearm_count id (calls ++ [c])
      = rearm_count id calls + (if c.rearmed = some id then 1 else 0) := by
  simp only [rearm_count, List.filter_append, List.length_append]
  by_cases h : c.rearmed = some id
  · simp [List.filter, h]
  · simp [List.filter, h]

theorem timer_inv_step (period_intact : Nat) (calls : List Timer_call) (c : Timer_call)
    (d : Timer_daemon) (h : Timer_inv (fun i => rearm_count i calls) d) :
    Timer_inv (fun i => rearm_count i (calls ++ [c])) (d.step period_intact c) := by
  have hsame : c.rearmed = none → Timer_inv (fun i => rearm_count i calls) (d.step period_intact c) →
      Timer_inv (fun i => rearm_count i (calls ++ [c])) (d.step period_intact c) := by
    intro hn
    apply timer_inv_congr
    intro i
    rw [rearm_count_append, hn]
    simp
  have hrearm : ∀ id, c.rearmed = some id →
      Timer_inv (fun i => rearm_count i calls + (if i = id then 1 else 0)) (d.step period_intact c) →
      Timer_inv (fun i => rearm_count i (calls ++ [c])) (d.step period_intact c) := by
    intro id hn
    apply timer_inv_congr
    intro i
    rw [rearm_count_append, hn]
    by_cases hi : i = id
    · simp [hi]
    · have : ¬ id = i := fun e => hi e.symm
      simp [hi, this]
  cases c with
  | register_absolute_timer first period callback low_level =>
    exact hsame rfl (timer_inv_register _ first period callback low_level d h)
  | register_timer now delta_first period callback low_level =>
    exact hsame rfl (timer_inv_register _ _ period callback low_level d h)
  | set_absolute_time id first period =>
    exact hrearm id rfl (timer_inv_set_absolute_time _ period_intact id first period d h)
  | set_time now id delta_first period =>
    exact hrearm id rfl (timer_inv_set_absolute_time _ period_intact id _ period d h)
  | drop_timer id =>
    exact hsame rfl (timer_inv_drop_timer _ id d h)
  | pump_one_element now =>
    exact hsame rfl (timer_inv_pump _ now d h)

/-- The invariant holds after every sequence of calls. -/
theorem timer_inv_steps (period_intact : Nat) (calls : List Timer_call) :
    Timer_inv (fun i => rearm_count i calls) (Timer_daemon.steps period_intact calls) := by
  induction calls using List.reverseRecOn with
  | nil => exact timer_inv_start _
  | append_singleton calls c ih =>
    rw [steps_append]
    exact timer_inv_step period_intact calls c _ ih

theorem pump_true_iff (now : Nat) (d : Timer_daemon)
    (hheap : Is_heap Timer_queue_element.next d.g_timers) :
    (d.pump_one_element now).1 = true ↔
      ∃ e ∈ d.g_timers, d.valid e = true ∧ e.next ≤ now := by
  obtain ⟨_, _, _, dropped, hd, hcase⟩ := pump_one_element_spec now d hheap
  constructor
  · intro htrue
    rcases hcase with ⟨h1, _⟩ | ⟨_, e, timer, rest, h2, h3, h4, h5, _⟩
    · rw [htrue] at h1; cases h1
    · refine ⟨e, h2.symm.subset (List.mem_append_right _ (List.mem_cons_self _ _)), ?_, h5⟩
      simp [Timer_daemon.valid, h3, h4]
  · rintro ⟨e, he, hv, hn⟩
    rcases hcase with ⟨_, _, h3, h4⟩ | ⟨h1, _⟩
    · exfalso
      rcases List.mem_append.1 (h3.subset he) with hm | hm
      · rw [(hd e hm).1] at hv; cases hv
      · have := h4 e hm; omega
    · exact h1

theorem dispatch_make_timer (id : Nat) (timer : Timer) (now period : Nat) :
    (Dispatch.make id timer now period).timer = id
      ∧ (Dispatch.make id timer now period).now = now := by
  unfold Dispatch.make
  cases timer.m_low_level <;> exact ⟨rfl, rfl⟩

theorem register_then_pump (now first period callback : Nat) (low_level : Bool)
    (count : Nat → Nat) (d : Timer_daemon) (hinv : Timer_inv count d) (hfirst : first ≤ now) :
    ((d.register_absolute_timer first period callback low_level).pump_one_element now).1 = true
      ∧ ((∀ x ∈ d.g_timers, d.valid x = true → first < x.next) →
          ((d.register_absolute_timer first period callback low_level).pump_one_element
              now).2.dispatched
            = d.dispatched ++
              [Dispatch.make d.next_timer (Timer.new period callback low_level) now period]) := by
  obtain ⟨h1, h2, h3, _⟩ := hinv
  obtain ⟨e1, _, e3, e4, e5⟩ :=
    register_absolute_timer_effect first period callback low_level d h1
  have hnew_mem : (⟨d.next_timer, first, 0⟩ : Timer_queue_element)
      ∈ (d.register_absolute_timer first period callback low_level).g_timers :=
    e5.symm.subset (by simp)
  have hnew_timer : (d.register_absolute_timer first period callback low_level).timers
      d.next_timer = some (Timer.new period callback low_level) := by
    rw [e1]; simp
  have hnew_valid : (d.register_absolute_timer first period callback low_level).valid
      ⟨d.next_timer, first, 0⟩ = true := by
    simp [Timer_daemon.valid, hnew_timer, Timer.new]
  have hold_valid : ∀ x ∈ d.g_timers,
      (d.register_absolute_timer first period callback low_level).valid x = d.valid x := by
    intro x hx
    have hlt := h2 x hx
    simp only [Timer_daemon.valid, e1]
    rw [if_neg (by omega)]
  constructor
  · exact (pump_true_iff now _ e4).2 ⟨_, hnew_mem, hnew_valid, hfirst⟩
  · intro hlater
    obtain ⟨_, _, _, dropped, hd, hcase⟩ := pump_one_element_spec now
      (d.register_absolute_timer first period callback low_level) e4
    rcases hcase with ⟨h1f, _, h3f, h4f⟩ | ⟨_, e, timer, rest, q2, q3, q4, q5, q6, q7, q8, _⟩
    · exfalso
      rcases List.mem_append.1 (h3f.subset hnew_mem) with hm | hm
      · rw [(hd _ hm).1] at hnew_valid; cases hnew_valid
      · have := h4f _ hm
        simp only at this
        omega
    · have he_mem : e ∈ (d.register_absolute_timer first period callback low_level).g_timers :=
        q2.symm.subset (List.mem_append_right _ (List.mem_cons_self _ _))
      have he_valid : (d.register_absolute_timer first period callback low_level).valid e
          = true := by
        simp [Timer_daemon.valid, q3, q4]
      have he : e = ⟨d.next_timer, first, 0⟩ := by
        rcases List.mem_append.1 (e5.subset he_mem) with hm | hm
        · exfalso
          have hev : d.valid e = true := by rw [← hold_valid e hm]; exact he_valid
          have hl := hlater e hm hev
          rcases List.mem_append.1 (q2.subset hnew_mem) with hm2 | hm2
          · rw [(hd _ hm2).1] at hnew_valid; cases hnew_valid
          · rcases List.mem_cons.1 hm2 with hm3 | hm3
            · rw [← hm3] at hl
              simp only at hl
              omega
            · have := q7 _ hm3
              simp only at this
              omega
        · simpa using hm
      rw [q8, e3]
      rw [he] at q3 ⊢
      simp only at q3 ⊢
      rw [hnew_timer] at q3
      cases q3
      rfl

/-- A timer registered behind an element that passes the test and is due earlier is not
the one that the next pump dispatches: its element stays in the vector. -/
theorem register_then_pump_earlier (now first period callback : Nat) (low_level : Bool)
    (count : Nat → Nat) (d : Timer_daemon) (hinv : Timer_inv count d) (hfirst : first ≤ now)
    (hearlier : ∃ x ∈ d.g_timers, d.valid x = true ∧ x.next < first) :
    (⟨d.next_timer, first, 0⟩ : Timer_queue_element)
        ∈ ((d.register_absolute_timer first period callback low_level).pump_one_element
            now).2.g_timers
      ∧ ∃ ev, ((d.register_absolute_timer first period callback low_level).pump_one_element
            now).2.dispatched = d.dispatched ++ [ev]
          ∧ ev.timer ≠ d.next_timer := by
  obtain ⟨h1, h2, h3, _⟩ := hinv
  obtain ⟨x, hx, hxv, hxn⟩ := hearlier
  obtain ⟨e1, _, e3, e4, e5⟩ :=
    register_absolute_timer_effect first period callback low_level d h1
  have hnew_mem : (⟨d.next_timer, first, 0⟩ : Timer_queue_element)
      ∈ (d.register_absolute_timer first period callback low_level).g_timers :=
    e5.symm.subset (by simp)
  have hnew_timer : (d.register_absolute_timer first period callback low_level).timers
      d.next_timer = some (Timer.new period callback low_level) := by
    rw [e1]; simp
  have hnew_valid : (d.register_absolute_timer first period callback low_level).valid
      ⟨d.next_timer, first, 0⟩ = true := by
    simp [Timer_daemon.valid, hnew_timer, Timer.new]
  have hold_valid : ∀ y ∈ d.g_timers,
      (d.register_absolute_timer first period callback low_level).valid y = d.valid y := by
    intro y hy
    have hlt := h2 y hy
    simp only [Timer_daemon.valid, e1]
    rw [if_neg (by omega)]
  have hx_mem : x ∈ (d.register_absolute_timer first period callback low_level).g_timers :=
    e5.symm.subset (List.mem_append_left _ hx)
  have hx_valid : (d.register_absolute_timer first period callback low_level).valid x = true := by
    rw [hold_valid x hx]; exact hxv
  obtain ⟨_, _, _, dropped, hd, hcase⟩ := pump_one_element_spec now
    (d.register_absolute_timer first period callback low_level) e4
  rcases hcase with ⟨_, _, h3f, h4f⟩ | ⟨_, e, timer, rest, q2, q3, q4, q5, q6, q7, q8, q9⟩
  · exfalso
    rcases List.mem_append.1 (h3f.subset hnew_mem) with hm | hm
    · rw [(hd _ hm).1] at hnew_valid; cases hnew_valid
    · have := h4f _ hm
      simp only at this
      omega
  · have he_mem : e ∈ (d.register_absolute_timer first period callback low_level).g_timers :=
      q2.symm.subset (List.mem_append_right _ (List.mem_cons_self _ _))
    have hx_rest : x = e ∨ x ∈ rest := by
      rcases List.mem_append.1 (q2.subset hx_mem) with hm | hm
      · rw [(hd _ hm).1] at hx_valid; cases hx_valid
      · exact List.mem_cons.1 hm
    have he_timer : e.timer ≠ d.next_timer := by
      intro het
      have he : e = ⟨d.next_timer, first, 0⟩ := by
        rcases List.mem_append.1 (e5.subset he_mem) with hm | hm
        · have := h2 e hm
          omega
        · simpa using hm
      rcases hx_rest with hxe | hxr
      · have := h2 x hx
        rw [hxe, het] at this
        omega
      · have := q7 x hxr
        rw [he] at this
        simp only at this
        omega
    have hnew_rest : (⟨d.next_timer, first, 0⟩ : Timer_queue_element) ∈ rest := by
      rcases List.mem_append.1 (q2.subset hnew_mem) with hm | hm
      · rw [(hd _ hm).1] at hnew_valid; cases hnew_valid
      · rcases List.mem_cons.1 hm with hm2 | hm2
        · exact absurd (by rw [← hm2]) he_timer
        · exact hm2
    refine ⟨?_, _, by rw [q8, e3], ?_⟩
    · apply q9.symm.subset
      split
      · exact hnew_rest
      · exact List.mem_cons_of_mem _ hnew_rest
    · rw [(dispatch_make_timer _ _ _ _).1]
      exact he_timer

/-- C9 (amended). After every sequence of calls, `pump_one_element` returns true exactly
when the vector holds an element that passes the test (its timer is alive and carries the
stamp of the element) with `next ≤ now`; the elements that it removes without
dispatching them fail the test, and the dispatched list grows by the one dispatch of an
element that passes the test, or not at all. When a timer is registered with an absolute
first time that is not after `now`, the very next pump dispatches a timer: it dispatches
the registered timer when every other element that passes the test has a later `next`,
and it dispatches another timer and leaves the element of the registered timer in the
vector when some other element that passes the test has an earlier `next`. -/
theorem timer_due_test (period_intact : Nat) (calls : List Timer_call) (now : Nat) :
    (((Timer_daemon.steps period_intact calls).pump_one_element now).1 = true ↔
        ∃ e ∈ (Timer_daemon.steps period_intact calls).g_timers,
          (Timer_daemon.steps period_intact calls).valid e = true ∧ e.next ≤ now)
      ∧ Pump_outcome now (Timer_daemon.steps period_intact calls)
          ((Timer_daemon.steps period_intact calls).pump_one_element now)
      ∧ ∀ (first period callback : Nat) (low_level : Bool), first ≤ now →
          (((Timer_daemon.steps period_intact calls).register_absolute_timer first period
              callback low_level).pump_one_element now).1 = true
          ∧ ((∀ x ∈ (Timer_daemon.steps period_intact calls).g_timers,
                (Timer_daemon.steps period_intact calls).valid x = true → first < x.next) →
              (((Timer_daemon.steps period_intact calls).register_absolute_timer first period
                  callback low_level).pump_one_element now).2.dispatched
                = (Timer_daemon.steps period_intact calls).dispatched ++
                  [Dispatch.make (Timer_daemon.steps period_intact calls).next_timer
                    (Timer.new period callback low_level) now period])
          ∧ ((∃ x ∈ (Timer_daemon.steps period_intact calls).g_timers,
                (Timer_daemon.steps period_intact calls).valid x = true ∧ x.next < first) →
              (⟨(Timer_daemon.steps period_intact calls).next_timer, first, 0⟩ :
                  Timer_queue_element)
                ∈ (((Timer_daemon.steps period_intact calls).register_absolute_timer first
                    period callback low_level).pump_one_element now).2.g_timers
              ∧ ∃ ev, (((Timer_daemon.steps period_intact calls).register_absolute_timer first
                    period callback low_level).pump_one_element now).2.dispatched
                  = (Timer_daemon.steps period_intact calls).dispatched ++ [ev]
                ∧ ev.timer ≠ (Timer_daemon.steps period_intact calls).next_timer) := by
  have hinv := timer_inv_steps period_intact calls
  refine ⟨pump_true_iff now _ hinv.1, (pump_one_element_spec now _ hinv.1).2.2.2, ?_⟩
  intro first period callback low_level hfirst
  obtain ⟨r1, r2⟩ := register_then_pump now first period callback low_level _ _ hinv hfirst
  exact ⟨r1, r2, register_then_pump_earlier now first period callback low_level _ _ hinv hfirst⟩

/-- In the scenario with one periodic timer registered for the time 5, a second timer is
registered for the time 4 and the pump at the time 10 dispatches it: the pump returns
true and calls the callback of the new timer. When the second timer is registered for
the time 7 instead, the pump at the time 10 dispatches another timer and the element of
the second timer stays in the vector. -/
theorem timer_due_test_witness :
    4 ≤ 10
      ∧ (((Timer_daemon.steps scenario_period_intact scenario_one_timer).register_absolute_timer
            4 0 9 true).pump_one_element 10).1 = true
      ∧ (((Timer_daemon.steps scenario_period_intact scenario_one_timer).register_absolute_timer
            4 0 9 true).pump_one_element 10).2.dispatched = [Dispatch.low_level 1 9 10 0]
      ∧ (⟨1, 7, 0⟩ : Timer_queue_element)
          ∈ (((Timer_daemon.steps scenario_period_intact
              scenario_one_timer).register_absolute_timer 7 0 9 true).pump_one_element
                10).2.g_timers :=
  ⟨by decide,
    ((timer_due_test scenario_period_intact scenario_one_timer 10).2.2 4 0 9 true
      (by decide)).1,
    ((timer_due_test scenario_period_intact scenario_one_timer 10).2.2 4 0 9 true
      (by decide)).2.1 (by decide),
    (((timer_due_test scenario_period_intact scenario_one_timer 10).2.2 7 0 9 true
      (by decide)).2.2 (by decide)).1⟩

/-- C9 (counterexample). Two one-shot timers are registered, for the times 5 and 7; the
second is registered with a first time that is not after the time 10 of the very next
pump, and this pump dispatches the first timer, not the second, whose element stays in
the vector. -/
theorem registered_timer_waits :
    7 ≤ 10
      ∧ ((Timer_daemon.steps scenario_period_intact scenario_two_timers).pump_one_element
          10).1 = true
      ∧ ((Timer_daemon.steps scenario_period_intact scenario_two_timers).pump_one_element
          10).2.dispatched = [Dispatch.low_level 0 1 10 0]
      ∧ ((Timer_daemon.steps scenario_period_intact scenario_two_timers).pump_one_element
          10).2.g_timers = [⟨1, 7, 0⟩] := by
  decide

theorem saturated_add_ge (first a b : Nat) (hfirst : first < 2 ^ 64) (ha : first ≤ a) :
    first ≤ saturated_add 64 a b := by
  unfold saturated_add
  simp only
  split
  · omega
  · omega

/-- From a state in which every element of the timer `id` that passes the test has
`next ≥ first`, no sequence of pumps dispatches the timer at a time before `first`. -/
theorem pumps_not_before (id first : Nat) (hfirst : first < 2 ^ 64) (nows : List Nat)
    (s : Timer_daemon) (hheap : Is_heap Timer_queue_element.next s.g_timers)
    (hlate : ∀ e ∈ s.g_timers, s.valid e = true → e.timer = id → first ≤ e.next) :
    ∃ evs, (s.pumps nows).dispatched = s.dispatched ++ evs
      ∧ ∀ ev ∈ evs, ev.timer = id → first ≤ ev.now := by
  induction nows generalizing s with
  | nil => exact ⟨[], by simp [Timer_daemon.pumps], by simp⟩
  | cons now nows ih =>
    obtain ⟨p1, _, p3, p4⟩ := pump_one_element_spec now s hheap
    have hstem := pump_outcome_stems now s _ p4
    have hvalid : ∀ x y : Timer_queue_element, y.timer = x.timer → y.stamp = x.stamp →
        (s.pump_one_element now).2.valid x = s.valid y := by
      intro x y h1 h2
      simp only [Timer_daemon.valid, p1, h1, h2]
    have hlate2 : ∀ e ∈ (s.pump_one_element now).2.g_timers,
        (s.pump_one_element now).2.valid e = true → e.timer = id → first ≤ e.next := by
      intro x hx hxv hxt
      obtain ⟨y, hy, hyt, hys, hcase⟩ := hstem x hx
      have hyl := hlate y hy (by rw [← hvalid x y hyt hys]; exact hxv) (by rw [hyt]; exact hxt)
      rcases hcase with e1 | ⟨p, hp⟩
      · rw [e1]; exact hyl
      · rw [hp]; exact saturated_add_ge first _ _ hfirst hyl
    obtain ⟨evs, h1, h2⟩ := ih (s.pump_one_element now).2 p3 hlate2
    have hfold : s.pumps (now :: nows) = (s.pump_one_element now).2.pumps nows := rfl
    rw [hfold, h1]
    obtain ⟨dropped, _, hcase⟩ := p4
    rcases hcase with ⟨_, q2, _⟩ | ⟨_, e, timer, rest, q2, q3, q4, q5, _, _, q8, _⟩
    · rw [q2]; exact ⟨evs, rfl, h2⟩
    · refine ⟨Dispatch.make e.timer timer now timer.m_period :: evs, ?_, ?_⟩
      · rw [q8]; simp
      · intro ev hev hid
        rcases List.mem_cons.1 hev with e1 | hm
        · rw [e1] at hid ⊢
          rw [(dispatch_make_timer _ _ _ _).1] at hid
          rw [(dispatch_make_timer _ _ _ _).2]
          have he : e ∈ s.g_timers :=
            q2.symm.subset (List.mem_append_right _ (List.mem_cons_self _ _))
          have := hlate e he (by simp [Timer_daemon.valid, q3, q4]) hid
          omega
        · exact h2 ev hm hid

theorem rearm_effect (period_intact id first period : Nat) (count : Nat → Nat)
    (d : Timer_daemon) (t : Timer) (hinv : Timer_inv count d) (halive : d.timers id = some t)
    (hcount : count id + 1 < 2 ^ 64) (hfirst : first < 2 ^ 64) :
    ∃ t1, (d.set_absolute_time period_intact id first period).timers id = some t1
      ∧ t1.m_period = (if period = period_intact then t.m_period else period)
      ∧ (∀ e ∈ d.g_timers, e.timer = id → e.stamp ≠ t1.m_stamp
          ∧ (d.set_absolute_time period_intact id first period).valid e = false)
      ∧ (d.set_absolute_time period_intact id first period).g_timers.Perm
          (⟨id, first, t1.m_stamp⟩ :: d.g_timers)
      ∧ (d.set_absolute_time period_intact id first period).g_timers.filter
          (fun e => decide (e.timer = id ∧ e.stamp = t1.m_stamp)) = [⟨id, first, t1.m_stamp⟩]
      ∧ (∀ now, Pump_outcome now (d.set_absolute_time period_intact id first period)
          ((d.set_absolute_time period_intact id first period).pump_one_element now))
      ∧ (∀ nows, ∃ evs,
          ((d.set_absolute_time period_intact id first period).pumps nows).dispatched
            = (d.set_absolute_time period_intact id first period).dispatched ++ evs
          ∧ ∀ ev ∈ evs, ev.timer = id → first ≤ ev.now) := by
  obtain ⟨h1, h2, h3, h4⟩ := hinv
  obtain ⟨e1, _, _, e4, e5⟩ := set_absolute_time_effect period_intact id first period d t halive h1
  obtain ⟨s1, s2, s3, _⟩ := set_period_stamp period_intact period t
  obtain ⟨hle, hold⟩ := h4 id (by omega) t halive
  have hnowrap : (t.m_stamp + 1) % 2 ^ 64 = t.m_stamp + 1 := Nat.mod_eq_of_lt (by omega)
  have ht1 : (d.set_absolute_time period_intact id first period).timers id
      = some (t.set_period period_intact period).2 := by
    rw [e1]; simp
  have hstale : ∀ e ∈ d.g_timers, e.timer = id →
      e.stamp ≠ (t.set_period period_intact period).2.m_stamp := by
    intro e he het
    have := hold e he het
    rw [s2, hnowrap]
    omega
  have hinvalid : ∀ e ∈ d.g_timers, e.timer = id →
      (d.set_absolute_time period_intact id first period).valid e = false := by
    intro e he het
    have hs := hstale e he het
    simp only [Timer_daemon.valid, het, ht1]
    simp only [decide_eq_false_iff_not]
    exact fun h => hs h.symm
  have hperm : (d.set_absolute_time period_intact id first period).g_timers.Perm
      (⟨id, first, (t.set_period period_intact period).2.m_stamp⟩ :: d.g_timers) := by
    rw [s2, ← s1]
    exact e5.trans (List.perm_append_singleton _ _)
  refine ⟨(t.set_period period_intact period).2, ht1, s3, ?_, hperm, ?_, ?_, ?_⟩
  · intro e he het
    exact ⟨hstale e he het, hinvalid e he het⟩
  · have hf := hperm.filter
      (fun e => decide (e.timer = id ∧ e.stamp = (t.set_period period_intact period).2.m_stamp))
    have hnone : d.g_timers.filter
        (fun e => decide (e.timer = id ∧ e.stamp = (t.set_period period_intact period).2.m_stamp))
        = [] := by
      rw [List.filter_eq_nil_iff]
      intro e he
      simp only [decide_eq_true_eq, not_and]
      exact fun het => hstale e he het
    rw [List.filter_cons_of_pos (by simp), hnone] at hf
    exact List.perm_singleton.1 hf
  · intro now
    exact (pump_one_element_spec now _ e4).2.2.2
  · intro nows
    apply pumps_not_before id first hfirst nows _ e4
    intro e he hv het
    rcases List.mem_cons.1 (hperm.subset he) with e1 | hm
    · rw [e1]
    · rw [hinvalid e hm het] at hv
      cases hv

/-- C10. After every sequence of calls, `set_absolute_time(timer, first, period)` on a
timer that is alive, with fewer than `2 ^ 64` calls re-arming the timer so far, this one
included, leaves every element for the timer that was queued before with a stamp that is
not the stamp of the timer, so that it fails the test of `pump_one_element`; the elements
queued before are still queued, and exactly one element for the timer, the new one with
`next = first`, carries the stamp of the timer. The period of the timer is `period`,
unless `period` is `period_intact`, in which case it is as before. A pump removes
elements that fail the test without dispatching them, and no sequence of pumps
dispatches the timer at a time before `first`. -/
theorem rearm_invalidates (period_intact : Nat) (calls : List Timer_call)
    (id first period : Nat) (t : Timer)
    (halive : (Timer_daemon.steps period_intact calls).timers id = some t)
    (hcount : rearm_count id (calls ++ [Timer_call.set_absolute_time id first period]) < 2 ^ 64)
    (hfirst : first < 2 ^ 64) :
    ∃ t1, ((Timer_daemon.steps period_intact calls).set_absolute_time period_intact id first
          period).timers id = some t1
      ∧ t1.m_period = (if period = period_intact then t.m_period else period)
      ∧ (∀ e ∈ (Timer_daemon.steps period_intact calls).g_timers, e.timer = id →
          e.stamp ≠ t1.m_stamp
          ∧ ((Timer_daemon.steps period_intact calls).set_absolute_time period_intact id first
              period).valid e = false)
      ∧ ((Timer_daemon.steps period_intact calls).set_absolute_time period_intact id first
          period).g_timers.Perm
          (⟨id, first, t1.m_stamp⟩ :: (Timer_daemon.steps period_intact calls).g_timers)
      ∧ ((Timer_daemon.steps period_intact calls).set_absolute_time period_intact id first
          period).g_timers.filter
          (fun e => decide (e.timer = id ∧ e.stamp = t1.m_stamp)) = [⟨id, first, t1.m_stamp⟩]
      ∧ (∀ now, Pump_outcome now
          ((Timer_daemon.steps period_intact calls).set_absolute_time period_intact id first
            period)
          (((Timer_daemon.steps period_intact calls).set_absolute_time period_intact id first
            period).pump_one_element now))
      ∧ (∀ nows, ∃ evs,
          (((Timer_daemon.steps period_intact calls).set_absolute_time period_intact id first
            period).pumps nows).dispatched
            = ((Timer_daemon.steps period_intact calls).set_absolute_time period_intact id
                first period).dispatched ++ evs
          ∧ ∀ ev ∈ evs, ev.timer = id → first ≤ ev.now) := by
  apply rearm_effect period_intact id first period _ _ t (timer_inv_steps period_intact calls)
    halive _ hfirst
  rw [rearm_count_append] at hcount
  simpa [Timer_call.rearmed] using hcount

/-- In the scenario with one periodic timer registered for the time 5 with the period 3,
the timer is re-armed for the time 100 with the period 9: the hypotheses hold and the
statement applies. -/
theorem rearm_invalidates_witness :
    (Timer_daemon.steps scenario_period_intact scenario_one_timer).timers 0
        = some (Timer.new 3 7 true)
      ∧ rearm_count 0 (scenario_one_timer ++ [Timer_call.set_absolute_time 0 100 9]) < 2 ^ 64
      ∧ 100 < 2 ^ 64
      ∧ ∃ t1, ((Timer_daemon.steps scenario_period_intact scenario_one_timer).set_absolute_time
            scenario_period_intact 0 100 9).timers 0 = some t1
        ∧ t1.m_period = (if 9 = scenario_period_intact then (Timer.new 3 7 true).m_period else 9)
        ∧ (∀ e ∈ (Timer_daemon.steps scenario_period_intact scenario_one_timer).g_timers,
            e.timer = 0 → e.stamp ≠ t1.m_stamp
            ∧ ((Timer_daemon.steps scenario_period_intact scenario_one_timer).set_absolute_time
                scenario_period_intact 0 100 9).valid e = false)
        ∧ ((Timer_daemon.steps scenario_period_intact scenario_one_timer).set_absolute_time
            scenario_period_intact 0 100 9).g_timers.Perm
            (⟨0, 100, t1.m_stamp⟩
              :: (Timer_daemon.steps scenario_period_intact scenario_one_timer).g_timers)
        ∧ ((Timer_daemon.steps scenario_period_intact scenario_one_timer).set_absolute_time
            scenario_period_intact 0 100 9).g_timers.filter
            (fun e => decide (e.timer = 0 ∧ e.stamp = t1.m_stamp)) = [⟨0, 100, t1.m_stamp⟩]
        ∧ (∀ now, Pump_outcome now
            ((Timer_daemon.steps scenario_period_intact scenario_one_timer).set_absolute_time
              scenario_period_intact 0 100 9)
            (((Timer_daemon.steps scenario_period_intact scenario_one_timer).set_absolute_time
              scenario_period_intact 0 100 9).pump_one_element now))
        ∧ (∀ nows, ∃ evs,
            (((Timer_daemon.steps scenario_period_intact scenario_one_timer).set_absolute_time
              scenario_period_intact 0 100 9).pumps nows).dispatched
              = ((Timer_daemon.steps scenario_period_intact scenario_one_timer).set_absolute_time
                  scenario_period_intact 0 100 9).dispatched ++ evs
            ∧ ∀ ev ∈ evs, ev.timer = 0 → 100 ≤ ev.now) :=
  ⟨rfl, by decide, by decide,
    rearm_invalidates scenario_period_intact scenario_one_timer 0 100 9 (Timer.new 3 7 true)
      rfl (by decide) (by decide)⟩

/-- In the scenario with one periodic timer registered for the time 5, re-armed for the
time 100 with the period 9, the pumps at the times 10 and 50 dispatch nothing, although
the element queued for the time 5 is due: the pump at the time 10 removes it. The pumps
at the times 100 and 109 dispatch the timer. -/
theorem rearm_scenario_pumps :
    ((Timer_daemon.steps scenario_period_intact scenario_rearmed).pumps [10, 50]).dispatched = []
      ∧ ((Timer_daemon.steps scenario_period_intact scenario_rearmed).pumps [10]).g_timers
          = [⟨0, 100, 1⟩]
      ∧ ((Timer_daemon.steps scenario_period_intact scenario_rearmed).pumps
          [10, 50, 100, 105, 109]).dispatched
          = [Dispatch.low_level 0 7 100 9, Dispatch.low_level 0 7 109 9] := by
  decide

/-! ## Theorems about the firing of timers -/

theorem popped_spec (now : Nat) (fuel : Nat) (d : Timer_daemon)
    (hheap : Is_heap Timer_queue_element.next d.g_timers) (hfuel : d.g_timers.length < fuel) :
    (Timer_daemon.popped now fuel d = none → (Timer_daemon.pick_next now fuel d).1 = false)
      ∧ (∀ e, Timer_daemon.popped now fuel d = some e →
          (Timer_daemon.pick_next now fuel d).1 = true
          ∧ ∃ (timer : Timer) (dropped rest : List Timer_queue_element),
            d.g_timers.Perm (dropped ++ e :: rest)
            ∧ (∀ x ∈ dropped, d.valid x = false ∧ x.next ≤ e.next)
            ∧ d.timers e.timer = some timer ∧ timer.m_stamp = e.stamp ∧ e.next ≤ now
            ∧ (∀ x ∈ rest, e.next ≤ x.next)
            ∧ (Timer_daemon.pick_next now fuel d).2.dispatched
                = d.dispatched ++ [Dispatch.make e.timer timer now timer.m_period]
            ∧ (Timer_daemon.pick_next now fuel d).2.g_timers.Perm
                (if timer.m_period = 0 then rest
                  else { e with next := saturated_add 64 e.next timer.m_period } :: rest)) := by
  induction fuel generalizing d with
  | zero => omega
  | succ fuel ih =>
    obtain ⟨timers, next_timer, g_timers, dispatched⟩ := d
    simp only at hheap hfuel
    cases g_timers with
    | nil =>
      simp only [Timer_daemon.popped, Timer_daemon.pick_next]
      exact ⟨fun _ => trivial, fun e he => by cases he⟩
    | cons front tl =>
      simp only [Timer_daemon.popped, Timer_daemon.pick_next]
      have hmin := is_heap_root_le Timer_queue_element.next (front :: tl) front hheap (by simp)
      by_cases hdue : now < front.next
      · rw [if_pos hdue, if_pos hdue]
        exact ⟨fun _ => rfl, fun e he => by cases he⟩
      · rw [if_neg hdue, if_neg hdue]
        obtain ⟨v1, hpop, hv1, hperm⟩ :=
          is_heap_pop_heap Timer_queue_element.next Timer_queue_element.lt timer_lt_key front tl hheap
        rw [hpop]
        simp only [List.getLast?_concat, List.dropLast_concat]
        have hlen : v1.length < fuel := by
          have := hperm.length_eq
          simp only [List.length_cons] at hfuel
          omega
        have hrec := ih (⟨timers, next_timer, v1, dispatched⟩ : Timer_daemon) hv1 hlen
        have hdiscard :
            Timer_daemon.valid (⟨timers, next_timer, front :: tl, dispatched⟩ : Timer_daemon) front
              = false →
            ∀ e, Timer_daemon.popped now fuel (⟨timers, next_timer, v1, dispatched⟩ : Timer_daemon)
                = some e →
              (Timer_daemon.pick_next now fuel
                  (⟨timers, next_timer, v1, dispatched⟩ : Timer_daemon)).1 = true
              ∧ ∃ (timer : Timer) (dropped rest : List Timer_queue_element),
                (front :: tl).Perm (dropped ++ e :: rest)
                ∧ (∀ x ∈ dropped,
                    Timer_daemon.valid (⟨timers, next_timer, front :: tl, dispatched⟩ : Timer_daemon) x
                      = false ∧ x.next ≤ e.next)
                ∧ timers e.timer = some timer ∧ timer.m_stamp = e.stamp ∧ e.next ≤ now
                ∧ (∀ x ∈ rest, e.next ≤ x.next)
                ∧ (Timer_daemon.pick_next now fuel
                    (⟨timers, next_timer, v1, dispatched⟩ : Timer_daemon)).2.dispatched
                    = dispatched ++ [Dispatch.make e.timer timer now timer.m_period]
                ∧ (Timer_daemon.pick_next now fuel
                    (⟨timers, next_timer, v1, dispatched⟩ : Timer_daemon)).2.g_timers.Perm
                    (if timer.m_period = 0 then rest
                      else { e with next := saturated_add 64 e.next timer.m_period } :: rest) := by
          intro hbad e he
          obtain ⟨h1, timer, dropped, rest, h2, h3, h4, h5, h6, h7, h8, h9⟩ := hrec.2 e he
          refine ⟨h1, timer, front :: dropped, rest, ?_, ?_, h4, h5, h6, h7, h8, h9⟩
          · exact List.Perm.cons front (hperm.symm.trans h2)
          · intro x hx
            rcases List.mem_cons.1 hx with e1 | hx
            · rw [e1]
              refine ⟨hbad, ?_⟩
              apply hmin
              apply List.mem_cons_of_mem
              apply hperm.subset
              apply h2.symm.subset
              simp
            · exact h3 x hx
        cases htimer : timers front.timer with
        | none =>
          simp only []
          exact ⟨hrec.1, hdiscard (by simp [Timer_daemon.valid, htimer])⟩
        | some timer =>
          simp only []
          by_cases hstamp : timer.m_stamp ≠ front.stamp
          · rw [if_pos hstamp, if_pos hstamp]
            exact ⟨hrec.1, hdiscard (by simp [Timer_daemon.valid, htimer, hstamp])⟩
          · rw [if_neg hstamp, if_neg hstamp]
            simp only [ne_eq, not_not] at hstamp
            refine ⟨fun h => (by cases h), ?_⟩
            intro e he
            cases he
            refine ⟨rfl, timer, [], tl, by simp, by simp, htimer, hstamp, by omega, ?_, ?_, ?_⟩
            · intro x hx
              exact hmin x (List.mem_cons_of_mem _ hx)
            · by_cases hper : timer.m_period = 0
              · rw [if_pos hper]; rfl
              · rw [if_neg hper]; rfl
            · by_cases hper : timer.m_period = 0
              · rw [if_pos hper, if_pos hper]; exact hperm
              · rw [if_neg hper, if_neg hper]
                obtain ⟨_, hp2⟩ := is_heap_push_heap Timer_queue_element.next
                  Timer_queue_element.lt timer_lt_key v1
                  { front with next := saturated_add 64 front.next timer.m_period } hv1
                refine hp2.trans ?_
                exact (List.perm_append_singleton _ _).trans (List.Perm.cons _ hperm)

/-- The element that a pump fires: the pump returns true exactly when it fires one; the
element passes the test and is due, the elements removed before it fail the test and
have no greater `next`, the elements that stay have no smaller `next`, and the fired
element is pushed again with `next` advanced by the period unless the period is 0. -/
theorem fired_spec (now : Nat) (d : Timer_daemon)
    (hheap : Is_heap Timer_queue_element.next d.g_timers) :
    (d.fired now = none → (d.pump_one_element now).1 = false)
      ∧ (∀ e, d.fired now = some e →
          (d.pump_one_element now).1 = true
          ∧ ∃ (timer : Timer) (dropped rest : List Timer_queue_element),
            d.g_timers.Perm (dropped ++ e :: rest)
            ∧ (∀ x ∈ dropped, d.valid x = false ∧ x.next ≤ e.next)
            ∧ d.timers e.timer = some timer ∧ timer.m_stamp = e.stamp ∧ e.next ≤ now
            ∧ (∀ x ∈ rest, e.next ≤ x.next)
            ∧ (d.pump_one_element now).2.dispatched
                = d.dispatched ++ [Dispatch.make e.timer timer now timer.m_period]
            ∧ (d.pump_one_element now).2.g_timers.Perm
                (if timer.m_period = 0 then rest
                  else { e with next := saturated_add 64 e.next timer.m_period } :: rest)) :=
  popped_spec now (d.g_timers.length + 1) d hheap (by omega)

theorem saturated_add_lt (a b : Nat) : saturated_add 64 a b < 2 ^ 64 := by
  unfold saturated_add
  simp only
  split
  · omega
  · exact Nat.mod_lt _ (by decide)

theorem saturated_add_eq_min (a b : Nat) (ha : a < 2 ^ 64) (hb : b < 2 ^ 64) :
    saturated_add 64 a b = min (a + b) (2 ^ 64 - 1) := by
  unfold saturated_add
  simp only
  by_cases h : a + b < 2 ^ 64
  · rw [Nat.mod_eq_of_lt h, if_neg (by omega)]
    omega
  · have h1 : (a + b) % 2 ^ 64 = a + b - 2 ^ 64 := by
      rw [Nat.mod_eq_sub_mod (by omega), Nat.mod_eq_of_lt (by omega)]
    rw [h1, if_pos (by omega)]
    omega

theorem step_is_heap (period_intact : Nat) (d : Timer_daemon) (c : Timer_call)
    (h : Is_heap Timer_queue_element.next d.g_timers) :
    Is_heap Timer_queue_element.next (d.step period_intact c).g_timers := by
  have hset : ∀ id first period, Is_heap Timer_queue_element.next
      (d.set_absolute_time period_intact id first period).g_timers := by
    intro id first period
    cases halive : d.timers id with
    | none => rw [set_absolute_time_dead period_intact id first period d halive]; exact h
    | some t => exact (set_absolute_time_effect period_intact id first period d t halive h).2.2.2.1
  cases c with
  | register_absolute_timer first period callback low_level =>
    exact (register_absolute_timer_effect first period callback low_level d h).2.2.2.1
  | register_timer now delta_first period callback low_level =>
    exact (register_absolute_timer_effect _ period callback low_level d h).2.2.2.1
  | set_absolute_time id first period => exact hset id first period
  | set_time now id delta_first period => exact hset id _ period
  | drop_timer id => exact h
  | pump_one_element now => exact (pump_one_element_spec now d h).2.2.1

theorem in_range_step (period_intact : Nat) (d : Timer_daemon) (c : Timer_call)
    (hheap : Is_heap Timer_queue_element.next d.g_timers) (h : In_range d)
    (hc : c.in_range = true) : In_range (d.step period_intact c) := by
  obtain ⟨h1, h2⟩ := h
  have hreg : ∀ first period callback low_level, first < 2 ^ 64 → period < 2 ^ 64 →
      In_range (d.register_absolute_timer first period callback low_level) := by
    intro first period callback low_level hf hp
    obtain ⟨e1, _, _, _, e5⟩ := register_absolute_timer_effect first period callback low_level d hheap
    constructor
    · intro e he
      rcases List.mem_append.1 (e5.subset he) with hm | hm
      · exact h1 e hm
      · simp only [List.mem_singleton] at hm
        rw [hm]; exact hf
    · intro id t ht
      rw [e1] at ht
      simp only at ht
      by_cases hid : id = d.next_timer
      · rw [if_pos hid] at ht
        cases ht
        exact hp
      · rw [if_neg hid] at ht
        exact h2 id t ht
  have hset : ∀ id first period, first < 2 ^ 64 → period < 2 ^ 64 →
      In_range (d.set_absolute_time period_intact id first period) := by
    intro id first period hf hp
    cases halive : d.timers id with
    | none =>
      rw [set_absolute_time_dead period_intact id first period d halive]
      exact ⟨h1, h2⟩
    | some t0 =>
      obtain ⟨e1, _, _, _, e5⟩ :=
        set_absolute_time_effect period_intact id first period d t0 halive hheap
      obtain ⟨_, _, s3, _⟩ := set_period_stamp period_intact period t0
      constructor
      · intro e he
        rcases List.mem_append.1 (e5.subset he) with hm | hm
        · exact h1 e hm
        · simp only [List.mem_singleton] at hm
          rw [hm]; exact hf
      · intro i t ht
        rw [e1] at ht
        simp only at ht
        by_cases hid : i = id
        · rw [if_pos hid] at ht
          cases ht
          rw [s3]
          split
          · exact h2 id t0 halive
          · exact hp
        · rw [if_neg hid] at ht
          exact h2 i t ht
  cases c with
  | register_absolute_timer first period callback low_level =>
    simp only [Timer_call.in_range, decide_eq_true_eq] at hc
    exact hreg first period callback low_level hc.1 hc.2
  | register_timer now delta_first period callback low_level =>
    simp only [Timer_call.in_range, decide_eq_true_eq] at hc
    exact hreg _ period callback low_level (saturated_add_lt _ _) hc.2.2
  | set_absolute_time id first period =>
    simp only [Timer_call.in_range, decide_eq_true_eq] at hc
    exact hset id first period hc.1 hc.2
  | set_time now id delta_first period =>
    simp only [Timer_call.in_range, decide_eq_true_eq] at hc
    exact hset id _ period (saturated_add_lt _ _) hc.2.2
  | drop_timer id =>
    refine ⟨h1, ?_⟩
    intro i t ht
    have ht2 : (if i = id then none else d.timers i) = some t := ht
    by_cases hid : i = id
    · rw [if_pos hid] at ht2; cases ht2
    · rw [if_neg hid] at ht2; exact h2 i t ht2
  | pump_one_element now =>
    obtain ⟨p1, _, _, p4⟩ := pump_one_element_spec now d hheap
    have hstem := pump_outcome_stems now d _ p4
    constructor
    · intro x hx
      obtain ⟨y, hy, _, _, hcase⟩ := hstem x hx
      rcases hcase with e1 | ⟨p, hp⟩
      · rw [e1]; exact h1 y hy
      · rw [hp]; exact saturated_add_lt _ _
    · intro i t ht
      have ht2 : (d.pump_one_element now).2.timers i = some t := ht
      rw [p1] at ht2
      exact h2 i t ht2

theorem steps_is_heap (period_intact : Nat) (calls : List Timer_call) :
    Is_heap Timer_queue_element.next (Timer_daemon.steps period_intact calls).g_timers :=
  (timer_inv_steps period_intact calls).1

/-- The values stay values of 64 bits when the calls pass values of 64 bits. -/
theorem in_range_steps (period_intact : Nat) (calls : List Timer_call)
    (h : ∀ c ∈ calls, c.in_range = true) :
    In_range (Timer_daemon.steps period_intact calls) := by
  induction calls using List.reverseRecOn with
  | nil =>
    constructor
    · intro e he; simp [Timer_daemon.steps, Timer_daemon.start] at he
    · intro id t ht; simp [Timer_daemon.steps, Timer_daemon.start] at ht
  | append_singleton calls c ih =>
    rw [steps_append]
    exact in_range_step period_intact _ c (steps_is_heap period_intact calls)
      (ih (fun x hx => h x (List.mem_append_left _ hx)))
      (h c (List.mem_append_right _ (List.mem_singleton_self c)))

theorem pump_countP_le (now : Nat) (d : Timer_daemon)
    (hheap : Is_heap Timer_queue_element.next d.g_timers)
    (p : Timer_queue_element → Bool)
    (hp : ∀ x y : Timer_queue_element, x.timer = y.timer → x.stamp = y.stamp → p x = p y) :
    (d.pump_one_element now).2.g_timers.countP p ≤ d.g_timers.countP p := by
  obtain ⟨_, _, _, dropped, _, hcase⟩ := pump_one_element_spec now d hheap
  rcases hcase with ⟨_, _, h3, _⟩ | ⟨_, e, timer, rest, h2, _, _, _, _, _, _, h9⟩
  · rw [h3.countP_eq p, List.countP_append]
    omega
  · rw [h2.countP_eq p, h9.countP_eq p, List.countP_append, List.countP_cons]
    by_cases hper : timer.m_period = 0
    · rw [if_pos hper]; omega
    · rw [if_neg hper, List.countP_cons]
      have : p { e with next := saturated_add 64 e.next timer.m_period } = p e := hp _ _ rfl rfl
      rw [this]
      omega

theorem valid_unique_step (period_intact : Nat) (calls : List Timer_call) (c : Timer_call)
    (d : Timer_daemon) (hinv : Timer_inv (fun i => rearm_count i calls) d)
    (hu : Valid_unique (fun i => rearm_count i calls) d) :
    Valid_unique (fun i => rearm_count i (calls ++ [c])) (d.step period_intact c) := by
  obtain ⟨h1, h2, h3, h4⟩ := hinv
  have hmono : ∀ i, rearm_count i calls ≤ rearm_count i (calls ++ [c]) := by
    intro i; rw [rearm_count_append]; omega
  have hreg : ∀ first period callback low_level,
      Valid_unique (fun i => rearm_count i (calls ++ [c]))
        (d.register_absolute_timer first period callback low_level) := by
    intro first period callback low_level
    obtain ⟨e1, _, _, _, e5⟩ := register_absolute_timer_effect first period callback low_level d h1
    intro id hc t ht
    have hc1 : rearm_count id calls < 2 ^ 64 := lt_of_le_of_lt (hmono id) hc
    rw [e5.countP_eq, List.countP_append]
    rw [e1] at ht
    simp only at ht
    by_cases hid : id = d.next_timer
    · have hzero : d.g_timers.countP (fun e => decide (e.timer = id ∧ e.stamp = t.m_stamp)) = 0 := by
        rw [List.countP_eq_zero]
        intro a ha
        have := h2 a ha
        simp only [decide_eq_true_eq, not_and]
        intro hat; omega
      rw [hzero]
      simp only [List.countP_cons, List.countP_nil]
      split <;> omega
    · rw [if_neg hid] at ht
      have hnew : List.countP (fun e => decide (e.timer = id ∧ e.stamp = t.m_stamp))
          [(⟨d.next_timer, first, 0⟩ : Timer_queue_element)] = 0 := by
        rw [List.countP_eq_zero]
        intro a ha
        simp only [List.mem_singleton] at ha
        rw [ha]
        simp only [decide_eq_true_eq, not_and]
        intro hat; exact absurd hat.symm hid
      rw [hnew]
      exact hu id hc1 t ht
  have hset : ∀ id first period, c.rearmed = some id →
      Valid_unique (fun i => rearm_count i (calls ++ [c]))
        (d.set_absolute_time period_intact id first period) := by
    intro id0 first period hre
    cases halive : d.timers id0 with
    | none =>
      rw [set_absolute_time_dead period_intact id0 first period d halive]
      intro id hc t ht
      exact hu id (lt_of_le_of_lt (hmono id) hc) t ht
    | some t0 =>
      obtain ⟨e1, _, _, _, e5⟩ :=
        set_absolute_time_effect period_intact id0 first period d t0 halive h1
      obtain ⟨s1, s2, _⟩ := set_period_stamp period_intact period t0
      intro id hc t ht
      have hc1 : rearm_count id calls < 2 ^ 64 := lt_of_le_of_lt (hmono id) hc
      rw [e5.countP_eq, List.countP_append]
      rw [e1] at ht
      simp only at ht
      by_cases hid : id = id0
      · rw [if_pos hid] at ht
        cases ht
        have hc2 : rearm_count id0 calls + 1 < 2 ^ 64 := by
          have := hc
          simp only [rearm_count_append, hre, hid, if_true] at this
          exact this
        obtain ⟨hle, hold⟩ := h4 id0 (show rearm_count id0 calls < 2 ^ 64 by omega) t0 halive
        have hle2 : t0.m_stamp ≤ rearm_count id0 calls := hle
        have hnowrap : (t0.m_stamp + 1) % 2 ^ 64 = t0.m_stamp + 1 :=
          Nat.mod_eq_of_lt (by omega)
        have hzero : d.g_timers.countP (fun e => decide (e.timer = id
            ∧ e.stamp = (t0.set_period period_intact period).2.m_stamp)) = 0 := by
          rw [List.countP_eq_zero]
          intro a ha
          simp only [decide_eq_true_eq, not_and]
          intro hat
          have := hold a ha (by rw [hat, hid])
          rw [s2, hnowrap]
          omega
        rw [hzero]
        simp only [List.countP_cons, List.countP_nil]
        split <;> omega
      · rw [if_neg hid] at ht
        have hnew : List.countP (fun e => decide (e.timer = id ∧ e.stamp = t.m_stamp))
            [(⟨id0, first, (t0.set_period period_intact period).1⟩ : Timer_queue_element)] = 0 := by
          rw [List.countP_eq_zero]
          intro a ha
          simp only [List.mem_singleton] at ha
          rw [ha]
          simp only [decide_eq_true_eq, not_and]
          intro hat; exact absurd hat.symm hid
        rw [hnew]
        exact hu id hc1 t ht
  cases c with
  | register_absolute_timer first period callback low_level =>
    exact hreg first period callback low_level
  | register_timer now delta_first period callback low_level =>
    exact hreg _ period callback low_level
  | set_absolute_time id first period => exact hset id first period rfl
  | set_time now id delta_first period => exact hset id _ period rfl
  | drop_timer id0 =>
    intro id hc t ht
    have ht2 : (if id = id0 then none else d.timers id) = some t := ht
    by_cases hid : id = id0
    · rw [if_pos hid] at ht2; cases ht2
    · rw [if_neg hid] at ht2
      exact hu id (lt_of_le_of_lt (hmono id) hc) t ht2
  | pump_one_element now =>
    intro id hc t ht
    obtain ⟨p1, _, _, _⟩ := pump_one_element_spec now d h1
    have ht2 : (d.pump_one_element now).2.timers id = some t := ht
    rw [p1] at ht2
    refine le_trans ?_ (hu id (lt_of_le_of_lt (hmono id) hc) t ht2)
    apply pump_countP_le now d h1
    intro x y hxt hxs
    rw [hxt, hxs]

/-- After every sequence of calls, at most one element for a timer carries its stamp, as
long as the timer has been re-armed fewer than `2 ^ 64` times. -/
theorem valid_unique_steps (period_intact : Nat) (calls : List Timer_call) :
    Valid_unique (fun i => rearm_count i calls) (Timer_daemon.steps period_intact calls) := by
  induction calls using List.reverseRecOn with
  | nil =>
    intro id _ t ht
    simp [Timer_daemon.steps, Timer_daemon.start] at ht
  | append_singleton calls c ih =>
    rw [steps_append]
    exact valid_unique_step period_intact calls c _ (timer_inv_steps period_intact calls) ih

/-- C11 (amended). After every sequence of calls with values of 64 bits, when
`pump_one_element` fires the element `e` (which passes the test) with fire time
`n = e.next` for a timer with the period `p`, the elements of the vector before the call
are the elements `dropped` that fail the test and that the call removes without
dispatching them, the element `e`, and the others, `rest`. If `p > 0`, the vector
afterwards holds `rest` and the element again with `next = min (n + p) (2 ^ 64 - 1)` and
the same stamp, so that its size is the size before less the number of the elements
dropped. If `p = 0`, the vector afterwards holds `rest` only: its size is one less,
again apart from the elements dropped, and nothing of the fired element remains. -/
theorem reschedule_rule (period_intact : Nat) (calls : List Timer_call) (now : Nat)
    (e : Timer_queue_element) (timer : Timer)
    (hrange : ∀ c ∈ calls, c.in_range = true)
    (hfired : (Timer_daemon.steps period_intact calls).fired now = some e)
    (htimer : (Timer_daemon.steps period_intact calls).timers e.timer = some timer) :
    ∃ dropped rest : List Timer_queue_element,
      (Timer_daemon.steps period_intact calls).g_timers.Perm (dropped ++ e :: rest)
      ∧ (∀ x ∈ dropped, (Timer_daemon.steps period_intact calls).valid x = false)
      ∧ (Timer_daemon.steps period_intact calls).valid e = true
      ∧ ((Timer_daemon.steps period_intact calls).pump_one_element now).1 = true
      ∧ ((Timer_daemon.steps period_intact calls).pump_one_element now).2.dispatched
          = (Timer_daemon.steps period_intact calls).dispatched
            ++ [Dispatch.make e.timer timer now timer.m_period]
      ∧ (0 < timer.m_period →
          ((Timer_daemon.steps period_intact calls).pump_one_element now).2.g_timers.Perm
              (⟨e.timer, min (e.next + timer.m_period) (2 ^ 64 - 1), e.stamp⟩ :: rest)
          ∧ ((Timer_daemon.steps period_intact calls).pump_one_element now).2.g_timers.length
              + dropped.length = (Timer_daemon.steps period_intact calls).g_timers.length)
      ∧ (timer.m_period = 0 →
          ((Timer_daemon.steps period_intact calls).pump_one_element now).2.g_timers.Perm rest
          ∧ ((Timer_daemon.steps period_intact calls).pump_one_element now).2.g_timers.length
              + dropped.length + 1 = (Timer_daemon.steps period_intact calls).g_timers.length) := by
  obtain ⟨hr1, hr2⟩ := in_range_steps period_intact calls hrange
  obtain ⟨h1, t1, dropped, rest, h2, h3, h4, h5, h6, h7, h8, h9⟩ :=
    (fired_spec now _ (steps_is_heap period_intact calls)).2 e hfired
  rw [htimer] at h4
  cases h4
  have hlen := h2.length_eq
  simp only [List.length_append, List.length_cons] at hlen
  refine ⟨dropped, rest, h2, fun x hx => (h3 x hx).1, ?_, h1, h8, ?_, ?_⟩
  · simp [Timer_daemon.valid, htimer, h5]
  · intro hp
    rw [if_neg (by omega)] at h9
    have hmem : e ∈ (Timer_daemon.steps period_intact calls).g_timers :=
      h2.symm.subset (List.mem_append_right _ (List.mem_cons_self _ _))
    rw [saturated_add_eq_min _ _ (hr1 e hmem) (hr2 _ _ htimer)] at h9
    refine ⟨h9, ?_⟩
    rw [h9.length_eq, List.length_cons]
    omega
  · intro hp
    rw [if_pos hp] at h9
    refine ⟨h9, ?_⟩
    rw [h9.length_eq]
    omega

/-- In the scenario of the re-armed timer the pump at the time 5 fires the element of the
re-arming, with the fire time 2 and the period 3: the statement applies. -/
theorem reschedule_rule_witness :
    (∀ c ∈ scenario_stale, c.in_range = true)
      ∧ (Timer_daemon.steps scenario_period_intact scenario_stale).fired 5 = some ⟨0, 2, 1⟩
      ∧ (Timer_daemon.steps scenario_period_intact scenario_stale).timers 0 = some ⟨3, 1, 7, true⟩
      ∧ ∃ dropped rest : List Timer_queue_element,
        (Timer_daemon.steps scenario_period_intact scenario_stale).g_timers.Perm
          (dropped ++ ⟨0, 2, 1⟩ :: rest)
        ∧ (∀ x ∈ dropped, (Timer_daemon.steps scenario_period_intact scenario_stale).valid x = false)
        ∧ (Timer_daemon.steps scenario_period_intact scenario_stale).valid ⟨0, 2, 1⟩ = true
        ∧ ((Timer_daemon.steps scenario_period_intact scenario_stale).pump_one_element 5).1 = true
        ∧ ((Timer_daemon.steps scenario_period_intact scenario_stale).pump_one_element 5).2.dispatched
            = (Timer_daemon.steps scenario_period_intact scenario_stale).dispatched
              ++ [Dispatch.make 0 ⟨3, 1, 7, true⟩ 5 3]
        ∧ (0 < 3 →
            ((Timer_daemon.steps scenario_period_intact scenario_stale).pump_one_element
                5).2.g_timers.Perm (⟨0, min (2 + 3) (2 ^ 64 - 1), 1⟩ :: rest)
            ∧ ((Timer_daemon.steps scenario_period_intact scenario_stale).pump_one_element
                5).2.g_timers.length + dropped.length
                = (Timer_daemon.steps scenario_period_intact scenario_stale).g_timers.length)
        ∧ (3 = 0 →
            ((Timer_daemon.steps scenario_period_intact scenario_stale).pump_one_element
                5).2.g_timers.Perm rest
            ∧ ((Timer_daemon.steps scenario_period_intact scenario_stale).pump_one_element
                5).2.g_timers.length + dropped.length + 1
                = (Timer_daemon.steps scenario_period_intact scenario_stale).g_timers.length) :=
  ⟨by decide, by decide, rfl,
    reschedule_rule scenario_period_intact scenario_stale 5 ⟨0, 2, 1⟩ ⟨3, 1, 7, true⟩
      (by decide) (by decide) rfl⟩

/-- C11 (counterexample). The timer is registered for the time 1 with the period 3 and
re-armed for the time 2, so that the vector holds two elements. The pump at the time 5
fires the element of the re-arming, for a timer with the period 3, and the vector
afterwards holds one element, not two: the call has removed the stale element too. -/
theorem stale_entry_shrinks_heap :
    (Timer_daemon.steps scenario_period_intact scenario_stale).g_timers = [⟨0, 1, 0⟩, ⟨0, 2, 1⟩]
      ∧ (Timer_daemon.steps scenario_period_intact scenario_stale).fired 5 = some ⟨0, 2, 1⟩
      ∧ (Timer_daemon.steps scenario_period_intact scenario_stale).timers 0 = some ⟨3, 1, 7, true⟩
      ∧ ((Timer_daemon.steps scenario_period_intact scenario_stale).pump_one_element 5).2.dispatched
          = [Dispatch.low_level 0 7 5 3]
      ∧ ((Timer_daemon.steps scenario_period_intact scenario_stale).pump_one_element 5).2.g_timers
          = [⟨0, 5, 1⟩] := by
  refine ⟨by decide, by decide, rfl, by decide, by decide⟩

theorem valid_congr (d d1 : Timer_daemon) (x : Timer_queue_element)
    (h : d1.timers x.timer = d.timers x.timer) : d1.valid x = d.valid x := by
  simp only [Timer_daemon.valid, h]

theorem steps_append_list (period_intact : Nat) (calls l : List Timer_call) :
    Timer_daemon.steps period_intact (calls ++ l)
      = l.foldl (Timer_daemon.step period_intact) (Timer_daemon.steps period_intact calls) := by
  simp [Timer_daemon.steps, List.foldl_append]

/-- From a state in which every element of the timer `id` that passes the test has
`next ≥ first`, no sequence of calls that does not re-arm the timer dispatches it at a
time before `first`; every dispatch is at the time of one of the pumps. -/
theorem run_not_before (period_intact id first : Nat) (hfirst : first < 2 ^ 64)
    (l : List Timer_call) (d : Timer_daemon)
    (hheap : Is_heap Timer_queue_element.next d.g_timers) (hid : id < d.next_timer)
    (hlate : ∀ e ∈ d.g_timers, d.valid e = true → e.timer = id → first ≤ e.next)
    (hl : ∀ c ∈ l, c.rearmed ≠ some id) :
    ∃ evs, (l.foldl (Timer_daemon.step period_intact) d).dispatched = d.dispatched ++ evs
      ∧ ∀ ev ∈ evs, ev.timer = id →
          first ≤ ev.now ∧ Timer_call.pump_one_element ev.now ∈ l := by
  induction l generalizing d with
  | nil => exact ⟨[], by simp, by simp⟩
  | cons c l ih =>
    have hl2 : ∀ x ∈ l, x.rearmed ≠ some id := fun x hx => hl x (List.mem_cons_of_mem _ hx)
    have hc := hl c (List.mem_cons_self _ _)
    have hheap2 := step_is_heap period_intact d c hheap
    -- a call that dispatches nothing and keeps the elements of the timer late
    have hquiet : (d.step period_intact c).dispatched = d.dispatched →
        id < (d.step period_intact c).next_timer →
        (∀ e ∈ (d.step period_intact c).g_timers, (d.step period_intact c).valid e = true →
          e.timer = id → first ≤ e.next) →
        ∃ evs, ((c :: l).foldl (Timer_daemon.step period_intact) d).dispatched
            = d.dispatched ++ evs
          ∧ ∀ ev ∈ evs, ev.timer = id →
              first ≤ ev.now ∧ Timer_call.pump_one_element ev.now ∈ c :: l := by
      intro hd hn hlate2
      obtain ⟨evs, h1, h2⟩ := ih (d.step period_intact c) hheap2 hn hlate2 hl2
      refine ⟨evs, ?_, ?_⟩
      · rw [List.foldl_cons, h1, hd]
      · intro ev hev hevt
        exact ⟨(h2 ev hev hevt).1, List.mem_cons_of_mem _ (h2 ev hev hevt).2⟩
    have hreg : ∀ first1 period callback low_level,
        d.step period_intact c = d.register_absolute_timer first1 period callback low_level →
        ∃ evs, ((c :: l).foldl (Timer_daemon.step period_intact) d).dispatched
            = d.dispatched ++ evs
          ∧ ∀ ev ∈ evs, ev.timer = id →
              first ≤ ev.now ∧ Timer_call.pump_one_element ev.now ∈ c :: l := by
      intro first1 period callback low_level hstep
      obtain ⟨e1, e2, e3, _, e5⟩ :=
        register_absolute_timer_effect first1 period callback low_level d hheap
      apply hquiet
      · rw [hstep, e3]
      · rw [hstep, e2]; omega
      · rw [hstep]
        intro x hx hv hxt
        rcases List.mem_append.1 (e5.subset hx) with hm | hm
        · apply hlate x hm _ hxt
          rw [← hv]
          symm
          apply valid_congr
          rw [e1]
          simp only
          rw [if_neg (by omega)]
        · simp only [List.mem_singleton] at hm
          rw [hm] at hxt
          simp only at hxt
          omega
    have hset : ∀ id0 first1 period, id0 ≠ id →
        d.step period_intact c = d.set_absolute_time period_intact id0 first1 period →
        ∃ evs, ((c :: l).foldl (Timer_daemon.step period_intact) d).dispatched
            = d.dispatched ++ evs
          ∧ ∀ ev ∈ evs, ev.timer = id →
              first ≤ ev.now ∧ Timer_call.pump_one_element ev.now ∈ c :: l := by
      intro id0 first1 period hne hstep
      cases halive : d.timers id0 with
      | none =>
        have hsame := set_absolute_time_dead period_intact id0 first1 period d halive
        apply hquiet
        · rw [hstep, hsame]
        · rw [hstep, hsame]; exact hid
        · rw [hstep, hsame]; exact hlate
      | some t0 =>
        obtain ⟨e1, e2, e3, _, e5⟩ :=
          set_absolute_time_effect period_intact id0 first1 period d t0 halive hheap
        apply hquiet
        · rw [hstep, e3]
        · rw [hstep, e2]; exact hid
        · rw [hstep]
          intro x hx hv hxt
          rcases List.mem_append.1 (e5.subset hx) with hm | hm
          · apply hlate x hm _ hxt
            rw [← hv]
            symm
            apply valid_congr
            rw [e1]
            simp only
            rw [if_neg (by rw [hxt]; exact fun h => hne h.symm)]
          · simp only [List.mem_singleton] at hm
            rw [hm] at hxt
            exact absurd hxt hne
    cases c with
    | register_absolute_timer first1 period callback low_level =>
      exact hreg first1 period callback low_level rfl
    | register_timer now delta_first period callback low_level =>
      exact hreg _ period callback low_level rfl
    | set_absolute_time id0 first1 period =>
      exact hset id0 first1 period (fun h => hc (by rw [h]; rfl)) rfl
    | set_time now id0 delta_first period =>
      exact hset id0 _ period (fun h => hc (by rw [h]; rfl)) rfl
    | drop_timer id0 =>
      apply hquiet rfl hid
      intro x hx hv hxt
      apply hlate x hx _ hxt
      have hv2 : (d.drop_timer id0).valid x = true := hv
      simp only [Timer_daemon.valid, Timer_daemon.drop_timer] at hv2
      by_cases hx0 : x.timer = id0
      · rw [if_pos hx0] at hv2; cases hv2
      · rw [if_neg hx0] at hv2
        simpa [Timer_daemon.valid] using hv2
    | pump_one_element now =>
      obtain ⟨p1, p2, p3, p4⟩ := pump_one_element_spec now d hheap
      have hstem := pump_outcome_stems now d _ p4
      have hlate2 : ∀ e ∈ (d.pump_one_element now).2.g_timers,
          (d.pump_one_element now).2.valid e = true → e.timer = id → first ≤ e.next := by
        intro x hx hxv hxt
        obtain ⟨y, hy, hyt, hys, hcase⟩ := hstem x hx
        have hyv : d.valid y = true := by
          rw [← hxv]
          simp only [Timer_daemon.valid, p1, hyt, hys]
        have hyl := hlate y hy hyv (by rw [hyt]; exact hxt)
        rcases hcase with e1 | ⟨p, hp⟩
        · rw [e1]; exact hyl
        · rw [hp]; exact saturated_add_ge first _ _ hfirst hyl
      obtain ⟨evs, h1, h2⟩ := ih (d.pump_one_element now).2 p3 (by rw [p2]; exact hid) hlate2 hl2
      have hfold : (Timer_call.pump_one_element now :: l).foldl (Timer_daemon.step period_intact) d
          = l.foldl (Timer_daemon.step period_intact) (d.pump_one_element now).2 := rfl
      rw [hfold, h1]
      obtain ⟨dropped, _, hcase⟩ := p4
      rcases hcase with ⟨_, q2, _⟩ | ⟨_, e, timer, rest, q2, q3, q4, q5, _, _, q8, _⟩
      · rw [q2]
        refine ⟨evs, rfl, ?_⟩
        intro ev hev hevt
        exact ⟨(h2 ev hev hevt).1, List.mem_cons_of_mem _ (h2 ev hev hevt).2⟩
      · refine ⟨Dispatch.make e.timer timer now timer.m_period :: evs, ?_, ?_⟩
        · rw [q8]; simp
        · intro ev hev hevt
          rcases List.mem_cons.1 hev with e1 | hm
          · rw [e1] at hevt ⊢
            rw [(dispatch_make_timer _ _ _ _).1] at hevt
            rw [(dispatch_make_timer _ _ _ _).2]
            have he : e ∈ d.g_timers :=
              q2.symm.subset (List.mem_append_right _ (List.mem_cons_self _ _))
            have := hlate e he (by simp [Timer_daemon.valid, q3, q4]) hevt
            exact ⟨by omega, List.mem_cons_self _ _⟩
          · exact ⟨(h2 ev hm hevt).1, List.mem_cons_of_mem _ (h2 ev hm hevt).2⟩

/-- C12 (amended). After every sequence of calls with values of 64 bits, let a pump at
the time `now1` fire the element `e`, with the fire time `n = e.next`, of a timer with
the period `p > 0` that has been re-armed fewer than `2 ^ 64` times. Then `n ≤ now1`,
and in every continuation that does not re-arm the timer, every later dispatch of the
timer happens at the time of one of the later pumps (so the times are monotonic when the
clock is) and that time is at least `min (n + p) (2 ^ 64 - 1)`: the spacing is measured
from the fire time of the element, not from the time `now1` of the firing. The two
times differ by at least `p` when the firing was on time (`now1 = n`). -/
theorem periodic_spacing (period_intact : Nat) (calls l : List Timer_call) (now1 : Nat)
    (e : Timer_queue_element) (timer : Timer)
    (hrange : ∀ c ∈ calls, c.in_range = true)
    (hfired : (Timer_daemon.steps period_intact calls).fired now1 = some e)
    (htimer : (Timer_daemon.steps period_intact calls).timers e.timer = some timer)
    (hp : 0 < timer.m_period)
    (hcount : rearm_count e.timer calls < 2 ^ 64)
    (hl : ∀ c ∈ l, c.rearmed ≠ some e.timer) :
    e.next ≤ now1
      ∧ ∃ evs, (Timer_daemon.steps period_intact
            (calls ++ Timer_call.pump_one_element now1 :: l)).dispatched
          = (Timer_daemon.steps period_intact calls).dispatched
            ++ Dispatch.make e.timer timer now1 timer.m_period :: evs
        ∧ ∀ ev ∈ evs, ev.timer = e.timer →
            Timer_call.pump_one_element ev.now ∈ l
            ∧ ((∀ n, Timer_call.pump_one_element n ∈ l → now1 ≤ n) → now1 ≤ ev.now)
            ∧ min (e.next + timer.m_period) (2 ^ 64 - 1) ≤ ev.now
            ∧ (now1 = e.next → e.next + timer.m_period < 2 ^ 64 →
                now1 + timer.m_period ≤ ev.now) := by
  have hinv := timer_inv_steps period_intact calls
  have huniq := valid_unique_steps period_intact calls
  obtain ⟨hr1, hr2⟩ := in_range_steps period_intact calls hrange
  obtain ⟨hheap, hb, hc, _⟩ := hinv
  obtain ⟨_, t1, dropped, rest, h2, h3, h4, h5, h6, h7, h8, h9⟩ :=
    (fired_spec now1 _ hheap).2 e hfired
  rw [htimer] at h4
  cases h4
  obtain ⟨p1, p2, p3, _⟩ := pump_one_element_spec now1 _ hheap
  rw [if_neg (by omega)] at h9
  have hmem : e ∈ (Timer_daemon.steps period_intact calls).g_timers :=
    h2.symm.subset (List.mem_append_right _ (List.mem_cons_self _ _))
  have hmin := saturated_add_eq_min _ _ (hr1 e hmem) (hr2 _ _ htimer)
  -- no other element of the timer passes the test
  have hcnt := huniq e.timer hcount timer htimer
  rw [h2.countP_eq, List.countP_append, List.countP_cons] at hcnt
  have he1 : (decide (e.timer = e.timer ∧ e.stamp = timer.m_stamp)) = true := by
    simp [h5]
  rw [if_pos he1] at hcnt
  have hrest0 : rest.countP (fun x => decide (x.timer = e.timer ∧ x.stamp = timer.m_stamp)) = 0 := by
    omega
  rw [List.countP_eq_zero] at hrest0
  have hlate : ∀ x ∈ ((Timer_daemon.steps period_intact calls).pump_one_element now1).2.g_timers,
      ((Timer_daemon.steps period_intact calls).pump_one_element now1).2.valid x = true →
      x.timer = e.timer → saturated_add 64 e.next timer.m_period ≤ x.next := by
    intro x hx hv hxt
    rcases List.mem_cons.1 (h9.subset hx) with e1 | hm
    · rw [e1]
    · exfalso
      apply hrest0 x hm
      simp only [decide_eq_true_eq]
      refine ⟨hxt, ?_⟩
      simp only [Timer_daemon.valid, p1, hxt, htimer, decide_eq_true_eq] at hv
      exact hv.symm
  have hidlt : e.timer < (Timer_daemon.steps period_intact calls).next_timer := hb e hmem
  obtain ⟨evs, g1, g2⟩ := run_not_before period_intact e.timer
    (saturated_add 64 e.next timer.m_period) (saturated_add_lt _ _) l
    ((Timer_daemon.steps period_intact calls).pump_one_element now1).2 p3
    (by rw [p2]; exact hidlt) hlate hl
  refine ⟨h6, evs, ?_, ?_⟩
  · rw [steps_append_list, List.foldl_cons]
    have : (Timer_daemon.steps period_intact calls).step period_intact
        (Timer_call.pump_one_element now1)
        = ((Timer_daemon.steps period_intact calls).pump_one_element now1).2 := rfl
    rw [this, g1, h8]
    simp
  · intro ev hev hevt
    obtain ⟨k1, k2⟩ := g2 ev hev hevt
    rw [hmin] at k1
    refine ⟨k2, fun hmono => hmono _ k2, k1, ?_⟩
    intro hon hlt
    rw [hon]
    have : min (e.next + timer.m_period) (2 ^ 64 - 1) = e.next + timer.m_period := by omega
    omega

/-- In the scenario with one periodic timer registered for the time 5 with the period 3,
the pump at the time 5 fires it on time; pumps at the times 6 and 8 follow. -/
theorem periodic_spacing_witness :
    (∀ c ∈ scenario_one_timer, c.in_range = true)
      ∧ (Timer_daemon.steps scenario_period_intact scenario_one_timer).fired 5 = some ⟨0, 5, 0⟩
      ∧ (Timer_daemon.steps scenario_period_intact scenario_one_timer).timers 0
          = some ⟨3, 0, 7, true⟩
      ∧ 0 < 3
      ∧ rearm_count 0 scenario_one_timer < 2 ^ 64
      ∧ (∀ c ∈ [Timer_call.pump_one_element 6, Timer_call.pump_one_element 8],
          c.rearmed ≠ some 0)
      ∧ 5 ≤ 5
      ∧ ∃ evs, (Timer_daemon.steps scenario_period_intact
            (scenario_one_timer ++ Timer_call.pump_one_element 5
              :: [Timer_call.pump_one_element 6, Timer_call.pump_one_element 8])).dispatched
          = (Timer_daemon.steps scenario_period_intact scenario_one_timer).dispatched
            ++ Dispatch.make 0 ⟨3, 0, 7, true⟩ 5 3 :: evs
        ∧ ∀ ev ∈ evs, ev.timer = 0 →
            Timer_call.pump_one_element ev.now
              ∈ [Timer_call.pump_one_element 6, Timer_call.pump_one_element 8]
            ∧ ((∀ n, Timer_call.pump_one_element n
                  ∈ [Timer_call.pump_one_element 6, Timer_call.pump_one_element 8] → 5 ≤ n) →
                5 ≤ ev.now)
            ∧ min (5 + 3) (2 ^ 64 - 1) ≤ ev.now
            ∧ (5 = 5 → 5 + 3 < 2 ^ 64 → 5 + 3 ≤ ev.now) :=
  ⟨by decide, by decide, rfl, by decide, by decide, by decide,
    periodic_spacing scenario_period_intact scenario_one_timer
      [Timer_call.pump_one_element 6, Timer_call.pump_one_element 8] 5 ⟨0, 5, 0⟩
      ⟨3, 0, 7, true⟩ (by decide) (by decide) rfl (by decide) (by decide) (by decide)⟩

/-- C12 (counterexample). One timer is registered for the time 5 with the period 3. The
daemon pumps at the times 100 and 101: both pumps fire the timer, and the two values of
`now` that they pass differ by 1, which is less than the period. -/
theorem late_timer_catches_up :
    (Timer_daemon.steps scenario_period_intact
        (scenario_one_timer
          ++ [Timer_call.pump_one_element 100, Timer_call.pump_one_element 101])).dispatched
      = [Dispatch.low_level 0 7 100 3, Dispatch.low_level 0 7 101 3] := by
  decide

theorem in_range_pump (now : Nat) (d : Timer_daemon)
    (hheap : Is_heap Timer_queue_element.next d.g_timers) (h : In_range d) :
    In_range (d.pump_one_element now).2 := by
  obtain ⟨h1, h2⟩ := h
  obtain ⟨p1, _, _, p4⟩ := pump_one_element_spec now d hheap
  have hstem := pump_outcome_stems now d _ p4
  constructor
  · intro x hx
    obtain ⟨y, hy, _, _, hcase⟩ := hstem x hx
    rcases hcase with e1 | ⟨p, hp⟩
    · rw [e1]; exact h1 y hy
    · rw [hp]; exact saturated_add_lt _ _
  · intro i t ht
    rw [p1] at ht
    exact h2 i t ht

/-- No element that stays in the vector or is pushed again has a smaller `next` than the
element that the pump fires. -/
theorem fired_le_after (now : Nat) (d : Timer_daemon) (e : Timer_queue_element)
    (hheap : Is_heap Timer_queue_element.next d.g_timers) (hr : In_range d)
    (hfired : d.fired now = some e) :
    ∀ x ∈ (d.pump_one_element now).2.g_timers, e.next ≤ x.next := by
  obtain ⟨_, timer, dropped, rest, h2, _, _, _, _, h7, _, h9⟩ := (fired_spec now d hheap).2 e hfired
  have hmem : e ∈ d.g_timers :=
    h2.symm.subset (List.mem_append_right _ (List.mem_cons_self _ _))
  intro x hx
  have hx2 := h9.subset hx
  by_cases hper : timer.m_period = 0
  · rw [if_pos hper] at hx2
    exact h7 x hx2
  · rw [if_neg hper] at hx2
    rcases List.mem_cons.1 hx2 with e1 | hm
    · rw [e1]
      exact saturated_add_ge e.next _ _ (hr.1 e hmem) (le_refl _)
    · exact h7 x hm

theorem pump_ge_of_ge (now m : Nat) (d : Timer_daemon)
    (hheap : Is_heap Timer_queue_element.next d.g_timers) (hm : m < 2 ^ 64)
    (h : ∀ x ∈ d.g_timers, m ≤ x.next) :
    ∀ x ∈ (d.pump_one_element now).2.g_timers, m ≤ x.next := by
  obtain ⟨_, _, _, p4⟩ := pump_one_element_spec now d hheap
  have hstem := pump_outcome_stems now d _ p4
  intro x hx
  obtain ⟨y, hy, _, _, hcase⟩ := hstem x hx
  rcases hcase with e1 | ⟨p, hp⟩
  · rw [e1]; exact h y hy
  · rw [hp]; exact saturated_add_ge m _ _ hm (h y hy)

theorem fired_nexts_ge (nows : List Nat) (m : Nat) (d : Timer_daemon)
    (hheap : Is_heap Timer_queue_element.next d.g_timers) (hm : m < 2 ^ 64)
    (h : ∀ x ∈ d.g_timers, m ≤ x.next) :
    ∀ n ∈ d.fired_nexts nows, m ≤ n := by
  induction nows generalizing d with
  | nil => intro n hn; simp [Timer_daemon.fired_nexts] at hn
  | cons now nows ih =>
    intro n hn
    simp only [Timer_daemon.fired_nexts, List.mem_append] at hn
    rcases hn with hn | hn
    · cases hf : d.fired now with
      | none => rw [hf] at hn; simp at hn
      | some e =>
        rw [hf] at hn
        simp only [List.mem_singleton] at hn
        obtain ⟨_, _, dropped, rest, h2, _⟩ := (fired_spec now d hheap).2 e hf
        rw [hn]
        exact h e (h2.symm.subset (List.mem_append_right _ (List.mem_cons_self _ _)))
    · exact ih (d.pump_one_element now).2 (pump_one_element_spec now d hheap).2.2.1
        (pump_ge_of_ge now m d hheap hm h) n hn

theorem fired_nexts_sorted (nows : List Nat) (d : Timer_daemon)
    (hheap : Is_heap Timer_queue_element.next d.g_timers) (hr : In_range d) :
    (d.fired_nexts nows).Pairwise (fun a b => a ≤ b) := by
  induction nows generalizing d with
  | nil => simp [Timer_daemon.fired_nexts]
  | cons now nows ih =>
    have hheap2 := (pump_one_element_spec now d hheap).2.2.1
    have hrec := ih (d.pump_one_element now).2 hheap2 (in_range_pump now d hheap hr)
    simp only [Timer_daemon.fired_nexts]
    cases hf : d.fired now with
    | none => simpa using hrec
    | some e =>
      simp only [List.singleton_append, List.pairwise_cons]
      refine ⟨?_, hrec⟩
      obtain ⟨_, _, dropped, rest, h2, _⟩ := (fired_spec now d hheap).2 e hf
      have hmem : e ∈ d.g_timers :=
        h2.symm.subset (List.mem_append_right _ (List.mem_cons_self _ _))
      exact fired_nexts_ge nows e.next _ hheap2 (hr.1 e hmem) (fired_le_after now d e hheap hr hf)

/-- C13 (amended). After every sequence of calls with values of 64 bits the vector is a
heap under the inverted comparison. A call of `pump_one_element` returns true exactly
when it fires an element; the element it fires is in the vector, passes the test, and
its `next` is minimal among the elements of the vector that pass the test and among all
elements that are in the vector after the call; an element of the vector with a smaller
`next` fails the test (the call removes it without dispatching it). Over every sequence
of pumps the values of `next` of the elements fired are non-decreasing. -/
theorem firing_order (period_intact : Nat) (calls : List Timer_call) (now : Nat)
    (hrange : ∀ c ∈ calls, c.in_range = true) :
    Is_heap Timer_queue_element.next (Timer_daemon.steps period_intact calls).g_timers
      ∧ (((Timer_daemon.steps period_intact calls).pump_one_element now).1 = true ↔
          ∃ e, (Timer_daemon.steps period_intact calls).fired now = some e)
      ∧ (∀ e, (Timer_daemon.steps period_intact calls).fired now = some e →
          e ∈ (Timer_daemon.steps period_intact calls).g_timers
          ∧ (Timer_daemon.steps period_intact calls).valid e = true
          ∧ (∀ x ∈ (Timer_daemon.steps period_intact calls).g_timers,
              (Timer_daemon.steps period_intact calls).valid x = true → e.next ≤ x.next)
          ∧ (∀ x ∈ ((Timer_daemon.steps period_intact calls).pump_one_element now).2.g_timers,
              e.next ≤ x.next)
          ∧ (∀ x ∈ (Timer_daemon.steps period_intact calls).g_timers, x.next < e.next →
              (Timer_daemon.steps period_intact calls).valid x = false))
      ∧ ∀ nows, ((Timer_daemon.steps period_intact calls).fired_nexts nows).Pairwise
          (fun a b => a ≤ b) := by
  have hheap := steps_is_heap period_intact calls
  have hr := in_range_steps period_intact calls hrange
  have hmin : ∀ e, (Timer_daemon.steps period_intact calls).fired now = some e →
      ∀ x ∈ (Timer_daemon.steps period_intact calls).g_timers,
        (Timer_daemon.steps period_intact calls).valid x = true → e.next ≤ x.next := by
    intro e he x hx hv
    obtain ⟨_, timer, dropped, rest, h2, h3, _, _, _, h7, _⟩ := (fired_spec now _ hheap).2 e he
    rcases List.mem_append.1 (h2.subset hx) with hm | hm
    · rw [(h3 x hm).1] at hv; cases hv
    · rcases List.mem_cons.1 hm with e1 | hm2
      · rw [e1]
      · exact h7 x hm2
  refine ⟨hheap, ?_, ?_, fun nows => fired_nexts_sorted nows _ hheap hr⟩
  · constructor
    · intro htrue
      cases hf : (Timer_daemon.steps period_intact calls).fired now with
      | none =>
        rw [(fired_spec now _ hheap).1 hf] at htrue
        cases htrue
      | some e => exact ⟨e, rfl⟩
    · rintro ⟨e, he⟩
      exact ((fired_spec now _ hheap).2 e he).1
  · intro e he
    obtain ⟨_, timer, dropped, rest, h2, h3, h4, h5, _, h7, _⟩ := (fired_spec now _ hheap).2 e he
    refine ⟨h2.symm.subset (List.mem_append_right _ (List.mem_cons_self _ _)), ?_, hmin e he,
      fired_le_after now _ e hheap hr he, ?_⟩
    · simp [Timer_daemon.valid, h4, h5]
    · intro x hx hlt
      cases hv : (Timer_daemon.steps period_intact calls).valid x with
      | false => rfl
      | true =>
        have := hmin e he x hx hv
        omega

/-- In the scenario of the re-armed timer the calls pass values of 64 bits, and the
statement applies to the pump at the time 5. -/
theorem firing_order_witness :
    (∀ c ∈ scenario_stale, c.in_range = true)
      ∧ Is_heap Timer_queue_element.next
          (Timer_daemon.steps scenario_period_intact scenario_stale).g_timers
      ∧ (((Timer_daemon.steps scenario_period_intact scenario_stale).pump_one_element 5).1 = true ↔
          ∃ e, (Timer_daemon.steps scenario_period_intact scenario_stale).fired 5 = some e)
      ∧ (∀ e, (Timer_daemon.steps scenario_period_intact scenario_stale).fired 5 = some e →
          e ∈ (Timer_daemon.steps scenario_period_intact scenario_stale).g_timers
          ∧ (Timer_daemon.steps scenario_period_intact scenario_stale).valid e = true
          ∧ (∀ x ∈ (Timer_daemon.steps scenario_period_intact scenario_stale).g_timers,
              (Timer_daemon.steps scenario_period_intact scenario_stale).valid x = true →
              e.next ≤ x.next)
          ∧ (∀ x ∈ ((Timer_daemon.steps scenario_period_intact scenario_stale).pump_one_element
                5).2.g_timers, e.next ≤ x.next)
          ∧ (∀ x ∈ (Timer_daemon.steps scenario_period_intact scenario_stale).g_timers,
              x.next < e.next →
              (Timer_daemon.steps scenario_period_intact scenario_stale).valid x = false))
      ∧ ∀ nows, ((Timer_daemon.steps scenario_period_intact scenario_stale).fired_nexts
          nows).Pairwise (fun a b => a ≤ b) :=
  ⟨by decide, firing_order scenario_period_intact scenario_stale 5 (by decide)⟩

/-- C13 (counterexample). In the scenario of the re-armed timer the vector holds the
stale element with `next = 1` and the element of the re-arming with `next = 2`. The pump
at the time 5 dispatches the timer through the element with `next = 2`, whose `next` is
not minimal among the elements of the vector. -/
theorem fired_entry_not_minimal :
    (⟨0, 1, 0⟩ : Timer_queue_element)
        ∈ (Timer_daemon.steps scenario_period_intact scenario_stale).g_timers
      ∧ (Timer_daemon.steps scenario_period_intact scenario_stale).fired 5 = some ⟨0, 2, 1⟩
      ∧ ((Timer_daemon.steps scenario_period_intact scenario_stale).pump_one_element 5).1 = true
      ∧ ((Timer_daemon.steps scenario_period_intact scenario_stale).pump_one_element
          5).2.dispatched = [Dispatch.low_level 0 7 5 3] := by
  decide

/-! ## Theorems about the wall clock, the saturating arithmetic and the DNS look-up -/

theorem aligned_delay_ok (period t offset : Nat) (ht : t < 2 ^ 64) (ho : offset ≤ t) :
    aligned_delay period t offset = .ok (period - (t - offset) % period) := by
  have h1 : (t + 2 ^ 64 - offset % 2 ^ 64) % 2 ^ 64 = t - offset := by
    have : offset % 2 ^ 64 = offset := Nat.mod_eq_of_lt (by omega)
    rw [this]
    have h2 : t + 2 ^ 64 - offset = (t - offset) + 2 ^ 64 := by omega
    rw [h2, Nat.add_mod_right]
    exact Nat.mod_eq_of_lt (by omega)
  simp only [aligned_delay, checked_sub, h1]
  rw [if_neg (by omega)]

theorem hourly_offset_eq (minute second : Nat) (hm : minute < 2 ^ 32) (hs : second < 2 ^ 32) :
    hourly_offset minute second = (minute * 60 + second) * 1000 := by
  unfold hourly_offset
  exact Nat.mod_eq_of_lt (by omega)

theorem daily_offset_eq (hour minute second : Nat) (hh : hour < 2 ^ 32) (hm : minute < 2 ^ 32)
    (hs : second < 2 ^ 32) :
    daily_offset hour minute second = (hour * 3600 + minute * 60 + second) * 1000 := by
  unfold daily_offset
  exact Nat.mod_eq_of_lt (by omega)

theorem weekly_offset_eq (day_of_week hour minute second : Nat) (hd : day_of_week < 2 ^ 32)
    (hh : hour < 2 ^ 32) (hm : minute < 2 ^ 32) (hs : second < 2 ^ 32) :
    weekly_offset day_of_week hour minute second
      = ((day_of_week + 3) * 86400 + hour * 3600 + minute * 60 + second) * 1000 := by
  unfold weekly_offset
  exact Nat.mod_eq_of_lt (by omega)

theorem aligned_hour (t offset : Nat) (ho : offset ≤ t) :
    0 < 3600000 - (t - offset) % 3600000 ∧ 3600000 - (t - offset) % 3600000 ≤ 3600000
      ∧ (t + (3600000 - (t - offset) % 3600000)) % 3600000 = offset % 3600000
      ∧ ∀ d1, 0 < d1 → d1 < 3600000 - (t - offset) % 3600000 →
          (t + d1) % 3600000 ≠ offset % 3600000 := by
  refine ⟨by omega, by omega, by omega, ?_⟩
  intro d1 h0 h1
  omega

theorem aligned_day (t offset : Nat) (ho : offset ≤ t) :
    0 < 86400000 - (t - offset) % 86400000 ∧ 86400000 - (t - offset) % 86400000 ≤ 86400000
      ∧ (t + (86400000 - (t - offset) % 86400000)) % 86400000 = offset % 86400000
      ∧ ∀ d1, 0 < d1 → d1 < 86400000 - (t - offset) % 86400000 →
          (t + d1) % 86400000 ≠ offset % 86400000 := by
  refine ⟨by omega, by omega, by omega, ?_⟩
  intro d1 h0 h1
  omega

theorem aligned_week (t offset : Nat) (ho : offset ≤ t) :
    0 < 604800000 - (t - offset) % 604800000 ∧ 604800000 - (t - offset) % 604800000 ≤ 604800000
      ∧ (t + (604800000 - (t - offset) % 604800000)) % 604800000 = offset % 604800000
      ∧ ∀ d1, 0 < d1 → d1 < 604800000 - (t - offset) % 604800000 →
          (t + d1) % 604800000 ≠ offset % 604800000 := by
  refine ⟨by omega, by omega, by omega, ?_⟩
  intro d1 h0 h1
  omega

theorem weekday_of_aligned (s day_of_week tod : Nat) (htod : tod < 86400)
    (hs : s % 604800000 = (((day_of_week + 3) * 86400 + tod) * 1000) % 604800000) :
    (s / 86400000 + 4) % 7 = day_of_week % 7 ∧ s % 86400000 = tod * 1000 := by
  constructor <;> omega

theorem register_timer_timers (now delta_first period callback : Nat) (low_level : Bool)
    (d : Timer_daemon) :
    (d.register_timer now delta_first period callback low_level).timers d.next_timer
      = some (Timer.new period callback low_level) := by
  simp [Timer_daemon.register_timer, Timer_daemon.register_absolute_timer]

/-- C14. Wall-clock alignment. Called at the wall-clock time `t` (milliseconds since
1970-01-01 00:00:00 of the chosen zone) that is not smaller than the requested offset,
`register_hourly_timer`, `register_daily_timer` and `register_weekly_timer` hand to
`register_timer` a first delay `delay` with `0 < delay ≤ P` and the period `P`, where
`P` is 3 600 000, 86 400 000 and 604 800 000; `t + delay` is congruent to the offset
modulo `P`, and no instant after `t` and before `t + delay` is. For the weekly timer,
with a time of day `hour:minute:second` (hour below 24, minute and second below 60), the
weekday of `t + delay`, counted from 0 for Sunday, is `day_of_week % 7` and its time of
day is `hour:minute:second`. -/
theorem wall_clock_alignment (t now callback day_of_week hour minute second : Nat)
    (d : Timer_daemon) (ht : t < 2 ^ 64) (hd : day_of_week < 2 ^ 32) (hh : hour < 2 ^ 32)
    (hm : minute < 2 ^ 32) (hs : second < 2 ^ 32) :
    (ms_per_hour = 3600000 ∧ ms_per_day = 86400000 ∧ ms_per_week = 604800000)
      ∧ (hourly_offset minute second = (minute * 60 + second) * 1000
        ∧ (hourly_offset minute second ≤ t → ∃ delay,
            d.register_hourly_timer t now minute second callback
              = .ok (d.register_timer now delay ms_per_hour callback false)
            ∧ (d.register_timer now delay ms_per_hour callback false).timers d.next_timer
              = some (Timer.new ms_per_hour callback false)
            ∧ 0 < delay ∧ delay ≤ ms_per_hour
            ∧ (t + delay) % ms_per_hour = hourly_offset minute second % ms_per_hour
            ∧ ∀ d1, 0 < d1 → d1 < delay →
                (t + d1) % ms_per_hour ≠ hourly_offset minute second % ms_per_hour))
      ∧ (daily_offset hour minute second = (hour * 3600 + minute * 60 + second) * 1000
        ∧ (daily_offset hour minute second ≤ t → ∃ delay,
            d.register_daily_timer t now hour minute second callback
              = .ok (d.register_timer now delay ms_per_day callback false)
            ∧ (d.register_timer now delay ms_per_day callback false).timers d.next_timer
              = some (Timer.new ms_per_day callback false)
            ∧ 0 < delay ∧ delay ≤ ms_per_day
            ∧ (t + delay) % ms_per_day = daily_offset hour minute second % ms_per_day
            ∧ ∀ d1, 0 < d1 → d1 < delay →
                (t + d1) % ms_per_day ≠ daily_offset hour minute second % ms_per_day))
      ∧ (weekly_offset day_of_week hour minute second
            = ((day_of_week + 3) * 86400 + hour * 3600 + minute * 60 + second) * 1000
        ∧ (weekly_offset day_of_week hour minute second ≤ t → ∃ delay,
            d.register_weekly_timer t now day_of_week hour minute second callback
              = .ok (d.register_timer now delay ms_per_week callback false)
            ∧ (d.register_timer now delay ms_per_week callback false).timers d.next_timer
              = some (Timer.new ms_per_week callback false)
            ∧ 0 < delay ∧ delay ≤ ms_per_week
            ∧ (t + delay) % ms_per_week
                = weekly_offset day_of_week hour minute second % ms_per_week
            ∧ (∀ d1, 0 < d1 → d1 < delay →
                (t + d1) % ms_per_week
                  ≠ weekly_offset day_of_week hour minute second % ms_per_week)
            ∧ (hour < 24 → minute < 60 → second < 60 →
                weekday_of (t + delay) = day_of_week % 7
                ∧ time_of_day (t + delay) = (hour * 3600 + minute * 60 + second) * 1000))) := by
  have c1 : ms_per_hour = 3600000 := by decide
  have c2 : ms_per_day = 86400000 := by decide
  have c3 : ms_per_week = 604800000 := by decide
  refine ⟨⟨c1, c2, c3⟩, ⟨hourly_offset_eq minute second hm hs, ?_⟩,
    ⟨daily_offset_eq hour minute second hh hm hs, ?_⟩,
    ⟨weekly_offset_eq day_of_week hour minute second hd hh hm hs, ?_⟩⟩
  · intro ho
    have hok := aligned_delay_ok ms_per_hour t _ ht ho
    obtain ⟨a1, a2, a3, a4⟩ := aligned_hour t (hourly_offset minute second) ho
    refine ⟨ms_per_hour - (t - hourly_offset minute second) % ms_per_hour, ?_,
      register_timer_timers _ _ _ _ _ _, ?_, ?_, ?_, ?_⟩
    · simp only [Timer_daemon.register_hourly_timer, hok]
    · rw [c1]; exact a1
    · rw [c1]; exact a2
    · rw [c1]; exact a3
    · rw [c1]; exact a4
  · intro ho
    have hok := aligned_delay_ok ms_per_day t _ ht ho
    obtain ⟨a1, a2, a3, a4⟩ := aligned_day t (daily_offset hour minute second) ho
    refine ⟨ms_per_day - (t - daily_offset hour minute second) % ms_per_day, ?_,
      register_timer_timers _ _ _ _ _ _, ?_, ?_, ?_, ?_⟩
    · simp only [Timer_daemon.register_daily_timer, hok]
    · rw [c2]; exact a1
    · rw [c2]; exact a2
    · rw [c2]; exact a3
    · rw [c2]; exact a4
  · intro ho
    have hok := aligned_delay_ok ms_per_week t _ ht ho
    obtain ⟨a1, a2, a3, a4⟩ := aligned_week t (weekly_offset day_of_week hour minute second) ho
    refine ⟨ms_per_week - (t - weekly_offset day_of_week hour minute second) % ms_per_week, ?_,
      register_timer_timers _ _ _ _ _ _, ?_, ?_, ?_, ?_, ?_⟩
    · simp only [Timer_daemon.register_weekly_timer, hok]
    · rw [c3]; exact a1
    · rw [c3]; exact a2
    · rw [c3]; exact a3
    · rw [c3]; exact a4
    · intro h24 h60 h61
      have hw := weekly_offset_eq day_of_week hour minute second hd hh hm hs
      have htod : hour * 3600 + minute * 60 + second < 86400 := by omega
      have hcong : (t + (604800000 - (t - weekly_offset day_of_week hour minute second)
            % 604800000)) % 604800000
          = (((day_of_week + 3) * 86400 + (hour * 3600 + minute * 60 + second)) * 1000)
            % 604800000 := by
        rw [a3, hw]
        have : (day_of_week + 3) * 86400 + hour * 3600 + minute * 60 + second
            = (day_of_week + 3) * 86400 + (hour * 3600 + minute * 60 + second) := by omega
        rw [this]
      have key := weekday_of_aligned _ day_of_week (hour * 3600 + minute * 60 + second) htod hcong
      rw [c3]
      unfold weekday_of time_of_day
      rw [c2]
      exact key

/-- At the time 1 000 000 000 000 (2001-09-09 01:46:40, a Sunday) a weekly timer is
asked for Tuesday 12:30:15, an hourly timer for minute 30 and second 15, and a daily
timer for 12:30:15: the offsets are not after the time and the statement applies. -/
theorem wall_clock_alignment_witness :
    hourly_offset 30 15 ≤ 1000000000000 ∧ daily_offset 12 30 15 ≤ 1000000000000
      ∧ weekly_offset 2 12 30 15 ≤ 1000000000000
      ∧ (∃ delay,
          Timer_daemon.start.register_hourly_timer 1000000000000 77 30 15 9
            = .ok (Timer_daemon.start.register_timer 77 delay ms_per_hour 9 false)
          ∧ 0 < delay ∧ delay ≤ ms_per_hour
          ∧ (1000000000000 + delay) % ms_per_hour = hourly_offset 30 15 % ms_per_hour)
      ∧ (∃ delay,
          Timer_daemon.start.register_daily_timer 1000000000000 77 12 30 15 9
            = .ok (Timer_daemon.start.register_timer 77 delay ms_per_day 9 false)
          ∧ 0 < delay ∧ delay ≤ ms_per_day
          ∧ (1000000000000 + delay) % ms_per_day = daily_offset 12 30 15 % ms_per_day)
      ∧ (∃ delay,
          Timer_daemon.start.register_weekly_timer 1000000000000 77 2 12 30 15 9
            = .ok (Timer_daemon.start.register_timer 77 delay ms_per_week 9 false)
          ∧ 0 < delay ∧ delay ≤ ms_per_week
          ∧ weekday_of (1000000000000 + delay) = 2 % 7
          ∧ time_of_day (1000000000000 + delay) = (12 * 3600 + 30 * 60 + 15) * 1000) := by
  have h := wall_clock_alignment 1000000000000 77 9 2 12 30 15 Timer_daemon.start
    (by decide) (by decide) (by decide) (by decide) (by decide)
  have ho1 : hourly_offset 30 15 ≤ 1000000000000 := by decide
  have ho2 : daily_offset 12 30 15 ≤ 1000000000000 := by decide
  have ho3 : weekly_offset 2 12 30 15 ≤ 1000000000000 := by decide
  refine ⟨ho1, ho2, ho3, ?_, ?_, ?_⟩
  · obtain ⟨delay, g1, _, g3, g4, g5, _⟩ := h.2.1.2 ho1
    exact ⟨delay, g1, g3, g4, g5⟩
  · obtain ⟨delay, g1, _, g3, g4, g5, _⟩ := h.2.2.1.2 ho2
    exact ⟨delay, g1, g3, g4, g5⟩
  · obtain ⟨delay, g1, _, g3, g4, _, _, g7⟩ := h.2.2.2.2 ho3
    exact ⟨delay, g1, g3, g4, (g7 (by decide) (by decide) (by decide)).1,
      (g7 (by decide) (by decide) (by decide)).2⟩

/-- The delays of the scenario: the hourly timer is due 2 615 000 ms after the time
1 000 000 000 000, that is at 02:30:15, and the weekly timer 211 415 000 ms after it,
that is on Tuesday at 12:30:15. -/
theorem wall_clock_scenario :
    aligned_delay ms_per_hour 1000000000000 (hourly_offset 30 15) = .ok 2615000
      ∧ aligned_delay ms_per_week 1000000000000 (weekly_offset 2 12 30 15) = .ok 211415000
      ∧ weekday_of 1000000000000 = 0
      ∧ weekday_of (1000000000000 + 211415000) = 2
      ∧ time_of_day (1000000000000 + 211415000) = 45015000 := by
  refine ⟨rfl, rfl, by decide, by decide, by decide⟩

theorem add_mod_wrap (m a b : Nat) (ha : a < m) (hb : b < m) (h : m ≤ a + b) :
    (a + b) % m = a + b - m := by
  rw [Nat.mod_eq_sub_mod h]
  exact Nat.mod_eq_of_lt (by omega)

theorem saturated_add_cases (w a b : Nat) (ha : a < 2 ^ w) (hb : b < 2 ^ w) :
    saturated_add w a b = (if a + b ≤ 2 ^ w - 1 then a + b else 2 ^ w - 1) := by
  unfold saturated_add
  simp only
  generalize 2 ^ w = m at ha hb ⊢
  by_cases h : a + b < m
  · rw [Nat.mod_eq_of_lt h, if_neg (by omega), if_pos (by omega)]
  · rw [add_mod_wrap m a b ha hb (by omega), if_pos (by omega), if_neg (by omega)]

/-- C15. For unsigned values `a` and `b` of `w` bits, `saturated_add(a, b)` is `a + b`
when `a + b ≤ 2 ^ w - 1` and `2 ^ w - 1` (the greatest value) otherwise; so it is never
below `a` or `b`, and `saturated_add(MAX, b) = MAX`. -/
theorem saturated_add_never_wraps (w a b : Nat) (ha : a < 2 ^ w) (hb : b < 2 ^ w) :
    saturated_add w a b = (if a + b ≤ 2 ^ w - 1 then a + b else 2 ^ w - 1)
      ∧ a ≤ saturated_add w a b ∧ b ≤ saturated_add w a b
      ∧ saturated_add w (2 ^ w - 1) b = 2 ^ w - 1 := by
  have hpos : 0 < 2 ^ w := Nat.pow_pos (by decide)
  have h1 := saturated_add_cases w a b ha hb
  have h2 := saturated_add_cases w (2 ^ w - 1) b (by omega) hb
  refine ⟨h1, ?_, ?_, ?_⟩
  · rw [h1]; split <;> omega
  · rw [h1]; split <;> omega
  · rw [h2]; split <;> omega

/-- With 8 bits, `saturated_add(200, 100)` is 255 and `saturated_add(255, 7)` is 255. -/
theorem saturated_add_never_wraps_witness :
    200 < 2 ^ 8 ∧ 100 < 2 ^ 8
      ∧ saturated_add 8 200 100 = (if 200 + 100 ≤ 2 ^ 8 - 1 then 200 + 100 else 2 ^ 8 - 1)
      ∧ 200 ≤ saturated_add 8 200 100 ∧ 100 ≤ saturated_add 8 200 100
      ∧ saturated_add 8 (2 ^ 8 - 1) 100 = 2 ^ 8 - 1 :=
  ⟨by decide, by decide, saturated_add_never_wraps 8 200 100 (by decide) (by decide)⟩

theorem saturated_sub_cases (w a b : Nat) (ha : a < 2 ^ w) (hb : b < 2 ^ w) :
    saturated_sub w a b = (if b ≤ a then a - b else 0) := by
  unfold saturated_sub
  simp only
  generalize 2 ^ w = m at ha hb ⊢
  rw [Nat.mod_eq_of_lt hb]
  by_cases h : b ≤ a
  · have h1 : a + m - b = (a - b) + m := by omega
    rw [h1, Nat.add_mod_right, Nat.mod_eq_of_lt (by omega), if_neg (by omega), if_pos h]
  · rw [Nat.mod_eq_of_lt (by omega), if_pos (by omega), if_neg h]

/-- C16. For unsigned values `a` and `b` of `w` bits, `saturated_sub(a, b)` is `a - b`
when `b ≤ a` and 0 otherwise; in particular `saturated_sub(0, b) = 0`. -/
theorem saturated_sub_clamps (w a b : Nat) (ha : a < 2 ^ w) (hb : b < 2 ^ w) :
    saturated_sub w a b = (if b ≤ a then a - b else 0)
      ∧ saturated_sub w 0 b = 0 := by
  have hpos : 0 < 2 ^ w := Nat.pow_pos (by decide)
  refine ⟨saturated_sub_cases w a b ha hb, ?_⟩
  rw [saturated_sub_cases w 0 b hpos hb]
  split <;> omega

/-- With 8 bits, `saturated_sub(100, 200)` is 0 and `saturated_sub(0, 200)` is 0. -/
theorem saturated_sub_clamps_witness :
    100 < 2 ^ 8 ∧ 200 < 2 ^ 8
      ∧ saturated_sub 8 100 200 = (if 200 ≤ 100 then 100 - 200 else 0)
      ∧ saturated_sub 8 0 200 = 0 :=
  ⟨by decide, by decide, saturated_sub_clamps 8 100 200 (by decide) (by decide)⟩

theorem getLast?_cons_filter {α : Type} (x : α) (l : List α) :
    (x :: l).getLast? = (match l.getLast? with | some y => some y | none => some x) := by
  cases l with
  | nil => rfl
  | cons y l =>
    rw [List.getLast?_cons_cons]
    cases h : (y :: l).getLast? with
    | none => simp at h
    | some z => rfl

theorem scan_addrinfo_spec (l : List Addrinfo) (acc : Option Addrinfo × Option Addrinfo) :
    (scan_addrinfo l acc).1
        = (match (l.filter (fun x => decide (x.ai_family = AF_INET))).getLast? with
          | some x => some x
          | none => acc.1)
      ∧ (scan_addrinfo l acc).2
        = (match (l.filter (fun x => decide (x.ai_family = AF_INET6))).getLast? with
          | some x => some x
          | none => acc.2) := by
  induction l generalizing acc with
  | nil => exact ⟨rfl, rfl⟩
  | cons node rest ih =>
    simp only [scan_addrinfo]
    have hne : AF_INET ≠ AF_INET6 := by decide
    by_cases h4 : node.ai_family = AF_INET
    · have h6 : ¬ node.ai_family = AF_INET6 := by rw [h4]; exact hne
      rw [if_pos h4]
      obtain ⟨i1, i2⟩ := ih (some node, acc.2)
      rw [i1, i2, List.filter_cons_of_pos (by simpa using h4),
        List.filter_cons_of_neg (by simpa using h6), getLast?_cons_filter]
      constructor
      · cases (rest.filter (fun x => decide (x.ai_family = AF_INET))).getLast? <;> rfl
      · rfl
    · rw [if_neg h4]
      by_cases h6 : node.ai_family = AF_INET6
      · rw [if_pos h6]
        obtain ⟨i1, i2⟩ := ih (acc.1, some node)
        rw [i1, i2, List.filter_cons_of_neg (by simpa using h4),
          List.filter_cons_of_pos (by simpa using h6), getLast?_cons_filter]
        constructor
        · rfl
        · cases (rest.filter (fun x => decide (x.ai_family = AF_INET6))).getLast? <;> rfl
      · rw [if_neg h6]
        obtain ⟨i1, i2⟩ := ih acc
        rw [i1, i2, List.filter_cons_of_neg (by simpa using h4),
          List.filter_cons_of_neg (by simpa using h6)]
        exact ⟨rfl, rfl⟩

/-- C17 (amended). When `getaddrinfo` succeeds, `real_dns_look_up` fails on an empty
list; otherwise it chooses the last node of the preferred family (IPv4 if `prefer_ipv4`,
else IPv6), and if the list has no node of that family it chooses the first node of the
list, which is the first node of the other family when every node is of one of the two
families. -/
theorem dns_address_selection (r : Resolver) (host_raw : String) (port_raw : Nat)
    (prefer_ipv4 : Bool) (res : List Addrinfo)
    (hres : r.getaddrinfo (dns_host host_raw) (toString port_raw) = (0, res)) :
    (res = [] → real_dns_look_up r host_raw port_raw prefer_ipv4 = .error throw_assert_failure)
      ∧ (∀ node, (res.filter (fun x => decide (x.ai_family
            = if prefer_ipv4 then AF_INET else AF_INET6))).getLast? = some node →
          real_dns_look_up r host_raw port_raw prefer_ipv4 = .ok node)
      ∧ (∀ first rest, res = first :: rest →
          res.filter (fun x => decide (x.ai_family
            = if prefer_ipv4 then AF_INET else AF_INET6)) = [] →
          real_dns_look_up r host_raw port_raw prefer_ipv4 = .ok first
          ∧ ((∀ x ∈ res, x.ai_family = AF_INET ∨ x.ai_family = AF_INET6) →
              (res.filter (fun x => decide (x.ai_family
                = if prefer_ipv4 then AF_INET6 else AF_INET))).head? = some first)) := by
  have hne : AF_INET ≠ AF_INET6 := by decide
  refine ⟨?_, ?_, ?_⟩
  · intro he
    simp only [real_dns_look_up, hres, he]
    rfl
  · intro node hnode
    cases res with
    | nil => simp at hnode
    | cons first rest =>
      obtain ⟨s1, s2⟩ := scan_addrinfo_spec (first :: rest) (none, none)
      simp only [real_dns_look_up, hres]
      cases prefer_ipv4 with
      | true =>
        simp only [if_true] at hnode ⊢
        rw [s1, hnode]
        rfl
      | false =>
        simp only [Bool.false_eq_true, if_false] at hnode ⊢
        rw [s2, hnode]
        rfl
  · intro first rest he hnone
    obtain ⟨s1, s2⟩ := scan_addrinfo_spec (first :: rest) (none, none)
    constructor
    · simp only [real_dns_look_up, hres, he]
      rw [he] at hnone
      cases prefer_ipv4 with
      | true =>
        simp only [if_true] at hnone ⊢
        rw [s1, hnone]
        rfl
      | false =>
        simp only [Bool.false_eq_true, if_false] at hnone ⊢
        rw [s2, hnone]
        rfl
    · intro hall
      rw [he] at hnone hall ⊢
      have hf := hall first (List.mem_cons_self _ _)
      rw [List.filter_eq_nil_iff] at hnone
      have hnot := hnone first (List.mem_cons_self _ _)
      simp only [decide_eq_true_eq] at hnot
      cases prefer_ipv4 with
      | true =>
        simp only [if_true, Bool.false_eq_true, if_false] at hnot ⊢
        rw [List.filter_cons_of_pos (by simpa using hf.resolve_left hnot)]
        rfl
      | false =>
        simp only [Bool.false_eq_true, if_false, if_true] at hnot ⊢
        rw [List.filter_cons_of_pos (by simpa using hf.resolve_right hnot)]
        rfl

/-- With the resolver of the scenario and IPv4 preferred, the node chosen is the last
IPv4 node of the list. -/
theorem dns_address_selection_witness :
    scenario_resolver.getaddrinfo (dns_host "localhost") (toString 80)
        = (0, [⟨AF_INET, "10.0.0.1"⟩, ⟨AF_INET6, "::1"⟩, ⟨AF_INET, "10.0.0.2"⟩])
      ∧ real_dns_look_up scenario_resolver "localhost" 80 true = .ok ⟨AF_INET, "10.0.0.2"⟩ :=
  ⟨rfl, (dns_address_selection scenario_resolver "localhost" 80 true
    [⟨AF_INET, "10.0.0.1"⟩, ⟨AF_INET6, "::1"⟩, ⟨AF_INET, "10.0.0.2"⟩] rfl).2.1
      ⟨AF_INET, "10.0.0.2"⟩ (by decide)⟩

/-- C17 (counterexample). The resolver returns the IPv4 nodes 10.0.0.1 and 10.0.0.2, in
this order, with an IPv6 node between them. With IPv4 preferred the look-up chooses
10.0.0.2, which is not the first node of the preferred family. -/
theorem dns_chooses_last_record :
    (scenario_resolver.getaddrinfo (dns_host "localhost") (toString 80)).2.head?
        = some ⟨AF_INET, "10.0.0.1"⟩
      ∧ real_dns_look_up scenario_resolver "localhost" 80 true = .ok ⟨AF_INET, "10.0.0.2"⟩ := by
  exact ⟨rfl, rfl⟩

theorem retry_due_time_ge_iff (cfg : Main_config) (now k : Nat) (hnow : now < 2 ^ 64)
    (hk : k < 64) :
    now ≤ retry_due_time cfg now k
      ↔ now + cfg.mysql_retry_init_delay * 2 ^ k % 2 ^ 64 < 2 ^ 64 := by
  unfold retry_due_time
  rw [retry_shift_of_lt cfg k hk]
  have hlt : cfg.mysql_retry_init_delay * 2 ^ k % 2 ^ 64 < 2 ^ 64 := Nat.mod_lt _ (by decide)
  generalize cfg.mysql_retry_init_delay * 2 ^ k % 2 ^ 64 = x at hlt ⊢
  constructor
  · intro h
    by_contra hge
    have : (now + x) % 2 ^ 64 = now + x - 2 ^ 64 := by
      rw [Nat.mod_eq_sub_mod (by omega), Nat.mod_eq_of_lt (by omega)]
    omega
  · intro h
    rw [Nat.mod_eq_of_lt h]
    omega

/-- C20. For a tick count `now` of 64 bits: the due time of an enqueued operation is
`saturated_add(now, save_delay)`, the first fire time of `register_timer` and of
`set_time` is `saturated_add(now, delta_first)`, and a periodic timer is pushed again
with `saturated_add(next, period)`; none of these is below the tick count it is derived
from. The due time of a retry is not computed with `saturated_add`: for a retry count
below 64, where the shift is defined, it is `now + (retry_init_delay << retry_count)`
with the built-in operators, and it is below `now` as soon as that sum leaves the 64
bits. -/
theorem saturating_tick_arithmetic (cfg : Main_config) (now : Nat) (hnow : now < 2 ^ 64) :
    (∀ (op : Operation_base) (urgent : Bool) (t : Mysql_thread) (w : World),
        t.m_running = true →
        (t.add_operation cfg now op urgent w).thread.m_queue
            = t.m_queue ++ [⟨w.next_addr, op, saturated_add 64 now cfg.mysql_save_delay, 0⟩]
          ∧ now ≤ saturated_add 64 now cfg.mysql_save_delay)
      ∧ (∀ (delta_first period callback : Nat) (low_level : Bool) (d : Timer_daemon),
          d.register_timer now delta_first period callback low_level
              = d.register_absolute_timer (saturated_add 64 now delta_first) period callback
                  low_level
            ∧ now ≤ saturated_add 64 now delta_first)
      ∧ (∀ (period_intact id delta_first period : Nat) (d : Timer_daemon),
          d.set_time period_intact now id delta_first period
              = d.set_absolute_time period_intact id (saturated_add 64 now delta_first) period
            ∧ now ≤ saturated_add 64 now delta_first)
      ∧ (∀ (period_intact : Nat) (calls : List Timer_call) (e : Timer_queue_element)
          (timer : Timer), (∀ c ∈ calls, c.in_range = true) →
          (Timer_daemon.steps period_intact calls).fired now = some e →
          (Timer_daemon.steps period_intact calls).timers e.timer = some timer →
          timer.m_period ≠ 0 →
          (⟨e.timer, saturated_add 64 e.next timer.m_period, e.stamp⟩ : Timer_queue_element)
              ∈ ((Timer_daemon.steps period_intact calls).pump_one_element now).2.g_timers
            ∧ e.next ≤ saturated_add 64 e.next timer.m_period)
      ∧ (∀ (t : Mysql_thread) (w : World) (m s : Connection) (elem : Operation_queue_element)
          (rest : List Operation_queue_element) (e : Thrown), t.m_queue = elem :: rest →
          (execute_element elem (decide_execute_it elem w).1
            (if elem.operation.should_use_slave then s else m)
            (decide_execute_it elem w).2).2.except = some e →
          (elem.retry_count + 1) % 2 ^ 64 < cfg.mysql_max_retry_count →
          (elem.retry_count + 1) % 2 ^ 64 < 64 →
          (t.pump_front cfg now w m s).thread.m_queue
              = { elem with retry_count := (elem.retry_count + 1) % 2 ^ 64,
                            due_time := retry_due_time cfg now ((elem.retry_count + 1) % 2 ^ 64) }
                :: rest
            ∧ retry_due_time cfg now ((elem.retry_count + 1) % 2 ^ 64)
                = (now + cfg.mysql_retry_init_delay * 2 ^ ((elem.retry_count + 1) % 2 ^ 64)
                    % 2 ^ 64) % 2 ^ 64
            ∧ (now ≤ retry_due_time cfg now ((elem.retry_count + 1) % 2 ^ 64)
                ↔ now + cfg.mysql_retry_init_delay * 2 ^ ((elem.retry_count + 1) % 2 ^ 64)
                    % 2 ^ 64 < 2 ^ 64)) := by
  refine ⟨?_, ?_, ?_, ?_, ?_⟩
  · intro op urgent t w hrun
    refine ⟨?_, saturated_add_ge now now _ hnow (le_refl _)⟩
    rcases add_operation_back cfg now op urgent t w with ⟨h1, h2, _⟩ | ⟨_, _, h3, _⟩
    · exfalso
      unfold Mysql_thread.add_operation at h1
      simp [hrun] at h1
    · exact h3
  · intro delta_first period callback low_level d
    exact ⟨rfl, saturated_add_ge now now _ hnow (le_refl _)⟩
  · intro period_intact id delta_first period d
    exact ⟨rfl, saturated_add_ge now now _ hnow (le_refl _)⟩
  · intro period_intact calls e timer hrange hfired htimer hper
    obtain ⟨hr1, _⟩ := in_range_steps period_intact calls hrange
    obtain ⟨_, t1, dropped, rest, h2, _, h4, _, _, _, _, h9⟩ :=
      (fired_spec now _ (steps_is_heap period_intact calls)).2 e hfired
    rw [htimer] at h4
    cases h4
    rw [if_neg hper] at h9
    have hmem : e ∈ (Timer_daemon.steps period_intact calls).g_timers :=
      h2.symm.subset (List.mem_append_right _ (List.mem_cons_self _ _))
    exact ⟨h9.symm.subset (List.mem_cons_self _ _),
      saturated_add_ge e.next _ _ (hr1 e hmem) (le_refl _)⟩
  · intro t w m s elem rest e hq he hr hc
    refine ⟨?_, ?_, retry_due_time_ge_iff cfg now _ hnow hc⟩
    · rw [pump_front_retry cfg now t w m s elem rest e hq he hr]
    · unfold retry_due_time
      rw [retry_shift_of_lt cfg _ hc]

/-- At the tick 5000 the save of the scenario is enqueued with the due time 10000, and a
timer registered with the delay 7 gets the first fire time 5007. -/
theorem saturating_tick_arithmetic_witness :
    5000 < 2 ^ 64
      ∧ (scenario_thread.add_operation scenario_config 5000 (scenario_save 2) false
          scenario_world).thread.m_queue
          = scenario_thread.m_queue
            ++ [⟨scenario_world.next_addr, scenario_save 2,
                saturated_add 64 5000 scenario_config.mysql_save_delay, 0⟩]
      ∧ 5000 ≤ saturated_add 64 5000 scenario_config.mysql_save_delay
      ∧ Timer_daemon.start.register_timer 5000 7 0 1 true
          = Timer_daemon.start.register_absolute_timer (saturated_add 64 5000 7) 0 1 true
      ∧ 5000 ≤ saturated_add 64 5000 7 :=
  ⟨by decide,
    ((saturating_tick_arithmetic scenario_config 5000 (by decide)).1 (scenario_save 2) false
      scenario_thread scenario_world rfl).1,
    ((saturating_tick_arithmetic scenario_config 5000 (by decide)).1 (scenario_save 2) false
      scenario_thread scenario_world rfl).2,
    ((saturating_tick_arithmetic scenario_config 5000 (by decide)).2.1 7 0 1 true
      Timer_daemon.start).1,
    ((saturating_tick_arithmetic scenario_config 5000 (by decide)).2.1 7 0 1 true
      Timer_daemon.start).2⟩

/-- C20 (failing input). With a retry delay of 10 ticks, the save of the scenario fails
at the tick `2 ^ 64 - 5`: the element stays queued for a retry with the due time 15,
which is smaller than the tick count it was derived from, where `saturated_add`, which
`add_operation` uses for the same field, gives `2 ^ 64 - 1` for the same sum. -/
theorem retry_due_time_wraps :
    scenario_config.mysql_retry_init_delay = 10
      ∧ (scenario_thread.pump_one_operation scenario_config (2 ^ 64 - 5) scenario_world
          failing_conn failing_conn).thread.m_queue = [⟨100, scenario_save 1, 15, 1⟩]
      ∧ 15 < 2 ^ 64 - 5
      ∧ saturated_add 64 (2 ^ 64 - 5) (10 * 2 ^ 1) = 2 ^ 64 - 1 := by
  decide

/-! ## Theorems about the module depository -/

theorem strict_weak_lt_of_lt_of_le {κ : Type} (lt : κ → κ → Bool) (h : Strict_weak lt)
    (a b c : κ) (hab : lt a b = true) (hcb : lt c b = false) : lt a c = true := by
  cases hac : lt a c with
  | true => rfl
  | false => rw [h.2 a c b hac hcb] at hab; cases hab

theorem strict_weak_pair_lt : Strict_weak pair_lt := by
  constructor
  · intro a b h
    simp only [pair_lt, Bool.or_eq_true, Bool.and_eq_true, Bool.not_eq_true', decide_eq_true_eq,
      decide_eq_false_iff_not, Bool.or_eq_false_iff, Bool.and_eq_false_imp] at h ⊢
    omega
  · intro a b c h1 h2
    simp only [pair_lt, Bool.or_eq_false_iff, decide_eq_false_iff_not, Bool.and_eq_false_imp,
      Bool.not_eq_true', decide_eq_true_eq] at h1 h2 ⊢
    omega

theorem strict_weak_int_lt : Strict_weak (fun a b : Int => decide (a < b)) := by
  constructor
  · intro a b h
    simp only [decide_eq_true_eq, decide_eq_false_iff_not] at h ⊢
    omega
  · intro a b c h1 h2
    simp only [decide_eq_false_iff_not] at h1 h2 ⊢
    omega

theorem dropWhile_upper_gt {α κ : Type} (key : α → κ) (lt : κ → κ → Bool)
    (h : Strict_weak lt) (k : κ) (l : List α) (hl : Ordered_by key lt l) :
    ∀ d ∈ l.dropWhile (fun x => !lt k (key x)), lt k (key d) = true := by
  induction l with
  | nil => intro d hd; simp at hd
  | cons a l ih =>
    have hl2 := List.pairwise_cons.1 hl
    intro d hd
    by_cases hq : lt k (key a) = true
    · rw [List.dropWhile_cons_of_neg (by simp [hq])] at hd
      rcases List.mem_cons.1 hd with e | hm
      · rw [e]; exact hq
      · exact strict_weak_lt_of_lt_of_le lt h k (key a) (key d) hq (hl2.1 d hm)
    · rw [List.dropWhile_cons_of_pos (by simpa using hq)] at hd
      exact ih hl2.2 d hd

theorem ordered_by_insert {α κ : Type} (key : α → κ) (lt : κ → κ → Bool)
    (h : Strict_weak lt) (l : List α) (x : α) (hl : Ordered_by key lt l) :
    Ordered_by key lt (ordered_insert key lt l x) := by
  unfold Ordered_by ordered_insert
  have hsplit := List.takeWhile_append_dropWhile (fun y => !lt (key x) (key y)) l
  have hl2 : (l.takeWhile (fun y => !lt (key x) (key y))
      ++ l.dropWhile (fun y => !lt (key x) (key y))).Pairwise
      (fun a b => lt (key b) (key a) = false) := by rw [hsplit]; exact hl
  rw [List.pairwise_append] at hl2 ⊢
  obtain ⟨p1, p2, p3⟩ := hl2
  refine ⟨p1, ?_, ?_⟩
  · rw [List.pairwise_cons]
    refine ⟨?_, p2⟩
    intro d hd
    exact h.1 _ _ (dropWhile_upper_gt key lt h (key x) l hl d hd)
  · intro a ha b hb
    rcases List.mem_cons.1 hb with e | hm
    · rw [e]
      have := List.mem_takeWhile_imp ha
      simpa using this
    · exact p3 a ha b hm

theorem filter_takeWhile_upper {α κ : Type} (key : α → κ) (lt : κ → κ → Bool)
    (h : Strict_weak lt) (k : κ) (f : α → Bool) (l : List α) (hl : Ordered_by key lt l) :
    (l.filter f).takeWhile (fun x => !lt k (key x))
        = (l.takeWhile (fun x => !lt k (key x))).filter f
      ∧ (l.filter f).dropWhile (fun x => !lt k (key x))
        = (l.dropWhile (fun x => !lt k (key x))).filter f := by
  induction l with
  | nil => simp
  | cons a l ih =>
    have hl2 := List.pairwise_cons.1 hl
    obtain ⟨i1, i2⟩ := ih hl2.2
    by_cases hq : lt k (key a) = true
    · -- the prefix ends before `a`
      have hall : ∀ d ∈ l.filter f, lt k (key d) = true := by
        intro d hd
        exact strict_weak_lt_of_lt_of_le lt h k (key a) (key d) hq
          (hl2.1 d (List.mem_filter.1 hd).1)
      have htw : (l.filter f).takeWhile (fun x => !lt k (key x)) = [] := by
        cases hf : l.filter f with
        | nil => rfl
        | cons b r =>
          have := hall b (by rw [hf]; exact List.mem_cons_self _ _)
          rw [List.takeWhile_cons_of_neg (by simp [this])]
      have hdw : (l.filter f).dropWhile (fun x => !lt k (key x)) = l.filter f := by
        cases hf : l.filter f with
        | nil => rfl
        | cons b r =>
          have := hall b (by rw [hf]; exact List.mem_cons_self _ _)
          rw [List.dropWhile_cons_of_neg (by simp [this])]
      rw [List.takeWhile_cons_of_neg (by simp [hq]), List.dropWhile_cons_of_neg (by simp [hq])]
      by_cases hf : f a = true
      · rw [List.filter_cons_of_pos hf, List.takeWhile_cons_of_neg (by simp [hq]),
          List.dropWhile_cons_of_neg (by simp [hq])]
        simp
      · rw [List.filter_cons_of_neg hf, htw, hdw]
        simp
    · have hq2 : lt k (key a) = false := by simpa using hq
      by_cases hf : f a = true
      · simp only [List.filter_cons_of_pos hf, List.takeWhile_cons, List.dropWhile_cons, hq2,
          Bool.not_false, if_true, i1, i2]
        exact ⟨trivial, trivial⟩
      · simp only [List.filter_cons_of_neg hf, List.takeWhile_cons, List.dropWhile_cons, hq2,
          Bool.not_false, if_true, i1, i2]
        exact ⟨trivial, trivial⟩

theorem filter_ordered_insert {α κ : Type} (key : α → κ) (lt : κ → κ → Bool)
    (h : Strict_weak lt) (f : α → Bool) (l : List α) (x : α) (hl : Ordered_by key lt l) :
    (ordered_insert key lt l x).filter f
      = if f x then ordered_insert key lt (l.filter f) x else l.filter f := by
  obtain ⟨h1, h2⟩ := filter_takeWhile_upper key lt h (key x) f l hl
  unfold ordered_insert
  rw [List.filter_append, h1, h2]
  by_cases hf : f x = true
  · rw [if_pos hf, List.filter_cons_of_pos hf]
  · rw [if_neg hf, List.filter_cons_of_neg hf, ← List.filter_append,
      List.takeWhile_append_dropWhile]

theorem map_ordered_insert {α β κ1 κ2 : Type} (key1 : α → κ1) (lt1 : κ1 → κ1 → Bool)
    (key2 : β → κ2) (lt2 : κ2 → κ2 → Bool) (g : α → β) (l : List α) (x : α)
    (hl : ∀ y ∈ l, lt1 (key1 x) (key1 y) = lt2 (key2 (g x)) (key2 (g y))) :
    (ordered_insert key1 lt1 l x).map g = ordered_insert key2 lt2 (l.map g) (g x) := by
  unfold ordered_insert
  have hboth : (l.takeWhile (fun y => !lt1 (key1 x) (key1 y))).map g
        = (l.map g).takeWhile (fun y => !lt2 (key2 (g x)) (key2 y))
      ∧ (l.dropWhile (fun y => !lt1 (key1 x) (key1 y))).map g
        = (l.map g).dropWhile (fun y => !lt2 (key2 (g x)) (key2 y)) := by
    induction l with
    | nil => simp
    | cons a l ih =>
      obtain ⟨i1, i2⟩ := ih (fun y hy => hl y (List.mem_cons_of_mem _ hy))
      have ha := hl a (List.mem_cons_self _ _)
      by_cases hq : lt1 (key1 x) (key1 a) = true
      · have hq2 : lt2 (key2 (g x)) (key2 (g a)) = true := by rw [← ha]; exact hq
        rw [List.takeWhile_cons_of_neg (by simp [hq]), List.dropWhile_cons_of_neg (by simp [hq]),
          List.map_cons, List.takeWhile_cons_of_neg (by simp [hq2]),
          List.dropWhile_cons_of_neg (by simp [hq2])]
        simp
      · have hq1 : lt1 (key1 x) (key1 a) = false := by simpa using hq
        have hq2 : lt2 (key2 (g x)) (key2 (g a)) = false := by rw [← ha]; exact hq1
        simp only [List.takeWhile_cons, List.dropWhile_cons, List.map_cons, hq1, hq2,
          Bool.not_false, if_true, i1, i2]
        exact ⟨trivial, trivial⟩
  rw [List.map_append, List.map_cons, hboth.1, hboth.2]

theorem ordered_insert_perm {α κ : Type} (key : α → κ) (lt : κ → κ → Bool) (l : List α) (x : α) :
    (ordered_insert key lt l x).Perm (x :: l) := by
  unfold ordered_insert
  refine List.perm_middle.trans ?_
  rw [List.takeWhile_append_dropWhile]

theorem raii_maps_agree_any (m : Module_raii_map) (mo : ModuleRaiiMap)
    (h : Raii_maps_agree m mo) (raii : Nat) :
    m.any (fun x => decide (x.raii = raii)) = mo.any (fun y => decide (y.raii = raii)) := by
  obtain ⟨_, _, _, _, h5⟩ := h
  rw [Bool.eq_iff_iff]
  simp only [List.any_eq_true, decide_eq_true_eq]
  constructor
  · rintro ⟨x, hx, hr⟩
    have hm : x.to_older ∈ (m.filter (fun z => decide (z.base_address_priority.1
        = x.base_address_priority.1))).map Module_raii_map_element.to_older :=
      List.mem_map_of_mem _ (List.mem_filter.2 ⟨hx, by simp⟩)
    rw [h5] at hm
    exact ⟨x.to_older, (List.mem_filter.1 hm).1, hr⟩
  · rintro ⟨y, hy, hr⟩
    have hm : y ∈ mo.filter (fun z => decide (z.base_addr = y.base_addr)) :=
      List.mem_filter.2 ⟨hy, by simp⟩
    rw [← h5] at hm
    obtain ⟨x, hx, hxy⟩ := List.mem_map.1 hm
    refine ⟨x, (List.mem_filter.1 hx).1, ?_⟩
    rw [← hr, ← hxy]
    rfl

theorem raii_maps_agree_insert (m : Module_raii_map) (mo : ModuleRaiiMap)
    (h : Raii_maps_agree m mo) (x : Module_raii_map_element)
    (hx : m.any (fun z => decide (z.raii = x.raii)) = false)
    (hr : LONG_MIN ≤ x.base_address_priority.2 ∧ x.base_address_priority.2 ≤ LONG_MAX) :
    Raii_maps_agree
      (ordered_insert Module_raii_map_element.base_address_priority pair_lt m x)
      (ordered_insert ModuleRaiiMapElement.priority (fun a b => decide (a < b)) mo x.to_older) := by
  obtain ⟨h1, h2, h3, h4, h5⟩ := h
  have hperm := ordered_insert_perm Module_raii_map_element.base_address_priority pair_lt m x
  refine ⟨ordered_by_insert _ _ strict_weak_pair_lt m x h1,
    ordered_by_insert _ _ strict_weak_int_lt mo _ h2, ?_, ?_, ?_⟩
  · rw [(hperm.map Module_raii_map_element.raii).nodup_iff, List.map_cons, List.nodup_cons]
    refine ⟨?_, h3⟩
    intro hmem
    obtain ⟨z, hz, hzr⟩ := List.mem_map.1 hmem
    have : m.any (fun z => decide (z.raii = x.raii)) = true := by
      simp only [List.any_eq_true, decide_eq_true_eq]
      exact ⟨z, hz, hzr⟩
    rw [hx] at this
    cases this
  · intro z hz
    rcases List.mem_cons.1 (hperm.subset hz) with e | hm
    · rw [e]; exact hr
    · exact h4 z hm
  · intro base
    rw [filter_ordered_insert _ _ strict_weak_pair_lt _ m x h1,
      filter_ordered_insert _ _ strict_weak_int_lt _ mo x.to_older h2]
    have hsame : decide (x.to_older.base_addr = base)
        = decide (x.base_address_priority.1 = base) := rfl
    rw [hsame]
    by_cases hb : x.base_address_priority.1 = base
    · simp only [hb, decide_True, if_true]
      rw [← h5 base]
      apply map_ordered_insert
      intro y hy
      have hyb : y.base_address_priority.1 = base := by
        simpa using (List.mem_filter.1 hy).2
      simp only [pair_lt, Module_raii_map_element.to_older, hyb, hb, lt_self_iff_false,
        decide_False, Bool.false_or, Bool.not_false, Bool.true_and]
    · simp only [hb, decide_False, Bool.false_eq_true, if_false]
      exact h5 base

theorem raii_maps_agree_erase (m : Module_raii_map) (mo : ModuleRaiiMap)
    (h : Raii_maps_agree m mo) (raii : Nat) :
    Raii_maps_agree (Module_raii_map.erase m raii)
      (ModuleDepository.unregister_module_raii raii mo) := by
  obtain ⟨h1, h2, h3, h4, h5⟩ := h
  unfold Module_raii_map.erase ModuleDepository.unregister_module_raii
  refine ⟨h1.sublist (List.filter_sublist _), h2.sublist (List.filter_sublist _),
    h3.sublist ((List.filter_sublist _).map _), ?_, ?_⟩
  · intro x hx
    exact h4 x (List.mem_filter.1 hx).1
  · intro base
    rw [List.filter_filter, List.filter_filter]
    have e1 : (m.filter (fun a => decide (a.base_address_priority.1 = base)
          && !decide (a.raii = raii)))
        = (m.filter (fun x => decide (x.base_address_priority.1 = base))).filter
            (fun x => !decide (x.to_older.raii = raii)) := by
      rw [List.filter_filter]
      congr 1
      funext a
      simp only [Module_raii_map_element.to_older]
      exact Bool.and_comm _ _
    have e2 : (mo.filter (fun a => decide (a.base_addr = base) && !decide (a.raii = raii)))
        = (mo.filter (fun y => decide (y.base_addr = base))).filter
            (fun y => !decide (y.raii = raii)) := by
      rw [List.filter_filter]
      congr 1
      funext a
      exact Bool.and_comm _ _
    rw [e1, e2, ← h5 base, List.filter_map]
    rfl

theorem raii_maps_agree_step (dl : Dl) (s : Module_depository) (mo : ModuleRaiiMap)
    (c : Raii_call) (h : Raii_maps_agree s.g_module_raii_map mo) (hc : c.in_range = true) :
    Raii_maps_agree (s.raii_step dl c).g_module_raii_map (ModuleDepository.raii_step dl mo c) := by
  cases c with
  | register_module_raii raii priority =>
    simp only [Raii_call.in_range, decide_eq_true_eq] at hc
    simp only [Module_depository.raii_step, ModuleDepository.raii_step,
      Module_depository.register_module_raii, ModuleDepository.register_module_raii]
    cases hd : dl.dladdr raii with
    | none => exact h
    | some info =>
      have hany := raii_maps_agree_any _ _ h raii
      simp only [Module_raii_map.insert, ModuleRaiiMap.insert]
      cases ha : s.g_module_raii_map.any (fun x => decide (x.raii = raii)) with
      | true =>
        rw [ha] at hany
        simp only [← hany, if_true, Bool.false_eq_true, if_false]
        exact h
      | false =>
        rw [ha] at hany
        simp only [← hany, Bool.false_eq_true, if_false, if_true]
        exact raii_maps_agree_insert _ _ h ⟨raii, (info.1, priority)⟩ ha hc
  | unregister_module_raii raii =>
    exact raii_maps_agree_erase _ _ h raii

/-- After the same calls, the map of the depository and the map of the older depository
hold the same initializers in the same order for every base address. -/
theorem raii_maps_agree_run (dl : Dl) (calls : List Raii_call)
    (hrange : ∀ c ∈ calls, c.in_range = true) :
    Raii_maps_agree
      (calls.foldl (Module_depository.raii_step dl) Module_depository.start).g_module_raii_map
      (calls.foldl (ModuleDepository.raii_step dl) []) := by
  induction calls using List.reverseRecOn with
  | nil =>
    refine ⟨List.Pairwise.nil, List.Pairwise.nil, List.nodup_nil, ?_, ?_⟩
    · intro x hx; simp [Module_depository.start] at hx
    · intro base; rfl
  | append_singleton calls c ih =>
    rw [List.foldl_append, List.foldl_append]
    exact raii_maps_agree_step dl _ _ c
      (ih (fun x hx => hrange x (List.mem_append_left _ hx)))
      (hrange c (List.mem_append_right _ (List.mem_singleton_self c)))

theorem takeWhile_congr_mem {α : Type} (p q : α → Bool) (l : List α)
    (h : ∀ x ∈ l, p x = q x) : l.takeWhile p = l.takeWhile q := by
  induction l with
  | nil => rfl
  | cons a l ih =>
    have ha := h a (List.mem_cons_self _ _)
    simp only [List.takeWhile_cons, ha, ih (fun x hx => h x (List.mem_cons_of_mem _ hx))]

theorem filter_eq_nil_of_gt (l : List Module_raii_map_element) (base : Nat)
    (h : ∀ x ∈ l, base < x.base_address_priority.1) :
    l.filter (fun x => decide (x.base_address_priority.1 = base)) = [] := by
  rw [List.filter_eq_nil_iff]
  intro x hx
  have := h x hx
  simp only [decide_eq_true_eq]
  omega

theorem range_by_base (l : List Module_raii_map_element) (base : Nat)
    (hl : l.Pairwise (fun a b => a.base_address_priority.1 ≤ b.base_address_priority.1)) :
    ((l.take (l.takeWhile (fun x => decide (x.base_address_priority.1 ≤ base))).length).drop
        (l.takeWhile (fun x => decide (x.base_address_priority.1 < base))).length)
      = l.filter (fun x => decide (x.base_address_priority.1 = base)) := by
  induction l with
  | nil => rfl
  | cons a l ih =>
    have hl2 := List.pairwise_cons.1 hl
    rcases Nat.lt_trichotomy a.base_address_priority.1 base with hlt | heq | hgt
    · have h1 : decide (a.base_address_priority.1 ≤ base) = true := by simp; omega
      have h2 : decide (a.base_address_priority.1 < base) = true := by simp; omega
      have h3 : decide (a.base_address_priority.1 = base) = false := by simp; omega
      simp only [List.takeWhile_cons, h1, h2, if_true, List.length_cons, List.take_succ_cons,
        List.drop_succ_cons, List.filter_cons, h3, Bool.false_eq_true, if_false]
      exact ih hl2.2
    · have h1 : decide (a.base_address_priority.1 ≤ base) = true := by simp; omega
      have h2 : decide (a.base_address_priority.1 < base) = false := by simp; omega
      have h3 : decide (a.base_address_priority.1 = base) = true := by simp; omega
      have hnone : l.takeWhile (fun x => decide (x.base_address_priority.1 < base)) = [] := by
        cases l with
        | nil => rfl
        | cons b r =>
          have := hl2.1 b (List.mem_cons_self _ _)
          rw [List.takeWhile_cons_of_neg (by simp; omega)]
      have hrec := ih hl2.2
      rw [hnone] at hrec
      simp only [List.length_nil, List.drop_zero] at hrec
      simp only [List.takeWhile_cons, h1, h2, if_true, Bool.false_eq_true, if_false,
        List.length_cons, List.take_succ_cons, List.length_nil, List.drop_zero,
        List.filter_cons, h3, hrec]
    · have h1 : decide (a.base_address_priority.1 ≤ base) = false := by simp; omega
      have h3 : decide (a.base_address_priority.1 = base) = false := by simp; omega
      simp only [List.takeWhile_cons, h1, Bool.false_eq_true, if_false, List.length_nil,
        List.take_zero, List.drop_nil, List.filter_cons, h3]
      symm
      apply filter_eq_nil_of_gt
      intro x hx
      have := hl2.1 x hx
      omega

/-- On a map in the order of its index whose priorities are values of a `long`, the
range from `lower_bound((base, LONG_MIN))` to `upper_bound((base, LONG_MAX))` holds the
elements of the base address, in the order of the map. -/
theorem range_eq_filter (m : Module_raii_map) (base : Nat)
    (h1 : Ordered_by Module_raii_map_element.base_address_priority pair_lt m)
    (h4 : ∀ x ∈ m, LONG_MIN ≤ x.base_address_priority.2 ∧ x.base_address_priority.2 ≤ LONG_MAX) :
    Module_raii_map.range m base
      = m.filter (fun x => decide (x.base_address_priority.1 = base)) := by
  unfold Module_raii_map.range ordered_upper_bound ordered_lower_bound
  have e1 : m.takeWhile (fun x => !pair_lt (base, LONG_MAX) x.base_address_priority)
      = m.takeWhile (fun x => decide (x.base_address_priority.1 ≤ base)) := by
    apply takeWhile_congr_mem
    intro x hx
    have := h4 x hx
    rw [Bool.eq_iff_iff]
    simp only [pair_lt, Bool.not_eq_true', Bool.or_eq_false_iff, decide_eq_false_iff_not,
      Bool.and_eq_false_imp, Bool.not_eq_true', decide_eq_true_eq]
    constructor
    · intro h; omega
    · intro h; constructor
      · omega
      · intro _; omega
  have e2 : m.takeWhile (fun x => pair_lt x.base_address_priority (base, LONG_MIN))
      = m.takeWhile (fun x => decide (x.base_address_priority.1 < base)) := by
    apply takeWhile_congr_mem
    intro x hx
    have := h4 x hx
    rw [Bool.eq_iff_iff]
    simp only [pair_lt, Bool.or_eq_true, Bool.and_eq_true, Bool.not_eq_true',
      decide_eq_false_iff_not, decide_eq_true_eq]
    constructor
    · intro h; omega
    · intro h; left; exact h
  rw [e1, e2]
  apply range_by_base
  refine h1.imp ?_
  intro a b hab
  simp only [pair_lt, Bool.or_eq_false_iff, decide_eq_false_iff_not] at hab
  omega

theorem init_foldl {α : Type} (r : α → Nat) (l : List α) (acc : Handle_stack × List Module_event) :
    l.foldl (fun acc x => Module_raii_base.init (r x) acc) acc
      = (⟨(l.map r).reverse ++ acc.1.tokens⟩, acc.2 ++ (l.map r).map Module_event.init) := by
  induction l generalizing acc with
  | nil => simp
  | cons a l ih =>
    rw [List.foldl_cons, ih]
    simp [Module_raii_base.init, Handle_stack.push]

theorem init_loop_eq (m : ModuleRaiiMap) (base_addr : Nat)
    (acc : Handle_stack × List Module_event) :
    ModuleDepository.init_loop m base_addr acc
      = (m.filter (fun y => decide (y.base_addr = base_addr))).foldl
          (fun acc it => Module_raii_base.init it.raii acc) acc := by
  unfold ModuleDepository.init_loop
  induction m generalizing acc with
  | nil => rfl
  | cons a m ih =>
    rw [List.foldl_cons]
    by_cases hb : a.base_addr = base_addr
    · rw [if_neg (by simpa using hb), ih, List.filter_cons_of_pos (by simpa using hb),
        List.foldl_cons]
    · rw [if_pos hb, ih, List.filter_cons_of_neg (by simpa using hb)]

/-- What `load` does for a library whose base address no loaded module has and for which
it returns normally: the initializers of the range are invoked in order, and the module
with their tokens is put into the map. -/
theorem load_new_library (dl : Dl) (path : String) (base_address : Nat) (s : Module_depository)
    (hload : (s.load dl path).1 = .ok base_address)
    (hnew : ∀ module ∈ s.g_module_map, module.m_base_address ≠ base_address) :
    ∃ dl_handle real_path, dl.dlopen path = some dl_handle
      ∧ (s.load dl path).2.trace = s.trace
          ++ ((Module_raii_map.range s.g_module_raii_map base_address).map
              Module_raii_map_element.raii).map Module_event.init
      ∧ (s.load dl path).2.g_module_map = s.g_module_map
          ++ [⟨dl_handle, base_address, real_path,
              ⟨((Module_raii_map.range s.g_module_raii_map base_address).map
                Module_raii_map_element.raii).reverse⟩⟩]
      ∧ (s.load dl path).2.g_module_raii_map = s.g_module_raii_map := by
  unfold Module_depository.load at hload ⊢
  cases hopen : dl.dlopen path with
  | none => rw [hopen] at hload; cases hload
  | some dl_handle =>
    simp only [hopen] at hload ⊢
    cases hfind : s.g_module_map.find? (fun module => decide (module.m_dl_handle = dl_handle)) with
    | some module =>
      exfalso
      simp only [hfind] at hload
      have hmem := List.mem_of_find?_eq_some hfind
      apply hnew module hmem
      injection hload
    | none =>
      simp only [hfind] at hload ⊢
      cases hsym : dl.dlsym_init dl_handle with
      | none => simp only [hsym] at hload; cases hload
      | some init_sym =>
        simp only [hsym] at hload ⊢
        cases haddr : dl.dladdr init_sym with
        | none => simp only [haddr] at hload; cases hload
        | some info =>
          simp only [haddr] at hload ⊢
          by_cases hdup : s.g_module_map.any
              (fun other => decide (other.m_base_address = info.1)) = true
          · rw [if_pos hdup] at hload
            cases hload
          · rw [if_neg hdup] at hload ⊢
            have hb : info.1 = base_address := by injection hload
            refine ⟨dl_handle, info.2, rfl, ?_, ?_, rfl⟩
            · simp only [init_foldl, hb]
            · simp only [init_foldl, hb, List.append_nil]

/-- C18. After every sequence of registrations and unregistrations (with priorities that
are values of a `long`), the elements that `load` visits for the base address `B` are
exactly the registered elements whose base address is `B`, each once, in non-decreasing
order of priority; `load` of a new library with the base address `B` invokes exactly
their initializers, in this order; and the loop of the older depository, over its map
after the same calls, invokes the same initializers in the same order. -/
theorem module_initializer_order (dl : Dl) (calls : List Raii_call) (base_address : Nat)
    (s : Module_depository)
    (hrange : ∀ c ∈ calls, c.in_range = true)
    (hs : s.g_module_raii_map
      = (calls.foldl (Module_depository.raii_step dl) Module_depository.start).g_module_raii_map) :
    (∀ x, x ∈ Module_raii_map.range s.g_module_raii_map base_address
        ↔ x ∈ s.g_module_raii_map ∧ x.base_address_priority.1 = base_address)
      ∧ ((Module_raii_map.range s.g_module_raii_map base_address).map
          Module_raii_map_element.raii).Nodup
      ∧ (Module_raii_map.range s.g_module_raii_map base_address).Pairwise
          (fun a b => a.base_address_priority.2 ≤ b.base_address_priority.2)
      ∧ (∀ path, (s.load dl path).1 = .ok base_address →
          (∀ module ∈ s.g_module_map, module.m_base_address ≠ base_address) →
          (s.load dl path).2.trace = s.trace
            ++ ((Module_raii_map.range s.g_module_raii_map base_address).map
                Module_raii_map_element.raii).map Module_event.init)
      ∧ (∀ handles trace,
          (ModuleDepository.init_loop (calls.foldl (ModuleDepository.raii_step dl) [])
              base_address (handles, trace)).2
            = trace ++ ((Module_raii_map.range s.g_module_raii_map base_address).map
                Module_raii_map_element.raii).map Module_event.init) := by
  have hagree := raii_maps_agree_run dl calls hrange
  rw [← hs] at hagree
  obtain ⟨h1, h2, h3, h4, h5⟩ := hagree
  have hr := range_eq_filter s.g_module_raii_map base_address h1 h4
  rw [hr]
  refine ⟨?_, ?_, ?_, ?_, ?_⟩
  · intro x
    rw [List.mem_filter]
    simp
  · exact h3.sublist ((List.filter_sublist _).map _)
  · have hp : (s.g_module_raii_map.filter
        (fun x => decide (x.base_address_priority.1 = base_address))).Pairwise
        (fun a b => pair_lt b.base_address_priority a.base_address_priority = false) :=
      h1.sublist (List.filter_sublist _)
    refine (List.Pairwise.and_mem.1 hp).imp ?_
    rintro a b ⟨ha, hb, hab⟩
    have hab1 : a.base_address_priority.1 = base_address := by
      simpa using (List.mem_filter.1 ha).2
    have hab2 : b.base_address_priority.1 = base_address := by
      simpa using (List.mem_filter.1 hb).2
    simp only [pair_lt, Bool.or_eq_false_iff, decide_eq_false_iff_not, Bool.and_eq_false_imp,
      Bool.not_eq_true'] at hab
    have := hab.2 (by rw [hab1, hab2]; simp)
    omega
  · intro path hload hnew
    obtain ⟨_, _, _, g2, _⟩ := load_new_library dl path base_address s hload hnew
    rw [g2, hr]
  · intro handles trace
    rw [init_loop_eq, init_foldl, ← h5 base_address, List.map_map]
    rfl

/-- In the scenario the library registers an initializer with the priority 10 and then
one with the priority 5; the load invokes the initializer with the priority 5 first. -/
theorem module_initializer_order_witness :
    (∀ c ∈ scenario_raii_calls, c.in_range = true)
      ∧ ((scenario_raii_calls.foldl (Module_depository.raii_step scenario_dl)
            Module_depository.start).load scenario_dl "libfoo.so").1 = .ok 4096
      ∧ ((scenario_raii_calls.foldl (Module_depository.raii_step scenario_dl)
            Module_depository.start).load scenario_dl "libfoo.so").2.trace
          = [Module_event.init 4200, Module_event.init 4100]
      ∧ (ModuleDepository.init_loop
            (scenario_raii_calls.foldl (ModuleDepository.raii_step scenario_dl) []) 4096
            (⟨[]⟩, [])).2
          = [Module_event.init 4200, Module_event.init 4100] := by
  have h := module_initializer_order scenario_dl scenario_raii_calls 4096
    (scenario_raii_calls.foldl (Module_depository.raii_step scenario_dl) Module_depository.start)
    (by decide) rfl
  have hrange : Module_raii_map.range (scenario_raii_calls.foldl
      (Module_depository.raii_step scenario_dl) Module_depository.start).g_module_raii_map 4096
      = [⟨4200, (4096, 5)⟩, ⟨4100, (4096, 10)⟩] := by decide
  refine ⟨by decide, rfl, ?_, ?_⟩
  · rw [h.2.2.2.1 "libfoo.so" rfl (by decide), hrange]
    rfl
  · rw [h.2.2.2.2 ⟨[]⟩ [], hrange]
    rfl

/-- C19. When a module that `load` has loaded as a new library is destroyed by `unload`,
the tokens that its initializers have pushed are released in the reverse of the order in
which the initializers ran, and after all of them the library handle is closed. -/
theorem module_teardown_order (dl : Dl) (path : String) (base_address : Nat)
    (s : Module_depository)
    (hload : (s.load dl path).1 = .ok base_address)
    (hnew : ∀ module ∈ s.g_module_map, module.m_base_address ≠ base_address) :
    ∃ (dl_handle : Nat) (inits : List Nat), dl.dlopen path = some dl_handle
      ∧ inits = (Module_raii_map.range s.g_module_raii_map base_address).map
          Module_raii_map_element.raii
      ∧ (s.load dl path).2.trace = s.trace ++ inits.map Module_event.init
      ∧ ((s.load dl path).2.unload base_address).1 = true
      ∧ ((s.load dl path).2.unload base_address).2.trace
          = (s.load dl path).2.trace ++ inits.reverse.map Module_event.release
            ++ [Module_event.dlclose dl_handle]
      ∧ ((s.load dl path).2.unload base_address).2.g_module_map = s.g_module_map := by
  obtain ⟨dl_handle, real_path, g1, g2, g3, _⟩ :=
    load_new_library dl path base_address s hload hnew
  refine ⟨dl_handle, _, g1, rfl, g2, ?_⟩
  have hnone : s.g_module_map.find? (fun module => decide (module.m_base_address = base_address))
      = none := by
    rw [List.find?_eq_none]
    intro x hx
    simpa using hnew x hx
  have hfind : (s.load dl path).2.g_module_map.find?
      (fun module => decide (module.m_base_address = base_address))
      = some ⟨dl_handle, base_address, real_path,
          ⟨((Module_raii_map.range s.g_module_raii_map base_address).map
            Module_raii_map_element.raii).reverse⟩⟩ := by
    rw [g3, List.find?_append, hnone]
    simp
  have hfilter : s.g_module_map.filter
      (fun other => !decide (other.m_base_address = base_address)) = s.g_module_map := by
    rw [List.filter_eq_self]
    intro x hx
    simpa using hnew x hx
  unfold Module_depository.unload
  rw [hfind]
  refine ⟨rfl, ?_, ?_⟩
  · simp only [Module.destroy, Handle_stack.destroy, List.append_assoc]
  · simp only [g3, List.filter_append, hfilter]
    simp

/-- In the scenario the library has registered the initializers with the priorities 10
and 5 and is loaded; the unloading releases the token of the initializer with the
priority 10 first, then that of the initializer with the priority 5, and then closes the
library. -/
theorem module_teardown_order_witness :
    ((scenario_raii_calls.foldl (Module_depository.raii_step scenario_dl)
          Module_depository.start).load scenario_dl "libfoo.so").1 = .ok 4096
      ∧ (∃ (dl_handle : Nat) (inits : List Nat), scenario_dl.dlopen "libfoo.so" = some dl_handle
        ∧ scenario_loaded.trace = inits.map Module_event.init
        ∧ (scenario_loaded.unload 4096).2.trace
            = scenario_loaded.trace ++ inits.reverse.map Module_event.release
              ++ [Module_event.dlclose dl_handle])
      ∧ scenario_loaded.trace = [Module_event.init 4200, Module_event.init 4100]
      ∧ (scenario_loaded.unload 4096).2.trace
          = [Module_event.init 4200, Module_event.init 4100, Module_event.release 4100,
              Module_event.release 4200, Module_event.dlclose 7] := by
  obtain ⟨dl_handle, inits, g1, _, g3, _, g5, _⟩ := module_teardown_order scenario_dl "libfoo.so"
    4096 (scenario_raii_calls.foldl (Module_depository.raii_step scenario_dl)
      Module_depository.start) rfl (by decide)
  exact ⟨rfl, ⟨dl_handle, inits, g1, g3, g5⟩, by decide, by decide⟩

/-! ## Further theorems about the worker and the router -/

/-- What `execute` appends to the trace is not about a queue element: it is neither the
announcement of a statement, nor a retry, nor a dump. -/
theorem execute_trace (op : Operation_base) (conn : Connection) (q : String) (w : World) :
    ∃ evs, (op.execute conn q w).world.trace = w.trace ++ evs ∧ ∀ ev ∈ evs, ev.elem? = none := by
  obtain ⟨_, evs, h1, h2⟩ := execute_extends none op conn q w
  refine ⟨evs, h1, ?_⟩
  intro ev hev
  cases h : ev.elem? with
  | none => rfl
  | some b => exact absurd (h2 ev hev b h) (by simp)

/-- What the execution of a queue element appends to the trace: the announcement of the
statement, then events that are not about a queue element. -/
theorem execute_element_trace (elem : Operation_queue_element) (conn : Connection) (w : World) :
    ∃ evs, (execute_element elem true conn w).2.world.trace
        = w.trace ++ .executing_sql elem.addr elem.operation.id (elem.operation.generate_sql w)
            :: evs
      ∧ ∀ ev ∈ evs, ev.elem? = none := by
  obtain ⟨evs, h1, h2⟩ := execute_trace elem.operation conn (elem.operation.generate_sql w)
    (w.emit (.executing_sql elem.addr elem.operation.id (elem.operation.generate_sql w)))
  refine ⟨evs ++ [.discard_result], ?_, ?_⟩
  · have h0 : (execute_element elem true conn w).2.world.trace
        = (elem.operation.execute conn (elem.operation.generate_sql w)
            (w.emit (.executing_sql elem.addr elem.operation.id
              (elem.operation.generate_sql w)))).world.trace ++ [.discard_result] := rfl
    rw [h0, h1]
    simp [World.emit]
  · intro ev hev
    rcases List.mem_append.1 hev with h | h
    · exact h2 ev h
    · rw [List.mem_singleton.1 h]; rfl

theorem execute_element_false (elem : Operation_queue_element) (conn : Connection) (w : World) :
    execute_element elem false conn w = ("", ⟨none, conn, w⟩) := by
  simp [execute_element]

/-- An execution that ends with an exception was not skipped. -/
theorem execute_it_of_except (elem : Operation_queue_element) (b : Bool) (conn : Connection)
    (w : World) (e : Thrown) (h : (execute_element elem b conn w).2.except = some e) :
    b = true := by
  cases b
  · rw [execute_element_false] at h; cases h
  · rfl

theorem decide_execute_it_trace (elem : Operation_queue_element) (w : World) :
    (decide_execute_it elem w).2.trace = w.trace := by
  unfold decide_execute_it
  split
  · rfl
  · split
    · rfl
    · split <;> rfl

theorem decide_execute_it_generate_sql (elem : Operation_queue_element) (w : World)
    (op : Operation_base) :
    op.generate_sql (decide_execute_it elem w).2 = op.generate_sql w := by
  unfold decide_execute_it
  split
  · rfl
  · split
    · rfl
    · split
      · exact generate_sql_set_stamp _ _ _ _
      · rfl

/-- C23. Deferred-execution gate. A call of pump_one_operation returns true exactly when
the queue is not empty and the urgent flag is set or the due time of the front element
has come; it then is the processing of the front element, which leaves the queue behind
the front element as it was and either removes the front element or keeps it, with a
new retry count and due time. Otherwise it returns false, removes nothing, and leaves
the queue (with all retry counts), the store (with all combined-write stamps) and the
connections unchanged. The urgent flag is cleared exactly when the queue is found
empty. -/
theorem deferred_execution_gate (cfg : Main_config) (now : Nat) (t : Mysql_thread) (w : World)
    (m s : Connection) :
    ((t.pump_one_operation cfg now w m s).result = true
        ↔ ∃ head rest, t.m_queue = head :: rest ∧ (t.m_urgent = true ∨ head.due_time ≤ now))
      ∧ ((t.pump_one_operation cfg now w m s).result = true →
          t.pump_one_operation cfg now w m s = t.pump_front cfg now w m s
          ∧ ∃ head rest, t.m_queue = head :: rest
            ∧ ((t.pump_one_operation cfg now w m s).thread.m_queue = rest
              ∨ ∃ retry_count due_time, (t.pump_one_operation cfg now w m s).thread.m_queue
                  = { head with retry_count := retry_count, due_time := due_time } :: rest))
      ∧ ((t.pump_one_operation cfg now w m s).result = false →
          (t.pump_one_operation cfg now w m s).thread.m_queue = t.m_queue
          ∧ (t.pump_one_operation cfg now w m s).thread.m_running = t.m_running
          ∧ (t.pump_one_operation cfg now w m s).world = w
          ∧ (t.pump_one_operation cfg now w m s).popped = none
          ∧ (t.pump_one_operation cfg now w m s).master_conn = some m
          ∧ (t.pump_one_operation cfg now w m s).slave_conn = some s)
      ∧ (t.pump_one_operation cfg now w m s).thread.m_urgent
          = (if t.m_queue = [] then false else t.m_urgent) := by
  cases hq : t.m_queue with
  | nil =>
    rw [pump_one_operation_empty cfg now t w m s hq]
    refine ⟨⟨fun h => (by cases h), fun ⟨_, _, h, _⟩ => (by cases h)⟩, fun h => (by cases h),
      fun _ => ⟨hq, rfl, rfl, rfl, rfl, rfl⟩, by simp⟩
  | cons e rest =>
    by_cases hd : t.m_urgent = true ∨ e.due_time ≤ now
    · rw [pump_one_operation_due cfg now t w m s e rest hq hd]
      have hres : (t.pump_front cfg now w m s).result = true
          ∧ (t.pump_front cfg now w m s).thread.m_urgent = t.m_urgent
          ∧ ((t.pump_front cfg now w m s).thread.m_queue = rest
              ∨ ∃ retry_count due_time, (t.pump_front cfg now w m s).thread.m_queue
                  = { e with retry_count := retry_count, due_time := due_time } :: rest) := by
        cases he : (execute_element e (decide_execute_it e w).1
            (if e.operation.should_use_slave then s else m) (decide_execute_it e w).2).2.except with
        | none =>
          rw [pump_front_done cfg now t w m s e rest hq he]
          exact ⟨rfl, rfl, Or.inl rfl⟩
        | some ex =>
          by_cases hr : (e.retry_count + 1) % 2 ^ 64 < cfg.mysql_max_retry_count
          · rw [pump_front_retry cfg now t w m s e rest ex hq he hr]
            exact ⟨rfl, rfl, Or.inr ⟨_, _, rfl⟩⟩
          · rw [pump_front_dump cfg now t w m s e rest ex hq he hr]
            exact ⟨rfl, rfl, Or.inl rfl⟩
      refine ⟨⟨fun _ => ⟨e, rest, rfl, hd⟩, fun _ => hres.1⟩,
        fun _ => ⟨rfl, e, rest, rfl, hres.2.2⟩, fun h => ?_, ?_⟩
      · rw [hres.1] at h; cases h
      · rw [hres.2.1]; simp
    · have hu : t.m_urgent = false := by
        cases h : t.m_urgent
        · rfl
        · exact absurd (Or.inl h) hd
      have hlt : now < e.due_time := by
        by_contra h
        exact hd (Or.inr (not_lt.1 h))
      rw [pump_one_operation_not_due cfg now t w m s e rest hq hu hlt]
      refine ⟨⟨fun h => (by cases h), ?_⟩, fun h => (by cases h),
        fun _ => ⟨hq, rfl, rfl, rfl, rfl, rfl⟩, by simp⟩
      rintro ⟨head, rest1, h, hd1⟩
      cases h
      exact absurd hd1 hd

/-- C24. Retry step. When the gate lets the front element through, its execution fails,
and the incremented retry count r is below max_retry_count, then pump_one_operation
returns true and removes nothing: the element stays at the front with the retry count r
and the due time that the expression now + (retry_init_delay << r) gives, which is
now + retry_init_delay * 2^r when r is below 64 and that sum is below 2^64; the rest of
the queue is as it was; the connection that was used is reset to null and the other one
is kept; no promise is touched; and the events appended to the trace begin with the
announcement of the statement, end with the retry, and contain no dump. -/
theorem retry_step (cfg : Main_config) (now : Nat) (t : Mysql_thread) (w : World)
    (m s : Connection) (elem : Operation_queue_element) (rest : List Operation_queue_element)
    (e : Thrown) (hq : t.m_queue = elem :: rest)
    (hd : t.m_urgent = true ∨ elem.due_time ≤ now)
    (he : (execute_element elem (decide_execute_it elem w).1
        (if elem.operation.should_use_slave then s else m) (decide_execute_it elem w).2).2.except
        = some e)
    (hr : (elem.retry_count + 1) % 2 ^ 64 < cfg.mysql_max_retry_count) :
    (t.pump_one_operation cfg now w m s).result = true
      ∧ (t.pump_one_operation cfg now w m s).popped = none
      ∧ (t.pump_one_operation cfg now w m s).thread
          = { t with m_queue :=
              { elem with
                retry_count := (elem.retry_count + 1) % 2 ^ 64
                due_time := retry_due_time cfg now ((elem.retry_count + 1) % 2 ^ 64) }
                :: rest }
      ∧ ((elem.retry_count + 1) % 2 ^ 64 < 64 →
          now + cfg.mysql_retry_init_delay * 2 ^ ((elem.retry_count + 1) % 2 ^ 64) < 2 ^ 64 →
          retry_due_time cfg now ((elem.retry_count + 1) % 2 ^ 64)
            = now + cfg.mysql_retry_init_delay * 2 ^ ((elem.retry_count + 1) % 2 ^ 64))
      ∧ (t.pump_one_operation cfg now w m s).master_conn
          = (if elem.operation.should_use_slave then some m else none)
      ∧ (t.pump_one_operation cfg now w m s).slave_conn
          = (if elem.operation.should_use_slave then none else some s)
      ∧ (t.pump_one_operation cfg now w m s).world.promises = w.promises
      ∧ ∃ evs, (t.pump_one_operation cfg now w m s).world.trace
          = w.trace ++ .executing_sql elem.addr elem.operation.id (elem.operation.generate_sql w)
              :: evs ++ [.going_to_retry elem.addr ((elem.retry_count + 1) % 2 ^ 64)]
        ∧ ∀ ev ∈ evs, ev.elem? = none := by
  rw [pump_one_operation_due cfg now t w m s elem rest hq hd,
    pump_front_retry cfg now t w m s elem rest e hq he hr]
  have hx := execute_it_of_except _ _ _ _ _ he
  refine ⟨rfl, rfl, rfl, ?_, rfl, rfl, ?_, ?_⟩
  · intro hc hlt
    unfold retry_due_time
    rw [retry_shift_of_lt cfg _ hc]
    have h1 : cfg.mysql_retry_init_delay * 2 ^ ((elem.retry_count + 1) % 2 ^ 64) < 2 ^ 64 := by
      omega
    rw [Nat.mod_eq_of_lt h1, Nat.mod_eq_of_lt hlt]
  · show (World.emit _ _).promises = _
    simp only [World.emit]
    rw [execute_element_promises, decide_execute_it_promises]
  · rw [hx]
    obtain ⟨evs, h1, h2⟩ := execute_element_trace elem
      (if elem.operation.should_use_slave then s else m) (decide_execute_it elem w).2
    refine ⟨evs, ?_, h2⟩
    simp only [World.emit, h1, decide_execute_it_trace, decide_execute_it_generate_sql]

/-- C24 (failing input). With retry_init_delay = 2^63 the first failure of a save at
tick 5000 leaves the element at the front with retry count 1 and due time 5000, the
tick of the failure itself, not 5000 + 2^63 * 2^1: the shift left by one drops the only
bit that is set, so that the retry is due at once. -/
theorem retry_delay_shifted_out :
    scenario_long_delay.mysql_retry_init_delay = 2 ^ 63
      ∧ (scenario_thread.pump_one_operation scenario_long_delay 5000 scenario_world failing_conn
          failing_conn).thread.m_queue = [⟨100, scenario_save 1, 5000, 1⟩]
      ∧ 5000 ≠ 5000 + 2 ^ 63 * 2 ^ 1 := by
  decide

/-- C24 (witness). The first failure of the queued save of the scenario, at tick 5000 on
a failing connection: the retry is due at tick 5000 + 10 * 2^1. -/
theorem retry_step_witness :
    scenario_first_failure.result = true
      ∧ scenario_first_failure.thread.m_queue
          = [⟨100, scenario_save 1, retry_due_time scenario_config 5000 1, 1⟩]
      ∧ retry_due_time scenario_config 5000 1 = 5000 + 10 * 2 ^ 1
      ∧ scenario_first_failure.master_conn = none
      ∧ scenario_first_failure.world.promises = scenario_world.promises :=
  have h := retry_step scenario_config 5000 scenario_thread scenario_world failing_conn
    failing_conn ⟨100, scenario_save 1, 5000, 0⟩ []
    (.mysql_exception 2006 "MySQL server has gone away") rfl (Or.inr (by decide)) (by decide)
    (by decide)
  ⟨h.1, congrArg Mysql_thread.m_queue h.2.2.1, h.2.2.2.1 (by decide) (by decide), h.2.2.2.2.1,
    h.2.2.2.2.2.2.1⟩

theorem batch_load_loop_objects (cb : Nat) (rows : List Row) (conn : Connection) (w : World) :
    (batch_load_loop cb conn w rows).world.objects = w.objects := by
  induction rows generalizing conn w with
  | nil => rfl
  | cons r rs ih =>
    unfold batch_load_loop
    simp only []
    split
    · rfl
    · rw [ih]; rfl

theorem execute_objects (op : Operation_base) (conn : Connection) (q : String) (w : World) :
    (op.execute conn q w).world.objects = w.objects := by
  unfold Operation_base.execute
  split
  · split <;> rfl
  · split
    · rfl
    · split
      · rfl
      · split <;> rfl
  · split <;> rfl
  · split
    · rfl
    · split
      · rfl
      · split
        · rw [batch_load_loop_objects]; rfl
        · rfl
  · split <;> rfl
  · split <;> rfl

theorem execute_element_objects (elem : Operation_queue_element) (b : Bool) (conn : Connection)
    (w : World) : (execute_element elem b conn w).2.world.objects = w.objects := by
  unfold execute_element
  split
  · simp only [World.emit, execute_objects]
  · rfl

theorem dump_sql_to_file_objects (cfg : Main_config) (a : Nat) (q : String) (c : Nat)
    (msg : String) (w : World) : (dump_sql_to_file cfg a q c msg w).objects = w.objects := by
  unfold dump_sql_to_file
  split <;> rfl

theorem dump_sql_to_file_trace (cfg : Main_config) (a : Nat) (q : String) (c : Nat)
    (msg : String) (w : World) :
    ∃ evs, (dump_sql_to_file cfg a q c msg w).trace = w.trace ++ evs
      ∧ ∀ ev ∈ evs, ∀ a1 q1 x, ev ≠ .executing_sql a1 q1 x := by
  unfold dump_sql_to_file
  split
  · exact ⟨[], by simp, by simp⟩
  · exact ⟨[_], rfl, by simp⟩

/-- The objects after the processing of the front element are the objects that the
decision whether to execute leaves behind: only that decision writes a stamp. -/
theorem pump_front_objects (cfg : Main_config) (now : Nat) (t : Mysql_thread) (w : World)
    (m s : Connection) (elem : Operation_queue_element) (rest : List Operation_queue_element)
    (hq : t.m_queue = elem :: rest) :
    (t.pump_front cfg now w m s).world.objects = (decide_execute_it elem w).2.objects := by
  have hx : (execute_element elem (decide_execute_it elem w).1
      (if elem.operation.should_use_slave then s else m) (decide_execute_it elem w).2).2.world.objects
      = (decide_execute_it elem w).2.objects := execute_element_objects _ _ _ _
  cases he : (execute_element elem (decide_execute_it elem w).1
      (if elem.operation.should_use_slave then s else m) (decide_execute_it elem w).2).2.except with
  | none =>
    rw [pump_front_done cfg now t w m s elem rest hq he]
    simp only [settle_promise_objects, hx]
  | some ex =>
    by_cases hr : (elem.retry_count + 1) % 2 ^ 64 < cfg.mysql_max_retry_count
    · rw [pump_front_retry cfg now t w m s elem rest ex hq he hr]
      simp only [World.emit, hx]
    · rw [pump_front_dump cfg now t w m s elem rest ex hq he hr]
      simp only [settle_promise_objects, dump_sql_to_file_objects, hx]

/-- The trace after the processing of the front element continues the trace that the
decision and the execution leave behind, by a retry or a dump at most. -/
theorem pump_front_trace (cfg : Main_config) (now : Nat) (t : Mysql_thread) (w : World)
    (m s : Connection) (elem : Operation_queue_element) (rest : List Operation_queue_element)
    (hq : t.m_queue = elem :: rest) :
    ∃ evs, (t.pump_front cfg now w m s).world.trace
        = (execute_element elem (decide_execute_it elem w).1
            (if elem.operation.should_use_slave then s else m)
            (decide_execute_it elem w).2).2.world.trace ++ evs
      ∧ ∀ ev ∈ evs, ∀ a1 q1 x, ev ≠ .executing_sql a1 q1 x := by
  cases he : (execute_element elem (decide_execute_it elem w).1
      (if elem.operation.should_use_slave then s else m) (decide_execute_it elem w).2).2.except with
  | none =>
    rw [pump_front_done cfg now t w m s elem rest hq he]
    exact ⟨[], by simp only [settle_promise_trace, List.append_nil], by simp⟩
  | some ex =>
    by_cases hr : (elem.retry_count + 1) % 2 ^ 64 < cfg.mysql_max_retry_count
    · rw [pump_front_retry cfg now t w m s elem rest ex hq he hr]
      exact ⟨[_], rfl, by simp⟩
    · rw [pump_front_dump cfg now t w m s elem rest ex hq he hr]
      obtain ⟨evs, h1, h2⟩ := dump_sql_to_file_trace cfg elem.addr
        (execute_element elem (decide_execute_it elem w).1
          (if elem.operation.should_use_slave then s else m) (decide_execute_it elem w).2).1
        ex.err_code ex.err_msg
        (execute_element elem (decide_execute_it elem w).1
          (if elem.operation.should_use_slave then s else m) (decide_execute_it elem w).2).2.world
      exact ⟨evs, by simp only [settle_promise_trace, h1], h2⟩

theorem combinable_is_save (op : Operation_base) (obj : Nat)
    (h : op.get_combinable_object = some obj) : ∃ rep, op.variant = .Save_operation obj rep := by
  unfold Operation_base.get_combinable_object at h
  split at h
  · rename_i o rep hv
    cases h
    exact ⟨rep, hv⟩
  · cases h

/-- The stamps after the decision whether to execute: the stamp that names the element
is cleared, every other stamp is as it was. -/
theorem decide_execute_it_stamp (elem : Operation_queue_element) (w : World) (o : Nat) :
    (decide_execute_it elem w).2.get_combined_write_stamp o
      = if elem.operation.get_combinable_object = some o
            ∧ w.get_combined_write_stamp o = some elem.addr then none
        else w.get_combined_write_stamp o := by
  unfold decide_execute_it
  cases hc : elem.operation.get_combinable_object with
  | none => simp
  | some obj =>
    simp only []
    cases hs : w.get_combined_write_stamp obj with
    | none =>
      simp only []
      split
      · rename_i h
        rw [h.2]
        have := h.1
        simp only [Option.some.injEq] at this
        subst this
        rw [hs] at h
        exact absurd h.2 (by simp)
      · rfl
    | some a =>
      simp only []
      by_cases ha : a = elem.addr
      · rw [if_pos ha]
        by_cases ho : o = obj
        · subst ho
          rw [world_set_stamp_get, if_pos ⟨rfl, by rw [hs, ha]⟩]
        · have h1 : (w.set_combined_write_stamp obj none).get_combined_write_stamp o
              = w.get_combined_write_stamp o := by
            simp [World.set_combined_write_stamp, World.get_combined_write_stamp, ho]
          rw [h1, if_neg]
          rintro ⟨h2, _⟩
          exact ho (Option.some.inj h2).symm
      · rw [if_neg ha, if_neg]
        rintro ⟨h2, h3⟩
        have := Option.some.inj h2
        subst this
        rw [hs] at h3
        exact ha (Option.some.inj h3)

/-- The stamps after a successful add_operation: the stamp of the combinable object is
set to the address of the new element if it was null, every other stamp is as it was. -/
theorem add_operation_stamp (cfg : Main_config) (now : Nat) (op : Operation_base) (urgent : Bool)
    (t : Mysql_thread) (w : World) (o : Nat) (hrun : t.m_running = true) :
    (t.add_operation cfg now op urgent w).world.get_combined_write_stamp o
      = if op.get_combinable_object = some o ∧ w.get_combined_write_stamp o = none then
          some w.next_addr
        else w.get_combined_write_stamp o := by
  simp only [Mysql_thread.add_operation, hrun, Bool.not_true, Bool.false_eq_true, if_false]
  cases hc : op.get_combinable_object with
  | none => simp [World.get_combined_write_stamp]
  | some obj =>
    simp only []
    have h0 : World.get_combined_write_stamp ({ w with next_addr := w.next_addr + 1 } : World) obj
        = w.get_combined_write_stamp obj := rfl
    rw [h0]
    cases hs : w.get_combined_write_stamp obj with
    | none =>
      simp only []
      by_cases ho : o = obj
      · subst ho
        rw [world_set_stamp_get, if_pos ⟨rfl, hs⟩]
      · rw [if_neg]
        · simp [World.set_combined_write_stamp, World.get_combined_write_stamp, ho]
        · rintro ⟨h2, _⟩
          exact ho (Option.some.inj h2).symm
    | some a =>
      simp only []
      rw [if_neg]
      · rfl
      · rintro ⟨h2, h3⟩
        have := Option.some.inj h2
        subst this
        rw [hs] at h3
        cases h3

/-- The queue after the processing of the front element: the front element is removed,
or it stays at the front with a new retry count and a new due time. -/
theorem pump_front_queue (cfg : Main_config) (now : Nat) (t : Mysql_thread) (w : World)
    (m s : Connection) (elem : Operation_queue_element) (rest : List Operation_queue_element)
    (hq : t.m_queue = elem :: rest) :
    ((t.pump_front cfg now w m s).thread.m_queue = rest
        ∧ ∃ e1, (t.pump_front cfg now w m s).popped = some e1 ∧ e1.addr = elem.addr)
      ∨ ((t.pump_front cfg now w m s).popped = none
        ∧ ∃ retry_count due_time, (t.pump_front cfg now w m s).thread.m_queue
            = { elem with retry_count := retry_count, due_time := due_time } :: rest) := by
  cases he : (execute_element elem (decide_execute_it elem w).1
      (if elem.operation.should_use_slave then s else m) (decide_execute_it elem w).2).2.except with
  | none =>
    rw [pump_front_done cfg now t w m s elem rest hq he]
    exact Or.inl ⟨rfl, _, rfl, rfl⟩
  | some ex =>
    by_cases hr : (elem.retry_count + 1) % 2 ^ 64 < cfg.mysql_max_retry_count
    · rw [pump_front_retry cfg now t w m s elem rest ex hq he hr]
      exact Or.inr ⟨rfl, _, _, rfl⟩
    · rw [pump_front_dump cfg now t w m s elem rest ex hq he hr]
      exact Or.inl ⟨rfl, _, rfl, rfl⟩

theorem stamps_queued_step (cfg : Main_config) (s : Thread_run) (x : Thread_step)
    (h : Stamps_queued s) : Stamps_queued (Thread_run.step cfg s x) := by
  cases x with
  | add_operation now op urgent =>
    rcases add_operation_back cfg now op urgent s.thread s.world with
      ⟨_, ht, hw⟩ | ⟨_, hrun, hq, _, _, _⟩
    · intro obj a hst
      have hst1 : s.world.get_combined_write_stamp obj = some a := by
        simpa only [Thread_run.step, hw] using hst
      obtain ⟨e, he, h1, h2⟩ := h obj a hst1
      exact ⟨e, by simpa only [Thread_run.step, ht] using he, h1, h2⟩
    · intro obj a hst
      have hst1 : (s.thread.add_operation cfg now op urgent s.world).world.get_combined_write_stamp
          obj = some a := hst
      rw [add_operation_stamp cfg now op urgent s.thread s.world obj hrun] at hst1
      show ∃ e ∈ (s.thread.add_operation cfg now op urgent s.world).thread.m_queue, _
      rw [hq]
      split at hst1
      · rename_i hc
        refine ⟨_, List.mem_append_right _ (List.mem_singleton.2 rfl), Option.some.inj hst1, hc.1⟩
      · obtain ⟨e, he, h1, h2⟩ := h obj a hst1
        exact ⟨e, List.mem_append_left _ he, h1, h2⟩
  | pump_one_operation now m sl =>
    cases hq : s.thread.m_queue with
    | nil =>
      intro obj a hst
      have hp := pump_one_operation_empty cfg now s.thread s.world m sl hq
      have hst1 : s.world.get_combined_write_stamp obj = some a := by
        simpa only [Thread_run.step, hp] using hst
      obtain ⟨e, he, _⟩ := h obj a hst1
      rw [hq] at he
      cases he
    | cons elem rest =>
      by_cases hd : s.thread.m_urgent = true ∨ elem.due_time ≤ now
      · have hp := pump_one_operation_due cfg now s.thread s.world m sl elem rest hq hd
        intro obj a hst
        have hst1 : (s.thread.pump_front cfg now s.world m sl).world.get_combined_write_stamp obj
            = some a := by
          simpa only [Thread_run.step, hp] using hst
        have hst2 : (decide_execute_it elem s.world).2.get_combined_write_stamp obj = some a := by
          simp only [World.get_combined_write_stamp] at hst1 ⊢
          rw [← pump_front_objects cfg now s.thread s.world m sl elem rest hq]
          exact hst1
        rw [decide_execute_it_stamp] at hst2
        split at hst2
        · cases hst2
        · rename_i hno
          obtain ⟨e, he, h1, h2⟩ := h obj a hst2
          rw [hq] at he
          show ∃ e ∈ (s.thread.pump_one_operation cfg now s.world m sl).thread.m_queue, _
          rw [hp]
          rcases List.mem_cons.1 he with heq | hmem
          · subst heq
            rcases pump_front_queue cfg now s.thread s.world m sl e rest hq with
              ⟨_, _⟩ | ⟨_, rc, dt, hq1⟩
            · exact absurd ⟨h2, by rw [hst2, h1]⟩ hno
            · rw [hq1]
              exact ⟨_, List.mem_cons_self _ _, h1, h2⟩
          · rcases pump_front_queue cfg now s.thread s.world m sl elem rest hq with
              ⟨hq1, _⟩ | ⟨_, rc, dt, hq1⟩
            · rw [hq1]
              exact ⟨e, hmem, h1, h2⟩
            · rw [hq1]
              exact ⟨e, List.mem_cons_of_mem _ hmem, h1, h2⟩
      · have hu : s.thread.m_urgent = false := by
          cases h : s.thread.m_urgent
          · rfl
          · exact absurd (Or.inl h) hd
        have hlt : now < elem.due_time := by
          by_contra h
          exact hd (Or.inr (not_lt.1 h))
        have hp := pump_one_operation_not_due cfg now s.thread s.world m sl elem rest hq hu hlt
        intro obj a hst
        have hst1 : s.world.get_combined_write_stamp obj = some a := by
          simpa only [Thread_run.step, hp] using hst
        obtain ⟨e, he, h1, h2⟩ := h obj a hst1
        exact ⟨e, by simpa only [Thread_run.step, hp] using he, h1, h2⟩
  | stop => exact h

theorem stamps_queued_steps (cfg : Main_config) (l : List Thread_step) (s : Thread_run)
    (h : Stamps_queued s) : Stamps_queued (Thread_run.steps cfg s l) := by
  induction l generalizing s with
  | nil => exact h
  | cons x xs ih => exact ih _ (stamps_queued_step cfg s x h)

/-- In a list whose elements have distinct keys, the elements with the key of a member
are that member alone. -/
theorem filter_key_eq_singleton {α : Type} (f : α → Nat) (l : List α) (e : α) (he : e ∈ l)
    (hn : (l.map f).Nodup) : l.filter (fun x => decide (f x = f e)) = [e] := by
  induction l with
  | nil => cases he
  | cons x xs ih =>
    rw [List.map_cons, List.nodup_cons] at hn
    rcases List.mem_cons.1 he with h | h
    · subst h
      rw [List.filter_cons_of_pos (by simp)]
      congr 1
      rw [List.filter_eq_nil_iff]
      intro y hy
      simp only [decide_eq_true_eq]
      intro hfy
      exact hn.1 (by rw [← hfy]; exact List.mem_map_of_mem f hy)
    · rw [List.filter_cons_of_neg, ih h hn.2]
      simp only [decide_eq_true_eq]
      intro hfx
      exact hn.1 (by rw [hfx]; exact List.mem_map_of_mem f h)

/-- C22. Combined-write stamp invariant. In every state that a worker reaches from an
empty queue and a store without stamps, by calls of add_operation, of pump_one_operation
(with any outcome of the execution, retries included) and of stop, the combined-write
stamp of every object is null, or it is the address of exactly one element of the queue,
which is a save of that object, and of no element that has been removed. -/
theorem combined_write_stamp_invariant (cfg : Main_config) (t : Mysql_thread) (w : World)
    (l : List Thread_step) (hq : t.m_queue = [])
    (hs : ∀ obj, w.get_combined_write_stamp obj = none) (obj : Nat) :
    (Thread_run.steps cfg ⟨t, w, [], []⟩ l).world.get_combined_write_stamp obj = none
      ∨ ∃ e rep,
          (Thread_run.steps cfg ⟨t, w, [], []⟩ l).world.get_combined_write_stamp obj = some e.addr
          ∧ (Thread_run.steps cfg ⟨t, w, [], []⟩ l).thread.m_queue.filter
              (fun x => decide (x.addr = e.addr)) = [e]
          ∧ e.operation.variant = .Save_operation obj rep
          ∧ e.addr ∉ (Thread_run.steps cfg ⟨t, w, [], []⟩ l).removed := by
  have hf : Fifo_record w.next_addr (Thread_run.steps cfg ⟨t, w, [], []⟩ l) :=
    fifo_record_steps cfg w.next_addr l _ ⟨by simp [hq], rfl, rfl⟩
  have hj : Stamps_queued (Thread_run.steps cfg ⟨t, w, [], []⟩ l) := by
    apply stamps_queued_steps
    intro o a h
    rw [hs o] at h
    cases h
  cases hst : (Thread_run.steps cfg ⟨t, w, [], []⟩ l).world.get_combined_write_stamp obj with
  | none => exact Or.inl rfl
  | some a =>
    right
    obtain ⟨e, he, h1, h2⟩ := hj obj a hst
    obtain ⟨rep, hv⟩ := combinable_is_save _ _ h2
    obtain ⟨hf1, hf2, _⟩ := hf
    have hnd : ((Thread_run.steps cfg ⟨t, w, [], []⟩ l).removed
        ++ (Thread_run.steps cfg ⟨t, w, [], []⟩ l).thread.m_queue.map (fun e => e.addr)).Nodup := by
      rw [← hf1, hf2]
      exact List.nodup_range' _ _
    rw [List.nodup_append] at hnd
    refine ⟨e, rep, by rw [h1], filter_key_eq_singleton (fun x => x.addr) _ e he hnd.2.1, hv, ?_⟩
    intro hr
    exact hnd.2.2 hr (List.mem_map_of_mem (fun e => e.addr) he)

/-- C22 (witness). The invariant for object 7 after three saves of it were enqueued, the
first one was pumped and failed, and a fourth save was enqueued: the first save is still
queued, for its retry, and the stamp names the fourth save. -/
theorem combined_write_stamp_invariant_witness :
    (Thread_run.steps scenario_config ⟨Mysql_thread.new.start, scenario_world, [], []⟩
        scenario_stamps).world.get_combined_write_stamp 7 = none
      ∨ ∃ e rep,
          (Thread_run.steps scenario_config ⟨Mysql_thread.new.start, scenario_world, [], []⟩
            scenario_stamps).world.get_combined_write_stamp 7 = some e.addr
          ∧ (Thread_run.steps scenario_config ⟨Mysql_thread.new.start, scenario_world, [], []⟩
              scenario_stamps).thread.m_queue.filter (fun x => decide (x.addr = e.addr)) = [e]
          ∧ e.operation.variant = .Save_operation 7 rep
          ∧ e.addr ∉ (Thread_run.steps scenario_config
              ⟨Mysql_thread.new.start, scenario_world, [], []⟩ scenario_stamps).removed :=
  combined_write_stamp_invariant scenario_config Mysql_thread.new.start scenario_world
    scenario_stamps rfl (fun _ => rfl) 7

theorem mem_routing_map_emplace (m : List (Nat × Nat)) (k v : Nat) (x : Nat × Nat) :
    x ∈ routing_map_emplace m k v ↔ x = (k, v) ∨ x ∈ m := by
  induction m with
  | nil => simp [routing_map_emplace]
  | cons a rest ih =>
    obtain ⟨k1, v1⟩ := a
    unfold routing_map_emplace
    split
    · simp
    · simp only [List.mem_cons, ih]
      tauto

/-- The scratch map stays ordered by queue size. -/
theorem pairwise_routing_map_emplace (m : List (Nat × Nat)) (k v : Nat)
    (h : m.Pairwise (fun a b => a.1 ≤ b.1)) :
    (routing_map_emplace m k v).Pairwise (fun a b => a.1 ≤ b.1) := by
  induction m with
  | nil => simp [routing_map_emplace]
  | cons a rest ih =>
    obtain ⟨k1, v1⟩ := a
    rw [List.pairwise_cons] at h
    unfold routing_map_emplace
    split
    · rename_i hlt
      rw [List.pairwise_cons]
      refine ⟨?_, List.pairwise_cons.2 h⟩
      intro b hb
      rcases List.mem_cons.1 hb with hb | hb
      · subst hb; exact Nat.le_of_lt hlt
      · exact Nat.le_trans (Nat.le_of_lt hlt) (h.1 b hb)
    · rename_i hge
      rw [List.pairwise_cons]
      refine ⟨?_, ih h.2⟩
      intro b hb
      rcases (mem_routing_map_emplace rest k v b).1 hb with hb | hb
      · subst hb; exact not_lt.1 hge
      · exact h.1 b hb

/-- The loop over the slots stops at the lowest-indexed empty slot. -/
theorem scan_threads_first_empty (l : List (Option Mysql_thread)) (i0 : Nat)
    (m : List (Nat × Nat)) (i : Nat) (hi : l[i]? = some none)
    (hlow : ∀ j, j < i → ∃ t, l[j]? = some (some t)) : scan_threads l i0 m = .inl (i0 + i) := by
  induction l generalizing i0 m i with
  | nil => simp at hi
  | cons a rest ih =>
    cases i with
    | zero =>
      simp only [List.getElem?_cons_zero, Option.some.injEq] at hi
      subst hi
      rfl
    | succ i =>
      obtain ⟨t, ht⟩ := hlow 0 (Nat.succ_pos _)
      simp only [List.getElem?_cons_zero, Option.some.injEq] at ht
      subst ht
      simp only [scan_threads]
      rw [ih (i0 + 1) _ i (by simpa using hi)
        (fun j hj => by simpa using hlow (j + 1) (Nat.succ_lt_succ hj))]
      congr 1
      omega

/-- A list of slots with an empty slot has a lowest-indexed empty slot. -/
theorem exists_first_empty (l : List (Option Mysql_thread)) (k : Nat) (hk : l[k]? = some none) :
    ∃ i : Nat, l[i]? = some none ∧ ∀ j : Nat, j < i → ∃ t : Mysql_thread, l[j]? = some (some t) := by
  induction l generalizing k with
  | nil => simp at hk
  | cons a rest ih =>
    cases a with
    | none => exact ⟨0, by simp, fun j hj => absurd hj (Nat.not_lt_zero _)⟩
    | some t =>
      cases k with
      | zero => simp at hk
      | succ k =>
        obtain ⟨i, hi, hlow⟩ := ih k (by simpa using hk)
        refine ⟨i + 1, by simpa using hi, ?_⟩
        intro j hj
        cases j with
        | zero => exact ⟨t, by simp⟩
        | succ j => simpa using hlow j (Nat.lt_of_succ_lt_succ hj)

/-- When every slot holds a worker, the loop ends with the scratch map, which is ordered
by queue size and holds, besides what it held, one pair for every slot. -/
theorem scan_threads_full (l : List (Option Mysql_thread)) (i0 : Nat) (m : List (Nat × Nat))
    (hall : ∀ s ∈ l, s ≠ none) :
    ∃ m1, scan_threads l i0 m = .inr m1
      ∧ (∀ x, x ∈ m1 ↔ x ∈ m ∨ ∃ (j : Nat) (t : Mysql_thread), l[j]? = some (some t)
          ∧ x = (t.get_queue_size, i0 + j))
      ∧ (m.Pairwise (fun a b => a.1 ≤ b.1) → m1.Pairwise (fun a b => a.1 ≤ b.1)) := by
  induction l generalizing i0 m with
  | nil => exact ⟨m, rfl, by simp, fun h => h⟩
  | cons a rest ih =>
    cases a with
    | none => exact absurd rfl (hall none (List.mem_cons_self _ _))
    | some t =>
      obtain ⟨m1, h1, h2, h3⟩ := ih (i0 + 1) (routing_map_emplace m t.get_queue_size i0)
        (fun s hs => hall s (List.mem_cons_of_mem _ hs))
      refine ⟨m1, by simpa only [scan_threads] using h1, ?_,
        fun h => h3 (pairwise_routing_map_emplace _ _ _ h)⟩
      intro x
      rw [h2, mem_routing_map_emplace]
      constructor
      · rintro ((h | h) | ⟨j, t1, hj, hx⟩)
        · exact Or.inr ⟨0, t, by simp, by simpa using h⟩
        · exact Or.inl h
        · exact Or.inr ⟨j + 1, t1, by simpa using hj, by rw [hx]; congr 1; omega⟩
      · rintro (h | ⟨j, t1, hj, hx⟩)
        · exact Or.inl (Or.inr h)
        · cases j with
          | zero =>
            simp only [List.getElem?_cons_zero, Option.some.injEq] at hj
            subst hj
            exact Or.inl (Or.inl (by simpa using hx))
          | succ j =>
            exact Or.inr ⟨j, t1, by simpa using hj, by rw [hx]; congr 1; omega⟩

theorem map_set_of_eq {α β : Type} (f : α → β) (l : List α) (i : Nat) (x y : α)
    (hi : l[i]? = some y) (hf : f x = f y) : (l.set i x).map f = l.map f := by
  induction l generalizing i with
  | nil => rfl
  | cons a rest ih =>
    cases i with
    | zero =>
      simp only [List.getElem?_cons_zero, Option.some.injEq] at hi
      subst hi
      simp [hf]
    | succ i =>
      simp only [List.set_cons_succ, List.map_cons]
      rw [ih i (by simpa using hi)]

/-- What add_operation_by_table does when the probe of the route is not shared and `i` is
the lowest-indexed empty slot: a worker is created and started in slot `i`, the route is
bound to it, and the operation, with the probe, is its only queue element. -/
theorem add_operation_by_table_new (cfg : Main_config) (now : Nat) (table : String)
    (op : Operation_base) (urgent : Bool) (d : Mysql_daemon) (i : Nat)
    (hcount : d.probe_use_count table ≤ 1) (hi : d.g_threads[i]? = some none)
    (hlow : ∀ j, j < i → ∃ t, d.g_threads[j]? = some (some t)) :
    (d.add_operation_by_table cfg now table op urgent).except = none
      ∧ (d.add_operation_by_table cfg now table op urgent).daemon.g_router
          = (fun k => if k = table then ⟨true, some i⟩ else d.g_router k)
      ∧ (d.add_operation_by_table cfg now table op urgent).daemon.g_threads
          = d.g_threads.set i (some ⟨true, urgent,
              [⟨d.world.next_addr, op.set_probe table,
                saturated_add 64 now cfg.mysql_save_delay, 0⟩]⟩) := by
  have hne : d.g_threads.isEmpty = false := by
    cases h : d.g_threads with
    | nil => rw [h] at hi; simp at hi
    | cons a rest => rfl
  have hsc := scan_threads_first_empty d.g_threads 0 [] i hi hlow
  rw [Nat.zero_add] at hsc
  have hlen : i < d.g_threads.length := by
    by_contra h
    rw [List.getElem?_eq_none (not_lt.1 h)] at hi
    cases hi
  have hget : (d.g_threads.set i (some Mysql_thread.new.start))[i]? = some (some Mysql_thread.new.start) := by
    rw [List.getElem?_set_self hlen]
  simp only [Mysql_daemon.add_operation_by_table, hne, Bool.false_eq_true, if_false,
    not_lt.2 hcount, hsc, Mysql_daemon.use_thread, hget]
  refine ⟨?_, trivial, ?_⟩
  · simp [Mysql_thread.add_operation, Mysql_thread.new, Mysql_thread.start]
  · simp only [List.set_set]
    congr 2
    cases urgent <;> simp [Mysql_thread.add_operation, Mysql_thread.new, Mysql_thread.start]

theorem probe_use_count_new (cfg : Main_config) (now : Nat) (table table1 : String)
    (op : Operation_base) (urgent : Bool) (d : Mysql_daemon) (i : Nat)
    (hcount : d.probe_use_count table ≤ 1) (hi : d.g_threads[i]? = some none)
    (hlow : ∀ j, j < i → ∃ t, d.g_threads[j]? = some (some t)) (hne : table1 ≠ table) :
    (d.add_operation_by_table cfg now table op urgent).daemon.probe_use_count table1
      = d.probe_use_count table1 := by
  obtain ⟨_, h2, h3⟩ := add_operation_by_table_new cfg now table op urgent d i hcount hi hlow
  unfold Mysql_daemon.probe_use_count
  rw [h2, h3]
  simp only [hne, if_false]
  rw [map_set_of_eq (slot_probe_count table1) d.g_threads i _ none hi]
  simp only [slot_probe_count, List.countP_cons, List.countP_nil, Operation_base.set_probe]
  simp [Ne.symm hne]

/-- C25. Worker choice for an unreferenced route. Let the probe of the route of the table
be held by at most one pointer. If `i` is the lowest-indexed empty slot, a worker is
created and started in slot `i`, the route is bound to slot `i`, and the operation is the
only queue element of that worker. If every slot holds a worker, the route is bound to a
slot whose worker has a queue of minimal size among all workers, and add_operation is
called on that worker with the operation. Consequently, when two slots are empty, the
first operations for two distinct tables, one enqueued right after the other, are bound
to two distinct slots, each with its operation in the queue. -/
theorem worker_choice (cfg : Main_config) (now : Nat) (table : String) (op : Operation_base)
    (urgent : Bool) (d : Mysql_daemon) (hcount : d.probe_use_count table ≤ 1) :
    (∀ i, d.g_threads[i]? = some none → (∀ j, j < i → ∃ t, d.g_threads[j]? = some (some t)) →
        (d.add_operation_by_table cfg now table op urgent).except = none
        ∧ (d.add_operation_by_table cfg now table op urgent).daemon.g_router table
            = ⟨true, some i⟩
        ∧ (d.add_operation_by_table cfg now table op urgent).daemon.g_threads
            = d.g_threads.set i (some ⟨true, urgent,
                [⟨d.world.next_addr, op.set_probe table,
                  saturated_add 64 now cfg.mysql_save_delay, 0⟩]⟩))
      ∧ (d.g_threads ≠ [] → (∀ s ∈ d.g_threads, s ≠ none) →
          ∃ index t, d.g_threads[index]? = some (some t)
            ∧ (∀ (j : Nat) (t1 : Mysql_thread), d.g_threads[j]? = some (some t1) →
                t.get_queue_size ≤ t1.get_queue_size)
            ∧ (d.add_operation_by_table cfg now table op urgent).daemon.g_router table
                = ⟨true, some index⟩
            ∧ (d.add_operation_by_table cfg now table op urgent).except
                = (t.add_operation cfg now (op.set_probe table) urgent d.world).except
            ∧ (d.add_operation_by_table cfg now table op urgent).daemon.g_threads
                = d.g_threads.set index
                    (some (t.add_operation cfg now (op.set_probe table) urgent d.world).thread)
            ∧ (d.add_operation_by_table cfg now table op urgent).daemon.world
                = (t.add_operation cfg now (op.set_probe table) urgent d.world).world)
      ∧ (∀ (table1 : String) (op1 : Operation_base) (urgent1 : Bool) (now1 k1 k2 : Nat),
          table1 ≠ table → d.probe_use_count table1 ≤ 1 → k1 ≠ k2 →
          d.g_threads[k1]? = some none → d.g_threads[k2]? = some none →
          ∃ i i1 t t1, i ≠ i1
            ∧ ((d.add_operation_by_table cfg now table op urgent).daemon.add_operation_by_table
                cfg now1 table1 op1 urgent1).daemon.g_router table = ⟨true, some i⟩
            ∧ ((d.add_operation_by_table cfg now table op urgent).daemon.add_operation_by_table
                cfg now1 table1 op1 urgent1).daemon.g_router table1 = ⟨true, some i1⟩
            ∧ ((d.add_operation_by_table cfg now table op urgent).daemon.add_operation_by_table
                cfg now1 table1 op1 urgent1).daemon.g_threads[i]? = some (some t)
            ∧ ((d.add_operation_by_table cfg now table op urgent).daemon.add_operation_by_table
                cfg now1 table1 op1 urgent1).daemon.g_threads[i1]? = some (some t1)
            ∧ t.m_queue.map (fun e => e.operation) = [op.set_probe table]
            ∧ t1.m_queue.map (fun e => e.operation) = [op1.set_probe table1]) := by
  refine ⟨?_, ?_, ?_⟩
  · intro i hi hlow
    obtain ⟨h1, h2, h3⟩ := add_operation_by_table_new cfg now table op urgent d i hcount hi hlow
    exact ⟨h1, by rw [h2]; simp, h3⟩
  · intro hne hall
    have hne1 : d.g_threads.isEmpty = false := by
      cases h : d.g_threads with
      | nil => exact absurd h hne
      | cons a rest => rfl
    obtain ⟨m1, h1, h2, h3⟩ := scan_threads_full d.g_threads 0 [] hall
    have hp := h3 List.Pairwise.nil
    cases hm : m1 with
    | nil =>
      exfalso
      cases hl : d.g_threads with
      | nil => exact hne hl
      | cons a rest =>
        cases a with
        | none => exact hall none (by rw [hl]; exact List.mem_cons_self _ _) rfl
        | some t =>
          have : (t.get_queue_size, 0 + 0) ∈ m1 := (h2 _).2 (Or.inr ⟨0, t, by rw [hl]; simp, rfl⟩)
          rw [hm] at this
          cases this
    | cons a rest =>
      obtain ⟨k, index⟩ := a
      have hmem : (k, index) ∈ m1 := by rw [hm]; exact List.mem_cons_self _ _
      rcases (h2 _).1 hmem with h | ⟨j, t, hj, hx⟩
      · cases h
      · simp only [Prod.mk.injEq, Nat.zero_add] at hx
        obtain ⟨hk, hidx⟩ := hx
        subst hidx
        refine ⟨index, t, hj, ?_, ?_⟩
        · intro j1 t1 hj1
          have hmem1 : (t1.get_queue_size, 0 + j1) ∈ m1 := (h2 _).2 (Or.inr ⟨j1, t1, hj1, rfl⟩)
          rw [hm] at hmem1 hp
          rcases List.mem_cons.1 hmem1 with h | h
          · simp only [Prod.mk.injEq] at h
            rw [← hk, ← h.1]
          · rw [← hk]
            exact (List.pairwise_cons.1 hp).1 _ h
        · rw [hm] at h1
          simp only [Mysql_daemon.add_operation_by_table, hne1, Bool.false_eq_true, if_false,
            not_lt.2 hcount, h1, Mysql_daemon.use_thread, hj]
          simp
  · intro table1 op1 urgent1 now1 k1 k2 hne hcount1 hk hk1 hk2
    obtain ⟨i, hi, hlow⟩ := exists_first_empty d.g_threads k1 hk1
    obtain ⟨_, h2, h3⟩ := add_operation_by_table_new cfg now table op urgent d i hcount hi hlow
    have hc1 := probe_use_count_new cfg now table table1 op urgent d i hcount hi hlow hne
    have hlen : i < d.g_threads.length := by
      by_contra h
      rw [List.getElem?_eq_none (not_lt.1 h)] at hi
      cases hi
    -- an empty slot is left
    have hk3 : ∃ k : Nat, (d.add_operation_by_table cfg now table op urgent).daemon.g_threads[k]?
        = some none := by
      by_cases hik : i = k1
      · refine ⟨k2, ?_⟩
        rw [h3, List.getElem?_set_ne (by omega)]
        exact hk2
      · refine ⟨k1, ?_⟩
        rw [h3, List.getElem?_set_ne hik]
        exact hk1
    obtain ⟨k, hk4⟩ := hk3
    obtain ⟨i1, hi1, hlow1⟩ := exists_first_empty _ k hk4
    obtain ⟨_, g2, g3⟩ := add_operation_by_table_new cfg now1 table1 op1 urgent1
      (d.add_operation_by_table cfg now table op urgent).daemon i1 (by rw [hc1]; exact hcount1)
      hi1 hlow1
    have hii : i ≠ i1 := by
      intro h
      subst h
      rw [h3, List.getElem?_set_self hlen] at hi1
      cases hi1
    have hlen1 : i1 < (d.add_operation_by_table cfg now table op urgent).daemon.g_threads.length := by
      by_contra h
      rw [List.getElem?_eq_none (not_lt.1 h)] at hi1
      cases hi1
    refine ⟨i, i1,
      ⟨true, urgent, [⟨d.world.next_addr, op.set_probe table,
        saturated_add 64 now cfg.mysql_save_delay, 0⟩]⟩,
      ⟨true, urgent1, [⟨(d.add_operation_by_table cfg now table op urgent).daemon.world.next_addr,
        op1.set_probe table1, saturated_add 64 now1 cfg.mysql_save_delay, 0⟩]⟩,
      hii, ?_, ?_, ?_, ?_, ?_, ?_⟩
    · rw [g2, h2]; simp [Ne.symm hne]
    · rw [g2]; simp
    · rw [g3, List.getElem?_set_ne (Ne.symm hii), h3, List.getElem?_set_self hlen]
    · rw [g3, List.getElem?_set_self hlen1]
    · rfl
    · rfl

/-- C25 (witness). On a daemon with two empty slots the first operation for table t1
creates the worker of slot 0; on a daemon whose two slots hold workers with two and with
one queued operation, an operation for table t3 is bound to a worker whose queue is
minimal. -/
theorem worker_choice_witness :
    (((Mysql_daemon.start 2 scenario_world).add_operation_by_table scenario_config 0 "t1"
        (scenario_save 1) false).daemon.g_router "t1" = ⟨true, some 0⟩
      ∧ ((Mysql_daemon.start 2 scenario_world).add_operation_by_table scenario_config 0 "t1"
          (scenario_save 1) false).daemon.g_threads
        = [some ⟨true, false, [⟨100, scenario_save 1, 5000, 0⟩]⟩, none])
      ∧ ∃ index t, scenario_full.g_threads[index]? = some (some t)
          ∧ (∀ (j : Nat) (t1 : Mysql_thread), scenario_full.g_threads[j]? = some (some t1) →
              t.get_queue_size ≤ t1.get_queue_size)
          ∧ (scenario_full.add_operation_by_table scenario_config 0 "t3" scenario_delete
              true).daemon.g_router "t3" = ⟨true, some index⟩ :=
  have h := (worker_choice scenario_config 0 "t1" (scenario_save 1) false
    (Mysql_daemon.start 2 scenario_world) (by decide)).1 0 rfl
      (fun j hj => absurd hj (Nat.not_lt_zero j))
  have g := (worker_choice scenario_config 0 "t3" scenario_delete true scenario_full
    (by decide)).2.1 (by decide) (by decide)
  ⟨⟨h.2.1, h.2.2⟩, g.elim fun index g1 => g1.elim fun t g2 => ⟨index, t, g2.1, g2.2.1, g2.2.2.1⟩⟩

theorem head?_dropWhile_false {α : Type} (p : α → Bool) (l : List α) (x : α)
    (h : (l.dropWhile p).head? = some x) : p x = false := by
  induction l with
  | nil => simp at h
  | cons a rest ih =>
    rw [List.dropWhile_cons] at h
    split at h
    · exact ih h
    · rename_i hp
      simp only [List.head?_cons, Option.some.injEq] at h
      subst h
      simpa using hp

/-- What `query.erase(query.find_last_not_of(" ,") + 1)` leaves: the text without a
last part that consists of spaces and commas only, and that does not end in a space or
a comma. -/
theorem erase_trailing_separators_spec (query : String) :
    ∃ suffix : List Char,
      query.data = (erase_trailing_separators query).data ++ suffix
        ∧ (∀ c ∈ suffix, c = ' ' ∨ c = ',')
        ∧ ∀ c, (erase_trailing_separators query).data.getLast? = some c → c ≠ ' ' ∧ c ≠ ',' := by
  refine ⟨(query.data.reverse.takeWhile (fun c => c = ' ' || c = ',')).reverse, ?_, ?_, ?_⟩
  · unfold erase_trailing_separators
    show query.data = (List.dropWhile _ query.data.reverse).reverse ++ _
    rw [← List.reverse_append, List.takeWhile_append_dropWhile, List.reverse_reverse]
  · intro c hc
    have := List.mem_takeWhile_imp (List.mem_reverse.1 hc)
    simpa using this
  · intro c hc
    unfold erase_trailing_separators at hc
    have h1 : (List.dropWhile (fun c => decide (c = ' ') || decide (c = ','))
        query.data.reverse).head? = some c := by
      simpa [List.getLast?_reverse] using hc
    have := head?_dropWhile_false _ _ _ h1
    simpa using this

/-- C26. Save SQL text. For a save of an object with the table T whose generate_sql
writes the text S, Save_operation::generate_sql yields the text REPLACE (with the replace
flag) or INSERT (without it), followed by INTO, the table T between backquotes, SET and
S, without its trailing spaces and commas: what is cut off consists of spaces and commas
only, and the result is not empty and ends neither in a space nor in a comma. -/
theorem save_sql_text (id promise : Nat) (probe : Option String) (obj : Nat) (rep : Bool)
    (w : World) :
    ∃ suffix : List Char,
      ((if rep then "REPLACE" else "INSERT") ++ " INTO `" ++ (w.objects obj).table ++ "` SET "
          ++ (w.objects obj).columns).data
        = (Operation_base.generate_sql ⟨id, promise, probe, .Save_operation obj rep⟩ w).data
            ++ suffix
      ∧ (∀ c ∈ suffix, c = ' ' ∨ c = ',')
      ∧ Operation_base.generate_sql ⟨id, promise, probe, .Save_operation obj rep⟩ w ≠ ""
      ∧ ∀ c, (Operation_base.generate_sql ⟨id, promise, probe, .Save_operation obj rep⟩
            w).data.getLast? = some c → c ≠ ' ' ∧ c ≠ ',' := by
  obtain ⟨suffix, h1, h2, h3⟩ := erase_trailing_separators_spec
    ((if rep then "REPLACE" else "INSERT") ++ " INTO `" ++ (w.objects obj).table ++ "` SET "
      ++ (w.objects obj).columns)
  exact ⟨suffix, h1, h2, save_generate_sql_ne_empty _ obj rep w rfl, h3⟩

theorem executions_append (addr : Nat) (l1 l2 : List Event) :
    executions addr (l1 ++ l2) = executions addr l1 + executions addr l2 := by
  simp [executions, List.countP_append]

theorem executions_of_elem_none (addr : Nat) (evs : List Event)
    (h : ∀ ev ∈ evs, ev.elem? = none) : executions addr evs = 0 := by
  unfold executions
  rw [List.countP_eq_zero]
  intro ev hev
  have := h ev hev
  cases ev <;> simp [Event.elem?] at this ⊢

theorem executions_of_not_executing (addr : Nat) (evs : List Event)
    (h : ∀ ev ∈ evs, ∀ a1 q1 x, ev ≠ .executing_sql a1 q1 x) : executions addr evs = 0 := by
  unfold executions
  rw [List.countP_eq_zero]
  intro ev hev
  have := h ev hev
  cases ev <;> simp at this ⊢

theorem get_promise_congr (op : Operation_base) (w w1 : World) (h : w1.promises = w.promises) :
    op.get_promise w1 = op.get_promise w := by
  unfold Operation_base.get_promise
  rw [h]

theorem pumped_succ (cfg : Main_config) (t : Mysql_thread) (w : World)
    (pumps : List Pump_request) (i : Nat) (p : Pump_request) (hp : pumps[i]? = some p) :
    pumped cfg t w pumps (i + 1) = Thread_run.step cfg (pumped cfg t w pumps i) p.step := by
  unfold pumped Thread_run.steps
  have hi : i < pumps.length := by
    by_contra h
    rw [List.getElem?_eq_none (not_lt.1 h)] at hp
    cases hp
  have hpi : pumps[i] = p := by
    rw [List.getElem?_eq_getElem hi] at hp
    exact Option.some.inj hp
  rw [List.take_succ, hp]
  simp [List.foldl_append]

/-- One failing attempt in full: what the pump of a front element does when its
execution fails. -/
theorem failing_attempt (cfg : Main_config) (s : Thread_run) (p : Pump_request)
    (elem : Operation_queue_element) (rest : List Operation_queue_element)
    (hq : s.thread.m_queue = elem :: rest) (hf : attempt_fails s p = true) :
    executions elem.addr (Thread_run.step cfg s p.step).world.trace
        = executions elem.addr s.world.trace + 1
      ∧ (if (elem.retry_count + 1) % 2 ^ 64 < cfg.mysql_max_retry_count then
          (∃ due_time, (Thread_run.step cfg s p.step).thread.m_queue
              = { elem with retry_count := (elem.retry_count + 1) % 2 ^ 64,
                            due_time := due_time } :: rest)
            ∧ (Thread_run.step cfg s p.step).removed = s.removed
            ∧ (Thread_run.step cfg s p.step).world.promises = s.world.promises
        else
          (Thread_run.step cfg s p.step).thread.m_queue = rest
            ∧ (Thread_run.step cfg s p.step).removed = s.removed ++ [elem.addr]
            ∧ ∃ e : Thrown, ∀ j, (Thread_run.step cfg s p.step).world.promises j
                = if j = elem.operation.m_weak_promise
                      ∧ elem.operation.get_promise s.world = some .pending then
                    some (.failed e)
                  else s.world.promises j) := by
  simp only [attempt_fails, hq, Bool.and_eq_true, Bool.or_eq_true, decide_eq_true_eq] at hf
  obtain ⟨hd, hex⟩ := hf
  obtain ⟨e, he⟩ := Option.isSome_iff_exists.1 hex
  have hx := execute_it_of_except _ _ _ _ _ he
  have hp := pump_one_operation_due cfg p.now s.thread s.world p.master_conn p.slave_conn elem
    rest hq hd
  obtain ⟨evs, ht1, ht2⟩ := execute_element_trace elem
    (if elem.operation.should_use_slave then p.slave_conn else p.master_conn)
    (decide_execute_it elem s.world).2
  rw [decide_execute_it_trace] at ht1
  have ht3 : (execute_element elem (decide_execute_it elem s.world).1
      (if elem.operation.should_use_slave then p.slave_conn else p.master_conn)
      (decide_execute_it elem s.world).2).2.world.trace
      = s.world.trace ++ .executing_sql elem.addr elem.operation.id
          (elem.operation.generate_sql (decide_execute_it elem s.world).2) :: evs := by
    rw [hx]; exact ht1
  have hexec : executions elem.addr (execute_element elem (decide_execute_it elem s.world).1
      (if elem.operation.should_use_slave then p.slave_conn else p.master_conn)
      (decide_execute_it elem s.world).2).2.world.trace
      = executions elem.addr s.world.trace + 1 := by
    rw [ht3, executions_append, ← List.singleton_append]
    rw [executions_append, executions_of_elem_none _ evs ht2]
    simp [executions]
  have hprom : (execute_element elem (decide_execute_it elem s.world).1
      (if elem.operation.should_use_slave then p.slave_conn else p.master_conn)
      (decide_execute_it elem s.world).2).2.world.promises = s.world.promises := by
    rw [execute_element_promises, decide_execute_it_promises]
  by_cases hr : (elem.retry_count + 1) % 2 ^ 64 < cfg.mysql_max_retry_count
  · have hp1 := pump_front_retry cfg p.now s.thread s.world p.master_conn p.slave_conn elem rest
      e hq he hr
    rw [if_pos hr]
    simp only [Thread_run.step, Pump_request.step, hp, hp1, Option.map_none',
      Option.toList_none, List.append_nil]
    refine ⟨?_, ⟨_, rfl⟩, trivial, ?_⟩
    · simp only [World.emit]
      rw [executions_append, hexec]
      simp [executions]
    · simp only [World.emit]
      exact hprom
  · have hp1 := pump_front_dump cfg p.now s.thread s.world p.master_conn p.slave_conn elem rest
      e hq he hr
    rw [if_neg hr]
    simp only [Thread_run.step, Pump_request.step, hp, hp1, Option.map_some',
      Option.toList_some]
    refine ⟨?_, trivial, trivial, e, ?_⟩
    · rw [settle_promise_trace]
      obtain ⟨evs1, hd1, hd2⟩ := dump_sql_to_file_trace cfg elem.addr
        (execute_element elem (decide_execute_it elem s.world).1
          (if elem.operation.should_use_slave then p.slave_conn else p.master_conn)
          (decide_execute_it elem s.world).2).1 e.err_code e.err_msg
        (execute_element elem (decide_execute_it elem s.world).1
          (if elem.operation.should_use_slave then p.slave_conn else p.master_conn)
          (decide_execute_it elem s.world).2).2.world
      rw [hd1, executions_append, hexec, executions_of_not_executing _ evs1 hd2]
    · intro j
      rw [settle_promise_promises, dump_sql_to_file_promises, hprom,
        get_promise_congr _ s.world _ (by rw [dump_sql_to_file_promises, hprom])]

/-- C29. Bounded retries. Let max_retry_count be N (a size_t), and let a new element be
at the front of the queue. If every attempt is a failing one (the element is executed,
not skipped, and the execution ends with an exception), then the first max(1, N) - 1
attempts leave the element at the front, with the retry count equal to the number of
attempts so far, remove nothing and touch no promise; after max(1, N) attempts the
element has been executed max(1, N) times and is removed from the queue, and its promise,
if it is alive and pending, holds the exception, every other promise being as it was. -/
theorem bounded_retries (cfg : Main_config) (t : Mysql_thread) (w : World)
    (elem : Operation_queue_element) (rest : List Operation_queue_element)
    (pumps : List Pump_request) (hN : cfg.mysql_max_retry_count < 2 ^ 64)
    (hq : t.m_queue = elem :: rest) (h0 : elem.retry_count = 0)
    (hlen : pumps.length = max 1 cfg.mysql_max_retry_count)
    (hfail : ∀ i p, pumps[i]? = some p → attempt_fails (pumped cfg t w pumps i) p = true) :
    (∀ i, i < max 1 cfg.mysql_max_retry_count →
        (∃ due_time, (pumped cfg t w pumps i).thread.m_queue
            = { elem with retry_count := i, due_time := due_time } :: rest)
        ∧ (pumped cfg t w pumps i).removed = []
        ∧ (pumped cfg t w pumps i).world.promises = w.promises
        ∧ executions elem.addr (pumped cfg t w pumps i).world.trace
            = executions elem.addr w.trace + i)
      ∧ (pumped cfg t w pumps (max 1 cfg.mysql_max_retry_count)).thread.m_queue = rest
      ∧ (pumped cfg t w pumps (max 1 cfg.mysql_max_retry_count)).removed = [elem.addr]
      ∧ executions elem.addr (pumped cfg t w pumps (max 1 cfg.mysql_max_retry_count)).world.trace
          = executions elem.addr w.trace + max 1 cfg.mysql_max_retry_count
      ∧ ∃ e : Thrown, ∀ j,
          (pumped cfg t w pumps (max 1 cfg.mysql_max_retry_count)).world.promises j
            = if j = elem.operation.m_weak_promise ∧ elem.operation.get_promise w = some .pending
              then some (.failed e)
              else w.promises j := by
  have hpre : ∀ i, i < max 1 cfg.mysql_max_retry_count →
      (∃ due_time, (pumped cfg t w pumps i).thread.m_queue
          = { elem with retry_count := i, due_time := due_time } :: rest)
      ∧ (pumped cfg t w pumps i).removed = []
      ∧ (pumped cfg t w pumps i).world.promises = w.promises
      ∧ executions elem.addr (pumped cfg t w pumps i).world.trace
          = executions elem.addr w.trace + i := by
    intro i
    induction i with
    | zero =>
      intro _
      refine ⟨⟨elem.due_time, ?_⟩, rfl, rfl, rfl⟩
      show t.m_queue = _
      rw [hq, ← h0]
    | succ i ih =>
      intro hi
      obtain ⟨⟨due, hqi⟩, hri, hpi, hei⟩ := ih (by omega)
      have hip : i < pumps.length := by omega
      have hp : pumps[i]? = some pumps[i] := List.getElem?_eq_getElem hip
      have hf := failing_attempt cfg (pumped cfg t w pumps i) pumps[i] _ rest hqi
        (hfail i _ hp)
      rw [← pumped_succ cfg t w pumps i _ hp] at hf
      have hmod : (i + 1) % 2 ^ 64 = i + 1 := Nat.mod_eq_of_lt (by omega)
      have hr : (i + 1) % 2 ^ 64 < cfg.mysql_max_retry_count := by
        rw [hmod]; omega
      simp only [hmod] at hf hr
      rw [if_pos hr] at hf
      obtain ⟨hf1, ⟨due1, hf2⟩, hf3, hf4⟩ := hf
      exact ⟨⟨due1, hf2⟩, by rw [hf3, hri], by rw [hf4, hpi], by rw [hf1, hei]; omega⟩
  refine ⟨hpre, ?_⟩
  obtain ⟨n, hn⟩ : ∃ n, max 1 cfg.mysql_max_retry_count = n + 1 := ⟨max 1 cfg.mysql_max_retry_count - 1, by omega⟩
  obtain ⟨⟨due, hqi⟩, hri, hpi, hei⟩ := hpre n (by omega)
  have hip : n < pumps.length := by omega
  have hp : pumps[n]? = some pumps[n] := List.getElem?_eq_getElem hip
  have hf := failing_attempt cfg (pumped cfg t w pumps n) pumps[n] _ rest hqi (hfail n _ hp)
  rw [← pumped_succ cfg t w pumps n _ hp] at hf
  have hmod : (n + 1) % 2 ^ 64 = n + 1 := Nat.mod_eq_of_lt (by omega)
  have hr : ¬ (n + 1) % 2 ^ 64 < cfg.mysql_max_retry_count := by
    rw [hmod]; omega
  simp only [hmod] at hf hr
  rw [if_neg hr] at hf
  obtain ⟨hf1, hf2, hf3, e, hf4⟩ := hf
  rw [hn]
  refine ⟨hf2, by rw [hf3, hri]; rfl, by rw [hf1, hei]; omega, e, ?_⟩
  intro j
  rw [hf4 j, get_promise_congr _ w _ hpi, hpi]

/-- C29 (witness). With max_retry_count = 2, the queued save of the scenario, pumped
twice on failing connections, is executed twice and then removed, and its promise holds
an exception. -/
theorem bounded_retries_witness :
    (pumped scenario_config scenario_thread scenario_world scenario_failing_pumps 2).thread.m_queue
        = []
      ∧ executions 100 (pumped scenario_config scenario_thread scenario_world
          scenario_failing_pumps 2).world.trace = 2
      ∧ ∃ e : Thrown, (pumped scenario_config scenario_thread scenario_world
          scenario_failing_pumps 2).world.promises 1 = some (.failed e) :=
  have h := bounded_retries scenario_config scenario_thread scenario_world
    ⟨100, scenario_save 1, 5000, 0⟩ [] scenario_failing_pumps (by decide) rfl rfl rfl
    (by
      intro i p hp
      match i, hp with
      | 0, hp =>
        cases Option.some.inj hp
        decide
      | 1, hp =>
        cases Option.some.inj hp
        decide
      | i + 2, hp => cases hp)
  ⟨h.2.1, h.2.2.2.1, h.2.2.2.2.elim fun e he => ⟨e, by simpa using he 1⟩⟩

theorem generate_sql_objects (op : Operation_base) (w w1 : World) (h : w1.objects = w.objects) :
    op.generate_sql w1 = op.generate_sql w :=
  generate_sql_congr op w w1 (fun o => by rw [h]; exact ⟨rfl, rfl⟩)

/-- After the execution of an element its stamp does not stand in the way of another
execution: the element has no combinable object, or the stamp of that object is null. -/
theorem decide_execute_it_again (elem elem1 : Operation_queue_element) (w w1 : World)
    (hx : (decide_execute_it elem w).1 = true) (ho : elem1.operation = elem.operation)
    (hw : w1.objects = (decide_execute_it elem w).2.objects) :
    decide_execute_it elem1 w1 = (true, w1) := by
  unfold decide_execute_it
  rw [ho]
  cases hc : elem.operation.get_combinable_object with
  | none => rfl
  | some obj =>
    simp only []
    have hs : w1.get_combined_write_stamp obj = none := by
      have h1 := decide_execute_it_stamp elem w obj
      simp only [World.get_combined_write_stamp] at h1 ⊢
      rw [hw, h1]
      split
      · rfl
      · rename_i hno
        unfold decide_execute_it at hx
        rw [hc] at hx
        simp only [] at hx
        cases hst : w.get_combined_write_stamp obj with
        | none => exact hst
        | some a =>
          rw [hst] at hx
          simp only [] at hx
          by_cases hae : a = elem.addr
          · exact absurd ⟨hc, by rw [← hae]; exact hst⟩ hno
          · rw [if_neg hae] at hx
            cases hx
    rw [hs]

theorem use_thread_urgent (cfg : Main_config) (now : Nat) (table : String) (op : Operation_base)
    (thread : Option Nat) (d : Mysql_daemon)
    (h : (d.use_thread cfg now table op true thread).except = none) :
    Urgent_holds (d.use_thread cfg now table op true thread).daemon (op.set_probe table) := by
  unfold Mysql_daemon.use_thread at h ⊢
  cases thread with
  | none => cases h
  | some i =>
    simp only [] at h ⊢
    cases hs : d.g_threads[i]? with
    | none => rw [hs] at h; cases h
    | some s =>
      cases s with
      | none => rw [hs] at h; cases h
      | some t =>
        rw [hs] at h
        simp only [] at h ⊢
        have hlen : i < d.g_threads.length := by
          by_contra hc
          rw [List.getElem?_eq_none (not_lt.1 hc)] at hs
          cases hs
        rcases add_operation_back cfg now (op.set_probe table) true t d.world with
          ⟨hex, _, _⟩ | ⟨_, hrun, hq, _, _, _⟩
        · rw [h] at hex; cases hex
        · refine ⟨i, _, List.getElem?_set_self hlen, ?_,
            ⟨d.world.next_addr, op.set_probe table, saturated_add 64 now cfg.mysql_save_delay, 0⟩,
            ?_, rfl⟩
          · simp [Mysql_thread.add_operation, hrun]
          · rw [hq]
            exact List.mem_append_right _ (List.mem_singleton.2 rfl)

/-- A call of add_operation_by_table ends with an exception of its own, or it is the
part behind the label `_use_thread` for some worker, after the route was bound. -/
theorem add_operation_by_table_cases (cfg : Main_config) (now : Nat) (table : String)
    (op : Operation_base) (urgent : Bool) (d : Mysql_daemon) :
    (d.add_operation_by_table cfg now table op urgent).except ≠ none
      ∨ ∃ thread d1, d.add_operation_by_table cfg now table op urgent
          = Mysql_daemon.use_thread cfg now table op urgent thread d1 := by
  unfold Mysql_daemon.add_operation_by_table
  split
  · left; simp
  · split
    · exact Or.inr ⟨_, _, rfl⟩
    · split
      · exact Or.inr ⟨_, _, rfl⟩
      · left; simp
      · exact Or.inr ⟨_, _, rfl⟩

theorem add_operation_by_table_urgent (cfg : Main_config) (now : Nat) (table : String)
    (op : Operation_base) (d : Mysql_daemon)
    (h : (d.add_operation_by_table cfg now table op true).except = none) :
    Urgent_holds (d.add_operation_by_table cfg now table op true).daemon (op.set_probe table) := by
  rcases add_operation_by_table_cases cfg now table op true d with h1 | ⟨thread, d1, h1⟩
  · exact absurd h h1
  · rw [h1] at h ⊢
    exact use_thread_urgent cfg now table op thread d1 h

theorem pump_front_result (cfg : Main_config) (now : Nat) (t : Mysql_thread) (w : World)
    (m s : Connection) (elem : Operation_queue_element) (rest : List Operation_queue_element)
    (hq : t.m_queue = elem :: rest) : (t.pump_front cfg now w m s).result = true := by
  cases he : (execute_element elem (decide_execute_it elem w).1
      (if elem.operation.should_use_slave then s else m) (decide_execute_it elem w).2).2.except with
  | none => rw [pump_front_done cfg now t w m s elem rest hq he]
  | some ex =>
    by_cases hr : (elem.retry_count + 1) % 2 ^ 64 < cfg.mysql_max_retry_count
    · rw [pump_front_retry cfg now t w m s elem rest ex hq he hr]
    · rw [pump_front_dump cfg now t w m s elem rest ex hq he hr]

theorem return_promise_of_none (r : Routed) (promise : Nat)
    (h : (r.return_promise promise).except = none) :
    r.except = none ∧ r.return_promise promise = r := by
  unfold Routed.return_promise at h ⊢
  cases hr : r.except with
  | none => exact ⟨rfl, rfl⟩
  | some e => rw [hr] at h; cases h

/-- C30. Urgency overrides retry backoff. No call of add_operation, of pump_one_operation
or of stop on a worker with a non-empty queue clears a set urgent flag. While the flag is
set, the call of pump_one_operation that follows a failed attempt with a retry executes
the front element again, whatever the clock shows, the due time just assigned included.
And when enqueue_for_loading, enqueue_for_deleting, enqueue_for_batch_loading or
enqueue_for_low_level_access returns without an exception, the worker that holds the
new operation has the urgent flag set. -/
theorem urgency_overrides_backoff (cfg : Main_config) :
    (∀ (s : Thread_run) (x : Thread_step), s.thread.m_urgent = true → s.thread.m_queue ≠ [] →
        (Thread_run.step cfg s x).thread.m_urgent = true)
      ∧ (∀ (now1 now2 : Nat) (t : Mysql_thread) (w : World) (m1 s1 m2 s2 : Connection)
          (elem : Operation_queue_element) (rest : List Operation_queue_element) (e : Thrown),
          t.m_urgent = true → t.m_queue = elem :: rest →
          (execute_element elem (decide_execute_it elem w).1
            (if elem.operation.should_use_slave then s1 else m1)
            (decide_execute_it elem w).2).2.except = some e →
          (elem.retry_count + 1) % 2 ^ 64 < cfg.mysql_max_retry_count →
          (t.pump_one_operation cfg now1 w m1 s1).thread.m_urgent = true
          ∧ (t.pump_one_operation cfg now1 w m1 s1).thread.m_queue
              = { elem with retry_count := (elem.retry_count + 1) % 2 ^ 64,
                            due_time := retry_due_time cfg now1
                              ((elem.retry_count + 1) % 2 ^ 64) } :: rest
          ∧ ((t.pump_one_operation cfg now1 w m1 s1).thread.pump_one_operation cfg now2
              (t.pump_one_operation cfg now1 w m1 s1).world m2 s2).result = true
          ∧ ∃ evs, ((t.pump_one_operation cfg now1 w m1 s1).thread.pump_one_operation cfg now2
                (t.pump_one_operation cfg now1 w m1 s1).world m2 s2).world.trace
              = (t.pump_one_operation cfg now1 w m1 s1).world.trace
                ++ .executing_sql elem.addr elem.operation.id (elem.operation.generate_sql w)
                  :: evs)
      ∧ (∀ (now object : Nat) (query : String) (d : Mysql_daemon),
          (d.enqueue_for_loading cfg now object query).except = none →
          Urgent_holds (d.enqueue_for_loading cfg now object query).daemon
            ⟨d.next_operation, d.next_promise, some (d.world.objects object).table,
              .Load_operation object query⟩)
      ∧ (∀ (now : Nat) (table_hint query : String) (d : Mysql_daemon),
          (d.enqueue_for_deleting cfg now table_hint query).except = none →
          Urgent_holds (d.enqueue_for_deleting cfg now table_hint query).daemon
            ⟨d.next_operation, d.next_promise, some table_hint,
              .Delete_operation table_hint query⟩)
      ∧ (∀ (now : Nat) (callback : Option Nat) (table_hint query : String) (d : Mysql_daemon),
          (d.enqueue_for_batch_loading cfg now callback table_hint query).except = none →
          Urgent_holds (d.enqueue_for_batch_loading cfg now callback table_hint query).daemon
            ⟨d.next_operation, d.next_promise, some table_hint,
              .Batch_load_operation callback table_hint query⟩)
      ∧ (∀ (now : Nat) (callback : Option Nat) (table_hint : String) (from_slave : Bool)
          (d : Mysql_daemon),
          (d.enqueue_for_low_level_access cfg now callback table_hint from_slave).except = none →
          Urgent_holds (d.enqueue_for_low_level_access cfg now callback table_hint
              from_slave).daemon
            ⟨d.next_operation, d.next_promise, some table_hint,
              .Low_level_access_operation callback table_hint from_slave⟩) := by
  refine ⟨?_, ?_, ?_, ?_, ?_, ?_⟩
  · intro s x hu hq
    cases x with
    | add_operation now op urgent =>
      show (s.thread.add_operation cfg now op urgent s.world).thread.m_urgent = true
      unfold Mysql_thread.add_operation
      simp only []
      split
      · exact hu
      · simp [hu]
    | pump_one_operation now m sl =>
      show (s.thread.pump_one_operation cfg now s.world m sl).thread.m_urgent = true
      cases hq1 : s.thread.m_queue with
      | nil => exact absurd hq1 hq
      | cons elem rest =>
        rw [pump_one_operation_due cfg now s.thread s.world m sl elem rest hq1 (Or.inl hu)]
        cases he : (execute_element elem (decide_execute_it elem s.world).1
            (if elem.operation.should_use_slave then sl else m)
            (decide_execute_it elem s.world).2).2.except with
        | none =>
          rw [pump_front_done cfg now s.thread s.world m sl elem rest hq1 he]
          exact hu
        | some ex =>
          by_cases hr : (elem.retry_count + 1) % 2 ^ 64 < cfg.mysql_max_retry_count
          · rw [pump_front_retry cfg now s.thread s.world m sl elem rest ex hq1 he hr]
            exact hu
          · rw [pump_front_dump cfg now s.thread s.world m sl elem rest ex hq1 he hr]
            exact hu
    | stop => exact hu
  · intro now1 now2 t w m1 s1 m2 s2 elem rest e hu hq he hr
    have hx := execute_it_of_except _ _ _ _ _ he
    have hp1 : t.pump_one_operation cfg now1 w m1 s1 = _ :=
      (pump_one_operation_due cfg now1 t w m1 s1 elem rest hq (Or.inl hu)).trans
        (pump_front_retry cfg now1 t w m1 s1 elem rest e hq he hr)
    have hobj : (t.pump_one_operation cfg now1 w m1 s1).world.objects
        = (decide_execute_it elem w).2.objects := by
      rw [pump_one_operation_due cfg now1 t w m1 s1 elem rest hq (Or.inl hu)]
      exact pump_front_objects cfg now1 t w m1 s1 elem rest hq
    have hq2 : (t.pump_one_operation cfg now1 w m1 s1).thread.m_queue
        = { elem with retry_count := (elem.retry_count + 1) % 2 ^ 64,
                      due_time := retry_due_time cfg now1
                        ((elem.retry_count + 1) % 2 ^ 64) } :: rest := by
      rw [hp1]
    have hu2 : (t.pump_one_operation cfg now1 w m1 s1).thread.m_urgent = true := by
      rw [hp1]; exact hu
    refine ⟨hu2, hq2, ?_, ?_⟩
    · rw [pump_one_operation_due cfg now2 _ _ m2 s2 _ rest hq2 (Or.inl hu2)]
      exact pump_front_result cfg now2 _ _ m2 s2 _ rest hq2
    · rw [pump_one_operation_due cfg now2 _ _ m2 s2 _ rest hq2 (Or.inl hu2)]
      obtain ⟨evs, h1, _⟩ := pump_front_trace cfg now2
        (t.pump_one_operation cfg now1 w m1 s1).thread
        (t.pump_one_operation cfg now1 w m1 s1).world m2 s2 _ rest hq2
      have hd := decide_execute_it_again elem
        { elem with retry_count := (elem.retry_count + 1) % 2 ^ 64,
                    due_time := retry_due_time cfg now1 ((elem.retry_count + 1) % 2 ^ 64) }
        w (t.pump_one_operation cfg now1 w m1 s1).world hx rfl hobj
      rw [h1, hd]
      obtain ⟨evs2, h2, _⟩ := execute_element_trace
        { elem with retry_count := (elem.retry_count + 1) % 2 ^ 64,
                    due_time := retry_due_time cfg now1 ((elem.retry_count + 1) % 2 ^ 64) }
        (if elem.operation.should_use_slave then s2 else m2)
        (t.pump_one_operation cfg now1 w m1 s1).world
      refine ⟨evs2 ++ evs, ?_⟩
      rw [h2]
      have hg : elem.operation.generate_sql (t.pump_one_operation cfg now1 w m1 s1).world
          = elem.operation.generate_sql w := by
        rw [generate_sql_objects _ _ _ hobj, decide_execute_it_generate_sql]
      simp only [hg, List.append_assoc, List.cons_append]
  · intro now object query d h
    unfold Mysql_daemon.enqueue_for_loading at h ⊢
    split at h
    · cases h
    · rename_i hqe
      rw [if_neg hqe]
      simp only [] at h ⊢
      obtain ⟨h1, h2⟩ := return_promise_of_none _ _ h
      rw [h2]
      exact add_operation_by_table_urgent cfg now _ _ _ h1
  · intro now table_hint query d h
    unfold Mysql_daemon.enqueue_for_deleting at h ⊢
    split at h
    · cases h
    · rename_i hqe
      rw [if_neg hqe]
      simp only [] at h ⊢
      obtain ⟨h1, h2⟩ := return_promise_of_none _ _ h
      rw [h2]
      exact add_operation_by_table_urgent cfg now _ _ _ h1
  · intro now callback table_hint query d h
    unfold Mysql_daemon.enqueue_for_batch_loading at h ⊢
    split at h
    · cases h
    · rename_i hqe
      rw [if_neg hqe]
      simp only [] at h ⊢
      obtain ⟨h1, h2⟩ := return_promise_of_none _ _ h
      rw [h2]
      exact add_operation_by_table_urgent cfg now _ _ _ h1
  · intro now callback table_hint from_slave d h
    unfold Mysql_daemon.enqueue_for_low_level_access at h ⊢
    simp only [] at h ⊢
    exact add_operation_by_table_urgent cfg now _ _ _ h

/-- C30 (witness). The urgent worker of the scenario fails to execute its save at tick 0,
which makes the retry due at tick 20; pumped again at tick 1, it executes the save
again. -/
theorem urgency_overrides_backoff_witness :
    (scenario_worker_t1.pump_one_operation scenario_config 0 scenario_world failing_conn
        failing_conn).thread.m_queue = [⟨100, ⟨0, 0, some "t1", .Save_operation 7 true⟩, 20, 1⟩]
      ∧ ((scenario_worker_t1.pump_one_operation scenario_config 0 scenario_world failing_conn
          failing_conn).thread.pump_one_operation scenario_config 1
          (scenario_worker_t1.pump_one_operation scenario_config 0 scenario_world failing_conn
            failing_conn).world failing_conn failing_conn).result = true :=
  have h := (urgency_overrides_backoff scenario_config).2.1 0 1 scenario_worker_t1 scenario_world
    failing_conn failing_conn failing_conn failing_conn scenario_element_t1 []
    (.mysql_exception 2006 "MySQL server has gone away") rfl rfl (by decide) (by decide)
  ⟨h.2.1, h.2.2.1⟩

/-! ## Further theorems about the resolver -/

/-- The node that `real_dns_look_up` takes from a non-empty list for the family `fam`
that it prefers, given what the loop has found for that family: the last node of the
family, or the first node of the list when there is none. -/
theorem dns_choice_of_scan (res : List Addrinfo) (first : Addrinfo) (rest : List Addrinfo)
    (fam : Nat) (he : res = first :: rest) :
    ∃ node, (match (match (res.filter (fun x => decide (x.ai_family = fam))).getLast? with
          | some x => some x
          | none => none) with
        | some node => Except.ok node
        | none => Except.ok first) = (Except.ok node : Except Thrown Addrinfo)
      ∧ node ∈ res
      ∧ ((∃ x ∈ res, x.ai_family = fam) →
          node.ai_family = fam
          ∧ (res.filter (fun x => decide (x.ai_family = fam))).getLast? = some node)
      ∧ ((∀ x ∈ res, x.ai_family ≠ fam) → res.head? = some node) := by
  cases hl : (res.filter (fun x => decide (x.ai_family = fam))).getLast? with
  | none =>
    have hnil : res.filter (fun x => decide (x.ai_family = fam)) = [] :=
      List.getLast?_eq_none_iff.1 hl
    refine ⟨first, rfl, by rw [he]; exact List.mem_cons_self _ _, ?_, fun _ => by rw [he]; rfl⟩
    rintro ⟨x, hx, hfam⟩
    have : x ∈ res.filter (fun x => decide (x.ai_family = fam)) :=
      List.mem_filter.2 ⟨hx, by simpa using hfam⟩
    rw [hnil] at this
    cases this
  | some node =>
    have hmem : node ∈ res.filter (fun x => decide (x.ai_family = fam)) :=
      List.mem_of_getLast?_eq_some hl
    have hm := List.mem_filter.1 hmem
    refine ⟨node, rfl, hm.1, fun _ => ⟨by simpa using hm.2, rfl⟩, ?_⟩
    intro hall
    exact absurd (by simpa using hm.2) (hall node hm.1)

/-- C28. DNS choice is always a returned record. When the resolver succeeds with a
non-empty list of nodes, real_dns_look_up returns a node of that list: if the list holds
a node of the preferred family (IPv4 with prefer_ipv4, else IPv6), the node returned is
of that family and is the last such node of the list; otherwise it is the first node of
the list, whatever its family. -/
theorem dns_choice_returned_record (r : Resolver) (host_raw : String) (port_raw : Nat)
    (prefer_ipv4 : Bool) (res : List Addrinfo)
    (hres : r.getaddrinfo (dns_host host_raw) (toString port_raw) = (0, res))
    (hne : res ≠ []) :
    ∃ node, real_dns_look_up r host_raw port_raw prefer_ipv4 = .ok node
      ∧ node ∈ res
      ∧ ((∃ x ∈ res, x.ai_family = (if prefer_ipv4 then AF_INET else AF_INET6)) →
          node.ai_family = (if prefer_ipv4 then AF_INET else AF_INET6)
          ∧ (res.filter (fun x => decide (x.ai_family
              = if prefer_ipv4 then AF_INET else AF_INET6))).getLast? = some node)
      ∧ ((∀ x ∈ res, x.ai_family ≠ (if prefer_ipv4 then AF_INET else AF_INET6)) →
          res.head? = some node) := by
  cases he : res with
  | nil => exact absurd he hne
  | cons first rest =>
    obtain ⟨s1, s2⟩ := scan_addrinfo_spec (first :: rest) (none, none)
    have hl : real_dns_look_up r host_raw port_raw prefer_ipv4
        = (match (if prefer_ipv4 then (scan_addrinfo (first :: rest) (none, none)).1
            else (scan_addrinfo (first :: rest) (none, none)).2) with
          | some node => Except.ok node
          | none => Except.ok first) := by
      simp only [real_dns_look_up, hres, he]
      rfl
    rw [hl]
    cases prefer_ipv4 with
    | true =>
      simp only [if_true]
      rw [s1]
      exact dns_choice_of_scan (first :: rest) first rest AF_INET rfl
    | false =>
      simp only [Bool.false_eq_true, if_false]
      rw [s2]
      exact dns_choice_of_scan (first :: rest) first rest AF_INET6 rfl

/-- C28 (witness). For the three nodes of the scenario with IPv4 preferred, the node
chosen is one of them. -/
theorem dns_choice_returned_record_witness :
    ∃ node, real_dns_look_up scenario_resolver "example.org" 80 true = .ok node
      ∧ node ∈ [(⟨AF_INET, "10.0.0.1"⟩ : Addrinfo), ⟨AF_INET6, "::1"⟩, ⟨AF_INET, "10.0.0.2"⟩] :=
  (dns_choice_returned_record scenario_resolver "example.org" 80 true
    [⟨AF_INET, "10.0.0.1"⟩, ⟨AF_INET6, "::1"⟩, ⟨AF_INET, "10.0.0.2"⟩] rfl
    (List.cons_ne_nil _ _)).elim fun node h => ⟨node, h.1, h.2.1⟩

/-! ## Theorems about the loops of the daemon threads -/

theorem next_timeout_spec (timeout : Int) (busy : Bool) (h0 : 0 ≤ timeout) (h1 : timeout ≤ 128) :
    wrap_int (timeout * 2) = timeout * 2
      ∧ wrap_int (timeout * 2 + 1) = timeout * 2 + 1
      ∧ wrap_int (1 - (if busy then 1 else 0)) = 1 - (if busy then 1 else 0)
      ∧ wrap_int ((1 - (if busy then 1 else 0)) * 128) = (1 - (if busy then 1 else 0)) * 128
      ∧ next_timeout timeout busy = if busy then 0 else min (2 * timeout + 1) 128 := by
  have e1 : wrap_int (timeout * 2) = timeout * 2 := by
    unfold wrap_int; norm_num; omega
  have e2 : wrap_int (timeout * 2 + 1) = timeout * 2 + 1 := by
    unfold wrap_int; norm_num; omega
  have e3 : wrap_int (1 - (if busy then 1 else 0)) = 1 - (if busy then 1 else 0) := by
    cases busy <;> simp [wrap_int]
  have e4 : wrap_int ((1 - (if busy then 1 else 0)) * 128) = (1 - (if busy then 1 else 0)) * 128 := by
    cases busy <;> simp [wrap_int]
  refine ⟨e1, e2, e3, e4, ?_⟩
  unfold next_timeout
  rw [e1, e2, e3, e4]
  cases busy
  · simp only [Bool.false_eq_true, if_false]
    rw [mul_comm]
    norm_num
  · simp only [if_true]
    norm_num
    omega

theorem timeout_bounded_step (s : Thread_proc) (pump : Bool × Bool) (h : Timeout_bounded s) :
    Timeout_bounded (s.step pump) := by
  obtain ⟨h0, h1, h2⟩ := h
  have hn := (next_timeout_spec s.timeout pump.1 h0 h1).2.2.2.2
  unfold Thread_proc.step
  split
  · exact ⟨h0, h1, h2⟩
  · simp only []
    cases hb : pump.1
    · rw [hb] at hn
      simp only [Bool.false_eq_true, if_false] at hn ⊢
      have hlo : 1 ≤ next_timeout s.timeout false := by rw [hn]; omega
      have hhi : next_timeout s.timeout false ≤ 128 := by rw [hn]; omega
      have hge : 0 ≤ next_timeout s.timeout false := by omega
      split
      · exact ⟨hge, hhi, h2⟩
      · refine ⟨hge, hhi, ?_⟩
        intro x hx
        rcases List.mem_append.1 hx with hx | hx
        · exact h2 x hx
        · rw [List.mem_singleton.1 hx]
          exact ⟨hlo, hhi⟩
    · rw [hb] at hn
      simp only [if_true] at hn ⊢
      have hge : 0 ≤ next_timeout s.timeout true := by rw [hn]
      have hhi : next_timeout s.timeout true ≤ 128 := by rw [hn]; norm_num
      exact ⟨hge, hhi, h2⟩

theorem timeout_bounded_foldl (pumps : List (Bool × Bool)) (s : Thread_proc)
    (h : Timeout_bounded s) : Timeout_bounded (pumps.foldl Thread_proc.step s) := by
  induction pumps generalizing s with
  | nil => exact h
  | cons p ps ih => exact ih _ (timeout_bounded_step s p h)

theorem thread_proc_concat (pumps : List (Bool × Bool)) (pump : Bool × Bool) :
    thread_proc (pumps ++ [pump]) = (thread_proc pumps).step pump := by
  simp [thread_proc, List.foldl_append]

/-- The state after `k` idle pumps in a row from the start, none of which leaves the
loop. -/
theorem thread_proc_idle (k : Nat) :
    thread_proc (List.replicate k (false, false))
      = ⟨min (2 ^ k - 1) 128, (List.range k).map (fun i => min (2 ^ (i + 1) - 1) 128), false⟩ := by
  induction k with
  | zero => rfl
  | succ k ih =>
    have hrep : List.replicate (k + 1) ((false, false) : Bool × Bool)
        = List.replicate k (false, false) ++ [(false, false)] := by
      rw [List.replicate_succ']
    rw [hrep, thread_proc_concat, ih]
    have hp : (1 : Int) ≤ 2 ^ k := by
      have : (0 : Int) < 2 ^ k := by positivity
      omega
    have h0 : (0 : Int) ≤ min (2 ^ k - 1) 128 := by omega
    have h1 : (min (2 ^ k - 1) 128 : Int) ≤ 128 := by omega
    have hn := (next_timeout_spec _ false h0 h1).2.2.2.2
    simp only [Bool.false_eq_true, if_false] at hn
    have hv : next_timeout (min (2 ^ k - 1) 128) false = min (2 ^ (k + 1) - 1) 128 := by
      rw [hn, pow_succ]
      omega
    simp only [Thread_proc.step, Bool.false_eq_true, if_false, hv, List.range_succ,
      List.map_append, List.map_cons, List.map_nil]

/-- C27. Adaptive backoff. In the loop of the three daemon threads, which starts with
the timeout 0, the timeout always lies between 0 and 128, so that no step of the
expression leaves the range of int; a busy pump makes it 0 and an idle pump makes it
min(2 t + 1, 128); over idle pumps in a row from the start it takes the values 1, 3, 7,
15, 31, 63, 127, 128, 128 and stays at 128; and every value passed to the wait on the
condition variable lies between 1 and 128. -/
theorem adaptive_backoff (pumps : List (Bool × Bool)) :
    (0 ≤ (thread_proc pumps).timeout ∧ (thread_proc pumps).timeout ≤ 128)
      ∧ (∀ busy : Bool,
          wrap_int ((thread_proc pumps).timeout * 2) = (thread_proc pumps).timeout * 2
          ∧ wrap_int ((thread_proc pumps).timeout * 2 + 1) = (thread_proc pumps).timeout * 2 + 1
          ∧ wrap_int (1 - (if busy then 1 else 0)) = 1 - (if busy then 1 else 0)
          ∧ wrap_int ((1 - (if busy then 1 else 0)) * 128) = (1 - (if busy then 1 else 0)) * 128)
      ∧ (∀ busy leave : Bool, (thread_proc pumps).left = false →
          (thread_proc (pumps ++ [(busy, leave)])).timeout
            = if busy then 0 else min (2 * (thread_proc pumps).timeout + 1) 128)
      ∧ (thread_proc (List.replicate 9 (false, false))).waits
          = [1, 3, 7, 15, 31, 63, 127, 128, 128]
      ∧ (∀ k, 8 ≤ k → (thread_proc (List.replicate k (false, false))).timeout = 128)
      ∧ (∀ k, (thread_proc (List.replicate k (false, false))).waits.length = k)
      ∧ ∀ x ∈ (thread_proc pumps).waits, 1 ≤ x ∧ x ≤ 128 := by
  have hb : Timeout_bounded (thread_proc pumps) :=
    timeout_bounded_foldl pumps _ ⟨le_refl _, by decide, by simp⟩
  obtain ⟨h0, h1, h2⟩ := hb
  refine ⟨⟨h0, h1⟩, ?_, ?_, by decide, ?_, ?_, h2⟩
  · intro busy
    obtain ⟨e1, e2, e3, e4, _⟩ := next_timeout_spec _ busy h0 h1
    exact ⟨e1, e2, e3, e4⟩
  · intro busy leave hl
    rw [thread_proc_concat]
    have hn := (next_timeout_spec _ busy h0 h1).2.2.2.2
    unfold Thread_proc.step
    rw [if_neg (by rw [hl]; simp)]
    simp only []
    cases busy
    · simp only [Bool.false_eq_true, if_false] at hn ⊢
      split <;> exact hn
    · simp only [if_true] at hn ⊢
      exact hn
  · intro k hk
    rw [thread_proc_idle]
    show min ((2 : Int) ^ k - 1) 128 = 128
    have : (2 : Int) ^ 8 ≤ 2 ^ k := pow_le_pow_right₀ (by norm_num) hk
    norm_num at this
    omega
  · intro k
    rw [thread_proc_idle]
    simp

/-! ## Theorems about saves enqueued before a pump -/

end Poseidon
